import Mathlib

/-!
# Table catalog ordering and database remapping (pkg/backup/table_pattern.go)

A shallow embedding of the table catalog code of `pkg/backup/table_pattern.go`:
the priority function `getOrderByEngine`, the catalog sort `ListOfTables.Sort`,
the statement rewriter `changeTableQueryToAdjustDatabaseMapping`, the reconciler,
the pattern filter and the local and remote builds of the catalog, together
with the parts of Go's `strings`, `sort`, `regexp` and `path/filepath` packages
they call; and of the API metrics of `pkg/server/metrics/metrics.go`.

Go strings are modelled as lists of Unicode characters (`Str`): every text is
taken to be valid UTF-8, which is what the regular expression engine assumes too.
-/

namespace Backup

/-- A Go string, as the list of its characters. -/
abbrev Str := List Char

/-! ## The `strings` package -/

/-- Go: `strings.HasPrefix(s, prefix)`. -/
def hasPrefix : Str → Str → Bool
  | _, [] => true
  | [], _ :: _ => false
  | c :: s, p :: ps => c == p && hasPrefix s ps

/-- Go: `strings.Contains(s, substr)`: some suffix of `s` begins with `substr`. -/
def strContains : Str → Str → Bool
  | [], sub => hasPrefix [] sub
  | c :: s, sub => hasPrefix (c :: s) sub || strContains s sub

/-! ## Data model -/

/-- One data part of a table (`metadata.Part`); only the name is used here. -/
structure Part where
  Name : Str
  deriving DecidableEq, Repr

/-- Modelled from the spec: the record type `metadata.TableMetadata` is declared in
package `pkg/metadata`, outside the files at hand. The catalog code reads and writes
the four fields below (the spec's `TableRecord`: database, table, definitionQuery,
parts); `Parts` maps a disk name to the parts on that disk and is kept as an
association list in key order of insertion. -/
structure TableMetadata where
  Database : Str
  Table : Str
  Query : Str
  Parts : List (Str × List Part)
  deriving DecidableEq, Repr

/-- Go: `type ListOfTables []metadata.TableMetadata`. -/
abbrev ListOfTables := List TableMetadata

/-! ## Dependency order ranker -/

/-- Go: `getOrderByEngine(query, dropTable)`, lines 253-282. -/
def getOrderByEngine (query : Str) (dropTable : Bool) : Int :=
  if strContains query "ENGINE = Distributed".data || strContains query "ENGINE = Kafka".data
      || strContains query "ENGINE = RabbitMQ".data then
    4
  else if hasPrefix query "CREATE DICTIONARY".data then
    3
  else if hasPrefix query "CREATE VIEW".data ||
      hasPrefix query "CREATE LIVE VIEW".data ||
      hasPrefix query "CREATE WINDOW VIEW".data ||
      hasPrefix query "ATTACH WINDOW VIEW".data ||
      hasPrefix query "CREATE MATERIALIZED VIEW".data ||
      hasPrefix query "ATTACH MATERIALIZED VIEW".data then
    if dropTable then 1 else 2
  else if hasPrefix query "CREATE TABLE".data &&
      (strContains query ".inner_id.".data || strContains query ".inner.".data) then
    if dropTable then 2 else 1
  else
    0

/-! ### The decision table of the specification

The table is a list of rows, each a condition on the statement text and the two
priorities (create direction, drop direction); the first row whose condition holds
decides, and 0 is the value when none does. -/

/-- One row of the decision table: condition, priority for `forDrop = false`,
priority for `forDrop = true`. -/
structure Row where
  cond : Str → Bool
  create : Int
  drop : Int

/-- First-match-wins evaluation of a decision table, with default 0. -/
def evalTable (rows : List Row) (q : Str) (forDrop : Bool) : Int :=
  match rows.find? (fun r => r.cond q) with
  | some r => if forDrop then r.drop else r.create
  | none => 0

/-- The text begins with one of the given keywords followed by a blank and `kind`. -/
def beginsWithKeyword (keywords : List Str) (kind : Str) (q : Str) : Bool :=
  keywords.any (fun kw => hasPrefix q (kw ++ ' ' :: kind))

/-- The decision table as the specification words it, for a given reading of
"creation keyword" (the list `keywords` of statement keywords that count as creating
an object): engine marker, DICTIONARY, the four kinds of VIEW, TABLE with an inner
table marker. -/
def specTable (keywords : List Str) : List Row :=
  [ { cond := fun q => strContains q "ENGINE = Distributed".data
        || strContains q "ENGINE = Kafka".data || strContains q "ENGINE = RabbitMQ".data,
      create := 4, drop := 4 },
    { cond := beginsWithKeyword keywords "DICTIONARY".data, create := 3, drop := 3 },
    { cond := fun q => beginsWithKeyword keywords "VIEW".data q
        || beginsWithKeyword keywords "MATERIALIZED VIEW".data q
        || beginsWithKeyword keywords "LIVE VIEW".data q
        || beginsWithKeyword keywords "WINDOW VIEW".data q,
      create := 2, drop := 1 },
    { cond := fun q => beginsWithKeyword keywords "TABLE".data q
        && (strContains q ".inner_id.".data || strContains q ".inner.".data),
      create := 1, drop := 2 } ]

/-- The decision table with the statement prefixes spelled out: the VIEW row lists
`CREATE` for all four kinds of view and `ATTACH` for window and materialized views
only; the DICTIONARY and TABLE rows take `CREATE` only. -/
def prefixTable : List Row :=
  [ { cond := fun q => strContains q "ENGINE = Distributed".data
        || strContains q "ENGINE = Kafka".data || strContains q "ENGINE = RabbitMQ".data,
      create := 4, drop := 4 },
    { cond := beginsWithKeyword ["CREATE".data] "DICTIONARY".data, create := 3, drop := 3 },
    { cond := fun q => beginsWithKeyword ["CREATE".data] "VIEW".data q
        || beginsWithKeyword ["CREATE".data, "ATTACH".data] "MATERIALIZED VIEW".data q
        || beginsWithKeyword ["CREATE".data] "LIVE VIEW".data q
        || beginsWithKeyword ["CREATE".data, "ATTACH".data] "WINDOW VIEW".data q,
      create := 2, drop := 1 },
    { cond := fun q => beginsWithKeyword ["CREATE".data] "TABLE".data q
        && (strContains q ".inner_id.".data || strContains q ".inner.".data),
      create := 1, drop := 2 } ]

/-! ## The `sort` package

`ListOfTables.Sort` calls `sort.Slice`, which belongs to Go's standard library. It is
taken as a parameter `sortSlice` of the model, constrained by what its documentation
promises (`SortSliceContract`): the outcome is a rearrangement of the slice in which no
element is less than its predecessor. The documentation adds that the sort is not
guaranteed to be stable. Three concrete sorts that Go releases run on short slices are
given: the insertion sort, the Shell pass followed by insertion sort (Go up to 1.18) and
the pattern-defeating quicksort on 13 elements (Go 1.19 and later). -/

section SortPackage
variable {α : Type}

/-- The requirement on a `less` function of package `sort`: a strict ordering that is
transitive and whose incomparability is transitive as well. -/
def StrictWeakOrder (less : α → α → Bool) : Prop :=
  (∀ a, less a a = false) ∧
  (∀ a b c, less a b = true → less b c = true → less a c = true) ∧
  (∀ a b c, less a b = false → less b c = false → less a c = false)

/-- Go: `sort.IsSorted`: no element is less than the one before it. -/
def IsSortedBy (less : α → α → Bool) (l : List α) : Prop :=
  l.Chain' (fun a b => less b a = false)

/-- The documented behaviour of `sort.Slice(x, less)`: for a well-behaved `less`, the
slice ends up a permutation of itself that is sorted. Nothing is promised about the
relative order of elements neither of which is less than the other. -/
def SortSliceContract (sortSlice : (α → α → Bool) → List α → List α) : Prop :=
  ∀ less l, StrictWeakOrder less →
    (sortSlice less l).Perm l ∧ IsSortedBy less (sortSlice less l)

/-- Inner loop of Go's insertion sort, `for j := i; j > a && less(j, j-1); j-- { swap(j, j-1) }`:
the element `x` at index `i` moves left past every predecessor it is less than. The
predecessors are given nearest first (the sorted prefix reversed), and so is the result. -/
def siftLeft (less : α → α → Bool) (x : α) : List α → List α
  | [] => [x]
  | y :: ys => if less x y then y :: siftLeft less x ys else x :: y :: ys

/-- Go: `insertionSort_func(data, 0, n)`, the whole of `sort.Slice` on slices of at most
12 elements since Go 1.19: `for i := a + 1; i < b; i++ { sift element i left }`. -/
def insertionSort_func (less : α → α → Bool) (l : List α) : List α :=
  (l.foldl (fun rev x => siftLeft less x rev) []).reverse

/-- The Shell pass with gap 6 of Go releases up to 1.18,
`for i := a + 6; i < b; i++ { if less(i, i-6) { swap(i, i-6) } }`, on the first six elements
`xs` and the elements `ys` from index 6 on (at most six, the slice having at most 12). -/
def shellSwap (less : α → α → Bool) : List α → List α → List α × List α
  | x :: xs, y :: ys =>
    if less y x then (y :: (shellSwap less xs ys).1, x :: (shellSwap less xs ys).2)
    else (x :: (shellSwap less xs ys).1, y :: (shellSwap less xs ys).2)
  | xs, [] => (xs, [])
  | [], ys => ([], ys)

/-- The Shell pass on a whole slice. -/
def shellPass (less : α → α → Bool) (l : List α) : List α :=
  (shellSwap less (l.take 6) (l.drop 6)).1 ++ (shellSwap less (l.take 6) (l.drop 6)).2

/-- What `sort.Slice` of Go releases up to 1.18 runs on a slice of at most 12 elements
(`quickSort_func` with `b-a <= 12`): one Shell pass with gap 6, then insertion sort. -/
def shellInsertionSort (less : α → α → Bool) (l : List α) : List α :=
  insertionSort_func less (shellPass less l)

/-- Go: `data.Swap(i, j)`. -/
def swapAt (l : List α) (i j : Nat) : List α :=
  match l[i]?, l[j]? with
  | some x, some y => (l.set i y).set j x
  | _, _ => l

/-- Go: `data.Less(i, j)`. -/
def lessAt (less : α → α → Bool) (l : List α) (i j : Nat) : Bool :=
  match l[i]?, l[j]? with
  | some x, some y => less x y
  | _, _ => false

/-- Go: `order2_func(data, a, b, swaps)`: the two indices in order, and the count of
swaps. -/
def order2_func (less : α → α → Bool) (l : List α) (a b swaps : Nat) : Nat × Nat × Nat :=
  if lessAt less l b a then (b, a, swaps + 1) else (a, b, swaps)

/-- Go: `median_func(data, a, b, c, swaps)`: the index of the median of three elements,
and the count of swaps. -/
def median_func (less : α → α → Bool) (l : List α) (a b c swaps : Nat) : Nat × Nat :=
  let r1 := order2_func less l a b swaps
  let r2 := order2_func less l r1.2.1 c r1.2.2
  let r3 := order2_func less l r1.1 r2.1 r2.2.2
  (r3.2.1, r3.2.2)

/-- Go: `for i <= j && data.Less(i, a) { i++ }` in `partition_func`. -/
def scanUp (less : α → α → Bool) (l : List α) (a : Nat) : Nat → Nat → Nat → Nat
  | 0, i, _ => i
  | fuel + 1, i, j =>
    if i ≤ j ∧ lessAt less l i a = true then scanUp less l a fuel (i + 1) j else i

/-- Go: `for i <= j && !data.Less(j, a) { j-- }` in `partition_func`. -/
def scanDown (less : α → α → Bool) (l : List α) (a : Nat) : Nat → Nat → Nat → Nat
  | 0, _, j => j
  | fuel + 1, i, j =>
    if i ≤ j ∧ lessAt less l j a = false then scanDown less l a fuel i (j - 1) else j

/-- Go: the main loop of `partition_func`. -/
def partitionLoop (less : α → α → Bool) (a : Nat) : Nat → List α → Nat → Nat → List α × Nat
  | 0, l, _, j => (l, j)
  | fuel + 1, l, i, j =>
    if scanUp less l a l.length i j
        > scanDown less l a l.length (scanUp less l a l.length i j) j then
      (l, scanDown less l a l.length (scanUp less l a l.length i j) j)
    else
      partitionLoop less a fuel
        (swapAt l (scanUp less l a l.length i j)
          (scanDown less l a l.length (scanUp less l a l.length i j) j))
        (scanUp less l a l.length i j + 1)
        (scanDown less l a l.length (scanUp less l a l.length i j) j - 1)

/-- Go: `partition_func(data, a, b, pivot)`: the slice after one quicksort partition
around the element at `pivot`, and the final index of that element. -/
def partition_func (less : α → α → Bool) (l : List α) (a b pivot : Nat) : List α × Nat :=
  let l1 := swapAt l a pivot
  let i := scanUp less l1 a l1.length (a + 1) (b - 1)
  let j := scanDown less l1 a l1.length i (b - 1)
  if i > j then (swapAt l1 j a, j)
  else
    let r := partitionLoop less a l1.length (swapAt l1 i j) (i + 1) (j - 1)
    (swapAt r.1 r.2 a, r.2)

/-- Go: the scan of `partialInsertionSort_func`, which on a slice shorter than 50
elements only reports whether no element is less than its predecessor. -/
def noDescent (less : α → α → Bool) : List α → Bool
  | x :: y :: rest => !less y x && noDescent less (y :: rest)
  | _ => true

/-- What `sort.Slice` runs since Go 1.19 (`pdqsort_func`) on a slice of at most 13
elements. Up to 12 elements it is the insertion sort. With 13, the pivot is the median of
the elements at indices 3, 6 and 9; if finding it took no swap and the slice has no
descent the slice is left alone; otherwise it is partitioned around the pivot, and the two
sides, of at most 12 elements, are sorted by insertion. -/
def pdqsortShort (less : α → α → Bool) (l : List α) : List α :=
  if l.length ≤ 12 then insertionSort_func less l
  else
    let m := median_func less l (l.length / 4 * 1) (l.length / 4 * 2) (l.length / 4 * 3) 0
    if m.2 = 0 ∧ noDescent less l = true then l
    else
      let r := partition_func less l 0 l.length m.1
      insertionSort_func less (r.1.take r.2) ++ (r.1.drop r.2).take 1
        ++ insertionSort_func less (r.1.drop (r.2 + 1))
end SortPackage

/-- Go: `func (lt ListOfTables) Sort(dropTable bool)`, lines 27-32; the slice is sorted in
place by `sort.Slice` with `less(i, j)` comparing the priorities of the two records. -/
def ListOfTables.Sort
    (sortSlice : (TableMetadata → TableMetadata → Bool) → ListOfTables → ListOfTables)
    (lt : ListOfTables) (dropTable : Bool) : ListOfTables :=
  sortSlice (fun x y =>
    decide (getOrderByEngine x.Query dropTable < getOrderByEngine y.Query dropTable)) lt

/-! ### Example records -/

/-- A materialized view `db.v`. -/
def exView : TableMetadata :=
  { Database := "db".data, Table := "v".data,
    Query := "CREATE MATERIALIZED VIEW db.v (x UInt64) AS SELECT x FROM db.t".data, Parts := [] }

/-- The inner table `db..inner.t` of a materialized view. -/
def exInner : TableMetadata :=
  { Database := "db".data, Table := ".inner.t".data,
    Query := "CREATE TABLE db.\x60.inner.t\x60 (x UInt64) ENGINE = MergeTree ORDER BY x".data,
    Parts := [] }

/-- A base table `db.t`. -/
def exBase : TableMetadata :=
  { Database := "db".data, Table := "t".data,
    Query := "CREATE TABLE db.t (x UInt64) ENGINE = MergeTree ORDER BY x".data, Parts := [] }

/-- A plain table `db.<name>` with the given priority class: a base table (0) or, with
`inner := true`, the inner table of a materialized view. -/
def exTable (name : String) (inner : Bool) : TableMetadata :=
  { Database := "db".data, Table := name.data,
    Query := "CREATE TABLE db.".data ++ (if inner then ".inner.".data else []) ++ name.data
      ++ " (x UInt64)".data,
    Parts := [] }

/-- A catalog of thirteen records: the inner table `a` followed by twelve base tables. -/
def exCatalog13 : ListOfTables :=
  [exTable "a" true, exTable "t1" false, exTable "t2" false, exTable "t3" false,
   exTable "t4" false, exTable "t5" false, exTable "t6" false, exTable "t7" false,
   exTable "t8" false, exTable "t9" false, exTable "t10" false, exTable "t11" false,
   exTable "t12" false]

/-- A catalog of seven records: two inner tables `a`, `b` (in that order) among five base
tables. -/
def exCatalog7 : ListOfTables :=
  [exTable "a" true, exTable "t1" false, exTable "t2" false, exTable "b" true,
   exTable "t3" false, exTable "t4" false, exTable "c" false]

/-! ## The `regexp` package

Go's regular expressions find the match a backtracking matcher would find first
(leftmost, then by preference among alternatives, greedy operators preferring more).
The matcher below is such a backtracking matcher in continuation-passing style, for the
operators that occur in the four patterns of `table_pattern.go`. -/

/-- Syntax of regular expressions: literal text, one character of a class, a greedy
repetition `[...]*` of a class, the multi-line anchor `(?m)^`, concatenation, alternation
`a|b` (preferring `a`), the greedy option `a?` and a numbered capturing group. -/
inductive Regex where
  | lit : Str → Regex
  | cls : (Char → Bool) → Regex
  | star : (Char → Bool) → Regex
  | bol : Regex
  | seq : Regex → Regex → Regex
  | alt : Regex → Regex → Regex
  | opt : Regex → Regex
  | cap : Nat → Regex → Regex

/-- Concatenation of a list of expressions. -/
def Regex.cat : List Regex → Regex
  | [] => Regex.lit []
  | [r] => r
  | r :: rs => Regex.seq r (Regex.cat rs)

/-- A position of the matcher in the input: the character just before it (`none` at the
start of the text), the text from it on, and the groups captured so far, the most recent
first. -/
structure MState where
  prev : Option Char
  rest : Str
  caps : List (Nat × Str)
  deriving DecidableEq, Repr

/-- Consume the literal `w` at the head of the text; gives the character before the new
position and the remaining text. -/
def matchLit : Str → Option Char → Str → Option (Option Char × Str)
  | [], prev, rest => some (prev, rest)
  | _ :: _, _, [] => none
  | w :: ws, _, c :: cs => if c = w then matchLit ws (some c) cs else none

/-- Greedy repetition of a character class: take the next character if it is in the
class and go on; if what follows then fails, or the character is not in the class, stop
here and continue with `k`. -/
def starLoop (p : Char → Bool) (caps : List (Nat × Str)) (k : MState → Option MState) :
    Option Char → Str → Option MState
  | prev, [] => k ⟨prev, [], caps⟩
  | prev, c :: cs =>
    if p c then
      match starLoop p caps k (some c) cs with
      | some r => some r
      | none => k ⟨prev, c :: cs, caps⟩
    else k ⟨prev, c :: cs, caps⟩

/-- The backtracking matcher: `r.run s k` matches `r` from position `s` and hands the
position reached to the continuation `k`; when `k` fails the next alternative of `r` is
tried. The outcome is the final position of the first match found. -/
def Regex.run : Regex → MState → (MState → Option MState) → Option MState
  | .lit w, s, k =>
    match matchLit w s.prev s.rest with
    | some (p, r) => k ⟨p, r, s.caps⟩
    | none => none
  | .cls p, s, k =>
    match s.rest with
    | c :: cs => if p c then k ⟨some c, cs, s.caps⟩ else none
    | [] => none
  | .star p, s, k => starLoop p s.caps k s.prev s.rest
  | .bol, s, k =>
    match s.prev with
    | none => k s
    | some c => if c = '\n' then k s else none
  | .seq a b, s, k => a.run s (fun s' => b.run s' k)
  | .alt a b, s, k =>
    match a.run s k with
    | some r => some r
    | none => b.run s k
  | .opt a, s, k =>
    match a.run s k with
    | some r => some r
    | none => k s
  | .cap n a, s, k =>
    a.run s (fun s' =>
      k ⟨s'.prev, s'.rest, (n, s.rest.take (s.rest.length - s'.rest.length)) :: s'.caps⟩)

/-- The match of `re` that starts exactly at the given position, if there is one: the
position reached, with the captured groups. -/
def Regex.execAt (re : Regex) (prev : Option Char) (rest : Str) : Option MState :=
  re.run ⟨prev, rest, []⟩ some

/-- Go: the loop of `Regexp.replaceAll`. The text is walked from left to right; at each
position outside a previous match the leftmost-first match starting there is looked for;
a match is replaced by `repl` of the matched text and its groups and the walk resumes at
its end; unmatched characters are copied. `skip` counts the characters still covered by
the last match, `afterMatch` tells that the position is the end of a match (an empty
match found there is not replaced, and after any empty match the walk advances by one
character). -/
def replaceAllFrom (re : Regex) (repl : Str → List (Nat × Str) → Str) :
    Nat → Bool → Option Char → Str → Str
  | _ + 1, _, _, [] => []
  | skip + 1, afterMatch, _, c :: cs => replaceAllFrom re repl skip afterMatch (some c) cs
  | 0, afterMatch, prev, [] =>
    match re.execAt prev [] with
    | some s => if afterMatch then [] else repl [] s.caps
    | none => []
  | 0, afterMatch, prev, c :: cs =>
    match re.execAt prev (c :: cs) with
    | none => c :: replaceAllFrom re repl 0 false (some c) cs
    | some s =>
      if (c :: cs).length - s.rest.length = 0 then
        (if afterMatch then [] else repl [] s.caps)
          ++ c :: replaceAllFrom re repl 0 false (some c) cs
      else
        repl ((c :: cs).take ((c :: cs).length - s.rest.length)) s.caps
          ++ replaceAllFrom re repl ((c :: cs).length - s.rest.length - 1) true (some c) cs

/-- Go: the loop of `Regexp.allMatches` behind `FindAllString(s, -1)`: the texts of the
successive matches, found as in `replaceAllFrom`. -/
def findAllFrom (re : Regex) : Nat → Bool → Option Char → Str → List Str
  | _ + 1, _, _, [] => []
  | skip + 1, afterMatch, _, c :: cs => findAllFrom re skip afterMatch (some c) cs
  | 0, afterMatch, prev, [] =>
    match re.execAt prev [] with
    | some _ => if afterMatch then [] else [[]]
    | none => []
  | 0, afterMatch, prev, c :: cs =>
    match re.execAt prev (c :: cs) with
    | none => findAllFrom re 0 false (some c) cs
    | some s =>
      if (c :: cs).length - s.rest.length = 0 then
        (if afterMatch then [] else [[]]) ++ findAllFrom re 0 false (some c) cs
      else
        (c :: cs).take ((c :: cs).length - s.rest.length)
          :: findAllFrom re ((c :: cs).length - s.rest.length - 1) true (some c) cs

/-- Go: `re.FindAllString(s, -1)`. -/
def Regex.FindAllString (re : Regex) (s : Str) : List Str :=
  findAllFrom re 0 false none s

/-! ### Replacement templates -/

/-- Go: `unicode.IsLetter(r) || unicode.IsDigit(r) || r == '_'`, the characters of a group
name in a template. For ASCII the answer is computed; for other characters it is read off
Unicode's tables of letters and decimal digits, taken here as the parameter `uni`. -/
def isNameRune (uni : Char → Bool) (c : Char) : Bool :=
  if c.toNat < 128 then c.isAlpha || c.isDigit || c = '_' else uni c

/-- Go: the number parsing loop of `extract`: the value of a name made of ASCII digits,
`none` (Go: -1) for any other name or once the value has reached 1e8. -/
def parseNum : Str → Nat → Option Nat
  | [], n => some n
  | c :: cs, n =>
    if c < '0' ∨ '9' < c ∨ n ≥ 100000000 then none
    else parseNum cs (n * 10 + (c.toNat - '0'.toNat))

/-- Go: the number of a name in `extract`: its value if it is made of ASCII digits without
a leading zero (a lone `0` is allowed), else `none` (Go: -1). -/
def nameNum (name : Str) : Option Nat :=
  if name.head? = some '0' ∧ name.length > 1 then none else parseNum name 0

/-- Go: `extract(str)` of package regexp: the name of a leading `name` or `{name}`, its
number (`none` if it is not a number without leading zero) and the rest of the template;
`none` when there is no well-formed name. -/
def extract (uni : Char → Bool) (str : Str) : Option (Str × Option Nat × Str) :=
  match str with
  | [] => none
  | c :: cs =>
    if c = '{' then
      if cs.takeWhile (isNameRune uni) = [] then none
      else
        match cs.dropWhile (isNameRune uni) with
        | [] => none
        | x :: r =>
          if x = '}' then
            some (cs.takeWhile (isNameRune uni), nameNum (cs.takeWhile (isNameRune uni)), r)
          else none
    else
      if (c :: cs).takeWhile (isNameRune uni) = [] then none
      else
        some ((c :: cs).takeWhile (isNameRune uni),
          nameNum ((c :: cs).takeWhile (isNameRune uni)),
          (c :: cs).dropWhile (isNameRune uni))

/-- The text a template variable stands for: the group of that number if it took part in
the match, nothing otherwise. A name that is not a number refers to a named group; the
patterns here have none, so it stands for nothing. -/
def groupText (caps : List (Nat × Str)) : Option Nat → Str
  | some n => (caps.lookup n).getD []
  | none => []

/-- Go: `Regexp.expand(dst, template, src, match)`. Text up to a `$` is copied; `$$` gives
`$`; `$name` and `${name}` give the group's text; a `$` followed by anything else is
copied as it is. `skip` counts the template characters already consumed as part of a
variable. -/
def expandFrom (uni : Char → Bool) (caps : List (Nat × Str)) : Nat → Str → Str
  | _ + 1, [] => []
  | skip + 1, _ :: t => expandFrom uni caps skip t
  | 0, [] => []
  | 0, c :: t =>
    if c = '$' then
      if t.head? = some '$' then '$' :: expandFrom uni caps 1 t
      else
        match extract uni t with
        | none => '$' :: expandFrom uni caps 0 t
        | some (_, num, rest) =>
          groupText caps num ++ expandFrom uni caps (t.length - rest.length) t
    else c :: expandFrom uni caps 0 t

/-- Go: `re.ReplaceAllString(src, repl)`: every match of `re` in `src` is replaced by the
expansion of the template `repl`, in which group 0 is the whole match. -/
def Regex.ReplaceAllString (re : Regex) (uni : Char → Bool) (src repl : Str) : Str :=
  replaceAllFrom re (fun m caps => expandFrom uni ((0, m) :: caps) 0 repl) 0 false none src

/-! ## Database remap query rewriter -/

/-- The class `[^\s\x60.]`: any character but ASCII whitespace (tab, newline, form feed,
carriage return, blank), the backtick and the dot. -/
def identClass (c : Char) : Bool :=
  !(c = '\t' || c = '\n' || c = '\x0c' || c = '\r' || c = ' ') && c != '\x60' && c != '.'

/-- The class `[a-f\d\-]`. -/
def uuidClass (c : Char) : Bool :=
  ('a' ≤ c && c ≤ 'f') || ('0' ≤ c && c ≤ '9') || c = '-'

/-- Go: `queryRE`, line 149:
`(?m)^(CREATE|ATTACH) (TABLE|VIEW|MATERIALIZED VIEW|DICTIONARY|FUNCTION) (\x60?)([^\s\x60.]*)(\x60?)\.([^\s\x60.]*)(?:( TO )(\x60?)([^\s\x60.]*)(\x60?)(\.))?` -/
def queryRE : Regex :=
  Regex.cat
    [ Regex.bol,
      Regex.cap 1 (Regex.alt (Regex.lit "CREATE".data) (Regex.lit "ATTACH".data)),
      Regex.lit " ".data,
      Regex.cap 2
        (Regex.alt (Regex.lit "TABLE".data)
          (Regex.alt (Regex.lit "VIEW".data)
            (Regex.alt (Regex.lit "MATERIALIZED VIEW".data)
              (Regex.alt (Regex.lit "DICTIONARY".data) (Regex.lit "FUNCTION".data))))),
      Regex.lit " ".data,
      Regex.cap 3 (Regex.opt (Regex.lit "\x60".data)),
      Regex.cap 4 (Regex.star identClass),
      Regex.cap 5 (Regex.opt (Regex.lit "\x60".data)),
      Regex.lit ".".data,
      Regex.cap 6 (Regex.star identClass),
      Regex.opt
        (Regex.cat
          [ Regex.cap 7 (Regex.lit " TO ".data),
            Regex.cap 8 (Regex.opt (Regex.lit "\x60".data)),
            Regex.cap 9 (Regex.star identClass),
            Regex.cap 10 (Regex.opt (Regex.lit "\x60".data)),
            Regex.cap 11 (Regex.lit ".".data) ]) ]

/-- Go: `createRE`, line 150: `(?m)^CREATE`. -/
def createRE : Regex := Regex.seq Regex.bol (Regex.lit "CREATE".data)

/-- Go: `attachRE`, line 151: `(?m)^ATTACH`. -/
def attachRE : Regex := Regex.seq Regex.bol (Regex.lit "ATTACH".data)

/-- Go: `uuidRE`, line 152: `UUID '[a-f\d\-]+'`. -/
def uuidRE : Regex :=
  Regex.cat
    [ Regex.lit "UUID '".data, Regex.cls uuidClass, Regex.star uuidClass, Regex.lit "'".data ]

/-- The outcome of a remap: the catalog as the call leaves it, and the error if any. -/
structure RemapResult where
  tables : ListOfTables
  err : Option Str
  deriving DecidableEq, Repr

/-- The outcome for a catalog whose first record ends up as `t` and whose other records
give the outcome `r`. -/
def RemapResult.cons (t : TableMetadata) (r : RemapResult) : RemapResult :=
  ⟨t :: r.tables, r.err⟩

/-- Go: lines 173-180 of `changeTableQueryToAdjustDatabaseMapping`: the statement has every
match of `queryRE` replaced by the expanded `substitution`, the database becomes
`targetDB`, and if the new statement holds a UUID literal every such literal is replaced
by one with the fresh identifier `newUUID`. -/
def rewriteRecord (uni : Char → Bool) (newUUID : Str) (originTable : TableMetadata)
    (targetDB substitution : Str) : TableMetadata :=
  { originTable with
    Query :=
      if ((uuidRE.FindAllString
          (queryRE.ReplaceAllString uni originTable.Query substitution)).length > 0) then
        uuidRE.ReplaceAllString uni
          (queryRE.ReplaceAllString uni originTable.Query substitution)
          ("UUID '".data ++ newUUID ++ "'".data)
      else queryRE.ReplaceAllString uni originTable.Query substitution,
    Database := targetDB }

/-- Go: the error of line 171. -/
def remapError (database targetDB query : Str) : Str :=
  "error when try to replace database \x60".data ++ database ++ "\x60 to \x60".data
    ++ targetDB ++ "\x60 in query: ".data ++ query

/-- Go: `changeTableQueryToAdjustDatabaseMapping(originTables, dbMapRule)`, lines 154-184,
from record `i` on. The catalog is updated in place, so on an error the records before
the failing one stay rewritten and the others are as they were. `newUUID i` is the text
of the identifier that `uuid.NewUUID()` yields while record `i` is processed; `dbMapRule`
is the lookup of the rule map. -/
def remapFrom (uni : Char → Bool) (newUUID : Nat → Str) (dbMapRule : Str → Option Str) :
    Nat → ListOfTables → RemapResult
  | _, [] => ⟨[], none⟩
  | i, originTable :: rest =>
    match dbMapRule originTable.Database with
    | none => RemapResult.cons originTable (remapFrom uni newUUID dbMapRule (i + 1) rest)
    | some targetDB =>
      if (createRE.FindAllString originTable.Query).length > 0 then
        RemapResult.cons
          (rewriteRecord uni (newUUID i) originTable targetDB
            ("${1} ${2} ${3}".data ++ targetDB ++ "${5}.${6}".data))
          (remapFrom uni newUUID dbMapRule (i + 1) rest)
      else if (attachRE.FindAllString originTable.Query).length > 0 then
        RemapResult.cons
          (rewriteRecord uni (newUUID i) originTable targetDB
            ("${1} ${2} ${3}".data ++ targetDB ++ "${5}.${6}${7}${8}".data ++ targetDB
              ++ "${11}".data))
          (remapFrom uni newUUID dbMapRule (i + 1) rest)
      else if originTable.Query = [] then
        RemapResult.cons originTable (remapFrom uni newUUID dbMapRule (i + 1) rest)
      else
        ⟨originTable :: rest, some (remapError originTable.Database targetDB originTable.Query)⟩

/-- Go: `changeTableQueryToAdjustDatabaseMapping(originTables, dbMapRule)`. -/
def changeTableQueryToAdjustDatabaseMapping (uni : Char → Bool) (newUUID : Nat → Str)
    (originTables : ListOfTables) (dbMapRule : Str → Option Str) : RemapResult :=
  remapFrom uni newUUID dbMapRule 0 originTables

/-- The rule map with the single entry `a: c`. -/
def rule1 (a c : Str) : Str → Option Str :=
  fun d => if d = a then some c else none

/-- Some line of the text begins with `w`: the text itself does, or `w` follows a
newline somewhere in it. -/
def someLineBeginsWith (w s : Str) : Bool :=
  hasPrefix s w || strContains s ('\n' :: w)

/-- The object kinds of `queryRE`. -/
def objectKinds : List Str :=
  ["TABLE".data, "VIEW".data, "MATERIALIZED VIEW".data, "DICTIONARY".data, "FUNCTION".data]

/-- The character before the position reached after reading `w` from a position whose
previous character is `prev`. -/
def lastOr (prev : Option Char) : Str → Option Char
  | [] => prev
  | c :: cs => lastOr (some c) cs

/-- First-choice success: from position `s` the preferred way through `r` ends at `s'`,
so that `r` followed by any continuation succeeding at `s'` gives that continuation's
result. -/
def Runs (r : Regex) (s s' : MState) : Prop :=
  ∀ k : MState → Option MState, (k s').isSome = true → r.run s k = k s'

/-- Failure: `r` does not match at position `s`, whatever follows. -/
def Fails (r : Regex) (s : MState) : Prop :=
  ∀ k : MState → Option MState, r.run s k = none

/-- A record the rewriter cannot handle: its database is a key of the rule and its
statement is not empty and has no line beginning with `CREATE` and none beginning with
`ATTACH`. -/
def unrewritable (dbMapRule : Str → Option Str) (t : TableMetadata) : Bool :=
  (dbMapRule t.Database).isSome && !t.Query.isEmpty
    && !someLineBeginsWith "CREATE".data t.Query && !someLineBeginsWith "ATTACH".data t.Query

/-- A stand-in for the Unicode tables in examples: no character beyond ASCII counts as a
letter or digit. The templates and names of the examples are ASCII only, so the tables
are never consulted there. -/
def noUnicode : Char → Bool := fun _ => false

/-- A generator of identifiers for examples: the same text for every record. -/
def exUUID : Nat → Str := fun _ => "11111111-2222-3333-4444-555555555555".data

/-- A record of database `db` holding the statement `q`, for examples. -/
def exRecord (db q : String) : TableMetadata :=
  { Database := db.data, Table := "b".data, Query := q.data, Parts := [] }

/-! ## Table record reconciler -/

/-- Go: `addTableToListIfNotExistsOrEnrichQueryAndParts(tables, table)`, lines 34-47: the
first entry with the database and table of `table` has its empty query and its empty
parts map filled in from `table`, and the scan stops there; when no entry has them,
`table` is appended. -/
def addTableToListIfNotExistsOrEnrichQueryAndParts :
    ListOfTables → TableMetadata → ListOfTables
  | [], table => [table]
  | t :: rest, table =>
    if t.Database = table.Database ∧ t.Table = table.Table then
      { t with
        Query := if t.Query = [] ∧ table.Query ≠ [] then table.Query else t.Query,
        Parts := if t.Parts.length = 0 ∧ table.Parts.length > 0 then table.Parts
          else t.Parts } :: rest
    else t :: addTableToListIfNotExistsOrEnrichQueryAndParts rest table

/-- The entry `e` has the identity (database, table) of the record `r`. -/
def sameKey (r e : TableMetadata) : Bool :=
  decide (e.Database = r.Database) && decide (e.Table = r.Table)

/-- An existing entry enriched by an incoming record, in the words of the specification:
it gets the incoming query if and only if its own query is empty and the incoming one is
not, and the incoming parts map if and only if its own is empty and the incoming one is
not. -/
def enrich (e r : TableMetadata) : TableMetadata :=
  { Database := e.Database, Table := e.Table,
    Query := if e.Query = [] ∧ r.Query ≠ [] then r.Query else e.Query,
    Parts := if e.Parts = [] ∧ r.Parts ≠ [] then r.Parts else e.Parts }

/-- The reference of the specification for the merge of a record into a catalog: with no
entry of the record's identity the record is appended at the end; otherwise the first
entry of that identity is enriched and everything else stays where and what it was. -/
def mergeReference (catalog : ListOfTables) (record : TableMetadata) : ListOfTables :=
  if catalog.any (sameKey record) = true then
    catalog.take (catalog.findIdx (sameKey record))
      ++ (match catalog.drop (catalog.findIdx (sameKey record)) with
          | e :: rest => enrich e record :: rest
          | [] => [])
  else catalog ++ [record]

/-- A catalog built by merging a sequence of records one by one into the empty catalog,
as both builds do. -/
def mergeAll (records : List TableMetadata) : ListOfTables :=
  records.foldl addTableToListIfNotExistsOrEnrichQueryAndParts []

/-- The first element of a list of values that is not empty, the empty value if there is
none. -/
def firstNonEmpty {β : Type} : List (List β) → List β
  | [] => []
  | [] :: xs => firstNonEmpty xs
  | (y :: ys) :: _ => y :: ys

/-- The identities (database, table) of a sequence of records in order of first
observation. -/
def identitiesInOrder : List TableMetadata → List (Str × Str)
  | [] => []
  | r :: rs =>
    (r.Database, r.Table) :: (identitiesInOrder rs).filter (fun k => k ≠ (r.Database, r.Table))

/-- The entry of the identity `k` in the reference of a built catalog: it holds the
first non-empty query and the first non-empty parts map among the records of that identity,
in sequence order, and the empty value where there is none. -/
def observedEntry (records : List TableMetadata) (k : Str × Str) : TableMetadata :=
  { Database := k.1, Table := k.2,
    Query := firstNonEmpty
      ((records.filter (fun r => (r.Database, r.Table) = k)).map (fun r => r.Query)),
    Parts := firstNonEmpty
      ((records.filter (fun r => (r.Database, r.Table) = k)).map (fun r => r.Parts)) }

/-- The reference of the specification for a built catalog: one entry per identity, in
order of first observation, holding the first non-empty query and the first non-empty
parts map among the records of that identity. -/
def firstObservations (records : List TableMetadata) : ListOfTables :=
  (identitiesInOrder records).map (observedEntry records)

/-! ## Pieces of the rewriter and references for its properties -/

/-- Go: lines 175-179 of `changeTableQueryToAdjustDatabaseMapping`, applied to the
statement `query` that line 173 left: if it holds a UUID literal, every such literal is
replaced by one with the fresh identifier `newUUID`; otherwise it is kept. -/
def regenerateUUID (uni : Char → Bool) (newUUID query : Str) : Str :=
  if (uuidRE.FindAllString query).length > 0 then
    uuidRE.ReplaceAllString uni query ("UUID '".data ++ newUUID ++ "'".data)
  else query

/-- Go: lines 157-181 of `changeTableQueryToAdjustDatabaseMapping`: what one turn of the
loop leaves at the index of a record that it does not reject. A record of an unmapped
database is not touched; a mapped record with a CREATE line or an ATTACH line is
rewritten with the template of that branch; the remaining case that is not rejected is
the empty statement, which is skipped. -/
def rewrittenRecord (uni : Char → Bool) (newUUID : Str) (dbMapRule : Str → Option Str)
    (originTable : TableMetadata) : TableMetadata :=
  match dbMapRule originTable.Database with
  | none => originTable
  | some targetDB =>
    if (createRE.FindAllString originTable.Query).length > 0 then
      rewriteRecord uni newUUID originTable targetDB
        ("${1} ${2} ${3}".data ++ targetDB ++ "${5}.${6}".data)
    else if (attachRE.FindAllString originTable.Query).length > 0 then
      rewriteRecord uni newUUID originTable targetDB
        ("${1} ${2} ${3}".data ++ targetDB ++ "${5}.${6}${7}${8}".data ++ targetDB
          ++ "${11}".data)
    else originTable

/-- The length of the UUID literal that begins the text `s`, and 0 if none does: a
literal is `UUID` and a blank, a single quote, one or more lowercase hexadecimal digits
or dashes, and a single quote. -/
def uuidLiteralLength (s : Str) : Nat :=
  if hasPrefix s "UUID '".data = true ∧ (s.drop 6).takeWhile uuidClass ≠ []
      ∧ hasPrefix ((s.drop 6).dropWhile uuidClass) "'".data = true then
    6 + ((s.drop 6).takeWhile uuidClass).length + 1
  else 0

/-- The text `s` holds a UUID literal. -/
def containsUUIDLiteral : Str → Bool
  | [] => false
  | c :: cs => decide (uuidLiteralLength (c :: cs) ≠ 0) || containsUUIDLiteral cs

/-- The reference of the specification for the regeneration of identifiers: the text is
read from left to right; a UUID literal that begins at the position read is replaced by
the literal of the identifier `u` and reading resumes behind it; any other character is
kept. `skip` counts the characters that remain of the literal last replaced. -/
def replaceUUIDLiterals (u : Str) : Nat → Str → Str
  | _ + 1, [] => []
  | skip + 1, _ :: cs => replaceUUIDLiterals u skip cs
  | 0, [] => []
  | 0, c :: cs =>
    if uuidLiteralLength (c :: cs) = 0 then c :: replaceUUIDLiterals u 0 cs
    else
      "UUID '".data ++ u ++ "'".data
        ++ replaceUUIDLiterals u (uuidLiteralLength (c :: cs) - 1) cs

/-! ## More of the `strings` package -/

/-- Go: `strings.HasSuffix(s, suffix)`. -/
def hasSuffix (s suffix : Str) : Bool :=
  hasPrefix s.reverse suffix.reverse

/-- Go: `strings.TrimPrefix(s, prefix)`: `s` without the leading `prefix`, and `s` itself
when it does not begin with it. -/
def trimPrefix (s pre : Str) : Str :=
  if hasPrefix s pre then s.drop pre.length else s

/-- Go: `strings.TrimSuffix(s, suffix)`. -/
def trimSuffix (s suffix : Str) : Str :=
  if hasSuffix s suffix then s.take (s.length - suffix.length) else s

/-- Go: `strings.Trim(s, cutset)`: `s` without the leading and trailing characters that
occur in `cutset`. -/
def strTrim (s cutset : Str) : Str :=
  ((s.dropWhile (fun c => cutset.contains c)).reverse.dropWhile
    (fun c => cutset.contains c)).reverse

/-- Go: `strings.Split(s, sep)` for a separator `sep` of one character: the pieces of `s`
between the occurrences of the separator, one more than there are occurrences. -/
def strSplit (s : Str) (sep : Char) : List Str :=
  match s with
  | [] => [[]]
  | c :: cs =>
    if c = sep then [] :: strSplit cs sep
    else
      match strSplit cs sep with
      | [] => [[c]]
      | w :: ws => (c :: w) :: ws

/-- Go: `strings.Replace(s, old, new, 1)`: the first occurrence of `old` in `s` is
replaced by `new`. -/
def strReplace (s old new : Str) : Str :=
  if hasPrefix s old then new ++ s.drop old.length
  else
    match s with
    | [] => []
    | c :: cs => c :: strReplace cs old new

/-- Go: the type `error`, kept as the text of the error. -/
abbrev Err := Str

/-! ## Partition filter -/

/-- Modelled from the spec: the type `common.EmptyMap` is declared in package
`pkg/common`, outside the files at hand. It is the set of the partition identifiers
selected (a Go map with empty values); it is kept as the list of its keys, so that its
`len` is the length of the list. -/
abbrev EmptyMap := List Str

/-- Go: `filterPartsByPartitionsFilter(tableMetadata, partitionsFilter)`, lines 186-198.
The record is passed by value and its `Parts` map is shared with the caller, so the
assignments `tableMetadata.Parts[disk] = filteredParts` change the record of the caller:
the function is given here as the record the caller holds afterwards.
`filesystemhelper.IsPartInPartition`, of a package outside the files at hand, is the
parameter `isPartInPartition`. -/
def filterPartsByPartitionsFilter (isPartInPartition : Str → EmptyMap → Bool)
    (tableMetadata : TableMetadata) (partitionsFilter : EmptyMap) : TableMetadata :=
  if partitionsFilter.length > 0 then
    { tableMetadata with
      Parts := tableMetadata.Parts.map (fun dp =>
        (dp.1, dp.2.filter (fun part => isPartInPartition part.Name partitionsFilter))) }
  else tableMetadata

/-! ## Glob matcher

`filepath.Match` of Go's standard library decides whether a name matches a shell pattern.
The catalog code takes it as it is; here it is a parameter of the functions that call
it, of type `Str → Str → MatchResult`. What the catalog code relies on is stated as
`GlobContract`; `filepathMatch` is Go's algorithm (Go 1.16 and later, Unix), read on
characters, and serves as the instance in examples. -/

/-- Go: the two results `(matched bool, err error)` of `filepath.Match`. -/
structure MatchResult where
  matched : Bool
  err : Option Err
  deriving DecidableEq, Repr

/-- Go: `filepath.ErrBadPattern`. -/
def ErrBadPattern : Err := "syntax error in pattern".data

/-- Go: the first loop of `scanChunk`: the pattern without its leading stars. -/
def dropStars : Str → Str
  | [] => []
  | c :: cs => if c = '*' then dropStars cs else c :: cs

/-- Go: the second loop of `scanChunk`: the index of the first star outside a character
class, an escaped character being skipped, or the length of the pattern. -/
def scanLen (inrange : Bool) : Str → Nat
  | [] => 0
  | c :: cs =>
    if c = '\\' then
      match cs with
      | [] => 1
      | _ :: cs2 => 2 + scanLen inrange cs2
    else if c = '[' then 1 + scanLen true cs
    else if c = ']' then 1 + scanLen false cs
    else if c = '*' then (if inrange then 1 + scanLen inrange cs else 0)
    else 1 + scanLen inrange cs

/-- Go: `scanChunk(pattern)`: whether the pattern begins with a star, the chunk without
star that follows the leading stars, and the rest of the pattern. -/
def scanChunk (pattern : Str) : Bool × Str × Str :=
  (decide (pattern.head? = some '*'),
    (dropStars pattern).take (scanLen false (dropStars pattern)),
    (dropStars pattern).drop (scanLen false (dropStars pattern)))

/-- Go: `getEsc(chunk)`: a character of a class, possibly escaped, and the chunk behind
it; `none` is `ErrBadPattern` (nothing there, a bare `-` or `]`, or nothing behind). -/
def getEsc (chunk : Str) : Option (Char × Str) :=
  match chunk with
  | [] => none
  | c :: cs =>
    if c = '-' ∨ c = ']' then none
    else if c = '\\' then
      match cs with
      | [] => none
      | r :: n => if n = [] then none else some (r, n)
    else if cs = [] then none else some (c, cs)

/-- Go: the three outcomes of `matchChunk`: `ErrBadPattern`, no match, or a match with
the rest of the name behind it. -/
inductive ChunkResult where
  | bad : ChunkResult
  | fail : ChunkResult
  | ok : Str → ChunkResult
  deriving DecidableEq, Repr

/-- Go: the loop `for { ... }` of `matchChunk` that reads the ranges of a character class
up to the closing bracket: whether the character `r` lies in one of them, and the chunk
behind the bracket; `none` is `ErrBadPattern`. `fuel` bounds the number of ranges, the
length of the chunk is enough. -/
def matchClass (r : Char) : Nat → Str → Bool → Nat → Option (Bool × Str)
  | 0, _, _, _ => none
  | fuel + 1, chunk, isMatch, nrange =>
    if chunk.head? = some ']' ∧ nrange > 0 then some (isMatch, chunk.tail)
    else
      match getEsc chunk with
      | none => none
      | some (lo, chunk1) =>
        if chunk1.head? = some '-' then
          match getEsc chunk1.tail with
          | none => none
          | some (hi, chunk2) =>
            matchClass r fuel chunk2 (isMatch || (decide (lo ≤ r) && decide (r ≤ hi)))
              (nrange + 1)
        else
          matchClass r fuel chunk1 (isMatch || (decide (lo ≤ r) && decide (r ≤ lo)))
            (nrange + 1)

/-- Go: the loop of `matchChunk(chunk, s)`. Once the match has failed the chunk is still
read to its end, to find a malformed pattern, and the name is no longer read. `fuel`
bounds the number of operators, the length of the chunk is enough. -/
def matchChunkFrom : Nat → Str → Str → Bool → ChunkResult
  | _, [], s, failed => if failed then ChunkResult.fail else ChunkResult.ok s
  | 0, _ :: _, _, _ => ChunkResult.bad
  | fuel + 1, c :: chunk1, s, failed0 =>
    if c = '[' then
      match matchClass (if (failed0 || s.isEmpty) then Char.ofNat 0 else s.headD (Char.ofNat 0))
          (chunk1.length + 1) (if chunk1.head? = some '^' then chunk1.tail else chunk1)
          false 0 with
      | none => ChunkResult.bad
      | some (isMatch, chunk3) =>
        matchChunkFrom fuel chunk3 (if (failed0 || s.isEmpty) then s else s.tail)
          ((failed0 || s.isEmpty) || (isMatch == decide (chunk1.head? = some '^')))
    else if c = '?' then
      matchChunkFrom fuel chunk1 (if (failed0 || s.isEmpty) then s else s.tail)
        ((failed0 || s.isEmpty) || decide (s.head? = some '/'))
    else if c = '\\' then
      match chunk1 with
      | [] => ChunkResult.bad
      | c2 :: chunk2 =>
        matchChunkFrom fuel chunk2 (if (failed0 || s.isEmpty) then s else s.tail)
          ((failed0 || s.isEmpty) || decide (s.head? ≠ some c2))
    else
      matchChunkFrom fuel chunk1 (if (failed0 || s.isEmpty) then s else s.tail)
        ((failed0 || s.isEmpty) || decide (s.head? ≠ some c))

/-- Go: `matchChunk(chunk, s)`: whether the chunk, made of literals, `?` and character
classes, matches the beginning of `s`, and the rest of `s` then. -/
def matchChunk (chunk s : Str) : ChunkResult :=
  matchChunkFrom chunk.length chunk s false

/-- Go: the loop `for i := 0; i < len(name) && name[i] != Separator; i++` of `Match`: the
star skips `i + 1` characters, none of them a `/`, until the chunk matches what follows;
for the last chunk the match has to reach the end of the name. -/
def starSkip (chunk : Str) (lastChunk : Bool) : Str → ChunkResult
  | [] => ChunkResult.fail
  | c :: cs =>
    if c = '/' then ChunkResult.fail
    else
      match matchChunk chunk cs with
      | ChunkResult.bad => ChunkResult.bad
      | ChunkResult.fail => starSkip chunk lastChunk cs
      | ChunkResult.ok t =>
        if lastChunk && !t.isEmpty then starSkip chunk lastChunk cs else ChunkResult.ok t

/-- Go: the last loop of `Match`, run before `false` is returned: whether a chunk of the
rest of the pattern is malformed. -/
def restIsBad : Nat → Str → Bool
  | 0, _ => false
  | fuel + 1, pattern =>
    if pattern = [] then false
    else if matchChunk (scanChunk pattern).2.1 [] = ChunkResult.bad then true
    else restIsBad fuel (scanChunk pattern).2.2

/-- Go: the loop `Pattern:` of `filepath.Match(pattern, name)`. `fuel` bounds the number
of chunks; the length of the pattern plus one is enough. -/
def matchFrom : Nat → Str → Str → MatchResult
  | 0, _, _ => ⟨false, none⟩
  | fuel + 1, pattern, name =>
    if pattern = [] then ⟨name.isEmpty, none⟩
    else if (scanChunk pattern).1 && (scanChunk pattern).2.1.isEmpty then
      ⟨!strContains name "/".data, none⟩
    else
      match matchChunk (scanChunk pattern).2.1 name with
      | ChunkResult.bad => ⟨false, some ErrBadPattern⟩
      | ChunkResult.ok t =>
        if t.isEmpty || !(scanChunk pattern).2.2.isEmpty then
          matchFrom fuel (scanChunk pattern).2.2 t
        else if (scanChunk pattern).1 then
          match starSkip (scanChunk pattern).2.1 (scanChunk pattern).2.2.isEmpty name with
          | ChunkResult.bad => ⟨false, some ErrBadPattern⟩
          | ChunkResult.ok t2 => matchFrom fuel (scanChunk pattern).2.2 t2
          | ChunkResult.fail =>
            ⟨false, if restIsBad fuel (scanChunk pattern).2.2 then some ErrBadPattern else none⟩
        else ⟨false, if restIsBad fuel (scanChunk pattern).2.2 then some ErrBadPattern else none⟩
      | ChunkResult.fail =>
        if (scanChunk pattern).1 then
          match starSkip (scanChunk pattern).2.1 (scanChunk pattern).2.2.isEmpty name with
          | ChunkResult.bad => ⟨false, some ErrBadPattern⟩
          | ChunkResult.ok t2 => matchFrom fuel (scanChunk pattern).2.2 t2
          | ChunkResult.fail =>
            ⟨false, if restIsBad fuel (scanChunk pattern).2.2 then some ErrBadPattern else none⟩
        else ⟨false, if restIsBad fuel (scanChunk pattern).2.2 then some ErrBadPattern else none⟩

/-- Go: `filepath.Match(pattern, name)` on Unix, Go 1.16 and later, with pattern and name
read as sequences of characters: `*` matches any run of characters other than `/`, `?`
one character other than `/`, `[...]` one character of a class, `\\c` the character `c`,
any other character itself. -/
def filepathMatch (pattern name : Str) : MatchResult :=
  matchFrom (pattern.length + 1) pattern name

/-- What the catalog code relies on in `filepath.Match`, from its documentation, on Unix
where the separator is `/`: the pattern `*` matches exactly the names without `/`, the
empty pattern matches the empty name only, neither is an error, and whenever an error is
returned the match is `false`. -/
def GlobContract (fpMatch : Str → Str → MatchResult) : Prop :=
  (∀ name, fpMatch "*".data name = ⟨!strContains name "/".data, none⟩)
  ∧ (∀ name, fpMatch [] name = ⟨name.isEmpty, none⟩)
  ∧ (∀ pattern name, (fpMatch pattern name).err ≠ none → (fpMatch pattern name).matched = false)

/-! ## Pattern filter over table identities -/

/-- Modelled from the spec: the type `metadata.TableTitle` is declared in package
`pkg/metadata`, outside the files at hand. It is a bare identity pair; the code reads its
fields `Database` and `Table`. -/
structure TableTitle where
  Database : Str
  Table : Str
  deriving DecidableEq, Repr

/-- Go: `fmt.Sprintf("%s.%s", database, table)`. -/
def tableNameOf (database table : Str) : Str :=
  database ++ ".".data ++ table

/-- Go: lines 51-55, 202-206 and 285-288: the list of include patterns of a pattern
string, `*` alone for the empty string. -/
def tablePatternsOf (tablePattern : Str) : List Str :=
  if tablePattern ≠ [] then strSplit tablePattern ',' else ["*".data]

/-- Go: the inner loop of `parseTablePatternForDownload`, lines 291-297: whether the loop
over the patterns reaches `append` and `break` for the name. -/
def matchesSomePattern (fpMatch : Str → Str → MatchResult) (tableName : Str) :
    List Str → Bool
  | [] => false
  | pattern :: rest =>
    if (fpMatch (strTrim pattern " \t\r\n".data) tableName).matched then true
    else matchesSomePattern fpMatch tableName rest

/-- Go: the outer loop of `parseTablePatternForDownload`, lines 290-298, from the result
collected so far. -/
def parseLoop (fpMatch : Str → Str → MatchResult) (tablePatterns : List Str) :
    List TableTitle → List TableTitle → List TableTitle
  | [], result => result
  | t :: ts, result =>
    parseLoop fpMatch tablePatterns ts
      (if matchesSomePattern fpMatch (tableNameOf t.Database t.Table) tablePatterns then
        result ++ [t]
      else result)

/-- Go: `parseTablePatternForDownload(tables, tablePattern)`, lines 284-300. -/
def parseTablePatternForDownload (fpMatch : Str → Str → MatchResult)
    (tables : List TableTitle) (tablePattern : Str) : List TableTitle :=
  parseLoop fpMatch (tablePatternsOf tablePattern) tables []

/-- Go: `IsInformationSchema(database)`, lines 302-309. -/
def IsInformationSchema (database : Str) : Bool :=
  ["INFORMATION_SCHEMA".data, "information_schema".data,
    "_temporary_and_external_tables".data].any (fun skipDatabase => database = skipDatabase)

/-! ## Table catalog engine

The two builds read their metadata through collaborators outside the files at hand: the
file system, the remote storage, the JSON decoder, the cancellation signal. These are
gathered in an environment, a record of functions; a build is a function of its
arguments and of the environment. Besides its two results a build is given a log of the
reads it has issued, in order, so that properties of what is read can be stated. -/

/-- One read of metadata issued by a build: the identity (database, table) it is for and
the path handed to `os.ReadFile` or to `GetFileReader`. -/
structure ReadEvent where
  Database : Str
  Table : Str
  path : Str
  deriving DecidableEq, Repr

/-- The state of a build inside its loops: the catalog `result` so far, the log of reads,
the number of times the cancellation signal has been looked at, and the error that ends
the build, if one has occurred. -/
structure BuildState where
  result : ListOfTables
  reads : List ReadEvent
  checks : Nat
  err : Option Err
  deriving DecidableEq, Repr

/-- Go: the two results `(ListOfTables, error)` of a build, `none` being a `nil` catalog,
with the log of reads. -/
structure BuildResult where
  tables : Option ListOfTables
  err : Option Err
  reads : List ReadEvent
  deriving DecidableEq, Repr

/-- Go: the end of both builds, lines 142-146 and 249-250: `nil` and the error if one
has occurred, the sorted catalog otherwise. -/
def finishBuild
    (sortSlice : (TableMetadata → TableMetadata → Bool) → ListOfTables → ListOfTables)
    (dropTable : Bool) (s : BuildState) : BuildResult :=
  match s.err with
  | some e => ⟨none, some e, s.reads⟩
  | none => ⟨some (ListOfTables.Sort sortSlice s.result dropTable), none, s.reads⟩

/-- Go: the skip loop of both builds, lines 84-89 and 213-218: the value of
`shallSkipped` after it. The skip patterns are matched as they are, without trimming. -/
def shallSkip (fpMatch : Str → Str → MatchResult) (tableName : Str) : List Str → Bool
  | [] => false
  | skipPattern :: rest =>
    if (fpMatch skipPattern tableName).matched then true
    else shallSkip fpMatch tableName rest

/-- One call of the function handed to `filepath.Walk`: the path visited, whether
`info.Mode().IsRegular()` holds, and the error `Walk` reports for the path, if any. -/
structure WalkEntry where
  filePath : Str
  isRegular : Bool
  err : Option Err
  deriving DecidableEq, Repr

/-- The collaborators of the local build: the configuration values
`cfg.ClickHouse.SkipTables` and `cfg.ClickHouse.EmbeddedBackupDisk`; `walk root`, the
calls `filepath.Walk(root, fn)` makes as long as `fn` returns `nil`, in order;
`os.ReadFile`; the error of `os.Stat` and `os.IsNotExist`; `os.ReadDir` (the names read
and the error); `url.PathUnescape` (its string result, empty on error); `path.Join`;
`json.Unmarshal` into a fresh record; and `filesystemhelper.IsPartInPartition`. -/
structure LocalEnv where
  SkipTables : List Str
  EmbeddedBackupDisk : Str
  walk : Str → List WalkEntry
  readFile : Str → Except Err Str
  stat : Str → Option Err
  isNotExist : Err → Bool
  readDir : Str → List Str × Option Err
  pathUnescape : Str → Str
  pathJoin : List Str → Str
  unmarshal : Str → Except Err TableMetadata
  isPartInPartition : Str → EmptyMap → Bool

/-- Go: lines 106-107 of `getTableListByPatternLocal`: the directory of the data parts of
a statement file, `path.Join` of the root with `/metadata` replaced by `/data` and of the
two path segments. -/
def dataPartsPathOf (env : LocalEnv) (metadataPath : Str) (names : List Str) : Str :=
  env.pathJoin [strReplace metadataPath "/metadata".data "/data".data, env.pathJoin names]

/-- Go: lines 100-127 of `getTableListByPatternLocal`: the record made of a statement
file with text `data`. The statement is the text with its first `ATTACH` replaced by
`CREATE` when the text begins with `ATTACH` or `CREATE`, and empty otherwise; the parts
are the names `os.ReadDir` lists in the directory of the data parts, on the one disk
`EmbeddedBackupDisk` (an error of `os.ReadDir` is logged only). -/
def embeddedTable (env : LocalEnv) (metadataPath : Str) (names : List Str)
    (database table data : Str) : TableMetadata :=
  { Database := database, Table := table,
    Query :=
      if hasPrefix data "ATTACH".data || hasPrefix data "CREATE".data then
        strReplace data "ATTACH".data "CREATE".data
      else [],
    Parts := [(env.EmbeddedBackupDisk,
      (env.readDir (dataPartsPathOf env metadataPath names)).1.map
        (fun n => ({ Name := n } : Part)))] }

/-- Go: lines 98-139 of `getTableListByPatternLocal`: the record made of the text `data`
of a file, with its parts filtered, or the error that ends the build: for a statement
file an error of `os.Stat` on the directory of the data parts other than its absence,
for a JSON file the error of `json.Unmarshal`. -/
def localRecord (env : LocalEnv) (metadataPath : Str) (partitionsFilter : EmptyMap)
    (isEmbeddedMetadata : Bool) (names : List Str) (database table data : Str) :
    Except Err TableMetadata :=
  if isEmbeddedMetadata then
    match (env.stat (dataPartsPathOf env metadataPath names)).filter
        (fun e => !env.isNotExist e) with
    | some e => Except.error e
    | none =>
      Except.ok (filterPartsByPartitionsFilter env.isPartInPartition
        (embeddedTable env metadataPath names database table data) partitionsFilter)
  else
    match env.unmarshal data with
    | Except.error e => Except.error e
    | Except.ok t =>
      Except.ok (filterPartsByPartitionsFilter env.isPartInPartition t partitionsFilter)

/-- Go: lines 94-139 of `getTableListByPatternLocal`, the body of the pattern loop once a
pattern has matched: the file is read, the record is made of it and merged into the
catalog; any error ends the build. -/
def localReadTable (env : LocalEnv) (metadataPath : Str) (partitionsFilter : EmptyMap)
    (filePath : Str) (isEmbeddedMetadata : Bool) (names : List Str) (database table : Str)
    (s : BuildState) : BuildState :=
  match env.readFile filePath with
  | Except.error e =>
    { s with reads := s.reads ++ [⟨database, table, filePath⟩], err := some e }
  | Except.ok data =>
    match localRecord env metadataPath partitionsFilter isEmbeddedMetadata names database
        table data with
    | Except.error e =>
      { s with reads := s.reads ++ [⟨database, table, filePath⟩], err := some e }
    | Except.ok t =>
      { s with reads := s.reads ++ [⟨database, table, filePath⟩],
               result := addTableToListIfNotExistsOrEnrichQueryAndParts s.result t }

/-- Go: the pattern loop of `getTableListByPatternLocal`, lines 90-141: the patterns are
tried in order; at the first one that matches a name that is not skipped the file is
read and the function returns. -/
def localPatterns (fpMatch : Str → Str → MatchResult) (env : LocalEnv) (metadataPath : Str)
    (partitionsFilter : EmptyMap) (filePath : Str) (isEmbeddedMetadata : Bool)
    (names : List Str) (database table : Str) (shallSkipped : Bool) :
    List Str → BuildState → BuildState
  | [], s => s
  | p :: ps, s =>
    if !(fpMatch (strTrim p " \t\r\n".data) (tableNameOf database table)).matched
        || shallSkipped then
      localPatterns fpMatch env metadataPath partitionsFilter filePath isEmbeddedMetadata
        names database table shallSkipped ps s
    else
      localReadTable env metadataPath partitionsFilter filePath isEmbeddedMetadata names
        database table s

/-- Go: lines 65-74 of `getTableListByPatternLocal`: the path segments of a file below
the root, without the suffix `.sql` or `.json`. `filepath.ToSlash` is the identity on
Unix. -/
def entryNames (metadataPath filePath : Str) : List Str :=
  strSplit (strTrim (trimPrefix
    (if hasSuffix filePath ".sql".data then trimSuffix filePath ".sql".data
      else trimSuffix filePath ".json".data) metadataPath) "/".data) '/'

/-- Go: the function handed to `filepath.Walk` in `getTableListByPatternLocal`, lines
56-142, on one entry of the walk. -/
def localVisit (fpMatch : Str → Str → MatchResult) (env : LocalEnv) (metadataPath : Str)
    (tablePatterns : List Str) (partitionsFilter : EmptyMap) (e : WalkEntry)
    (s : BuildState) : BuildState :=
  match e.err with
  | some err => { s with err := some err }
  | none =>
    if !hasSuffix e.filePath ".sql".data && !hasSuffix e.filePath ".json".data
        && !e.isRegular then s
    else if (entryNames metadataPath e.filePath).length ≠ 2 then s
    else if IsInformationSchema
        (env.pathUnescape ((entryNames metadataPath e.filePath).getD 0 [])) then s
    else
      localPatterns fpMatch env metadataPath partitionsFilter e.filePath
        (hasSuffix e.filePath ".sql".data) (entryNames metadataPath e.filePath)
        (env.pathUnescape ((entryNames metadataPath e.filePath).getD 0 []))
        (env.pathUnescape ((entryNames metadataPath e.filePath).getD 1 []))
        (shallSkip fpMatch
          (tableNameOf (env.pathUnescape ((entryNames metadataPath e.filePath).getD 0 []))
            (env.pathUnescape ((entryNames metadataPath e.filePath).getD 1 [])))
          env.SkipTables)
        tablePatterns s

/-- Go: `filepath.Walk` with a function that returns `nil` or an error: the entries are
visited in order until the function returns an error. -/
def walkLoop (visit : WalkEntry → BuildState → BuildState) :
    List WalkEntry → BuildState → BuildState
  | [], s => s
  | e :: es, s =>
    if (visit e s).err.isSome then visit e s else walkLoop visit es (visit e s)

/-- Go: `getTableListByPatternLocal(cfg, metadataPath, tablePattern, dropTable,
partitionsFilter)`, lines 49-147. -/
def getTableListByPatternLocal (fpMatch : Str → Str → MatchResult)
    (sortSlice : (TableMetadata → TableMetadata → Bool) → ListOfTables → ListOfTables)
    (env : LocalEnv) (metadataPath tablePattern : Str) (dropTable : Bool)
    (partitionsFilter : EmptyMap) : BuildResult :=
  finishBuild sortSlice dropTable
    (walkLoop
      (localVisit fpMatch env metadataPath (tablePatternsOf tablePattern) partitionsFilter)
      (env.walk metadataPath) ⟨[], [], 0, none⟩)

/-- Modelled from the spec: the type `metadata.BackupMetadata` is declared in package
`pkg/metadata`, outside the files at hand. It is the manifest of a remote backup; the
code reads its name and its list of table identities. -/
structure BackupMetadata where
  BackupName : Str
  Tables : List TableTitle
  deriving DecidableEq, Repr

/-- A reader that `GetFileReader` has returned: what `io.ReadAll` gives on it and the
error of its `Close`. -/
structure RemoteFile where
  data : Except Err Str
  closeErr : Option Err

/-- The collaborators of the remote build: the configuration value
`b.cfg.ClickHouse.SkipTables`; `b.dst.GetFileReader`; the cancellation signal,
`ctxDone k` being `ctx.Err()` if `ctx.Done()` is closed the `k`-th time the build looks
at it (counting from 0) and `none` if it is not; `common.TablePathEncode`; `path.Join`;
and `json.Unmarshal` into a fresh record. -/
structure RemoteEnv where
  SkipTables : List Str
  getFileReader : Str → Except Err RemoteFile
  ctxDone : Nat → Option Err
  tablePathEncode : Str → Str
  pathJoin : List Str → Str
  unmarshal : Str → Except Err TableMetadata

/-- Go: line 228: the path of the JSON document of a table in the remote backup. -/
def remotePathOf (env : RemoteEnv) (backupName : Str) (t : TableTitle) : Str :=
  env.pathJoin [env.pathJoin [backupName, "metadata".data], env.tablePathEncode t.Database,
    env.tablePathEncode t.Table ++ ".json".data]

/-- Go: lines 228-243 of `getTableListByPatternRemote`: the record decoded from the
document at `path`, or the first error among those of `GetFileReader`, `io.ReadAll`,
`Close` and `json.Unmarshal`. -/
def remoteRecord (env : RemoteEnv) (path : Str) : Except Err TableMetadata :=
  match env.getFileReader path with
  | Except.error e => Except.error e
  | Except.ok tmReader =>
    match tmReader.data with
    | Except.error e => Except.error e
    | Except.ok data =>
      match tmReader.closeErr with
      | some e => Except.error e
      | none => env.unmarshal data

/-- Go: the loop `tablePatterns:` of `getTableListByPatternRemote`, lines 219-247: before
each pattern the cancellation signal is looked at; at the first pattern that matches a
name that is not skipped the document is fetched, decoded and merged into the catalog,
and the loop is left; any error ends the build. -/
def remotePatterns (fpMatch : Str → Str → MatchResult) (env : RemoteEnv) (backupName : Str)
    (t : TableTitle) (shallSkipped : Bool) : List Str → BuildState → BuildState
  | [], s => s
  | p :: ps, s =>
    match env.ctxDone s.checks with
    | some e => { s with checks := s.checks + 1, err := some e }
    | none =>
      if !(fpMatch (strTrim p " \t\r\n".data) (tableNameOf t.Database t.Table)).matched
          || shallSkipped then
        remotePatterns fpMatch env backupName t shallSkipped ps
          { s with checks := s.checks + 1 }
      else
        match remoteRecord env (remotePathOf env backupName t) with
        | Except.error e =>
          { s with checks := s.checks + 1,
                   reads := s.reads ++ [⟨t.Database, t.Table,
                     remotePathOf env backupName t⟩],
                   err := some e }
        | Except.ok tm =>
          { s with checks := s.checks + 1,
                   reads := s.reads ++ [⟨t.Database, t.Table,
                     remotePathOf env backupName t⟩],
                   result := addTableToListIfNotExistsOrEnrichQueryAndParts s.result tm }

/-- Go: the body of the loop over the manifest in `getTableListByPatternRemote`, lines
208-248, for one entry. -/
def remoteVisit (fpMatch : Str → Str → MatchResult) (env : RemoteEnv) (backupName : Str)
    (tablePatterns : List Str) (t : TableTitle) (s : BuildState) : BuildState :=
  if IsInformationSchema t.Database then s
  else
    remotePatterns fpMatch env backupName t
      (shallSkip fpMatch (tableNameOf t.Database t.Table) env.SkipTables) tablePatterns s

/-- Go: the loop over the manifest in `getTableListByPatternRemote`: the entries are
visited in order until an error ends the build. -/
def remoteLoop (visit : TableTitle → BuildState → BuildState) :
    List TableTitle → BuildState → BuildState
  | [], s => s
  | t :: ts, s =>
    if (visit t s).err.isSome then visit t s else remoteLoop visit ts (visit t s)

/-- Go: `getTableListByPatternRemote(ctx, b, remoteBackupMetadata, tablePattern,
dropTable)`, lines 200-251. -/
def getTableListByPatternRemote (fpMatch : Str → Str → MatchResult)
    (sortSlice : (TableMetadata → TableMetadata → Bool) → ListOfTables → ListOfTables)
    (env : RemoteEnv) (remoteBackupMetadata : BackupMetadata) (tablePattern : Str)
    (dropTable : Bool) : BuildResult :=
  finishBuild sortSlice dropTable
    (remoteLoop (remoteVisit fpMatch env remoteBackupMetadata.BackupName
        (tablePatternsOf tablePattern))
      remoteBackupMetadata.Tables ⟨[], [], 0, none⟩)

/-! ### Example environments -/

/-- A stand-in for `json.Unmarshal` in examples: a document `database|table|query` is
decoded to the record of these three fields without parts; any other text is an error. -/
def exUnmarshal (data : Str) : Except Err TableMetadata :=
  match strSplit data '|' with
  | [d, t, q] => Except.ok { Database := d, Table := t, Query := q, Parts := [] }
  | _ => Except.error "invalid character".data

/-- A stand-in for `path.Join` in examples: the elements joined by `/`. -/
def exPathJoin (elems : List Str) : Str :=
  "/".data.intercalate elems

/-- A stand-in for `filesystemhelper.IsPartInPartition` in examples: the name of the part
begins with a selected partition identifier followed by `_`. -/
def exIsPartInPartition (partName : Str) (partitionsFilter : EmptyMap) : Bool :=
  partitionsFilter.any (fun id => hasPrefix partName (id ++ "_".data))

/-- The files of the example backups: the path and the text of each. -/
def exFiles : List (String × String) :=
  [("/backup/metadata/db/t1.json", "db|t1|CREATE TABLE db.t1 (x UInt64)"),
   ("/backup/metadata/db/v1.json", "db|v1|CREATE VIEW db.v1 AS SELECT x FROM db.t1"),
   ("/backup/metadata/other/t2.json", "other|t2|CREATE TABLE other.t2 (x UInt64)"),
   ("/backup/metadata/information_schema/tables.json",
      "information_schema|tables|CREATE VIEW information_schema.tables AS SELECT 1"),
   ("/backup/metadata/odd/t3.json", "information_schema|t3|CREATE TABLE odd.t3 (x UInt64)")]

/-- The text of an example file, an error for any other path. -/
def exReadFile (files : List (String × String)) (path : Str) : Except Err Str :=
  match files.find? (fun f => f.1.data = path) with
  | some f => Except.ok f.2.data
  | none => Except.error "no such file or directory".data

/-- A local environment for examples: the walk visits the root, then each file of
`files` in order, all regular; names are not escaped; there are no data parts. -/
def exLocalEnv (files : List (String × String)) (skipTables : List String) : LocalEnv :=
  { SkipTables := skipTables.map String.data,
    EmbeddedBackupDisk := "default".data,
    walk := fun root => ⟨root, false, none⟩ :: files.map (fun f => ⟨f.1.data, true, none⟩),
    readFile := exReadFile files,
    stat := fun _ => none,
    isNotExist := fun _ => false,
    readDir := fun _ => ([], none),
    pathUnescape := fun s => s,
    pathJoin := exPathJoin,
    unmarshal := exUnmarshal,
    isPartInPartition := exIsPartInPartition }

/-- A remote environment for examples: the documents are the files of `files`, names are
not encoded, and the cancellation signal is never raised. -/
def exRemoteEnv (files : List (String × String)) (skipTables : List String) : RemoteEnv :=
  { SkipTables := skipTables.map String.data,
    getFileReader := fun path =>
      match exReadFile files ("/".data ++ path) with
      | Except.ok data => Except.ok ⟨Except.ok data, none⟩
      | Except.error e => Except.error e,
    ctxDone := fun _ => none,
    tablePathEncode := fun s => s,
    pathJoin := exPathJoin,
    unmarshal := exUnmarshal }

/-- The manifest of the example backup `backup`. -/
def exManifest (tables : List (String × String)) : BackupMetadata :=
  { BackupName := "backup".data,
    Tables := tables.map (fun t => ⟨t.1.data, t.2.data⟩) }

/-- Go: `strings.Join(patterns, ",")`: the pattern string of a list of patterns. -/
def joinPatterns : List Str → Str
  | [] => []
  | [p] => p
  | p :: q :: rest => p ++ ',' :: joinPatterns (q :: rest)

/-- The record that a read of the local build brings to the catalog: the record made of
the text of the file read, for the identity of the read, and none when the read or the
making of the record fails. -/
def localRecordOfRead (env : LocalEnv) (metadataPath : Str) (partitionsFilter : EmptyMap)
    (ev : ReadEvent) : Option TableMetadata :=
  match env.readFile ev.path with
  | Except.error _ => none
  | Except.ok data =>
    match localRecord env metadataPath partitionsFilter (hasSuffix ev.path ".sql".data)
        (entryNames metadataPath ev.path) ev.Database ev.Table data with
    | Except.error _ => none
    | Except.ok t => some t

/-- The record that a read of the remote build brings to the catalog: the record decoded
from the document fetched, and none when fetching or decoding fails. -/
def remoteRecordOfRead (env : RemoteEnv) (ev : ReadEvent) : Option TableMetadata :=
  match remoteRecord env ev.path with
  | Except.error _ => none
  | Except.ok t => some t

/-- The invariant of both builds on their state: the catalog so far is made of the
records of the reads issued so far, merged in order, and every read is for an identity
whose database is none of the information-schema names and that no skip pattern
matches. -/
def BuildInvariant (fpMatch : Str → Str → MatchResult) (skipTables : List Str)
    (recordOfRead : ReadEvent → Option TableMetadata) (s : BuildState) : Prop :=
  s.result = mergeAll (s.reads.filterMap recordOfRead)
  ∧ ∀ ev ∈ s.reads, IsInformationSchema ev.Database = false
      ∧ shallSkip fpMatch (tableNameOf ev.Database ev.Table) skipTables = false

/-- The files of the example backup whose documents carry the identity they are stored
under. -/
def exFilesSound : List (String × String) :=
  exFiles.take 4

/-! ### Expected reads and corresponding metadata of the builds -/

/-- The read that the function handed to `filepath.Walk` issues for an entry, lines
57-94: none for an entry with an error, for an entry the file test passes over, for a
path that is not of two segments and for an information-schema database; otherwise one
read of the file when some pattern matches its name and no skip pattern does. -/
def localReadOf (fpMatch : Str → Str → MatchResult) (env : LocalEnv) (metadataPath : Str)
    (tablePatterns : List Str) (e : WalkEntry) : Option ReadEvent :=
  if e.err.isSome then none
  else if !hasSuffix e.filePath ".sql".data && !hasSuffix e.filePath ".json".data
      && !e.isRegular then none
  else if (entryNames metadataPath e.filePath).length ≠ 2 then none
  else if IsInformationSchema
      (env.pathUnescape ((entryNames metadataPath e.filePath).getD 0 [])) then none
  else if matchesSomePattern fpMatch
        (tableNameOf (env.pathUnescape ((entryNames metadataPath e.filePath).getD 0 []))
          (env.pathUnescape ((entryNames metadataPath e.filePath).getD 1 [])))
        tablePatterns
      && !shallSkip fpMatch
        (tableNameOf (env.pathUnescape ((entryNames metadataPath e.filePath).getD 0 []))
          (env.pathUnescape ((entryNames metadataPath e.filePath).getD 1 [])))
        env.SkipTables then
    some ⟨env.pathUnescape ((entryNames metadataPath e.filePath).getD 0 []),
      env.pathUnescape ((entryNames metadataPath e.filePath).getD 1 []), e.filePath⟩
  else none

/-- The fetch that the loop over the manifest issues for an entry when the cancellation
signal is not raised, lines 209-228: none for an information-schema database; otherwise
one fetch of the document when some pattern matches the name and no skip pattern does. -/
def remoteReadOf (fpMatch : Str → Str → MatchResult) (env : RemoteEnv) (backupName : Str)
    (tablePatterns : List Str) (t : TableTitle) : Option ReadEvent :=
  if IsInformationSchema t.Database then none
  else if matchesSomePattern fpMatch (tableNameOf t.Database t.Table) tablePatterns
      && !shallSkip fpMatch (tableNameOf t.Database t.Table) env.SkipTables then
    some ⟨t.Database, t.Table, remotePathOf env backupName t⟩
  else none

/-- The catalog after a read: the record of the read, if there is a read and it gives a
record, is merged into the catalog once. -/
def reconcileRead (recordOfRead : ReadEvent → Option TableMetadata) (result : ListOfTables) :
    Option ReadEvent → ListOfTables
  | none => result
  | some ev =>
    match recordOfRead ev with
    | none => result
    | some r => addTableToListIfNotExistsOrEnrichQueryAndParts result r

/-- An entry of the walk that the local build passes over without an error: the file
test of line 60 holds for it, or its path is not of two segments below the root. -/
def passedOver (metadataPath : Str) (e : WalkEntry) : Bool :=
  e.err.isNone
    && ((!hasSuffix e.filePath ".sql".data && !hasSuffix e.filePath ".json".data
          && !e.isRegular)
        || (entryNames metadataPath e.filePath).length != 2)

/-- The entry `e` of the walk is the JSON sidecar of the identity `t` of the manifest:
it is visited without error, it is not a statement file, its two path segments decode to
the database and the table of `t`, and reading it gives, without failure, the document
that fetching the blob of `t` gives without failure. -/
def IsSidecarOf (envL : LocalEnv) (envR : RemoteEnv) (metadataPath backupName : Str)
    (e : WalkEntry) (t : TableTitle) : Prop :=
  e.err = none
  ∧ hasSuffix e.filePath ".sql".data = false
  ∧ (entryNames metadataPath e.filePath).length = 2
  ∧ envL.pathUnescape ((entryNames metadataPath e.filePath).getD 0 []) = t.Database
  ∧ envL.pathUnescape ((entryNames metadataPath e.filePath).getD 1 []) = t.Table
  ∧ ∃ data, envL.readFile e.filePath = Except.ok data
      ∧ ∃ tmReader, envR.getFileReader (remotePathOf envR backupName t) = Except.ok tmReader
          ∧ tmReader.data = Except.ok data ∧ tmReader.closeErr = none

/-- The local tree and the remote backup hold the same metadata: the entries of the walk
that are not passed over are, in order, the JSON sidecars of the identities of the
manifest; both sides decode JSON alike and have the same skip list; and the cancellation
signal is never raised. -/
def SameMetadata (envL : LocalEnv) (envR : RemoteEnv) (metadataPath : Str)
    (manifest : BackupMetadata) : Prop :=
  List.Forall₂ (IsSidecarOf envL envR metadataPath manifest.BackupName)
      ((envL.walk metadataPath).filter (fun e => !passedOver metadataPath e))
      manifest.Tables
  ∧ envL.unmarshal = envR.unmarshal
  ∧ envL.SkipTables = envR.SkipTables
  ∧ ∀ k, envR.ctxDone k = none

/-- A remote environment for examples in which the cancellation signal is raised from
the `n`-th look at it on. -/
def exCancelledEnv (files : List (String × String)) (n : Nat) : RemoteEnv :=
  { exRemoteEnv files [] with
    ctxDone := fun k => if n ≤ k then some "context canceled".data else none }

/-- A local environment for examples whose walk visits, after the root, the directory
`dir` and then the files of `files`; reading a directory fails. -/
def exLocalEnvWithDir (dir : String) (files : List (String × String)) : LocalEnv :=
  { exLocalEnv files [] with
    walk := fun root =>
      ⟨root, false, none⟩ :: ⟨dir.data, false, none⟩
        :: files.map (fun f => ⟨f.1.data, true, none⟩),
    readFile := fun path =>
      if path = dir.data then Except.error "is a directory".data else exReadFile files path }

/-! ### Statements of several lines -/

/-- Go: `strings.Join(lines, "\n")`: the text whose lines are `lines`. -/
def joinLines : List Str → Str
  | [] => []
  | [l] => l
  | l :: m :: rest => l ++ '\n' :: joinLines (m :: rest)

/-- A line of the shape `(CREATE|ATTACH) <kind> database.name` followed by the rest of
the line. -/
structure ShapeLine where
  verb : Str
  kind : Str
  database : Str
  name : Str
  rest : Str
  deriving DecidableEq, Repr

/-- The text of a line of the shape. -/
def ShapeLine.text (l : ShapeLine) : Str :=
  l.verb ++ (' ' :: (l.kind ++ (' ' :: (l.database ++ ('.' :: (l.name ++ l.rest))))))

/-- The line with its database segment replaced by `c`. -/
def ShapeLine.retarget (c : Str) (l : ShapeLine) : ShapeLine :=
  { l with database := c }

/-- A line is of the shape of the statement pattern without a TO clause: the verb is
`CREATE` or `ATTACH`, the kind is one of the five object kinds, database and name are of
the class `[^\s\x60.]`, and the rest of the line does not go on with a character of the
class nor with ` TO `, and holds no newline. -/
def ShapeLine.WellFormed (l : ShapeLine) : Prop :=
  (l.verb = "CREATE".data ∨ l.verb = "ATTACH".data)
  ∧ l.kind ∈ objectKinds
  ∧ (∀ x ∈ l.database, identClass x = true)
  ∧ (∀ x ∈ l.name, identClass x = true)
  ∧ (∀ x ∈ l.rest.head?, identClass x = false)
  ∧ hasPrefix l.rest " TO ".data = false
  ∧ (∀ x ∈ l.rest, x ≠ '\n')

instance (l : ShapeLine) : Decidable l.WellFormed := by
  unfold ShapeLine.WellFormed
  infer_instance

/-- The template of the CREATE branch for the target database `c`, line 163. -/
def createTemplate (c : Str) : Str :=
  "${1} ${2} ${3}".data ++ c ++ "${5}.${6}".data

/-- A statement of three lines of the shape, for examples. -/
def exThreeLines : List ShapeLine :=
  [⟨"CREATE".data, "TABLE".data, "a".data, "b".data, " (x UInt64)".data⟩,
   ⟨"CREATE".data, "VIEW".data, "z".data, "v".data, " AS SELECT 1".data⟩,
   ⟨"ATTACH".data, "TABLE".data, "q".data, "w".data, " (y Int8)".data⟩]

/-! ## Package `metrics`: the gauges and counters of the API server

`src/pkg/server/metrics/metrics.go`. A Prometheus gauge is modelled by the number last
set on it and a counter by the number of its increments; the code only sets integers
(Unix seconds, nanoseconds, and the status values 0, 1, 2). What is written to the
logger is kept as a list of messages. The clock is read three times in a run:
`time.Now()` at the start, `time.Since(startTime)` and `time.Now()` at the end; the three
readings are parameters. The registry of `prometheus.MustRegister` is outside the
model. -/

/-- Go: a `map[string]prometheus.Gauge` or `map[string]prometheus.Counter`: the keys in
the order of their insertion, each with the value its metric holds. -/
abbrev MetricMap := List (Str × Int)

/-- Go: `_, exists := m[command]`. -/
def MetricMap.contains (m : MetricMap) (command : Str) : Bool :=
  (m.lookup command).isSome

/-- Go: `m[command].Set(v)` for a key of the map. -/
def MetricMap.Set (m : MetricMap) (command : Str) (v : Int) : MetricMap :=
  m.map (fun kv => if kv.1 = command then (kv.1, v) else kv)

/-- Go: `type APIMetrics struct`, lines 18-34: the six maps by command, the seven single
gauges (`none` before they are created), and what has been written to `log`. -/
structure APIMetrics where
  SuccessfulCounter : MetricMap
  FailedCounter : MetricMap
  LastStart : MetricMap
  LastFinish : MetricMap
  LastDuration : MetricMap
  LastStatus : MetricMap
  LastBackupSizeLocal : Option Int
  LastBackupSizeRemote : Option Int
  NumberBackupsRemote : Option Int
  NumberBackupsRemoteBroken : Option Int
  NumberBackupsLocal : Option Int
  NumberBackupsRemoteExpected : Option Int
  NumberBackupsLocalExpected : Option Int
  log : List Str
  deriving DecidableEq, Repr

/-- Go: `NewAPIMetrics()`, lines 36-41: no map and no gauge yet. -/
def NewAPIMetrics : APIMetrics :=
  { SuccessfulCounter := [], FailedCounter := [], LastStart := [], LastFinish := [],
    LastDuration := [], LastStatus := [],
    LastBackupSizeLocal := none, LastBackupSizeRemote := none, NumberBackupsRemote := none,
    NumberBackupsRemoteBroken := none, NumberBackupsLocal := none,
    NumberBackupsRemoteExpected := none, NumberBackupsLocalExpected := none,
    log := [] }

/-- Go: `commandList` of `RegisterMetrics`, line 45. -/
def commandList : List Str :=
  ["create".data, "upload".data, "download".data, "restore".data, "create_remote".data,
   "restore_remote".data, "delete".data]

/-- Go: `(m *APIMetrics).RegisterMetrics()`, lines 44-157: fresh metrics, all at 0, for
every command of `commandList` and for the single gauges; then, lines 154-156, the status
gauge of every command is set to 2. -/
def APIMetrics.RegisterMetrics (m : APIMetrics) : APIMetrics :=
  { m with
    SuccessfulCounter := commandList.map (fun command => (command, 0)),
    FailedCounter := commandList.map (fun command => (command, 0)),
    LastStart := commandList.map (fun command => (command, 0)),
    LastFinish := commandList.map (fun command => (command, 0)),
    LastDuration := commandList.map (fun command => (command, 0)),
    LastStatus :=
      commandList.foldl (fun lastStatus command => MetricMap.Set lastStatus command 2)
        (commandList.map (fun command => (command, 0))),
    LastBackupSizeLocal := some 0, LastBackupSizeRemote := some 0,
    NumberBackupsRemote := some 0, NumberBackupsRemoteBroken := some 0,
    NumberBackupsLocal := some 0, NumberBackupsRemoteExpected := some 0,
    NumberBackupsLocalExpected := some 0 }

/-- Go: `m.log.Warnf("%s not found in m", command)`. -/
def notFoundWarning (command : Str) : Str :=
  command ++ " not found in m".data

/-- Go: `(m *APIMetrics).Start(command, startTime)`, lines 159-165, `startUnix` being
`startTime.Unix()`. -/
def APIMetrics.Start (m : APIMetrics) (command : Str) (startUnix : Int) : APIMetrics :=
  if MetricMap.contains m.LastStart command then
    { m with LastStart := MetricMap.Set m.LastStart command startUnix }
  else { m with log := m.log ++ [notFoundWarning command] }

/-- Go: `(m *APIMetrics).Finish(command, startTime)`, lines 166-173, `sinceNanos` being
`time.Since(startTime).Nanoseconds()` and `nowUnix` being `time.Now().Unix()`. -/
def APIMetrics.Finish (m : APIMetrics) (command : Str) (sinceNanos nowUnix : Int) :
    APIMetrics :=
  if MetricMap.contains m.LastStart command then
    { m with
      LastDuration := MetricMap.Set m.LastDuration command sinceNanos,
      LastFinish := MetricMap.Set m.LastFinish command nowUnix }
  else { m with log := m.log ++ [notFoundWarning command] }

/-- Go: `(m *APIMetrics).Success(command)`, lines 174-179: the branch of a command that
exists is empty. -/
def APIMetrics.Success (m : APIMetrics) (command : Str) : APIMetrics :=
  if MetricMap.contains m.LastStart command then m
  else { m with log := m.log ++ [notFoundWarning command] }

/-- Go: `(m *APIMetrics).Failure(command)`, lines 181-186: the branch of a command that
exists is empty. -/
def APIMetrics.Failure (m : APIMetrics) (command : Str) : APIMetrics :=
  if MetricMap.contains m.LastStart command then m
  else { m with log := m.log ++ [notFoundWarning command] }

/-- Go: arithmetic of `int` on a 64-bit platform: the result wraps around. -/
def wrapInt64 (x : Int) : Int :=
  (x + 2 ^ 63) % 2 ^ 64 - 2 ^ 63

/-- The three readings of the clock in one call of `ExecuteWithMetrics`. -/
structure ClockReadings where
  startUnix : Int
  sinceNanos : Int
  finishUnix : Int
  deriving DecidableEq, Repr

/-- Go: the results `(error, int)` of `ExecuteWithMetrics`, with the metrics after the
call. -/
structure ExecuteResult where
  metrics : APIMetrics
  err : Option Err
  errCounter : Int
  deriving DecidableEq, Repr

/-- Go: `(m *APIMetrics).ExecuteWithMetrics(command, errCounter, f)`, lines 188-202. The
function `f` is run on the metrics as they are after `Start` and gives the metrics after
it (a function that does not touch them gives them back) and its error. -/
def APIMetrics.ExecuteWithMetrics (m : APIMetrics) (clock : ClockReadings) (command : Str)
    (errCounter : Int) (f : APIMetrics → APIMetrics × Option Err) : ExecuteResult :=
  match f (m.Start command clock.startUnix) with
  | (m1, some err) =>
    { metrics :=
        APIMetrics.Failure
          { (m1.Finish command clock.sinceNanos clock.finishUnix) with
            log := (m1.Finish command clock.sinceNanos clock.finishUnix).log
              ++ ["metrics.ExecuteWithMetrics(".data ++ command ++ ") return error: ".data
                    ++ err] }
          command,
      err := some err,
      errCounter := wrapInt64 (errCounter + 1) }
  | (m1, none) =>
    { metrics := APIMetrics.Success (m1.Finish command clock.sinceNanos clock.finishUnix)
        command,
      err := none,
      errCounter := 0 }

/-- A function `f` for examples: it leaves the metrics as they are and returns `err`. -/
def exRun (err : Option Err) : APIMetrics → APIMetrics × Option Err :=
  fun m => (m, err)

/-! ### The failure of a build at an entry -/

/-- The error that ends the local build at an entry of the walk, if there is one: the
error `Walk` reports for the entry; or, when the entry is read, the error of
`os.ReadFile` on its path, or else the error of the making of the record from its text
(of `os.Stat` for a statement file, of `json.Unmarshal` for a JSON file). -/
def localFailure (fpMatch : Str → Str → MatchResult) (env : LocalEnv) (metadataPath : Str)
    (tablePatterns : List Str) (partitionsFilter : EmptyMap) (e : WalkEntry) : Option Err :=
  match e.err with
  | some err => some err
  | none =>
    match localReadOf fpMatch env metadataPath tablePatterns e with
    | none => none
    | some ev =>
      match env.readFile ev.path with
      | Except.error err => some err
      | Except.ok data =>
        match localRecord env metadataPath partitionsFilter (hasSuffix ev.path ".sql".data)
            (entryNames metadataPath ev.path) ev.Database ev.Table data with
        | Except.error err => some err
        | Except.ok _ => none

/-- The error that ends the remote build at an entry of the manifest when the
cancellation signal is not raised, if there is one: when the document of the entry is
fetched, the first error among those of `GetFileReader`, `io.ReadAll`, `Close` and
`json.Unmarshal` on it. -/
def remoteFailure (fpMatch : Str → Str → MatchResult) (env : RemoteEnv) (backupName : Str)
    (tablePatterns : List Str) (t : TableTitle) : Option Err :=
  match remoteReadOf fpMatch env backupName tablePatterns t with
  | none => none
  | some ev =>
    match remoteRecord env ev.path with
    | Except.error err => some err
    | Except.ok _ => none

/-- A local environment for examples whose walk visits the files of `files` and then
reports the error `err` for the path `broken`. -/
def exLocalEnvBrokenWalk (files : List (String × String)) (broken err : String) : LocalEnv :=
  { exLocalEnv files [] with
    walk := fun root =>
      ⟨root, false, none⟩ :: (files.map (fun f => (⟨f.1.data, true, none⟩ : WalkEntry))
        ++ [⟨broken.data, false, some err.data⟩]) }

/-- A local environment for examples whose walk visits the files of `files` and then the
file `missing`, which cannot be read. -/
def exLocalEnvUnreadable (files : List (String × String)) (missing : String) : LocalEnv :=
  { exLocalEnv files [] with
    walk := fun root =>
      ⟨root, false, none⟩ :: (files.map (fun f => (⟨f.1.data, true, none⟩ : WalkEntry))
        ++ [⟨missing.data, true, none⟩]) }

/-- A remote environment for examples in which `Close` fails on the reader of the
document at `path`. -/
def exRemoteEnvCloseFails (files : List (String × String)) (path err : String) : RemoteEnv :=
  { exRemoteEnv files [] with
    getFileReader := fun p =>
      match exReadFile files ("/".data ++ p) with
      | Except.ok data =>
        Except.ok ⟨Except.ok data, if p = path.data then some err.data else none⟩
      | Except.error e => Except.error e }

/-- A local environment for examples in which `os.Stat` fails on the path `path` with
the error `err`, which is not the absence of the path. -/
def exLocalEnvStatFails (files : List (String × String)) (path err : String) : LocalEnv :=
  { exLocalEnv files [] with
    stat := fun p => if p = path.data then some err.data else none }

/-- A remote environment for examples in which `io.ReadAll` fails on the reader of the
document at `path`. -/
def exRemoteEnvReadAllFails (files : List (String × String)) (path err : String) :
    RemoteEnv :=
  { exRemoteEnv files [] with
    getFileReader := fun p =>
      match exReadFile files ("/".data ++ p) with
      | Except.ok data =>
        Except.ok ⟨if p = path.data then Except.error err.data else Except.ok data, none⟩
      | Except.error e => Except.error e }

/-! ### What a match is made of, and the observations of the ranker -/

/-- The relation between the positions before and after a match of an expression, read off
the expression: `r.Den s s'` holds when `r` can match from position `s` and end at `s'`,
with the groups of `s'` those of `s` and the groups captured on the way. Whatever match the
backtracking matcher finds is one of these. -/
def Regex.Den : Regex → MState → MState → Prop
  | .lit w, s, s' => s.rest = w ++ s'.rest ∧ s'.prev = lastOr s.prev w ∧ s'.caps = s.caps
  | .cls p, s, s' =>
    ∃ c, p c = true ∧ s.rest = c :: s'.rest ∧ s'.prev = some c ∧ s'.caps = s.caps
  | .star p, s, s' =>
    ∃ w, (∀ x ∈ w, p x = true) ∧ s.rest = w ++ s'.rest ∧ s'.prev = lastOr s.prev w
      ∧ s'.caps = s.caps
  | .bol, s, s' => (s.prev = none ∨ s.prev = some '\n') ∧ s' = s
  | .seq a b, s, s' => ∃ m, a.Den s m ∧ b.Den m s'
  | .alt a b, s, s' => a.Den s s' ∨ b.Den s s'
  | .opt a, s, s' => a.Den s s' ∨ s' = s
  | .cap n a, s, s' =>
    ∃ m, a.Den s m
      ∧ s' = ⟨m.prev, m.rest, (n, s.rest.take (s.rest.length - m.rest.length)) :: m.caps⟩

/-- The text `P` read so far fits the character `prev` before the position: nothing has
been read at the start of the text, and after a newline the text read ends with it. -/
def LineCtx (P : Str) (prev : Option Char) : Prop :=
  (prev = none → P = []) ∧ (prev = some '\n' → ∃ P' : Str, P = P' ++ ['\n'])

/-- Go: the statement prefixes that `getOrderByEngine` tests with `strings.HasPrefix`,
lines 257-272. -/
def orderPrefixes : List Str :=
  ["CREATE DICTIONARY".data, "CREATE VIEW".data, "CREATE LIVE VIEW".data,
    "CREATE WINDOW VIEW".data, "ATTACH WINDOW VIEW".data, "CREATE MATERIALIZED VIEW".data,
    "ATTACH MATERIALIZED VIEW".data, "CREATE TABLE".data]

/-- Go: the markers that `getOrderByEngine` looks for with `strings.Contains`, lines 254
and 272. -/
def orderMarkers : List Str :=
  ["ENGINE = Distributed".data, "ENGINE = Kafka".data, "ENGINE = RabbitMQ".data,
    ".inner_id.".data, ".inner.".data]

/-- The matches of `queryRE` in a statement suit the template that lines 161-166 choose
for it: when some line begins with `CREATE` the template ends with group 6, and no match
extends over a TO clause; otherwise the template is the one for `ATTACH ... TO ...`, and
every match extends over a TO clause. A match extends over a TO clause exactly when its
text holds ` TO `. -/
def templateFits (query : Str) : Bool :=
  if (createRE.FindAllString query).length > 0 then
    (queryRE.FindAllString query).all (fun m => !strContains m " TO ".data)
  else
    (queryRE.FindAllString query).all (fun m => strContains m " TO ".data)

/-- Every match of the expression `r`, which captures no group, covers a text with the
property `Q` and leaves the groups as they are. -/
def Takes (r : Regex) (Q : Str → Prop) : Prop :=
  ∀ s s' : MState, r.Den s s' → ∃ w, Q w ∧ s.rest = w ++ s'.rest ∧ s'.caps = s.caps

/-- A catalog for examples: an inner table of a materialized view with a backticked name
and a UUID literal, a view with its SELECT, an attached materialized view with a TO
clause, a distributed table, a record without statement, all of database `a`, and a
dictionary of database `z`. -/
def exRemapCatalog : ListOfTables :=
  [exRecord "a" "CREATE TABLE a.\x60.inner.mv\x60 UUID 'ab-12' (x UInt64)",
    exRecord "a" "CREATE VIEW a.v AS SELECT x FROM a.t",
    exRecord "a" "ATTACH MATERIALIZED VIEW a.mv TO a.dst AS SELECT 1",
    exRecord "a" "CREATE TABLE a.d (x UInt64) ENGINE = Distributed('c', 'a', 't')",
    exRecord "a" "",
    exRecord "z" "CREATE DICTIONARY z.d (k UInt64)"]

/-! # Theorems -/

/-! ## Sorting: the contract and the two instances -/

section SortLemmas
variable {α : Type}

theorem siftLeft_perm (less : α → α → Bool) (x : α) (rev : List α) :
    (siftLeft less x rev).Perm (x :: rev) := by
  induction rev with
  | nil => simp [siftLeft]
  | cons y ys ih =>
    simp only [siftLeft]
    split
    · exact (List.Perm.cons y ih).trans (List.Perm.swap x y ys)
    · exact List.Perm.refl _

theorem foldl_siftLeft_perm (less : α → α → Bool) (l acc : List α) :
    (l.foldl (fun rev x => siftLeft less x rev) acc).Perm (l.reverse ++ acc) := by
  induction l generalizing acc with
  | nil => simp
  | cons x xs ih =>
    simp only [List.foldl_cons, List.reverse_cons, List.append_assoc, List.singleton_append]
    exact (ih _).trans (List.Perm.append_left _ (siftLeft_perm less x acc))

theorem insertionSort_func_perm (less : α → α → Bool) (l : List α) :
    (insertionSort_func less l).Perm l := by
  unfold insertionSort_func
  refine (List.reverse_perm _).trans ?_
  have h := foldl_siftLeft_perm less l []
  simp only [List.append_nil] at h
  exact h.trans (List.reverse_perm l)

theorem siftLeft_chain (less : α → α → Bool) (hless : StrictWeakOrder less) (x : α)
    (rev : List α) (h : rev.Chain' (fun a b => less a b = false)) :
    (siftLeft less x rev).Chain' (fun a b => less a b = false) := by
  induction rev with
  | nil => simp [siftLeft]
  | cons y ys ih =>
    simp only [siftLeft]
    split
    · rename_i hxy
      have hyx : less y x = false := by
        cases hc : less y x with
        | false => rfl
        | true =>
          have := hless.2.1 x y x hxy hc
          rw [hless.1 x] at this
          exact absurd this (by simp)
      have ih2 := ih (List.Chain'.tail h)
      refine List.Chain'.cons' ih2 ?_
      intro z hz
      cases ys with
      | nil =>
        simp only [siftLeft, List.head?_cons, Option.mem_def, Option.some.injEq] at hz
        subst hz; exact hyx
      | cons w ws =>
        simp only [siftLeft] at hz
        split at hz
        · simp only [List.head?_cons, Option.mem_def, Option.some.injEq] at hz
          subst hz
          exact (List.chain'_cons.mp h).1
        · simp only [List.head?_cons, Option.mem_def, Option.some.injEq] at hz
          subst hz; exact hyx
    · rename_i hxy
      exact List.chain'_cons.mpr ⟨by simpa using hxy, h⟩

theorem foldl_siftLeft_chain (less : α → α → Bool) (hless : StrictWeakOrder less)
    (l acc : List α) (h : acc.Chain' (fun a b => less a b = false)) :
    (l.foldl (fun rev x => siftLeft less x rev) acc).Chain' (fun a b => less a b = false) := by
  induction l generalizing acc with
  | nil => simpa using h
  | cons x xs ih => exact ih _ (siftLeft_chain less hless x acc h)

theorem insertionSort_func_sorted (less : α → α → Bool) (hless : StrictWeakOrder less)
    (l : List α) : IsSortedBy less (insertionSort_func less l) := by
  unfold IsSortedBy insertionSort_func
  rw [List.chain'_reverse]
  exact foldl_siftLeft_chain less hless l [] List.chain'_nil

theorem insertionSort_func_contract :
    SortSliceContract (insertionSort_func : (α → α → Bool) → List α → List α) :=
  fun less l hless => ⟨insertionSort_func_perm less l, insertionSort_func_sorted less hless l⟩

theorem shellSwap_perm (less : α → α → Bool) (xs ys : List α) :
    ((shellSwap less xs ys).1 ++ (shellSwap less xs ys).2).Perm (xs ++ ys) := by
  induction xs generalizing ys with
  | nil => cases ys <;> simp [shellSwap]
  | cons x xs ih =>
    cases ys with
    | nil => simp [shellSwap]
    | cons y ys =>
      have h := ih ys
      simp only [shellSwap]
      split
      · simp only [List.cons_append]
        have h1 : (y :: ((shellSwap less xs ys).1 ++ x :: (shellSwap less xs ys).2)).Perm
            (y :: x :: ((shellSwap less xs ys).1 ++ (shellSwap less xs ys).2)) :=
          List.Perm.cons y List.perm_middle
        refine h1.trans ((List.Perm.swap x y _).trans (List.Perm.cons x ?_))
        exact (List.Perm.cons y h).trans List.perm_middle.symm
      · simp only [List.cons_append]
        refine List.Perm.cons x ?_
        exact List.perm_middle.trans ((List.Perm.cons y h).trans List.perm_middle.symm)

theorem shellPass_perm (less : α → α → Bool) (l : List α) : (shellPass less l).Perm l := by
  unfold shellPass
  have h := shellSwap_perm less (l.take 6) (l.drop 6)
  rwa [List.take_append_drop] at h

theorem shellInsertionSort_contract :
    SortSliceContract (shellInsertionSort : (α → α → Bool) → List α → List α) :=
  fun less l hless =>
    ⟨(insertionSort_func_perm less _).trans (shellPass_perm less l),
      insertionSort_func_sorted less hless _⟩

theorem keyLess_strictWeakOrder (key : α → Int) :
    StrictWeakOrder (fun x y => decide (key x < key y)) := by
  refine ⟨?_, ?_, ?_⟩
  · intro a; simp
  · intro a b c h1 h2
    simp only [decide_eq_true_eq] at h1 h2 ⊢
    omega
  · intro a b c h1 h2
    simp only [decide_eq_false_iff_not, not_lt] at h1 h2 ⊢
    omega

theorem sortSlice_key_perm_sorted (sortSlice : (α → α → Bool) → List α → List α)
    (hS : SortSliceContract sortSlice) (key : α → Int) (l : List α) :
    (sortSlice (fun x y => decide (key x < key y)) l).Perm l ∧
      (sortSlice (fun x y => decide (key x < key y)) l).Pairwise (fun a b => key a ≤ key b) := by
  obtain ⟨hp, hs⟩ := hS (fun x y => decide (key x < key y)) l (keyLess_strictWeakOrder key)
  refine ⟨hp, ?_⟩
  unfold IsSortedBy at hs
  have hs2 : (sortSlice (fun x y => decide (key x < key y)) l).Chain'
      (fun a b => key a ≤ key b) := by
    refine List.Chain'.imp ?_ hs
    intro a b h
    simpa using h
  haveI : IsTrans α (fun a b => key a ≤ key b) := ⟨fun a b c h1 h2 => le_trans h1 h2⟩
  exact List.chain'_iff_pairwise.mp hs2

theorem eq_of_perm_of_sorted_keys (key : α → Int) (l₁ l₂ : List α) (hp : l₁.Perm l₂)
    (h1 : l₁.Pairwise (fun a b => key a ≤ key b))
    (h2 : l₂.Pairwise (fun a b => key a ≤ key b))
    (hnd : (l₂.map key).Nodup) : l₁ = l₂ := by
  have hnd1 : (l₁.map key).Nodup := (hp.map key).nodup_iff.mpr hnd
  have s1 : l₁.Pairwise (fun a b => key a < key b) := by
    have := List.Pairwise.and h1 (List.pairwise_map.mp hnd1)
    exact this.imp (fun h => lt_of_le_of_ne h.1 h.2)
  have s2 : l₂.Pairwise (fun a b => key a < key b) := by
    have := List.Pairwise.and h2 (List.pairwise_map.mp hnd)
    exact this.imp (fun h => lt_of_le_of_ne h.1 h.2)
  haveI : IsAntisymm α (fun a b => key a < key b) :=
    ⟨fun a b h1 h2 => absurd h1 (not_lt.mpr (le_of_lt h2))⟩
  exact List.eq_of_perm_of_sorted hp s1 s2

theorem siftLeft_filter (key : α → Int) (k : Int) (x : α) (rev : List α) :
    (siftLeft (fun x y => decide (key x < key y)) x rev).filter (fun a => key a = k) =
      (x :: rev).filter (fun a => key a = k) := by
  induction rev with
  | nil => simp [siftLeft]
  | cons y ys ih =>
    simp only [siftLeft]
    split
    · rename_i hxy
      simp only [decide_eq_true_eq] at hxy
      rw [List.filter_cons, ih]
      by_cases hx : key x = k
      · have hy : ¬ key y = k := by omega
        simp [List.filter_cons, hx, hy]
      · simp [List.filter_cons, hx]
    · rfl

theorem foldl_siftLeft_filter (key : α → Int) (k : Int) (l acc : List α) :
    (l.foldl (fun rev x => siftLeft (fun x y => decide (key x < key y)) x rev) acc).filter
        (fun a => key a = k) =
      (l.reverse ++ acc).filter (fun a => key a = k) := by
  induction l generalizing acc with
  | nil => simp
  | cons x xs ih =>
    simp only [List.foldl_cons, List.reverse_cons, List.append_assoc, List.singleton_append]
    rw [ih, List.filter_append, List.filter_append, siftLeft_filter]

theorem insertionSort_func_stable (key : α → Int) (k : Int) (l : List α) :
    (insertionSort_func (fun x y => decide (key x < key y)) l).filter (fun a => key a = k) =
      l.filter (fun a => key a = k) := by
  unfold insertionSort_func
  rw [List.filter_reverse, foldl_siftLeft_filter]
  simp [List.filter_reverse]


end SortLemmas

/-! ## Dependency order ranker -/

/-- C1 (counterexample): whichever keywords count as "creation keywords", the decision
table as worded differs from the code. With CREATE alone, `ATTACH MATERIALIZED VIEW a.v`
has priority 2 in the code and 0 in the table; with CREATE and ATTACH, `ATTACH VIEW a.v`
has priority 0 in the code and 2 in the table. -/
theorem getOrderByEngine_ne_specTable :
    (getOrderByEngine "ATTACH MATERIALIZED VIEW a.v".data false = 2 ∧
      evalTable (specTable ["CREATE".data]) "ATTACH MATERIALIZED VIEW a.v".data false = 0) ∧
    (getOrderByEngine "ATTACH VIEW a.v".data false = 0 ∧
      evalTable (specTable ["CREATE".data, "ATTACH".data]) "ATTACH VIEW a.v".data false = 2) := by
  decide

/-- C1 (amended): for every statement text and direction, `getOrderByEngine` equals the
decision table evaluated first-match-wins, where the VIEW row is: begins with CREATE VIEW,
CREATE LIVE VIEW, CREATE WINDOW VIEW, CREATE MATERIALIZED VIEW, ATTACH WINDOW VIEW or
ATTACH MATERIALIZED VIEW; the DICTIONARY row is: begins with CREATE DICTIONARY; the TABLE
row is: begins with CREATE TABLE and contains an inner table marker. -/
theorem getOrderByEngine_eq_prefixTable (q : Str) (d : Bool) :
    getOrderByEngine q d = evalTable prefixTable q d := by
  have hview : (hasPrefix q "CREATE VIEW".data || hasPrefix q "CREATE LIVE VIEW".data ||
        hasPrefix q "CREATE WINDOW VIEW".data || hasPrefix q "ATTACH WINDOW VIEW".data ||
        hasPrefix q "CREATE MATERIALIZED VIEW".data ||
        hasPrefix q "ATTACH MATERIALIZED VIEW".data) =
      (beginsWithKeyword ["CREATE".data] "VIEW".data q
        || beginsWithKeyword ["CREATE".data, "ATTACH".data] "MATERIALIZED VIEW".data q
        || beginsWithKeyword ["CREATE".data] "LIVE VIEW".data q
        || beginsWithKeyword ["CREATE".data, "ATTACH".data] "WINDOW VIEW".data q) := by
    simp only [beginsWithKeyword, List.any, Bool.or_false]
    change (hasPrefix q "CREATE VIEW".data || hasPrefix q "CREATE LIVE VIEW".data ||
        hasPrefix q "CREATE WINDOW VIEW".data || hasPrefix q "ATTACH WINDOW VIEW".data ||
        hasPrefix q "CREATE MATERIALIZED VIEW".data ||
        hasPrefix q "ATTACH MATERIALIZED VIEW".data) =
      (hasPrefix q "CREATE VIEW".data ||
        (hasPrefix q "CREATE MATERIALIZED VIEW".data ||
          hasPrefix q "ATTACH MATERIALIZED VIEW".data) ||
        hasPrefix q "CREATE LIVE VIEW".data ||
        (hasPrefix q "CREATE WINDOW VIEW".data || hasPrefix q "ATTACH WINDOW VIEW".data))
    cases hasPrefix q "CREATE VIEW".data <;> cases hasPrefix q "CREATE LIVE VIEW".data <;>
      cases hasPrefix q "CREATE WINDOW VIEW".data <;>
      cases hasPrefix q "ATTACH WINDOW VIEW".data <;>
      cases hasPrefix q "CREATE MATERIALIZED VIEW".data <;>
      cases hasPrefix q "ATTACH MATERIALIZED VIEW".data <;> rfl
  have hdict : hasPrefix q "CREATE DICTIONARY".data =
      beginsWithKeyword ["CREATE".data] "DICTIONARY".data q := by
    simp only [beginsWithKeyword, List.any, Bool.or_false]; rfl
  have htab : hasPrefix q "CREATE TABLE".data =
      beginsWithKeyword ["CREATE".data] "TABLE".data q := by
    simp only [beginsWithKeyword, List.any, Bool.or_false]; rfl
  unfold getOrderByEngine evalTable prefixTable
  rw [hview, hdict, htab]
  simp only [List.find?]
  generalize (strContains q "ENGINE = Distributed".data || strContains q "ENGINE = Kafka".data
      || strContains q "ENGINE = RabbitMQ".data) = e1
  generalize beginsWithKeyword ["CREATE".data] "DICTIONARY".data q = e2
  generalize (beginsWithKeyword ["CREATE".data] "VIEW".data q
        || beginsWithKeyword ["CREATE".data, "ATTACH".data] "MATERIALIZED VIEW".data q
        || beginsWithKeyword ["CREATE".data] "LIVE VIEW".data q
        || beginsWithKeyword ["CREATE".data, "ATTACH".data] "WINDOW VIEW".data q) = e3
  generalize (beginsWithKeyword ["CREATE".data] "TABLE".data q
        && (strContains q ".inner_id.".data || strContains q ".inner.".data)) = e4
  cases e1 <;> cases e2 <;> cases e3 <;> cases e4 <;> cases d <;> rfl


/-! ## Catalog sort -/

/-- C2: for every catalog and direction, whatever `sort.Slice` does within its contract,
`ListOfTables.Sort` leaves a permutation of the records in which the priority is
non-decreasing from first to last (so a record of a higher class never precedes one of a
lower class: views after inner tables on create, the reverse on drop, engine-marked
records last); and `[View, Inner, Base]` sorted for create is `[Base, Inner, View]`. -/
theorem Sort_perm_sorted
    (sortSlice : (TableMetadata → TableMetadata → Bool) → ListOfTables → ListOfTables)
    (hS : SortSliceContract sortSlice) (lt : ListOfTables) (dropTable : Bool) :
    (ListOfTables.Sort sortSlice lt dropTable).Perm lt ∧
    (ListOfTables.Sort sortSlice lt dropTable).Pairwise
      (fun x y => getOrderByEngine x.Query dropTable ≤ getOrderByEngine y.Query dropTable) ∧
    ListOfTables.Sort sortSlice [exView, exInner, exBase] false = [exBase, exInner, exView] := by
  refine ⟨?_, ?_, ?_⟩
  · exact (sortSlice_key_perm_sorted sortSlice hS
      (fun x => getOrderByEngine x.Query dropTable) lt).1
  · exact (sortSlice_key_perm_sorted sortSlice hS
      (fun x => getOrderByEngine x.Query dropTable) lt).2
  · have h := sortSlice_key_perm_sorted sortSlice hS
      (fun x => getOrderByEngine x.Query false) [exView, exInner, exBase]
    refine eq_of_perm_of_sorted_keys (fun x => getOrderByEngine x.Query false) _ _
      (h.1.trans ?_) h.2 ?_ ?_
    · exact (List.Perm.swap exInner exView [exBase]).trans
        ((List.Perm.cons exInner (List.Perm.swap exBase exView [])).trans
          ((List.Perm.swap exBase exInner [exView]).trans (List.Perm.refl _)))
    · decide
    · decide

/-- C2 (witness): Go's insertion sort meets the contract, and the theorem applies to the
catalog `[View, Inner, Base]`. -/
theorem Sort_perm_sorted_witness :
    SortSliceContract (insertionSort_func : (TableMetadata → TableMetadata → Bool) → _) ∧
    ((ListOfTables.Sort insertionSort_func [exView, exInner, exBase] false).Perm
        [exView, exInner, exBase] ∧
      (ListOfTables.Sort insertionSort_func [exView, exInner, exBase] false).Pairwise
        (fun x y => getOrderByEngine x.Query false ≤ getOrderByEngine y.Query false) ∧
      ListOfTables.Sort insertionSort_func [exView, exInner, exBase] false
        = [exBase, exInner, exView]) :=
  ⟨insertionSort_func_contract,
    Sort_perm_sorted insertionSort_func insertionSort_func_contract
      [exView, exInner, exBase] false⟩

/-- C3 (counterexample): two sorts that `sort.Slice` really runs change the order of
same-priority records. The Shell pass followed by insertion sort (Go up to 1.18, short
slices) meets the contract of `sort.Slice` and puts inner table `b` before inner table
`a`, and base table `c` before `t1`, in the seven-record catalog. The pattern-defeating
quicksort (Go 1.19 and later) moves base table `t6` in front of `t1` to `t5` in the
thirteen-record catalog. -/
theorem Sort_not_stable :
    (SortSliceContract (shellInsertionSort : (TableMetadata → TableMetadata → Bool) → _) ∧
      ListOfTables.Sort shellInsertionSort exCatalog7 false =
        [exTable "c" false, exTable "t1" false, exTable "t2" false, exTable "t3" false,
         exTable "t4" false, exTable "b" true, exTable "a" true] ∧
      (ListOfTables.Sort shellInsertionSort exCatalog7 false).filter
          (fun x => getOrderByEngine x.Query false = 1) ≠
        exCatalog7.filter (fun x => getOrderByEngine x.Query false = 1)) ∧
    (ListOfTables.Sort pdqsortShort exCatalog13 false =
        [exTable "t6" false, exTable "t1" false, exTable "t2" false, exTable "t3" false,
         exTable "t4" false, exTable "t5" false, exTable "t7" false, exTable "t8" false,
         exTable "t9" false, exTable "t10" false, exTable "t11" false, exTable "t12" false,
         exTable "a" true] ∧
      (ListOfTables.Sort pdqsortShort exCatalog13 false).filter
          (fun x => getOrderByEngine x.Query false = 0) ≠
        exCatalog13.filter (fun x => getOrderByEngine x.Query false = 0)) :=
  ⟨⟨shellInsertionSort_contract, by decide, by decide⟩, by decide, by decide⟩

/-- C3 (amended): for every catalog, direction and priority `k`, whatever `sort.Slice` does
within its contract, the records of priority `k` after sorting are the records of priority
`k` before sorting (as a permutation) and the sequence of priorities is the one the stable
sort gives; with Go's insertion sort as `sort.Slice` the records of each priority keep their
relative order. -/
theorem Sort_class_perm
    (sortSlice : (TableMetadata → TableMetadata → Bool) → ListOfTables → ListOfTables)
    (hS : SortSliceContract sortSlice) (lt : ListOfTables) (dropTable : Bool) (k : Int) :
    ((ListOfTables.Sort sortSlice lt dropTable).filter
        (fun x => getOrderByEngine x.Query dropTable = k)).Perm
      (lt.filter (fun x => getOrderByEngine x.Query dropTable = k)) ∧
    (ListOfTables.Sort sortSlice lt dropTable).map (fun x => getOrderByEngine x.Query dropTable)
      = (ListOfTables.Sort insertionSort_func lt dropTable).map
          (fun x => getOrderByEngine x.Query dropTable) ∧
    (ListOfTables.Sort insertionSort_func lt dropTable).filter
        (fun x => getOrderByEngine x.Query dropTable = k)
      = lt.filter (fun x => getOrderByEngine x.Query dropTable = k) := by
  have h := sortSlice_key_perm_sorted sortSlice hS
    (fun x => getOrderByEngine x.Query dropTable) lt
  have hi := sortSlice_key_perm_sorted insertionSort_func insertionSort_func_contract
    (fun x => getOrderByEngine x.Query dropTable) lt
  refine ⟨h.1.filter _, ?_, ?_⟩
  · refine List.eq_of_perm_of_sorted (r := LE.le)
      ((h.1.trans hi.1.symm).map _) ?_ ?_
    · exact List.pairwise_map.mpr h.2
    · exact List.pairwise_map.mpr hi.2
  · exact insertionSort_func_stable (fun x => getOrderByEngine x.Query dropTable) k lt

/-- C3 (witness): the amended statement at Go's insertion sort, the seven-record catalog
and the class of inner tables. -/
theorem Sort_class_perm_witness :
    SortSliceContract (insertionSort_func : (TableMetadata → TableMetadata → Bool) → _) ∧
    (ListOfTables.Sort insertionSort_func exCatalog7 false).filter
        (fun x => getOrderByEngine x.Query false = 1)
      = exCatalog7.filter (fun x => getOrderByEngine x.Query false = 1) :=
  ⟨insertionSort_func_contract,
    (Sort_class_perm insertionSort_func insertionSort_func_contract exCatalog7 false 1).2.2⟩

/-- C4 (counterexample): sorted for drop, `[View, Inner, Base]` is `[Base, View, Inner]`,
not `[View, Inner, Base]`: a base table has priority 0 in both directions. -/
theorem Sort_drop_example_ne :
    ListOfTables.Sort insertionSort_func [exView, exInner, exBase] true
      = [exBase, exView, exInner] ∧
    ListOfTables.Sort insertionSort_func [exView, exInner, exBase] true
      ≠ [exView, exInner, exBase] := by
  decide

/-- C4 (amended): with `forDrop = true`, sorting `[View, Inner, Base]` yields
`[Base, View, Inner]`, whatever `sort.Slice` does within its contract. -/
theorem Sort_drop_example
    (sortSlice : (TableMetadata → TableMetadata → Bool) → ListOfTables → ListOfTables)
    (hS : SortSliceContract sortSlice) :
    ListOfTables.Sort sortSlice [exView, exInner, exBase] true = [exBase, exView, exInner] := by
  have h := sortSlice_key_perm_sorted sortSlice hS
    (fun x => getOrderByEngine x.Query true) [exView, exInner, exBase]
  refine eq_of_perm_of_sorted_keys (fun x => getOrderByEngine x.Query true) _ _
    (h.1.trans ?_) h.2 ?_ ?_
  · exact (List.Perm.cons exView (List.Perm.swap exBase exInner [])).trans
      (List.Perm.swap exBase exView [exInner])
  · decide
  · decide

/-- C4 (witness): the amended statement at Go's insertion sort. -/
theorem Sort_drop_example_witness :
    SortSliceContract (insertionSort_func : (TableMetadata → TableMetadata → Bool) → _) ∧
    ListOfTables.Sort insertionSort_func [exView, exInner, exBase] true
      = [exBase, exView, exInner] :=
  ⟨insertionSort_func_contract,
    Sort_drop_example insertionSort_func insertionSort_func_contract⟩

/-! ## The matcher: first-choice success and failure -/

theorem matchLit_append (w : Str) (prev : Option Char) (r : Str) :
    matchLit w prev (w ++ r) = some (lastOr prev w, r) := by
  induction w generalizing prev with
  | nil => cases r <;> rfl
  | cons c cs ih => simp [matchLit, lastOr, ih]

theorem matchLit_eq_none_iff (w : Str) (prev : Option Char) (s : Str) :
    matchLit w prev s = none ↔ hasPrefix s w = false := by
  induction w generalizing prev s with
  | nil => cases s <;> simp [matchLit, hasPrefix]
  | cons c cs ih =>
    cases s with
    | nil => simp [matchLit, hasPrefix]
    | cons x xs =>
      simp only [matchLit, hasPrefix]
      by_cases h : x = c
      · simp [h, ih]
      · simp [h]

theorem matchLit_some (w : Str) (prev : Option Char) (s : Str) (p : Option Char) (r : Str)
    (h : matchLit w prev s = some (p, r)) : s = w ++ r := by
  induction w generalizing prev s with
  | nil =>
    cases s <;> simp [matchLit] at h <;> simp [h]
  | cons c cs ih =>
    cases s with
    | nil => simp [matchLit] at h
    | cons x xs =>
      simp only [matchLit] at h
      by_cases hx : x = c
      · simp only [hx, if_true] at h
        rw [ih _ _ h, hx]; rfl
      · simp [hx] at h

theorem runs_lit (w : Str) (prev : Option Char) (r : Str) (caps : List (Nat × Str)) :
    Runs (Regex.lit w) ⟨prev, w ++ r, caps⟩ ⟨lastOr prev w, r, caps⟩ := by
  intro k _
  simp [Regex.run, matchLit_append]

theorem fails_lit (w : Str) (s : MState) (h : hasPrefix s.rest w = false) :
    Fails (Regex.lit w) s := by
  intro k
  simp [Regex.run, (matchLit_eq_none_iff w s.prev s.rest).mpr h]

theorem runs_seq {a b : Regex} {s s' s'' : MState} (ha : Runs a s s') (hb : Runs b s' s'') :
    Runs (Regex.seq a b) s s'' := by
  intro k hk
  simp only [Regex.run]
  rw [ha (fun x => b.run x k) (by simp only [hb k hk]; exact hk)]
  exact hb k hk

theorem fails_seq_left {a b : Regex} {s : MState} (ha : Fails a s) :
    Fails (Regex.seq a b) s := by
  intro k
  simp only [Regex.run]
  exact ha _

theorem runs_alt_left {a b : Regex} {s s' : MState} (ha : Runs a s s') :
    Runs (Regex.alt a b) s s' := by
  intro k hk
  simp only [Regex.run]
  rw [ha k hk]
  cases h : k s' with
  | none => simp [h] at hk
  | some r => rfl

theorem runs_alt_right {a b : Regex} {s s' : MState} (ha : Fails a s) (hb : Runs b s s') :
    Runs (Regex.alt a b) s s' := by
  intro k hk
  simp only [Regex.run]
  rw [ha k]
  exact hb k hk

theorem fails_alt {a b : Regex} {s : MState} (ha : Fails a s) (hb : Fails b s) :
    Fails (Regex.alt a b) s := by
  intro k
  simp only [Regex.run]
  rw [ha k]
  exact hb k

theorem runs_opt_skip {a : Regex} {s : MState} (ha : Fails a s) :
    Runs (Regex.opt a) s s := by
  intro k _
  simp only [Regex.run]
  rw [ha k]

theorem runs_opt_take {a : Regex} {s s' : MState} (ha : Runs a s s') :
    Runs (Regex.opt a) s s' := by
  intro k hk
  simp only [Regex.run]
  rw [ha k hk]
  cases h : k s' with
  | none => simp [h] at hk
  | some r => rfl

theorem take_append_sub (w r : Str) : (w ++ r).take ((w ++ r).length - r.length) = w := by
  simp

theorem runs_cap {a : Regex} (n : Nat) {p p' : Option Char} {w r : Str}
    {caps caps' : List (Nat × Str)} (ha : Runs a ⟨p, w ++ r, caps⟩ ⟨p', r, caps'⟩) :
    Runs (Regex.cap n a) ⟨p, w ++ r, caps⟩ ⟨p', r, (n, w) :: caps'⟩ := by
  intro k hk
  simp only [Regex.run]
  have h := ha (fun s' => k ⟨s'.prev, s'.rest,
    (n, (w ++ r).take ((w ++ r).length - s'.rest.length)) :: s'.caps⟩)
  simp only [take_append_sub] at h
  exact h hk

theorem fails_cap {a : Regex} (n : Nat) {s : MState} (ha : Fails a s) :
    Fails (Regex.cap n a) s := by
  intro k
  simp only [Regex.run]
  exact ha _

theorem runs_bol_start (rest : Str) (caps : List (Nat × Str)) :
    Runs Regex.bol ⟨none, rest, caps⟩ ⟨none, rest, caps⟩ := by
  intro k _
  simp [Regex.run]

theorem starLoop_append (p : Char → Bool) (caps : List (Nat × Str))
    (k : MState → Option MState) (w r : Str) (prev : Option Char)
    (hw : ∀ x ∈ w, p x = true) (hk : (k ⟨lastOr prev w, r, caps⟩).isSome = true) :
    starLoop p caps k prev (w ++ r) = starLoop p caps k (lastOr prev w) r := by
  induction w generalizing prev with
  | nil => rfl
  | cons c cs ih =>
    have hc : p c = true := hw c (List.mem_cons_self _ _)
    have hcs : ∀ x ∈ cs, p x = true := fun x hx => hw x (List.mem_cons_of_mem _ hx)
    simp only [List.cons_append, starLoop, hc, if_true, lastOr]
    have ih' := ih (some c) hcs hk
    simp only [HAppend.hAppend, Append.append] at ih' ⊢
    rw [ih']
    cases h : starLoop p caps k (lastOr (some c) cs) r with
    | some x => rfl
    | none =>
      exfalso
      cases r with
      | nil => simp [starLoop] at h; simp [lastOr, h] at hk
      | cons y ys =>
        simp only [starLoop] at h
        split at h
        · split at h
          · simp at h
          · simp [lastOr, h] at hk
        · simp [lastOr, h] at hk

theorem runs_star (p : Char → Bool) (caps : List (Nat × Str)) (w r : Str)
    (prev : Option Char) (hw : ∀ x ∈ w, p x = true)
    (hr : ∀ c cs, r = c :: cs → p c = false) :
    Runs (Regex.star p) ⟨prev, w ++ r, caps⟩ ⟨lastOr prev w, r, caps⟩ := by
  intro k hk
  simp only [Regex.run]
  rw [starLoop_append p caps k w r prev hw hk]
  cases r with
  | nil => rfl
  | cons c cs => simp [starLoop, hr c cs rfl]

theorem execAt_of_runs {re : Regex} {prev : Option Char} {rest : Str} {s' : MState}
    (h : Runs re ⟨prev, rest, []⟩ s') : re.execAt prev rest = some s' := by
  unfold Regex.execAt
  exact h some rfl

theorem execAt_of_fails {re : Regex} {prev : Option Char} {rest : Str}
    (h : Fails re ⟨prev, rest, []⟩) : re.execAt prev rest = none :=
  h some

/-! ## The statement pattern `queryRE` on the known shapes -/

theorem identClass_ne (x : Char) (h : identClass x = true) :
    x ≠ '\x60' ∧ x ≠ '.' ∧ x ≠ ' ' ∧ x ≠ '\n' := by
  simp only [identClass, Bool.and_eq_true, Bool.not_eq_true', Bool.or_eq_false_iff,
    decide_eq_false_iff_not, bne_iff_ne, ne_eq] at h
  exact ⟨h.1.2, h.2, h.1.1.2, h.1.1.1.1.1.2⟩

theorem hasPrefix_ident_append (a t : Str) (w : Char) (ws : Str)
    (ha : ∀ x ∈ a, identClass x = true) (hw : identClass w = false)
    (ht : hasPrefix t (w :: ws) = false) : hasPrefix (a ++ t) (w :: ws) = false := by
  cases a with
  | nil => simpa using ht
  | cons x xs =>
    have hx := ha x (List.mem_cons_self _ _)
    have : x ≠ w := by
      intro h; rw [h] at hx; rw [hx] at hw; exact Bool.noConfusion hw
    simp [hasPrefix, this]

/-- The alternation of object kinds, group 2 of `queryRE`. -/
theorem runs_kind (kind : Str) (hk : kind ∈ objectKinds) (p : Option Char) (r : Str)
    (caps : List (Nat × Str)) :
    Runs (Regex.alt (Regex.lit "TABLE".data)
          (Regex.alt (Regex.lit "VIEW".data)
            (Regex.alt (Regex.lit "MATERIALIZED VIEW".data)
              (Regex.alt (Regex.lit "DICTIONARY".data) (Regex.lit "FUNCTION".data)))))
      ⟨p, kind ++ r, caps⟩ ⟨lastOr p kind, r, caps⟩ := by
  simp only [objectKinds, List.mem_cons, List.mem_singleton, List.not_mem_nil, or_false] at hk
  rcases hk with h | h | h | h | h <;> subst h
  · exact runs_alt_left (runs_lit _ _ _ _)
  · exact runs_alt_right (fails_lit _ _ rfl) (runs_alt_left (runs_lit _ _ _ _))
  · exact runs_alt_right (fails_lit _ _ rfl) (runs_alt_right (fails_lit _ _ rfl)
      (runs_alt_left (runs_lit _ _ _ _)))
  · exact runs_alt_right (fails_lit _ _ rfl) (runs_alt_right (fails_lit _ _ rfl)
      (runs_alt_right (fails_lit _ _ rfl) (runs_alt_left (runs_lit _ _ _ _))))
  · exact runs_alt_right (fails_lit _ _ rfl) (runs_alt_right (fails_lit _ _ rfl)
      (runs_alt_right (fails_lit _ _ rfl) (runs_alt_right (fails_lit _ _ rfl)
        (runs_lit _ _ _ _))))

/-- The match of `queryRE` at the start of `CREATE <kind> a.b<tail>`, where the tail
neither continues the name nor opens a TO clause: groups 1 to 6 are `CREATE`, the kind,
nothing, `a`, nothing, `b`, and the match ends where the tail begins. -/
theorem queryRE_runs_create (kind a b tail : Str) (hk : kind ∈ objectKinds)
    (ha : ∀ x ∈ a, identClass x = true) (hb : ∀ x ∈ b, identClass x = true)
    (ht1 : ∀ c cs, tail = c :: cs → identClass c = false)
    (ht2 : hasPrefix tail " TO ".data = false) :
    Runs queryRE
      ⟨none, "CREATE".data ++ (' ' :: (kind ++ (' ' :: (a ++ ('.' :: (b ++ tail)))))), []⟩
      ⟨lastOr (some '.') b, tail,
        [(6, b), (5, []), (4, a), (3, []), (2, kind), (1, "CREATE".data)]⟩ := by
  simp only [queryRE, Regex.cat]
  refine runs_seq (runs_bol_start _ _) ?_
  refine runs_seq (runs_cap 1 (runs_alt_left (runs_lit _ _ _ _))) ?_
  refine runs_seq (runs_lit [' '] _ _ _) ?_
  refine runs_seq (runs_cap 2 (runs_kind kind hk _ _ _)) ?_
  refine runs_seq (runs_lit [' '] _ _ _) ?_
  refine runs_seq (runs_cap (w := []) 3 (runs_opt_skip (fails_lit _ _ ?_))) ?_
  · exact hasPrefix_ident_append a _ _ _ ha rfl rfl
  refine runs_seq (runs_cap 4 (runs_star identClass _ a _ _ ha ?_)) ?_
  · intro c cs h; cases h; rfl
  refine runs_seq (runs_cap (w := []) 5 (runs_opt_skip (fails_lit _ _ rfl))) ?_
  refine runs_seq (runs_lit ['.'] _ _ _) ?_
  refine runs_seq (runs_cap 6 (runs_star identClass _ b _ _ hb ht1)) ?_
  exact runs_opt_skip (fails_seq_left (fails_cap 7 (fails_lit _ _ ht2)))

/-! ## The replace and find loops -/

theorem replaceAllFrom_skip (re : Regex) (repl : Str → List (Nat × Str) → Str) (w s : Str)
    (am : Bool) (prev : Option Char) :
    replaceAllFrom re repl w.length am prev (w ++ s)
      = replaceAllFrom re repl 0 am (lastOr prev w) s := by
  induction w generalizing prev with
  | nil => rfl
  | cons c cs ih =>
    simp only [List.length_cons, List.cons_append, replaceAllFrom, lastOr]
    exact ih (some c)

/-- One step of the replace loop at a position where a non-empty match `m :: ms` is found:
the match is replaced and the walk resumes right after it. -/
theorem replaceAllFrom_match (re : Regex) (repl : Str → List (Nat × Str) → Str) (m : Char)
    (ms tail : Str) (am : Bool) (prev : Option Char) (st : MState)
    (h : re.execAt prev (m :: (ms ++ tail)) = some st) (hst : st.rest = tail) :
    replaceAllFrom re repl 0 am prev (m :: (ms ++ tail))
      = repl (m :: ms) st.caps ++ replaceAllFrom re repl 0 true (lastOr (some m) ms) tail := by
  have hlen : (m :: (ms ++ tail)).length - tail.length = ms.length + 1 := by
    simp only [List.length_cons, List.length_append]; omega
  simp only [replaceAllFrom, h, hst, hlen, Nat.add_sub_cancel, Nat.succ_ne_zero, if_false,
    List.take_succ_cons, List.take_left', replaceAllFrom_skip]

/-- One step of the replace loop at a position where nothing matches. -/
theorem replaceAllFrom_nomatch (re : Regex) (repl : Str → List (Nat × Str) → Str) (c : Char)
    (cs : Str) (am : Bool) (prev : Option Char) (h : re.execAt prev (c :: cs) = none) :
    replaceAllFrom re repl 0 am prev (c :: cs)
      = c :: replaceAllFrom re repl 0 false (some c) cs := by
  simp only [replaceAllFrom, h]

theorem findAllFrom_nomatch (re : Regex) (c : Char) (cs : Str) (am : Bool)
    (prev : Option Char) (h : re.execAt prev (c :: cs) = none) :
    findAllFrom re 0 am prev (c :: cs) = findAllFrom re 0 false (some c) cs := by
  simp only [findAllFrom, h]

theorem findAllFrom_match (re : Regex) (m : Char) (ms tail : Str) (am : Bool)
    (prev : Option Char) (st : MState)
    (h : re.execAt prev (m :: (ms ++ tail)) = some st) (hst : st.rest = tail) :
    ∃ l, findAllFrom re 0 am prev (m :: (ms ++ tail)) = (m :: ms) :: l := by
  have hlen : (m :: (ms ++ tail)).length - tail.length = ms.length + 1 := by
    simp only [List.length_cons, List.length_append]; omega
  refine ⟨findAllFrom re ms.length true (some m) (ms ++ tail), ?_⟩
  simp only [findAllFrom, h, hst, hlen, Nat.add_sub_cancel, Nat.succ_ne_zero, if_false,
    List.take_succ_cons, List.take_left']

/-! ## Line anchored patterns -/

/-- The anchor `(?m)^` holds at the start of the text and after a newline. -/
theorem fails_bol_seq (x : Regex) (c : Char) (hc : c ≠ '\n') (rest : Str)
    (caps : List (Nat × Str)) : Fails (Regex.seq Regex.bol x) ⟨some c, rest, caps⟩ := by
  intro k
  simp [Regex.run, hc]

theorem fails_bol_seq_of_fails (x : Regex) (s : MState) (h : Fails x s) :
    Fails (Regex.seq Regex.bol x) s := by
  intro k
  simp only [Regex.run]
  cases hp : s.prev with
  | none => simp only [h _]
  | some c =>
    simp only []
    split
    · exact h _
    · rfl

/-- A pattern anchored at a line start does not match at a position that is not a line
start, nor at a line start where what follows the anchor fails. -/
theorem fails_anchored (x : Regex) (prev : Option Char) (rest : Str)
    (h : (prev = none ∨ prev = some '\n') → Fails x ⟨prev, rest, []⟩) :
    Fails (Regex.seq Regex.bol x) ⟨prev, rest, []⟩ := by
  cases prev with
  | none => exact fails_bol_seq_of_fails x _ (h (Or.inl rfl))
  | some c =>
    by_cases hc : c = '\n'
    · subst hc; exact fails_bol_seq_of_fails x _ (h (Or.inr rfl))
    · exact fails_bol_seq x c hc rest []

theorem strContains_cons_false (c : Char) (cs sub : Str)
    (h : strContains (c :: cs) sub = false) :
    hasPrefix (c :: cs) sub = false ∧ strContains cs sub = false := by
  simpa [strContains] using h

theorem hasPrefix_newline_cons (cs w : Str) :
    hasPrefix ('\n' :: cs) ('\n' :: w) = hasPrefix cs w := by
  simp [hasPrefix]

/-- A text in which no line begins with `CREATE` or `ATTACH` is left as it is by the
replacement of `queryRE`. -/
theorem replaceAllFrom_queryRE_id (repl : Str → List (Nat × Str) → Str) (s : Str)
    (prev : Option Char) (am : Bool)
    (h0 : (prev = none ∨ prev = some '\n') →
      hasPrefix s "CREATE".data = false ∧ hasPrefix s "ATTACH".data = false)
    (h1 : strContains s ('\n' :: "CREATE".data) = false)
    (h2 : strContains s ('\n' :: "ATTACH".data) = false) :
    replaceAllFrom queryRE repl 0 am prev s = s := by
  induction s generalizing prev am with
  | nil =>
    have hf : queryRE.execAt prev [] = none := by
      refine execAt_of_fails ?_
      simp only [queryRE, Regex.cat]
      exact fails_bol_seq_of_fails _ _
        (fails_seq_left (fails_cap 1 (fails_alt (fails_lit _ _ rfl) (fails_lit _ _ rfl))))
    simp only [replaceAllFrom, hf]
  | cons c cs ih =>
    have hf : queryRE.execAt prev (c :: cs) = none := by
      refine execAt_of_fails ?_
      simp only [queryRE, Regex.cat]
      refine fails_anchored _ _ _ (fun hp => ?_)
      exact fails_seq_left (fails_cap 1
        (fails_alt (fails_lit _ _ (h0 hp).1) (fails_lit _ _ (h0 hp).2)))
    rw [replaceAllFrom_nomatch _ _ _ _ _ _ hf]
    have h1' := strContains_cons_false _ _ _ h1
    have h2' := strContains_cons_false _ _ _ h2
    rw [ih (some c) false ?_ h1'.2 h2'.2]
    intro hp
    have hc : c = '\n' := by
      rcases hp with hp | hp
      · exact Option.noConfusion hp
      · exact Option.some.inj hp
    subst hc
    exact ⟨by simpa [hasPrefix_newline_cons] using h1'.1,
      by simpa [hasPrefix_newline_cons] using h2'.1⟩

/-- `(?m)^w` has a match in a text exactly when some line of the text begins with `w`. -/
theorem findAllFrom_anchored (w0 : Char) (ws : Str) (s : Str) (prev : Option Char) (am : Bool) :
    (findAllFrom (Regex.seq Regex.bol (Regex.lit (w0 :: ws))) 0 am prev s).length > 0 ↔
      ((prev = none ∨ prev = some '\n') ∧ hasPrefix s (w0 :: ws) = true)
        ∨ strContains s ('\n' :: w0 :: ws) = true := by
  induction s generalizing prev am with
  | nil =>
    have hf : (Regex.seq Regex.bol (Regex.lit (w0 :: ws))).execAt prev [] = none :=
      execAt_of_fails (fails_bol_seq_of_fails _ _ (fails_lit _ _ rfl))
    simp [findAllFrom, hf, hasPrefix, strContains]
  | cons c cs ih =>
    by_cases hm : (prev = none ∨ prev = some '\n') ∧ hasPrefix (c :: cs) (w0 :: ws) = true
    · have hne : matchLit (w0 :: ws) prev (c :: cs) ≠ none := by
        intro h
        rw [(matchLit_eq_none_iff _ _ _).mp h] at hm
        exact Bool.noConfusion hm.2
      obtain ⟨⟨p, r⟩, hpr⟩ := Option.ne_none_iff_exists'.mp hne
      have hs := matchLit_some _ _ _ _ _ hpr
      have hex : (Regex.seq Regex.bol (Regex.lit (w0 :: ws))).execAt prev (c :: cs)
          = some ⟨p, r, []⟩ := by
        unfold Regex.execAt
        rcases hm.1 with hp | hp <;> subst hp <;> simp [Regex.run, hpr]
      have hc : c = w0 := by
        have := congrArg List.head? hs
        simpa using this
      have hcs : cs = ws ++ r := by
        have := congrArg List.tail hs
        simpa using this
      subst hc hcs
      obtain ⟨l, hl⟩ := findAllFrom_match _ c ws r am prev _ hex rfl
      rw [hl]
      simp [hm]
    · have hf : (Regex.seq Regex.bol (Regex.lit (w0 :: ws))).execAt prev (c :: cs) = none := by
        refine execAt_of_fails (fails_anchored _ _ _ (fun hp => fails_lit _ _ ?_))
        cases h : hasPrefix (c :: cs) (w0 :: ws) with
        | false => rfl
        | true => exact absurd ⟨hp, h⟩ hm
      rw [findAllFrom_nomatch _ _ _ _ _ hf, ih (some c) false]
      have e1 : strContains (c :: cs) ('\n' :: w0 :: ws)
          = (hasPrefix (c :: cs) ('\n' :: w0 :: ws) || strContains cs ('\n' :: w0 :: ws)) := rfl
      rw [e1]
      by_cases hc : c = '\n'
      · subst hc
        simp [hasPrefix_newline_cons, hm]
      · have : hasPrefix (c :: cs) ('\n' :: w0 :: ws) = false := by simp [hasPrefix, hc]
        simp [this, hc, hm]

theorem createRE_findAll (s : Str) :
    (createRE.FindAllString s).length > 0 ↔ someLineBeginsWith "CREATE".data s = true := by
  unfold Regex.FindAllString createRE someLineBeginsWith
  rw [show "CREATE".data = 'C' :: "REATE".data from rfl, findAllFrom_anchored]
  simp

theorem attachRE_findAll (s : Str) :
    (attachRE.FindAllString s).length > 0 ↔ someLineBeginsWith "ATTACH".data s = true := by
  unfold Regex.FindAllString attachRE someLineBeginsWith
  rw [show "ATTACH".data = 'A' :: "TTACH".data from rfl, findAllFrom_anchored]
  simp

/-! ## Template expansion -/

/-- Text without `$` is copied by the expansion. -/
theorem expandFrom_append_plain (uni : Char → Bool) (caps : List (Nat × Str)) (c t : Str)
    (hc : ∀ x ∈ c, x ≠ '$') :
    expandFrom uni caps 0 (c ++ t) = c ++ expandFrom uni caps 0 t := by
  induction c with
  | nil => rfl
  | cons x xs ih =>
    have hx : x ≠ '$' := hc x (List.mem_cons_self _ _)
    simp only [List.cons_append, expandFrom, hx, if_false]
    exact congrArg (x :: ·) (ih (fun y hy => hc y (List.mem_cons_of_mem _ hy)))

/-- A variable with a one digit name in braces is replaced by the text of that group. -/
theorem expandFrom_braced (uni : Char → Bool) (caps : List (Nat × Str)) (d : Char) (n : Nat)
    (t : Str) (hd : isNameRune uni d = true) (hn : parseNum [d] 0 = some n) :
    expandFrom uni caps 0 ('$' :: '{' :: d :: '}' :: t)
      = groupText caps (some n) ++ expandFrom uni caps 0 t := by
  have hb : isNameRune uni '}' = false := by simp [isNameRune]
  have hx : extract uni ('{' :: d :: '}' :: t) = some ([d], some n, t) := by
    simp [extract, List.takeWhile, List.dropWhile, hd, hb, hn, nameNum]
  have hlen : ('{' :: d :: '}' :: t).length - t.length = 3 := by
    simp only [List.length_cons]; omega
  have hh : ('{' :: d :: '}' :: t).head? ≠ some '$' := by simp
  simp only [expandFrom, if_true, hx, hlen, hh, if_false]

theorem isNameRune_digit (uni : Char → Bool) (d : Char) (h : d.isDigit = true) :
    isNameRune uni d = true := by
  have h1 : d.toNat < 128 := by
    simp only [Char.isDigit, Bool.and_eq_true, decide_eq_true_eq] at h
    have := h.2
    simp only [Char.toNat]
    exact Nat.lt_of_le_of_lt (UInt32.le_def.mp this) (by decide)
  simp [isNameRune, h1, h]

/-- The expansion of the template of the CREATE branch against the groups of a match
without TO clause. -/
theorem expand_create_template (uni : Char → Bool) (m g1 kind a b c g3 g5 : Str)
    (hc : ∀ x ∈ c, x ≠ '$') :
    expandFrom uni ((0, m) :: [(6, b), (5, g5), (4, a), (3, g3), (2, kind), (1, g1)]) 0
        ("${1} ${2} ${3}".data ++ c ++ "${5}.${6}".data)
      = g1 ++ (' ' :: (kind ++ (' ' :: (g3 ++ (c ++ (g5 ++ ('.' :: b))))))) := by
  have e : "${1} ${2} ${3}".data ++ c ++ "${5}.${6}".data
      = '$' :: '{' :: '1' :: '}' :: ([' '] ++ ('$' :: '{' :: '2' :: '}' :: ([' '] ++
          ('$' :: '{' :: '3' :: '}' :: (c ++ ('$' :: '{' :: '5' :: '}' :: (['.'] ++
            ('$' :: '{' :: '6' :: '}' :: [])))))))) := by
    simp only [List.append_assoc]
    rfl
  rw [e]
  rw [expandFrom_braced uni _ '1' 1 _ (isNameRune_digit uni _ (by decide)) (by decide)]
  rw [expandFrom_append_plain uni _ [' '] _ (by decide)]
  rw [expandFrom_braced uni _ '2' 2 _ (isNameRune_digit uni _ (by decide)) (by decide)]
  rw [expandFrom_append_plain uni _ [' '] _ (by decide)]
  rw [expandFrom_braced uni _ '3' 3 _ (isNameRune_digit uni _ (by decide)) (by decide)]
  rw [expandFrom_append_plain uni _ c _ hc]
  rw [expandFrom_braced uni _ '5' 5 _ (isNameRune_digit uni _ (by decide)) (by decide)]
  rw [expandFrom_append_plain uni _ ['.'] _ (by decide)]
  rw [expandFrom_braced uni _ '6' 6 _ (isNameRune_digit uni _ (by decide)) (by decide)]
  simp [groupText, List.lookup, expandFrom]

/-! ## UUID literals -/

theorem findAllFrom_uuid_step (c : Char) (cs : Str) (am : Bool) (prev : Option Char)
    (h : hasPrefix (c :: cs) "UUID '".data = false) :
    findAllFrom uuidRE 0 am prev (c :: cs) = findAllFrom uuidRE 0 false (some c) cs := by
  refine findAllFrom_nomatch _ _ _ _ _ (execAt_of_fails ?_)
  simp only [uuidRE, Regex.cat]
  exact fails_seq_left (fails_lit _ _ h)

theorem findAllFrom_uuid_step_ne (c : Char) (cs : Str) (am : Bool) (prev : Option Char)
    (h : c ≠ 'U') :
    findAllFrom uuidRE 0 am prev (c :: cs) = findAllFrom uuidRE 0 false (some c) cs :=
  findAllFrom_uuid_step c cs am prev (by simp [hasPrefix, h])

theorem findAllFrom_uuid_step_ne2 (c d : Char) (cs : Str) (am : Bool) (prev : Option Char)
    (h : d ≠ 'U') :
    findAllFrom uuidRE 0 am prev (c :: d :: cs)
      = findAllFrom uuidRE 0 false (some c) (d :: cs) :=
  findAllFrom_uuid_step c (d :: cs) am prev (by simp [hasPrefix, h])

/-- No UUID literal starts within a run of characters other than the blank that is
followed by a blank and an opening parenthesis. -/
theorem hasPrefix_uuid_nonblank (x body : Str) (hx : ∀ y ∈ x, y ≠ ' ') :
    hasPrefix (x ++ (' ' :: '(' :: body)) "UUID '".data = false := by
  rcases x with _ | ⟨x1, _ | ⟨x2, _ | ⟨x3, _ | ⟨x4, _ | ⟨x5, x6⟩⟩⟩⟩⟩
  · rfl
  · simp [hasPrefix]
  · simp [hasPrefix]
  · simp [hasPrefix]
  · simp [hasPrefix]
  · have h5 : x5 ≠ ' ' := hx x5 (by simp)
    simp [hasPrefix, h5]

theorem findAllFrom_uuid_nonblank (x body : Str) (hx : ∀ y ∈ x, y ≠ ' ') (am : Bool)
    (prev : Option Char) :
    findAllFrom uuidRE 0 am prev (x ++ (' ' :: '(' :: body))
      = findAllFrom uuidRE 0 false (some ' ') ('(' :: body) := by
  induction x generalizing am prev with
  | nil => exact findAllFrom_uuid_step _ _ _ _ rfl
  | cons c cs ih =>
    have h := hasPrefix_uuid_nonblank (c :: cs) body hx
    rw [List.cons_append] at h ⊢
    rw [findAllFrom_uuid_step _ _ _ _ h]
    exact ih (fun y hy => hx y (List.mem_cons_of_mem _ hy)) _ _

theorem data_CREATE : "CREATE".data = ['C', 'R', 'E', 'A', 'T', 'E'] := rfl
theorem data_ATTACH : "ATTACH".data = ['A', 'T', 'T', 'A', 'C', 'H'] := rfl
theorem data_TABLE : "TABLE".data = ['T', 'A', 'B', 'L', 'E'] := rfl
theorem data_VIEW : "VIEW".data = ['V', 'I', 'E', 'W'] := rfl
theorem data_MATERIALIZED_VIEW : "MATERIALIZED VIEW".data
    = ['M', 'A', 'T', 'E', 'R', 'I', 'A', 'L', 'I', 'Z', 'E', 'D', ' ', 'V', 'I', 'E', 'W'] := rfl
theorem data_DICTIONARY : "DICTIONARY".data
    = ['D', 'I', 'C', 'T', 'I', 'O', 'N', 'A', 'R', 'Y'] := rfl
theorem data_FUNCTION : "FUNCTION".data = ['F', 'U', 'N', 'C', 'T', 'I', 'O', 'N'] := rfl

/-- A statement `CREATE <kind> c.b (...)` holds a UUID literal only if its remainder
` (...)` does. -/
theorem uuid_findAll_create (kind c b body : Str) (hk : kind ∈ objectKinds)
    (hc : ∀ x ∈ c, identClass x = true) (hb : ∀ x ∈ b, identClass x = true)
    (h : uuidRE.FindAllString (' ' :: '(' :: body) = []) :
    uuidRE.FindAllString
      ("CREATE".data ++ (' ' :: (kind ++ (' ' :: (c ++ ('.' :: b) ++ (' ' :: '(' :: body))))))
      = [] := by
  have hx : ∀ y ∈ c ++ ('.' :: b), y ≠ ' ' := by
    intro y hy
    rcases List.mem_append.mp hy with h1 | h1
    · exact (identClass_ne y (hc y h1)).2.2.1
    · rcases List.mem_cons.mp h1 with h2 | h2
      · rw [h2]; decide
      · exact (identClass_ne y (hb y h2)).2.2.1
  have hend : findAllFrom uuidRE 0 false (some ' ') ('(' :: body) = [] := by
    unfold Regex.FindAllString at h
    rwa [findAllFrom_uuid_step ' ' ('(' :: body) false none rfl] at h
  unfold Regex.FindAllString
  simp only [objectKinds, List.mem_cons, List.mem_singleton, List.not_mem_nil, or_false] at hk
  rcases hk with hk | hk | hk | hk | hk <;> subst hk <;>
    simp only [data_CREATE, data_TABLE, data_VIEW, data_MATERIALIZED_VIEW, data_DICTIONARY,
      data_FUNCTION, List.cons_append, List.nil_append] <;>
    simp (disch := decide) only [findAllFrom_uuid_step_ne, findAllFrom_uuid_step_ne2] <;>
    rw [findAllFrom_uuid_nonblank _ _ hx] <;>
    exact hend

/-! ## Remap of a `CREATE <kind> a.b (...)` statement -/

theorem hasPrefix_append_self (w r : Str) : hasPrefix (w ++ r) w = true := by
  induction w with
  | nil => cases r <;> rfl
  | cons c cs ih => simp [hasPrefix, ih]

/-- The replacement of `queryRE` in `CREATE <kind> a.b (...)` with the template of the
CREATE branch for target `c`: the database segment becomes `c`, nothing else changes. -/
theorem queryRE_replace_create (uni : Char → Bool) (kind a b c body : Str)
    (hk : kind ∈ objectKinds)
    (ha : ∀ x ∈ a, identClass x = true) (hb : ∀ x ∈ b, identClass x = true)
    (hc : ∀ x ∈ c, x ≠ '$')
    (h1 : strContains (' ' :: '(' :: body) ('\n' :: "CREATE".data) = false)
    (h2 : strContains (' ' :: '(' :: body) ('\n' :: "ATTACH".data) = false) :
    queryRE.ReplaceAllString uni
        ("CREATE".data ++ (' ' :: (kind ++ (' ' :: (a ++ ('.' :: (b ++ (' ' :: '(' :: body))))))))
        ("${1} ${2} ${3}".data ++ c ++ "${5}.${6}".data)
      = "CREATE".data ++ (' ' :: (kind ++ (' ' :: (c ++ ('.' :: b) ++ (' ' :: '(' :: body))))) := by
  have hrun := queryRE_runs_create kind a b (' ' :: '(' :: body) hk ha hb
    (by intro x xs h; cases h; rfl) rfl
  have hex := execAt_of_runs hrun
  have e2 : "CREATE".data ++ (' ' :: (kind ++ (' ' :: (a ++ ('.' :: (b ++ (' ' :: '(' :: body)))))))
      = 'C' :: (("REATE".data ++ (' ' :: (kind ++ (' ' :: (a ++ ('.' :: b))))))
          ++ (' ' :: '(' :: body)) := by
    simp only [data_CREATE, List.cons_append, List.nil_append, List.append_assoc]
  rw [e2] at hex
  unfold Regex.ReplaceAllString
  rw [e2, replaceAllFrom_match queryRE _ 'C' _ _ false none _ hex rfl]
  rw [replaceAllFrom_queryRE_id _ (' ' :: '(' :: body) _ _ (fun _ => ⟨rfl, rfl⟩) h1 h2]
  simp only []
  rw [expand_create_template uni _ _ _ _ _ _ _ _ hc]
  simp only [data_CREATE, List.cons_append, List.nil_append, List.append_assoc]

/-- Remap of a single record `CREATE <kind> a.b (...)` whose database is mapped to `c`,
in normal form. -/
theorem remap_create_core (uni : Char → Bool) (newUUID : Nat → Str)
    (dbMapRule : Str → Option Str) (kind a b c body table : Str)
    (parts : List (Str × List Part)) (i : Nat)
    (hk : kind ∈ objectKinds)
    (ha : ∀ x ∈ a, identClass x = true) (hb : ∀ x ∈ b, identClass x = true)
    (hc : ∀ x ∈ c, identClass x = true ∧ x ≠ '$')
    (hrule : dbMapRule a = some c)
    (h1 : strContains (' ' :: '(' :: body) ('\n' :: "CREATE".data) = false)
    (h2 : strContains (' ' :: '(' :: body) ('\n' :: "ATTACH".data) = false)
    (hu : uuidRE.FindAllString (' ' :: '(' :: body) = []) :
    remapFrom uni newUUID dbMapRule i
        [⟨a, table,
          "CREATE".data ++ (' ' :: (kind ++ (' ' :: (a ++ ('.' :: (b ++ (' ' :: '(' :: body))))))),
          parts⟩]
      = ⟨[⟨c, table,
          "CREATE".data ++ (' ' :: (kind ++ (' ' :: (c ++ ('.' :: b) ++ (' ' :: '(' :: body))))),
          parts⟩], none⟩ := by
  have hcre : (createRE.FindAllString
      ("CREATE".data ++ (' ' :: (kind ++ (' ' :: (a ++ ('.' :: (b ++ (' ' :: '(' :: body))))))))
      ).length > 0 := by
    rw [createRE_findAll]
    unfold someLineBeginsWith
    rw [hasPrefix_append_self]
    rfl
  have hq := queryRE_replace_create uni kind a b c body hk ha hb (fun x hx => (hc x hx).2) h1 h2
  have hu2 := uuid_findAll_create kind c b body hk (fun x hx => (hc x hx).1) hb hu
  simp only [remapFrom, hrule, hcre, if_true, rewriteRecord, hq, hu2, List.length_nil,
    gt_iff_lt, Nat.lt_irrefl, if_false, RemapResult.cons]

/-! ## Errors of the remap -/

theorem remapFrom_err_of_ok (uni : Char → Bool) (newUUID : Nat → Str)
    (dbMapRule : Str → Option Str) (i : Nat) (t : TableMetadata) (rest : ListOfTables)
    (h : unrewritable dbMapRule t = false) :
    (remapFrom uni newUUID dbMapRule i (t :: rest)).err
      = (remapFrom uni newUUID dbMapRule (i + 1) rest).err := by
  simp only [remapFrom]
  cases hr : dbMapRule t.Database with
  | none => rfl
  | some targetDB =>
    simp only [createRE_findAll, attachRE_findAll]
    by_cases h1 : someLineBeginsWith "CREATE".data t.Query = true
    · simp [h1, RemapResult.cons]
    · by_cases h2 : someLineBeginsWith "ATTACH".data t.Query = true
      · simp [h1, h2, RemapResult.cons]
      · by_cases h3 : t.Query = []
        · rw [if_neg h1, if_neg h2, if_pos h3]
          rfl
        · exfalso
          simp [unrewritable, hr, h1, h2, h3] at h

theorem remapFrom_err_of_bad (uni : Char → Bool) (newUUID : Nat → Str)
    (dbMapRule : Str → Option Str) (i : Nat) (t : TableMetadata) (rest : ListOfTables)
    (targetDB : Str) (hr : dbMapRule t.Database = some targetDB)
    (h : unrewritable dbMapRule t = true) :
    remapFrom uni newUUID dbMapRule i (t :: rest)
      = ⟨t :: rest, some (remapError t.Database targetDB t.Query)⟩ := by
  simp only [unrewritable, hr, Option.isSome_some, Bool.true_and, Bool.and_eq_true,
    Bool.not_eq_true', List.isEmpty_eq_false] at h
  obtain ⟨⟨h3, h1⟩, h2⟩ := h
  simp only [remapFrom, hr, createRE_findAll, attachRE_findAll, h1, h2, h3]
  simp

theorem remapFrom_err_iff (uni : Char → Bool) (newUUID : Nat → Str)
    (dbMapRule : Str → Option Str) (i : Nat) (tables : ListOfTables) :
    (remapFrom uni newUUID dbMapRule i tables).err ≠ none ↔
      ∃ t ∈ tables, unrewritable dbMapRule t = true := by
  induction tables generalizing i with
  | nil => simp [remapFrom]
  | cons t rest ih =>
    cases h : unrewritable dbMapRule t with
    | false =>
      rw [remapFrom_err_of_ok uni newUUID dbMapRule i t rest h, ih (i + 1)]
      constructor
      · rintro ⟨x, hx, hb⟩
        exact ⟨x, List.mem_cons_of_mem _ hx, hb⟩
      · rintro ⟨x, hx, hb⟩
        rcases List.mem_cons.mp hx with e | e
        · subst e; rw [h] at hb; exact Bool.noConfusion hb
        · exact ⟨x, e, hb⟩
    | true =>
      have hs : (dbMapRule t.Database).isSome = true := by
        simp only [unrewritable, Bool.and_eq_true] at h
        exact h.1.1.1
      obtain ⟨targetDB, hr⟩ := Option.isSome_iff_exists.mp hs
      rw [remapFrom_err_of_bad uni newUUID dbMapRule i t rest targetDB hr h]
      simp only [ne_eq, reduceCtorEq, not_false_eq_true, true_iff]
      exact ⟨t, List.mem_cons_self _ _, h⟩

theorem remapFrom_err_first (uni : Char → Bool) (newUUID : Nat → Str)
    (dbMapRule : Str → Option Str) (i : Nat) (pre : ListOfTables) (t : TableMetadata)
    (post : ListOfTables) (targetDB : Str)
    (hpre : ∀ x ∈ pre, unrewritable dbMapRule x = false)
    (ht : unrewritable dbMapRule t = true) (hr : dbMapRule t.Database = some targetDB) :
    (remapFrom uni newUUID dbMapRule i (pre ++ t :: post)).err
      = some (remapError t.Database targetDB t.Query) := by
  induction pre generalizing i with
  | nil =>
    rw [List.nil_append, remapFrom_err_of_bad uni newUUID dbMapRule i t post targetDB hr ht]
  | cons x xs ih =>
    rw [List.cons_append,
      remapFrom_err_of_ok uni newUUID dbMapRule i x _ (hpre x (List.mem_cons_self _ _))]
    exact ih (i + 1) (fun y hy => hpre y (List.mem_cons_of_mem _ hy))

/-! ## Database remap query rewriter -/

/-- C5 (failing input): the target name `$1` has no whitespace, backtick or dot, and
remapping `CREATE TABLE a.b (x UInt64)` to it gives `CREATE TABLE CREATE.b (x UInt64)`,
not `CREATE TABLE $1.b (x UInt64)`, while the database of the record becomes `$1`: the
name is pasted into the replacement template unescaped, and its `$1` is read as a
reference to group 1 of the pattern. The defect is the one of C39. -/
theorem remap_dollar_target :
    (∀ x ∈ "$1".data, identClass x = true) ∧
    changeTableQueryToAdjustDatabaseMapping noUnicode exUUID
        [exRecord "a" "CREATE TABLE a.b (x UInt64)"] (rule1 "a".data "$1".data)
      = ⟨[exRecord "$1" "CREATE TABLE CREATE.b (x UInt64)"], none⟩ ∧
    exRecord "$1" "CREATE TABLE CREATE.b (x UInt64)"
      ≠ exRecord "$1" "CREATE TABLE $1.b (x UInt64)" := by
  decide

/-- Remap of a create statement to a target without `$`: for every object kind of the
pattern, every source database `a`, object name `b` and target database `c` without
whitespace, backtick or dot, `c` also without `$`, and every remainder ` (...)` in which
no line begins with CREATE or ATTACH and which holds no UUID literal: remapping the record of database `a` with statement
`CREATE <kind> a.b (...)` by a rule sending `a` to `c` succeeds and leaves the database `c`
and the statement `CREATE <kind> c.b (...)`; table name and parts are untouched. -/
theorem remap_create_statement (uni : Char → Bool) (newUUID : Nat → Str)
    (dbMapRule : Str → Option Str) (kind a b c body table : Str)
    (parts : List (Str × List Part))
    (hk : kind ∈ objectKinds)
    (ha : ∀ x ∈ a, identClass x = true) (hb : ∀ x ∈ b, identClass x = true)
    (hc : ∀ x ∈ c, identClass x = true ∧ x ≠ '$')
    (hrule : dbMapRule a = some c)
    (hcreate : someLineBeginsWith "CREATE".data (" (".data ++ body) = false)
    (hattach : someLineBeginsWith "ATTACH".data (" (".data ++ body) = false)
    (huuid : uuidRE.FindAllString (" (".data ++ body) = []) :
    changeTableQueryToAdjustDatabaseMapping uni newUUID
        [{ Database := a, Table := table, Parts := parts,
           Query := "CREATE ".data ++ kind ++ " ".data ++ a ++ ".".data ++ b ++ " (".data ++ body }]
        dbMapRule
      = { tables :=
            [{ Database := c, Table := table, Parts := parts,
               Query := "CREATE ".data ++ kind ++ " ".data ++ c ++ ".".data ++ b ++ " (".data
                 ++ body }],
          err := none } := by
  have h1 : strContains (' ' :: '(' :: body) ('\n' :: "CREATE".data) = false := by
    have h := hcreate
    simp only [someLineBeginsWith, Bool.or_eq_false_iff] at h
    exact h.2
  have h2 : strContains (' ' :: '(' :: body) ('\n' :: "ATTACH".data) = false := by
    have h := hattach
    simp only [someLineBeginsWith, Bool.or_eq_false_iff] at h
    exact h.2
  have h := remap_create_core uni newUUID dbMapRule kind a b c body table parts 0 hk ha hb hc
    hrule h1 h2 huuid
  unfold changeTableQueryToAdjustDatabaseMapping
  have ea : "CREATE ".data ++ kind ++ " ".data ++ a ++ ".".data ++ b ++ " (".data ++ body
      = "CREATE".data ++ (' ' :: (kind ++ (' ' :: (a ++ ('.' :: (b ++ (' ' :: '(' :: body))))))) := by
    simp only [List.append_assoc]; rfl
  have ec : "CREATE ".data ++ kind ++ " ".data ++ c ++ ".".data ++ b ++ " (".data ++ body
      = "CREATE".data ++ (' ' :: (kind ++ (' ' :: (c ++ ('.' :: b) ++ (' ' :: '(' :: body))))) := by
    simp only [List.append_assoc]; rfl
  rw [ea, ec]
  exact h

/-- The statement of the integration test, `database1.t1` restored with the mapping
`database1:database2`, is remapped as expected. -/
theorem remap_create_statement_witness :
    changeTableQueryToAdjustDatabaseMapping noUnicode exUUID
        [{ Database := "database1".data, Table := "t1".data, Parts := [],
           Query := "CREATE ".data ++ "TABLE".data ++ " ".data ++ "database1".data ++ ".".data
             ++ "t1".data ++ " (".data
             ++ "dt DateTime, v UInt64) ENGINE=MergeTree() PARTITION BY toYYYYMM(dt) ORDER BY dt".data }]
        (rule1 "database1".data "database2".data)
      = { tables :=
            [{ Database := "database2".data, Table := "t1".data, Parts := [],
               Query := "CREATE ".data ++ "TABLE".data ++ " ".data ++ "database2".data
                 ++ ".".data ++ "t1".data ++ " (".data
                 ++ "dt DateTime, v UInt64) ENGINE=MergeTree() PARTITION BY toYYYYMM(dt) ORDER BY dt".data }],
          err := none } :=
  remap_create_statement noUnicode exUUID (rule1 "database1".data "database2".data)
    "TABLE".data "database1".data "t1".data "database2".data
    "dt DateTime, v UInt64) ENGINE=MergeTree() PARTITION BY toYYYYMM(dt) ORDER BY dt".data
    "t1".data [] (by decide) (by decide) (by decide) (by decide) (by decide) (by decide)
    (by decide) (by decide)

/-- C6 (failing input): an ATTACH statement with a TO clause whose databases are wrapped
in backticks. The rewrite drops the closing backtick of the TO database: the template of
the ATTACH branch has no reference to group 10. -/
theorem remap_attach_to_backtick :
    changeTableQueryToAdjustDatabaseMapping noUnicode exUUID
        [exRecord "a" "ATTACH MATERIALIZED VIEW \x60a\x60.mv TO \x60a\x60.dst AS SELECT 1"]
        (rule1 "a".data "c".data)
      = ⟨[exRecord "c" "ATTACH MATERIALIZED VIEW \x60c\x60.mv TO \x60c.dst AS SELECT 1"], none⟩ := by
  decide

/-- C7 (failing input): a CREATE statement with a TO clause. The match of the pattern
covers the TO clause up to the dot, and the template of the CREATE branch stops at group
6: the text ` TO a.` is deleted and the two object names are run together. -/
theorem remap_create_to :
    changeTableQueryToAdjustDatabaseMapping noUnicode exUUID
        [exRecord "a" "CREATE MATERIALIZED VIEW a.mv TO a.dst AS SELECT x FROM a.t"]
        (rule1 "a".data "c".data)
      = ⟨[exRecord "c" "CREATE MATERIALIZED VIEW c.mvdst AS SELECT x FROM a.t"], none⟩ := by
  decide

/-- C8 (failing input): an ATTACH statement without TO clause. The template of the ATTACH
branch writes the target database a second time, after group 6, whether or not a TO clause
was matched: the object name `b` becomes `bc`. -/
theorem remap_attach_plain :
    changeTableQueryToAdjustDatabaseMapping noUnicode exUUID
        [exRecord "a" "ATTACH TABLE a.b (x UInt64)"] (rule1 "a".data "c".data)
      = ⟨[exRecord "c" "ATTACH TABLE c.bc (x UInt64)"], none⟩ := by
  decide

/-- C9 (counterexample): three round trips that do not give the statement back. A source
name `$1` comes back as `CREATE`; a target name `$0` expands to the whole match, which
the way back no longer recognises; and a second line `CREATE TABLE z.w` inside the
statement has its database replaced too, so it comes back naming `a`. -/
theorem remap_round_trip_fails :
    (changeTableQueryToAdjustDatabaseMapping noUnicode exUUID
        (changeTableQueryToAdjustDatabaseMapping noUnicode exUUID
          [exRecord "$1" "CREATE TABLE $1.b (x UInt64)"] (rule1 "$1".data "c".data)).tables
        (rule1 "c".data "$1".data)
      = ⟨[exRecord "$1" "CREATE TABLE CREATE.b (x UInt64)"], none⟩) ∧
    (changeTableQueryToAdjustDatabaseMapping noUnicode exUUID
        (changeTableQueryToAdjustDatabaseMapping noUnicode exUUID
          [exRecord "a" "CREATE TABLE a.b (x UInt64)"] (rule1 "a".data "$0".data)).tables
        (rule1 "$0".data "a".data)
      = ⟨[exRecord "a" "CREATE TABLE CREATE TABLE a.b.b (x UInt64)"], none⟩) ∧
    (changeTableQueryToAdjustDatabaseMapping noUnicode exUUID
        (changeTableQueryToAdjustDatabaseMapping noUnicode exUUID
          [exRecord "a" "CREATE TABLE a.b (x String COMMENT '\nCREATE TABLE z.w')"]
          (rule1 "a".data "c".data)).tables
        (rule1 "c".data "a".data)
      = ⟨[exRecord "a" "CREATE TABLE a.b (x String COMMENT '\nCREATE TABLE a.w')"], none⟩) := by
  decide

/-- C9 (amended): for every record of database `a` with statement `CREATE TABLE a.b (...)`
and every target `c`, where `a`, `b`, `c` have no whitespace, backtick or dot, `a` and `c`
have no `$`, and the remainder ` (...)` has no line beginning with CREATE or ATTACH and no
UUID literal: remapping by `a: c` succeeds, and remapping its result by `c: a` succeeds
and restores the database `a` and the original statement exactly. -/
theorem remap_round_trip (uni : Char → Bool) (newUUID newUUID' : Nat → Str)
    (a b c body table : Str) (parts : List (Str × List Part))
    (ha : ∀ x ∈ a, identClass x = true ∧ x ≠ '$') (hb : ∀ x ∈ b, identClass x = true)
    (hc : ∀ x ∈ c, identClass x = true ∧ x ≠ '$')
    (hcreate : someLineBeginsWith "CREATE".data (" (".data ++ body) = false)
    (hattach : someLineBeginsWith "ATTACH".data (" (".data ++ body) = false)
    (huuid : uuidRE.FindAllString (" (".data ++ body) = []) :
    (changeTableQueryToAdjustDatabaseMapping uni newUUID
        [{ Database := a, Table := table, Parts := parts,
           Query := "CREATE ".data ++ "TABLE".data ++ " ".data ++ a ++ ".".data ++ b ++ " (".data
             ++ body }]
        (rule1 a c)).err = none ∧
    changeTableQueryToAdjustDatabaseMapping uni newUUID'
        (changeTableQueryToAdjustDatabaseMapping uni newUUID
          [{ Database := a, Table := table, Parts := parts,
             Query := "CREATE ".data ++ "TABLE".data ++ " ".data ++ a ++ ".".data ++ b
               ++ " (".data ++ body }]
          (rule1 a c)).tables
        (rule1 c a)
      = { tables :=
            [{ Database := a, Table := table, Parts := parts,
               Query := "CREATE ".data ++ "TABLE".data ++ " ".data ++ a ++ ".".data ++ b
                 ++ " (".data ++ body }],
          err := none } := by
  have hk : "TABLE".data ∈ objectKinds := by decide
  have h1 : strContains (' ' :: '(' :: body) ('\n' :: "CREATE".data) = false := by
    have h := hcreate
    simp only [someLineBeginsWith, Bool.or_eq_false_iff] at h
    exact h.2
  have h2 : strContains (' ' :: '(' :: body) ('\n' :: "ATTACH".data) = false := by
    have h := hattach
    simp only [someLineBeginsWith, Bool.or_eq_false_iff] at h
    exact h.2
  have there := remap_create_core uni newUUID (rule1 a c) "TABLE".data a b c body table parts 0
    hk (fun x hx => (ha x hx).1) hb hc (by simp [rule1]) h1 h2 huuid
  have back := remap_create_core uni newUUID' (rule1 c a) "TABLE".data c b a body table parts 0
    hk (fun x hx => (hc x hx).1) hb ha (by simp [rule1]) h1 h2 huuid
  have ea : "CREATE ".data ++ "TABLE".data ++ " ".data ++ a ++ ".".data ++ b ++ " (".data ++ body
      = "CREATE".data ++ (' ' :: ("TABLE".data ++ (' ' :: (a ++ ('.' :: (b
          ++ (' ' :: '(' :: body))))))) := by
    simp only [List.append_assoc]; rfl
  have ea' : "CREATE".data ++ (' ' :: ("TABLE".data ++ (' ' :: (a ++ ('.' :: b)
        ++ (' ' :: '(' :: body)))))
      = "CREATE".data ++ (' ' :: ("TABLE".data ++ (' ' :: (a ++ ('.' :: (b
          ++ (' ' :: '(' :: body))))))) := by
    simp only [List.append_assoc, List.cons_append]
  have ec' : "CREATE".data ++ (' ' :: ("TABLE".data ++ (' ' :: (c ++ ('.' :: b)
        ++ (' ' :: '(' :: body)))))
      = "CREATE".data ++ (' ' :: ("TABLE".data ++ (' ' :: (c ++ ('.' :: (b
          ++ (' ' :: '(' :: body))))))) := by
    simp only [List.append_assoc, List.cons_append]
  unfold changeTableQueryToAdjustDatabaseMapping
  rw [ea, there]
  refine ⟨rfl, ?_⟩
  rw [ec', back, ea']

/-- C9 (witness): the round trip of `database1.t1` through `database2`. -/
theorem remap_round_trip_witness :
    changeTableQueryToAdjustDatabaseMapping noUnicode exUUID
        (changeTableQueryToAdjustDatabaseMapping noUnicode exUUID
          [{ Database := "database1".data, Table := "t1".data, Parts := [],
             Query := "CREATE ".data ++ "TABLE".data ++ " ".data ++ "database1".data ++ ".".data
               ++ "t1".data ++ " (".data ++ "dt DateTime, v UInt64) ENGINE=MergeTree()".data }]
          (rule1 "database1".data "database2".data)).tables
        (rule1 "database2".data "database1".data)
      = { tables :=
            [{ Database := "database1".data, Table := "t1".data, Parts := [],
               Query := "CREATE ".data ++ "TABLE".data ++ " ".data ++ "database1".data
                 ++ ".".data ++ "t1".data ++ " (".data
                 ++ "dt DateTime, v UInt64) ENGINE=MergeTree()".data }],
          err := none } :=
  (remap_round_trip noUnicode exUUID exUUID "database1".data "t1".data "database2".data
    "dt DateTime, v UInt64) ENGINE=MergeTree()".data "t1".data []
    (by decide) (by decide) (by decide) (by decide) (by decide) (by decide)).2

/-- C10: the remap returns an error exactly when some record whose database is a key of
the rule has a non-empty statement in which no line begins with CREATE and none with
ATTACH; and the error is the message of line 171 for the first such record in catalog
order, built from its database, the target database and its statement. -/
theorem remap_error_iff (uni : Char → Bool) (newUUID : Nat → Str) (tables : ListOfTables)
    (dbMapRule : Str → Option Str) :
    ((changeTableQueryToAdjustDatabaseMapping uni newUUID tables dbMapRule).err ≠ none ↔
      ∃ t ∈ tables, unrewritable dbMapRule t = true) ∧
    (∀ (pre : ListOfTables) (t : TableMetadata) (post : ListOfTables) (targetDB : Str),
      tables = pre ++ t :: post →
      (∀ x ∈ pre, unrewritable dbMapRule x = false) →
      unrewritable dbMapRule t = true →
      dbMapRule t.Database = some targetDB →
      (changeTableQueryToAdjustDatabaseMapping uni newUUID tables dbMapRule).err
        = some ("error when try to replace database \x60".data ++ t.Database
            ++ "\x60 to \x60".data ++ targetDB ++ "\x60 in query: ".data ++ t.Query)) := by
  unfold changeTableQueryToAdjustDatabaseMapping
  refine ⟨remapFrom_err_iff uni newUUID dbMapRule 0 tables, ?_⟩
  intro pre t post targetDB htab hpre ht hr
  subst htab
  exact remapFrom_err_first uni newUUID dbMapRule 0 pre t post targetDB hpre ht hr

/-- C10 (witness): in a catalog of a CREATE record and two DROP records of a mapped
database, the error names the first DROP record. -/
theorem remap_error_iff_witness :
    (changeTableQueryToAdjustDatabaseMapping noUnicode exUUID
        [exRecord "a" "CREATE TABLE a.b (x UInt64)", exRecord "a" "DROP TABLE a.b",
         exRecord "a" "DROP TABLE a.c"] (rule1 "a".data "c".data)).err
      = some "error when try to replace database \x60a\x60 to \x60c\x60 in query: DROP TABLE a.b".data :=
  (remap_error_iff noUnicode exUUID
      [exRecord "a" "CREATE TABLE a.b (x UInt64)", exRecord "a" "DROP TABLE a.b",
       exRecord "a" "DROP TABLE a.c"] (rule1 "a".data "c".data)).2
    [exRecord "a" "CREATE TABLE a.b (x UInt64)"] (exRecord "a" "DROP TABLE a.b")
    [exRecord "a" "DROP TABLE a.c"] "c".data rfl (by decide) (by decide) (by decide)

/-! ## Table record reconciler -/

theorem sameKey_iff (r e : TableMetadata) :
    sameKey r e = true ↔ e.Database = r.Database ∧ e.Table = r.Table := by
  simp [sameKey]

/-- The record the code writes back for a matching entry is the enriched entry of the
reference. -/
theorem enrich_eq (t table : TableMetadata) :
    ({ t with
        Query := if t.Query = [] ∧ table.Query ≠ [] then table.Query else t.Query,
        Parts := if t.Parts.length = 0 ∧ table.Parts.length > 0 then table.Parts
          else t.Parts } : TableMetadata) = enrich t table := by
  simp only [enrich, List.length_eq_zero, List.length_pos, ne_eq]

theorem addTable_cons_match (t : TableMetadata) (rest : ListOfTables) (table : TableMetadata)
    (h : sameKey table t = true) :
    addTableToListIfNotExistsOrEnrichQueryAndParts (t :: rest) table
      = enrich t table :: rest := by
  have h' := (sameKey_iff table t).mp h
  simp only [addTableToListIfNotExistsOrEnrichQueryAndParts, h', and_self, if_true]
  rw [← enrich_eq t table]
  simp only [h'.1, h'.2]

theorem addTable_cons_other (t : TableMetadata) (rest : ListOfTables) (table : TableMetadata)
    (h : sameKey table t = false) :
    addTableToListIfNotExistsOrEnrichQueryAndParts (t :: rest) table
      = t :: addTableToListIfNotExistsOrEnrichQueryAndParts rest table := by
  have h' : ¬ (t.Database = table.Database ∧ t.Table = table.Table) := by
    intro hc
    rw [(sameKey_iff table t).mpr hc] at h
    exact Bool.noConfusion h
  simp only [addTableToListIfNotExistsOrEnrichQueryAndParts, h', if_false]

theorem addTable_eq_append (catalog : ListOfTables) (table : TableMetadata)
    (h : catalog.any (sameKey table) = false) :
    addTableToListIfNotExistsOrEnrichQueryAndParts catalog table = catalog ++ [table] := by
  induction catalog with
  | nil => rfl
  | cons t rest ih =>
    simp only [List.any_cons, Bool.or_eq_false_iff] at h
    rw [addTable_cons_other t rest table h.1, ih h.2, List.cons_append]

theorem sameKey_enrich (r e x : TableMetadata) : sameKey r (enrich e x) = sameKey r e := rfl

theorem enrich_enrich (e r : TableMetadata) : enrich (enrich e r) r = enrich e r := by
  unfold enrich
  by_cases h1 : e.Query = [] <;> by_cases h2 : r.Query = [] <;>
    by_cases h3 : e.Parts = [] <;> by_cases h4 : r.Parts = [] <;>
    simp [h1, h2, h3, h4]

theorem enrich_self (r : TableMetadata) : enrich r r = r := by
  cases r with
  | mk d t q p =>
    unfold enrich
    by_cases h1 : q = [] <;> by_cases h3 : p = [] <;> simp [h1, h3]

/-- C17: for every catalog and record, `addTableToListIfNotExistsOrEnrichQueryAndParts`
equals the reference of the specification: with no entry of the record's (database, table)
the record is appended at the end; otherwise the catalog keeps its length and order, its
first entry of that key gets the incoming query iff its own is empty and the incoming one
is not, and the incoming parts map iff its own is empty and the incoming one is not, and
every other entry is unchanged. -/
theorem addTable_eq_mergeReference (catalog : ListOfTables) (record : TableMetadata) :
    addTableToListIfNotExistsOrEnrichQueryAndParts catalog record
      = mergeReference catalog record := by
  induction catalog with
  | nil => rfl
  | cons t rest ih =>
    cases h : sameKey record t with
    | true =>
      rw [addTable_cons_match t rest record h]
      simp [mergeReference, h, List.findIdx_cons]
    | false =>
      rw [addTable_cons_other t rest record h, ih]
      unfold mergeReference
      simp only [List.any_cons, h, Bool.false_or, List.findIdx_cons, cond_false,
        List.take_succ_cons, List.drop_succ_cons]
      split <;> simp

/-- C18: merging a record twice gives the catalog of merging it once, and when the
catalog had no entry of the record's (database, table) the result has exactly one. -/
theorem addTable_idempotent (c : ListOfTables) (r : TableMetadata) :
    addTableToListIfNotExistsOrEnrichQueryAndParts
        (addTableToListIfNotExistsOrEnrichQueryAndParts c r) r
      = addTableToListIfNotExistsOrEnrichQueryAndParts c r ∧
    (c.any (sameKey r) = false →
      ((addTableToListIfNotExistsOrEnrichQueryAndParts
          (addTableToListIfNotExistsOrEnrichQueryAndParts c r) r).filter (sameKey r)).length
        = 1) := by
  have idem : addTableToListIfNotExistsOrEnrichQueryAndParts
        (addTableToListIfNotExistsOrEnrichQueryAndParts c r) r
      = addTableToListIfNotExistsOrEnrichQueryAndParts c r := by
    induction c with
    | nil =>
      have hs : sameKey r r = true := by simp [sameKey]
      show addTableToListIfNotExistsOrEnrichQueryAndParts [r] r = [r]
      rw [addTable_cons_match r [] r hs, enrich_self]
    | cons t rest ih =>
      cases h : sameKey r t with
      | true =>
        rw [addTable_cons_match t rest r h,
          addTable_cons_match (enrich t r) rest r (by rw [sameKey_enrich]; exact h),
          enrich_enrich]
      | false =>
        rw [addTable_cons_other t rest r h,
          addTable_cons_other t _ r h, ih]
  refine ⟨idem, fun hnone => ?_⟩
  rw [idem, addTable_eq_append c r hnone, List.filter_append]
  have hf : c.filter (sameKey r) = [] := by
    rw [List.filter_eq_nil_iff]
    intro a ha
    have := List.any_eq_false.mp hnone a ha
    simpa using this
  have hs : sameKey r r = true := by simp [sameKey]
  simp [hf, hs]

/-- C19: for every catalog and incoming record, an existing entry whose query is not
empty keeps that query, and an existing entry whose parts map is not empty keeps that
parts map. -/
theorem addTable_keeps_nonempty (catalog : ListOfTables) (r : TableMetadata) (k : Nat)
    (e : TableMetadata) (he : catalog[k]? = some e) :
    (e.Query ≠ [] →
      ((addTableToListIfNotExistsOrEnrichQueryAndParts catalog r)[k]?).map (fun x => x.Query)
        = some e.Query) ∧
    (e.Parts ≠ [] →
      ((addTableToListIfNotExistsOrEnrichQueryAndParts catalog r)[k]?).map (fun x => x.Parts)
        = some e.Parts) := by
  induction catalog generalizing k with
  | nil => simp at he
  | cons t rest ih =>
    cases h : sameKey r t with
    | true =>
      rw [addTable_cons_match t rest r h]
      cases k with
      | zero =>
        simp only [List.getElem?_cons_zero, Option.some.injEq] at he
        subst he
        constructor
        · intro hq; simp [enrich, hq]
        · intro hp; simp [enrich, hp]
      | succ n =>
        simp only [List.getElem?_cons_succ] at he ⊢
        simp [he]
    | false =>
      rw [addTable_cons_other t rest r h]
      cases k with
      | zero =>
        simp only [List.getElem?_cons_zero, Option.some.injEq] at he
        subst he
        simp
      | succ n =>
        simp only [List.getElem?_cons_succ] at he ⊢
        exact ih n he

/-- C19 (witness): A holds query `Q`; merging B of the same identity with an empty query
leaves `Q`. -/
theorem addTable_keeps_nonempty_witness :
    ((addTableToListIfNotExistsOrEnrichQueryAndParts
        [{ Database := "d".data, Table := "t".data, Query := "Q".data, Parts := [] }]
        { Database := "d".data, Table := "t".data, Query := [], Parts := [] })[0]?).map
      (fun x => x.Query) = some "Q".data :=
  (addTable_keeps_nonempty
    [{ Database := "d".data, Table := "t".data, Query := "Q".data, Parts := [] }]
    { Database := "d".data, Table := "t".data, Query := [], Parts := [] } 0
    { Database := "d".data, Table := "t".data, Query := "Q".data, Parts := [] } rfl).1
    (by decide)

/-! ### Catalogs built by successive merges -/

theorem mem_identitiesInOrder (rs : List TableMetadata) (k : Str × Str) :
    k ∈ identitiesInOrder rs ↔ ∃ r ∈ rs, (r.Database, r.Table) = k := by
  induction rs with
  | nil => simp [identitiesInOrder]
  | cons r rs ih =>
    simp only [identitiesInOrder, List.mem_cons, List.mem_filter, ih, decide_eq_true_eq,
      exists_eq_or_imp]
    constructor
    · rintro (h | ⟨h, _⟩)
      · exact Or.inl h.symm
      · exact Or.inr h
    · rintro (h | h)
      · exact Or.inl h.symm
      · by_cases hk : k = (r.Database, r.Table)
        · exact Or.inl hk
        · exact Or.inr ⟨h, hk⟩

theorem identitiesInOrder_nodup (rs : List TableMetadata) : (identitiesInOrder rs).Nodup := by
  induction rs with
  | nil => simp [identitiesInOrder]
  | cons r rs ih =>
    simp only [identitiesInOrder, List.nodup_cons, List.mem_filter, decide_eq_true_eq]
    exact ⟨fun h => h.2 rfl, ih.filter _⟩

theorem identitiesInOrder_snoc (rs : List TableMetadata) (r : TableMetadata) :
    identitiesInOrder (rs ++ [r])
      = identitiesInOrder rs
        ++ (if (r.Database, r.Table) ∈ identitiesInOrder rs then []
            else [(r.Database, r.Table)]) := by
  induction rs with
  | nil => simp [identitiesInOrder]
  | cons x xs ih =>
    have e1 : ∀ l, identitiesInOrder (x :: l) = (x.Database, x.Table)
        :: (identitiesInOrder l).filter (fun k => k ≠ (x.Database, x.Table)) := fun _ => rfl
    rw [List.cons_append, e1, e1, ih]
    simp only [List.filter_append, List.mem_cons, List.mem_filter, decide_eq_true_eq]
    by_cases hx : (r.Database, r.Table) = (x.Database, x.Table)
    · simp [hx]
    · by_cases hm : (r.Database, r.Table) ∈ identitiesInOrder xs
      · simp [hx, hm]
      · simp [hx, hm]

theorem firstNonEmpty_snoc {β : Type} (l : List (List β)) (q : List β) :
    firstNonEmpty (l ++ [q])
      = if (firstNonEmpty l).isEmpty = true then q else firstNonEmpty l := by
  induction l with
  | nil => cases q <;> simp [firstNonEmpty]
  | cons x xs ih =>
    cases x with
    | nil => simpa [firstNonEmpty] using ih
    | cons y ys => simp [firstNonEmpty]

/-- In a catalog whose identities are pairwise distinct, merging a record of an identity
that is present enriches the entries of that identity, which is one entry. -/
theorem addTable_eq_map (catalog : ListOfTables) (r : TableMetadata)
    (hnd : (catalog.map (fun e => (e.Database, e.Table))).Nodup)
    (h : catalog.any (sameKey r) = true) :
    addTableToListIfNotExistsOrEnrichQueryAndParts catalog r
      = catalog.map (fun e => if sameKey r e = true then enrich e r else e) := by
  induction catalog with
  | nil => simp at h
  | cons t rest ih =>
    simp only [List.map_cons, List.nodup_cons, List.mem_map, not_exists, not_and] at hnd
    cases ht : sameKey r t with
    | true =>
      rw [addTable_cons_match t rest r ht]
      simp only [List.map_cons, ht, if_true, List.cons.injEq, true_and]
      have hrest : ∀ e ∈ rest, sameKey r e = false := by
        intro e he
        cases hs : sameKey r e with
        | false => rfl
        | true =>
          exfalso
          have h1 := (sameKey_iff r t).mp ht
          have h2 := (sameKey_iff r e).mp hs
          exact hnd.1 e he (by rw [h1.1, h1.2, h2.1, h2.2])
      symm
      calc rest.map (fun e => if sameKey r e = true then enrich e r else e)
          = rest.map id := List.map_congr_left (fun e he => by simp [hrest e he])
        _ = rest := List.map_id _
    | false =>
      rw [addTable_cons_other t rest r ht]
      simp only [List.any_cons, ht, Bool.false_or] at h
      simp only [List.map_cons, ht, Bool.false_eq_true, if_false, ih hnd.2 h]

theorem observedEntry_snoc (rs : List TableMetadata) (r : TableMetadata) (k : Str × Str) :
    observedEntry (rs ++ [r]) k
      = if (r.Database, r.Table) = k then enrich (observedEntry rs k) r
        else observedEntry rs k := by
  by_cases hk : (r.Database, r.Table) = k
  · simp only [hk, if_true]
    unfold observedEntry enrich
    simp only [List.filter_append, List.map_append, List.filter_cons, hk, decide_True, if_true,
      List.filter_nil, List.map_cons, List.map_nil, firstNonEmpty_snoc]
    congr 1
    · cases h1 : firstNonEmpty (List.map (fun r => r.Query)
          (List.filter (fun r => decide ((r.Database, r.Table) = k)) rs)) with
      | nil => cases r.Query <;> simp
      | cons y ys => simp
    · cases h1 : firstNonEmpty (List.map (fun r => r.Parts)
          (List.filter (fun r => decide ((r.Database, r.Table) = k)) rs)) with
      | nil => cases r.Parts <;> simp
      | cons y ys => simp
  · simp only [hk, if_false]
    unfold observedEntry
    simp [List.filter_append, List.filter_cons, hk]

theorem observedEntry_key (rs : List TableMetadata) (k : Str × Str) :
    ((observedEntry rs k).Database, (observedEntry rs k).Table) = k := rfl

theorem sameKey_observedEntry (rs : List TableMetadata) (r : TableMetadata) (k : Str × Str) :
    sameKey r (observedEntry rs k) = decide ((r.Database, r.Table) = k) := by
  cases k with
  | mk a b =>
    simp only [sameKey, observedEntry, Prod.mk.injEq]
    by_cases h1 : a = r.Database <;> by_cases h2 : b = r.Table <;>
      simp [h1, h2, eq_comm]

theorem observedEntry_absent (rs : List TableMetadata) (k : Str × Str)
    (h : k ∉ identitiesInOrder rs) :
    observedEntry rs k = { Database := k.1, Table := k.2, Query := [], Parts := [] } := by
  have hf : rs.filter (fun r => (r.Database, r.Table) = k) = [] := by
    rw [List.filter_eq_nil_iff]
    intro a ha hk
    exact h ((mem_identitiesInOrder rs k).mpr ⟨a, ha, by simpa using hk⟩)
  simp [observedEntry, hf, firstNonEmpty]

/-- Merging one more record into the reference catalog of a sequence gives the reference
catalog of the longer sequence. -/
theorem firstObservations_snoc (rs : List TableMetadata) (r : TableMetadata) :
    firstObservations (rs ++ [r])
      = addTableToListIfNotExistsOrEnrichQueryAndParts (firstObservations rs) r := by
  have hkeys : (firstObservations rs).map (fun e => (e.Database, e.Table))
      = identitiesInOrder rs := by
    simp only [firstObservations, List.map_map]
    calc (identitiesInOrder rs).map ((fun e => (e.Database, e.Table)) ∘ observedEntry rs)
        = (identitiesInOrder rs).map id := List.map_congr_left (fun k _ => rfl)
      _ = identitiesInOrder rs := List.map_id _
  have hany : (firstObservations rs).any (sameKey r)
      = decide ((r.Database, r.Table) ∈ identitiesInOrder rs) := by
    rw [Bool.eq_iff_iff]
    simp only [firstObservations, List.any_eq_true, List.mem_map, decide_eq_true_eq]
    constructor
    · rintro ⟨x, ⟨k, hk, rfl⟩, hs⟩
      rw [sameKey_observedEntry, decide_eq_true_eq] at hs
      exact hs ▸ hk
    · intro h
      exact ⟨_, ⟨_, h, rfl⟩, by rw [sameKey_observedEntry]; simp⟩
  by_cases hm : (r.Database, r.Table) ∈ identitiesInOrder rs
  · rw [addTable_eq_map _ r (by rw [hkeys]; exact identitiesInOrder_nodup rs)
      (by rw [hany]; simpa using hm)]
    simp only [firstObservations, identitiesInOrder_snoc, hm, if_true, List.append_nil,
      List.map_map]
    refine List.map_congr_left (fun k _ => ?_)
    simp only [Function.comp, observedEntry_snoc, sameKey_observedEntry, decide_eq_true_eq]
  · rw [addTable_eq_append _ r (by rw [hany]; simpa using hm)]
    simp only [firstObservations, identitiesInOrder_snoc, hm, if_false, List.map_append,
      List.map_cons, List.map_nil]
    congr 1
    · refine List.map_congr_left (fun k hk => ?_)
      have hne : ¬ (r.Database, r.Table) = k := fun h => hm (h ▸ hk)
      simp only [observedEntry_snoc, hne, if_false]
    · simp only [observedEntry_snoc, if_true, observedEntry_absent rs _ hm, List.cons.injEq,
        and_true]
      cases r with
      | mk d t q p =>
        unfold enrich
        cases q <;> cases p <;> simp

/-- C20: for every finite sequence of records merged one by one into the empty catalog,
the catalog obtained is the reference catalog: one entry per (database, table) in order of
first observation, whose query is the first non-empty query among the records of that
identity in sequence order (empty if there is none) and whose parts map is the first
non-empty parts map among them (empty if there is none). -/
theorem mergeAll_eq_firstObservations (records : List TableMetadata) :
    mergeAll records = firstObservations records := by
  induction records using List.reverseRecOn with
  | nil => rfl
  | append_singleton rs r ih =>
    unfold mergeAll at ih ⊢
    rw [List.foldl_append, List.foldl_cons, List.foldl_nil, ih, firstObservations_snoc]

/-! ## The remap, record by record -/

theorem rewriteRecord_Query (uni : Char → Bool) (u : Str) (t : TableMetadata)
    (targetDB substitution : Str) :
    (rewriteRecord uni u t targetDB substitution).Query
      = regenerateUUID uni u (queryRE.ReplaceAllString uni t.Query substitution) := rfl

/-- A record that is not rejected is replaced by its rewritten form and the loop goes
on. -/
theorem remapFrom_cons_ok (uni : Char → Bool) (newUUID : Nat → Str)
    (dbMapRule : Str → Option Str) (i : Nat) (t : TableMetadata) (rest : ListOfTables)
    (h : unrewritable dbMapRule t = false) :
    remapFrom uni newUUID dbMapRule i (t :: rest)
      = RemapResult.cons (rewrittenRecord uni (newUUID i) dbMapRule t)
          (remapFrom uni newUUID dbMapRule (i + 1) rest) := by
  simp only [remapFrom, rewrittenRecord]
  cases hr : dbMapRule t.Database with
  | none => rfl
  | some targetDB =>
    simp only [createRE_findAll, attachRE_findAll]
    by_cases h1 : someLineBeginsWith "CREATE".data t.Query = true
    · simp [h1]
    · by_cases h2 : someLineBeginsWith "ATTACH".data t.Query = true
      · simp [h1, h2]
      · by_cases h3 : t.Query = []
        · rw [if_neg h1, if_neg h2, if_pos h3, if_neg h1, if_neg h2]
        · exfalso
          simp [unrewritable, hr, h1, h2, h3] at h

theorem rewrittenRecord_Table (uni : Char → Bool) (u : Str) (dbMapRule : Str → Option Str)
    (t : TableMetadata) : (rewrittenRecord uni u dbMapRule t).Table = t.Table := by
  unfold rewrittenRecord
  split
  · rfl
  · split
    · rfl
    · split <;> rfl

theorem rewrittenRecord_Parts (uni : Char → Bool) (u : Str) (dbMapRule : Str → Option Str)
    (t : TableMetadata) : (rewrittenRecord uni u dbMapRule t).Parts = t.Parts := by
  unfold rewrittenRecord
  split
  · rfl
  · split
    · rfl
    · split <;> rfl

theorem rewrittenRecord_unmapped (uni : Char → Bool) (u : Str) (dbMapRule : Str → Option Str)
    (t : TableMetadata) (h : dbMapRule t.Database = none) :
    rewrittenRecord uni u dbMapRule t = t := by
  simp [rewrittenRecord, h]

theorem rewrittenRecord_empty (uni : Char → Bool) (u : Str) (dbMapRule : Str → Option Str)
    (t : TableMetadata) (h : t.Query = []) :
    rewrittenRecord uni u dbMapRule t = t := by
  unfold rewrittenRecord
  split
  · rfl
  · rw [h]
    rfl

theorem unrewritable_empty (dbMapRule : Str → Option Str) (t : TableMetadata)
    (h : t.Query = []) : unrewritable dbMapRule t = false := by
  simp [unrewritable, h]

/-- A mapped record with a statement that is not empty and not rejected carries the
target database after the rewrite. -/
theorem rewrittenRecord_Database (uni : Char → Bool) (u : Str) (dbMapRule : Str → Option Str)
    (t : TableMetadata) (targetDB : Str) (hr : dbMapRule t.Database = some targetDB)
    (hq : t.Query ≠ []) (h : unrewritable dbMapRule t = false) :
    (rewrittenRecord uni u dbMapRule t).Database = targetDB := by
  simp only [rewrittenRecord, hr, createRE_findAll, attachRE_findAll]
  by_cases h1 : someLineBeginsWith "CREATE".data t.Query = true
  · simp [h1, rewriteRecord]
  · by_cases h2 : someLineBeginsWith "ATTACH".data t.Query = true
    · simp [h1, h2, rewriteRecord]
    · exfalso
      simp [unrewritable, hr, h1, h2, hq] at h

/-- The error of a remap does not depend on the index the loop starts from nor on the
identifiers generated. -/
theorem remapFrom_err_index (uni : Char → Bool) (newUUID newUUID2 : Nat → Str)
    (dbMapRule : Str → Option Str) (i j : Nat) (tables : ListOfTables) :
    (remapFrom uni newUUID dbMapRule i tables).err
      = (remapFrom uni newUUID2 dbMapRule j tables).err := by
  induction tables generalizing i j with
  | nil => rfl
  | cons t rest ih =>
    cases h : unrewritable dbMapRule t with
    | false =>
      rw [remapFrom_err_of_ok uni newUUID dbMapRule i t rest h,
        remapFrom_err_of_ok uni newUUID2 dbMapRule j t rest h]
      exact ih _ _
    | true =>
      have hs : (dbMapRule t.Database).isSome = true := by
        simp only [unrewritable, Bool.and_eq_true] at h
        exact h.1.1.1
      obtain ⟨targetDB, hr⟩ := Option.isSome_iff_exists.mp hs
      rw [remapFrom_err_of_bad uni newUUID dbMapRule i t rest targetDB hr h,
        remapFrom_err_of_bad uni newUUID2 dbMapRule j t rest targetDB hr h]

theorem remapFrom_length (uni : Char → Bool) (newUUID : Nat → Str)
    (dbMapRule : Str → Option Str) (i : Nat) (tables : ListOfTables) :
    (remapFrom uni newUUID dbMapRule i tables).tables.length = tables.length := by
  induction tables generalizing i with
  | nil => rfl
  | cons t rest ih =>
    cases h : unrewritable dbMapRule t with
    | false =>
      rw [remapFrom_cons_ok uni newUUID dbMapRule i t rest h]
      simp [RemapResult.cons, ih]
    | true =>
      have hs : (dbMapRule t.Database).isSome = true := by
        simp only [unrewritable, Bool.and_eq_true] at h
        exact h.1.1.1
      obtain ⟨targetDB, hr⟩ := Option.isSome_iff_exists.mp hs
      rw [remapFrom_err_of_bad uni newUUID dbMapRule i t rest targetDB hr h]

/-- While no record is rejected, the remap of a catalog that continues after `pre` is the
remap of `pre` followed by the remap of the continuation from the index reached. -/
theorem remapFrom_append (uni : Char → Bool) (newUUID : Nat → Str)
    (dbMapRule : Str → Option Str) (i : Nat) (pre l : ListOfTables)
    (hpre : ∀ x ∈ pre, unrewritable dbMapRule x = false) :
    remapFrom uni newUUID dbMapRule i (pre ++ l)
        = ⟨(remapFrom uni newUUID dbMapRule i pre).tables
            ++ (remapFrom uni newUUID dbMapRule (i + pre.length) l).tables,
          (remapFrom uni newUUID dbMapRule (i + pre.length) l).err⟩
      ∧ (remapFrom uni newUUID dbMapRule i pre).err = none := by
  induction pre generalizing i with
  | nil => exact ⟨rfl, rfl⟩
  | cons x xs ih =>
    have hx := hpre x (List.mem_cons_self _ _)
    have hxs : ∀ y ∈ xs, unrewritable dbMapRule y = false :=
      fun y hy => hpre y (List.mem_cons_of_mem _ hy)
    obtain ⟨e1, e2⟩ := ih (i + 1) hxs
    rw [List.cons_append, remapFrom_cons_ok uni newUUID dbMapRule i x _ hx,
      remapFrom_cons_ok uni newUUID dbMapRule i x _ hx, e1]
    refine ⟨?_, e2⟩
    simp only [RemapResult.cons, List.cons_append, List.length_cons]
    rw [show i + 1 + xs.length = i + (xs.length + 1) by omega]

theorem unrewritable_isSome (dbMapRule : Str → Option Str) (t : TableMetadata)
    (h : unrewritable dbMapRule t = true) : ∃ targetDB, dbMapRule t.Database = some targetDB := by
  have hs : (dbMapRule t.Database).isSome = true := by
    simp only [unrewritable, Bool.and_eq_true] at h
    exact h.1.1.1
  exact Option.isSome_iff_exists.mp hs

/-- Table names and parts are kept, and the records of unmapped databases are kept as
they are, from whatever index the loop starts. -/
theorem remapFrom_frame (uni : Char → Bool) (newUUID : Nat → Str)
    (dbMapRule : Str → Option Str) (i : Nat) (tables : ListOfTables) :
    (remapFrom uni newUUID dbMapRule i tables).tables.map (fun t => t.Table)
        = tables.map (fun t => t.Table)
      ∧ (remapFrom uni newUUID dbMapRule i tables).tables.map (fun t => t.Parts)
        = tables.map (fun t => t.Parts)
      ∧ ∀ (k : Nat) (t : TableMetadata), tables[k]? = some t → dbMapRule t.Database = none →
          (remapFrom uni newUUID dbMapRule i tables).tables[k]? = some t := by
  induction tables generalizing i with
  | nil => exact ⟨rfl, rfl, fun k t h => by simp at h⟩
  | cons x rest ih =>
    cases h : unrewritable dbMapRule x with
    | false =>
      obtain ⟨e1, e2, e3⟩ := ih (i + 1)
      rw [remapFrom_cons_ok uni newUUID dbMapRule i x rest h]
      refine ⟨?_, ?_, ?_⟩
      · simp only [RemapResult.cons, List.map_cons, e1, rewrittenRecord_Table]
      · simp only [RemapResult.cons, List.map_cons, e2, rewrittenRecord_Parts]
      · intro k t hk hr
        cases k with
        | zero =>
          simp only [List.getElem?_cons_zero, Option.some.injEq] at hk
          subst hk
          simp only [RemapResult.cons, List.getElem?_cons_zero,
            rewrittenRecord_unmapped uni _ dbMapRule x hr]
        | succ k =>
          simp only [List.getElem?_cons_succ] at hk
          simpa only [RemapResult.cons, List.getElem?_cons_succ] using e3 k t hk hr
    | true =>
      obtain ⟨targetDB, hr⟩ := unrewritable_isSome dbMapRule x h
      rw [remapFrom_err_of_bad uni newUUID dbMapRule i x rest targetDB hr h]
      exact ⟨rfl, rfl, fun k t hk _ => hk⟩

/-- While no record is rejected, the record left at an index is the rewritten form of
the record that was there. -/
theorem remapFrom_getElem_ok (uni : Char → Bool) (newUUID : Nat → Str)
    (dbMapRule : Str → Option Str) (i : Nat) (pre : ListOfTables)
    (hpre : ∀ x ∈ pre, unrewritable dbMapRule x = false) (k : Nat) (x : TableMetadata)
    (hk : pre[k]? = some x) :
    (remapFrom uni newUUID dbMapRule i pre).tables[k]?
      = some (rewrittenRecord uni (newUUID (i + k)) dbMapRule x) := by
  induction pre generalizing i k with
  | nil => simp at hk
  | cons y ys ih =>
    rw [remapFrom_cons_ok uni newUUID dbMapRule i y ys (hpre y (List.mem_cons_self _ _))]
    cases k with
    | zero =>
      simp only [List.getElem?_cons_zero, Option.some.injEq] at hk
      subst hk
      simp only [RemapResult.cons, List.getElem?_cons_zero, Nat.add_zero]
    | succ k =>
      simp only [List.getElem?_cons_succ] at hk
      simp only [RemapResult.cons, List.getElem?_cons_succ]
      rw [ih (i + 1) (fun z hz => hpre z (List.mem_cons_of_mem _ hz)) k hk]
      rw [show i + 1 + k = i + (k + 1) by omega]

/-- A record with an empty statement is found unchanged at its index after the remap. -/
theorem remapFrom_empty_getElem (uni : Char → Bool) (newUUID : Nat → Str)
    (dbMapRule : Str → Option Str) (i : Nat) (pre post : ListOfTables) (t : TableMetadata)
    (hq : t.Query = []) :
    (remapFrom uni newUUID dbMapRule i (pre ++ t :: post)).tables[pre.length]? = some t := by
  induction pre generalizing i with
  | nil =>
    rw [List.nil_append, remapFrom_cons_ok uni newUUID dbMapRule i t post
      (unrewritable_empty dbMapRule t hq), rewrittenRecord_empty uni _ dbMapRule t hq]
    simp [RemapResult.cons]
  | cons x xs ih =>
    cases h : unrewritable dbMapRule x with
    | false =>
      rw [List.cons_append, remapFrom_cons_ok uni newUUID dbMapRule i x _ h]
      simpa only [RemapResult.cons, List.length_cons, List.getElem?_cons_succ] using ih (i + 1)
    | true =>
      obtain ⟨targetDB, hr⟩ := unrewritable_isSome dbMapRule x h
      rw [List.cons_append, remapFrom_err_of_bad uni newUUID dbMapRule i x _ targetDB hr h]
      simp only [List.length_cons, List.getElem?_cons_succ]
      rw [List.getElem?_append_right (Nat.le_refl _)]
      simp

/-- A record with an empty statement has no part in the error of the remap. -/
theorem remapFrom_empty_err (uni : Char → Bool) (newUUID : Nat → Str)
    (dbMapRule : Str → Option Str) (i : Nat) (pre post : ListOfTables) (t : TableMetadata)
    (hq : t.Query = []) :
    (remapFrom uni newUUID dbMapRule i (pre ++ t :: post)).err
      = (remapFrom uni newUUID dbMapRule i (pre ++ post)).err := by
  induction pre generalizing i with
  | nil =>
    rw [List.nil_append, List.nil_append, remapFrom_err_of_ok uni newUUID dbMapRule i t post
      (unrewritable_empty dbMapRule t hq)]
    exact remapFrom_err_index uni newUUID newUUID dbMapRule _ _ post
  | cons x xs ih =>
    cases h : unrewritable dbMapRule x with
    | false =>
      rw [List.cons_append, List.cons_append, remapFrom_err_of_ok uni newUUID dbMapRule i x _ h,
        remapFrom_err_of_ok uni newUUID dbMapRule i x _ h]
      exact ih (i + 1)
    | true =>
      obtain ⟨targetDB, hr⟩ := unrewritable_isSome dbMapRule x h
      rw [List.cons_append, List.cons_append,
        remapFrom_err_of_bad uni newUUID dbMapRule i x _ targetDB hr h,
        remapFrom_err_of_bad uni newUUID dbMapRule i x _ targetDB hr h]

/-- Where a pattern has no match, replacing its matches changes nothing. -/
theorem replaceAllFrom_of_findAll_nil (re : Regex) (repl : Str → List (Nat × Str) → Str)
    (s : Str) (prev : Option Char) (am : Bool) (h : findAllFrom re 0 am prev s = []) :
    replaceAllFrom re repl 0 am prev s = s := by
  induction s generalizing prev am with
  | nil =>
    simp only [findAllFrom] at h
    simp only [replaceAllFrom]
    cases he : re.execAt prev [] with
    | none => rfl
    | some m =>
      rw [he] at h
      cases am with
      | true => rfl
      | false => simp at h
  | cons c cs ih =>
    simp only [findAllFrom] at h
    simp only [replaceAllFrom]
    cases he : re.execAt prev (c :: cs) with
    | none =>
      rw [he] at h
      simp only [ih _ _ h]
    | some m =>
      rw [he] at h
      simp only at h ⊢
      by_cases hl : (c :: cs).length - m.rest.length = 0
      · rw [if_pos hl] at h
        rw [if_pos hl]
        cases am with
        | true =>
          simp only [if_true, List.nil_append] at h ⊢
          rw [ih _ _ h]
        | false => simp at h
      · rw [if_neg hl] at h
        simp at h

theorem rewriteRecord_unmatched (uni : Char → Bool) (u : Str) (t : TableMetadata)
    (targetDB substitution : Str) (hno : queryRE.FindAllString t.Query = []) :
    rewriteRecord uni u t targetDB substitution
      = { t with Database := targetDB, Query := regenerateUUID uni u t.Query } := by
  have e : queryRE.ReplaceAllString uni t.Query substitution = t.Query :=
    replaceAllFrom_of_findAll_nil queryRE _ t.Query none false hno
  simp only [rewriteRecord, regenerateUUID, e]

/-! ## Statements the pattern does not match -/

/-- C11 (counterexample): the statements `CREATE LIVE VIEW a.v AS SELECT 1` and
`CREATE OR REPLACE TABLE a.b (x UInt64)` of the mapped database `a` are not of the shape
of the pattern, and the remap returns no error: the record gets the database `c` and its
statement still names `a`. -/
theorem remap_unknown_shape_silent :
    changeTableQueryToAdjustDatabaseMapping noUnicode exUUID
        [exRecord "a" "CREATE LIVE VIEW a.v AS SELECT 1"] (rule1 "a".data "c".data)
      = ⟨[exRecord "c" "CREATE LIVE VIEW a.v AS SELECT 1"], none⟩ ∧
    changeTableQueryToAdjustDatabaseMapping noUnicode exUUID
        [exRecord "a" "CREATE OR REPLACE TABLE a.b (x UInt64)"] (rule1 "a".data "c".data)
      = ⟨[exRecord "c" "CREATE OR REPLACE TABLE a.b (x UInt64)"], none⟩ := by
  decide

/-- C11 (amended): for every record whose database is a key of the rule and whose
non-empty statement has no match of the pattern `queryRE`: if no line of the statement
begins with CREATE and none with ATTACH, the remap returns the error and leaves the
record as it was; otherwise it returns no error, sets the database of the record to the
target and keeps the statement, in which only the UUID literals are regenerated. -/
theorem remap_unmatched_statement (uni : Char → Bool) (newUUID : Nat → Str)
    (dbMapRule : Str → Option Str) (t : TableMetadata) (targetDB : Str)
    (hr : dbMapRule t.Database = some targetDB) (hq : t.Query ≠ [])
    (hno : queryRE.FindAllString t.Query = []) :
    changeTableQueryToAdjustDatabaseMapping uni newUUID [t] dbMapRule
      = if someLineBeginsWith "CREATE".data t.Query = true
            ∨ someLineBeginsWith "ATTACH".data t.Query = true then
          ⟨[{ t with Database := targetDB,
                     Query := regenerateUUID uni (newUUID 0) t.Query }], none⟩
        else ⟨[t], some (remapError t.Database targetDB t.Query)⟩ := by
  unfold changeTableQueryToAdjustDatabaseMapping
  by_cases h1 : someLineBeginsWith "CREATE".data t.Query = true
  · have hu : unrewritable dbMapRule t = false := by simp [unrewritable, h1]
    rw [remapFrom_cons_ok uni newUUID dbMapRule 0 t [] hu, if_pos (Or.inl h1)]
    simp only [rewrittenRecord, hr, createRE_findAll, h1, if_true,
      rewriteRecord_unmatched uni _ t _ _ hno, remapFrom, RemapResult.cons]
  · by_cases h2 : someLineBeginsWith "ATTACH".data t.Query = true
    · have hu : unrewritable dbMapRule t = false := by simp [unrewritable, h2]
      rw [remapFrom_cons_ok uni newUUID dbMapRule 0 t [] hu, if_pos (Or.inr h2)]
      simp only [rewrittenRecord, hr, createRE_findAll, attachRE_findAll, h1, h2, if_true,
        if_false, rewriteRecord_unmatched uni _ t _ _ hno, remapFrom, RemapResult.cons, ite_self]
    · have hu : unrewritable dbMapRule t = true := by simp [unrewritable, hr, h1, h2, hq]
      rw [remapFrom_err_of_bad uni newUUID dbMapRule 0 t [] targetDB hr hu,
        if_neg (by simp [h1, h2])]

/-- C11 (witness): a CREATE statement of a kind outside the pattern that holds a UUID
literal. -/
theorem remap_unmatched_statement_witness :
    changeTableQueryToAdjustDatabaseMapping noUnicode exUUID
        [exRecord "a" "CREATE WINDOW VIEW a.v UUID 'abc' AS SELECT 1"] (rule1 "a".data "c".data)
      = ⟨[exRecord "c"
          "CREATE WINDOW VIEW a.v UUID '11111111-2222-3333-4444-555555555555' AS SELECT 1"],
        none⟩ :=
  (remap_unmatched_statement noUnicode exUUID (rule1 "a".data "c".data)
    (exRecord "a" "CREATE WINDOW VIEW a.v UUID 'abc' AS SELECT 1") "c".data
    (by decide) (by decide) (by decide)).trans (by decide)

/-! ## Empty statements, failures and the frame of the remap -/

/-- C12: for every catalog and rule, a record whose statement is empty, whether its
database is a key of the rule or not, is found at its index after the remap exactly as it
was (database, table, query and parts), the error of the remap is the one of the catalog
without that record, and the remap of the record alone succeeds. -/
theorem remap_empty_statement (uni : Char → Bool) (newUUID : Nat → Str)
    (dbMapRule : Str → Option Str) (pre post : ListOfTables) (t : TableMetadata)
    (hq : t.Query = []) :
    (changeTableQueryToAdjustDatabaseMapping uni newUUID (pre ++ t :: post) dbMapRule
      ).tables[pre.length]? = some t
    ∧ (changeTableQueryToAdjustDatabaseMapping uni newUUID (pre ++ t :: post) dbMapRule).err
      = (changeTableQueryToAdjustDatabaseMapping uni newUUID (pre ++ post) dbMapRule).err
    ∧ changeTableQueryToAdjustDatabaseMapping uni newUUID [t] dbMapRule = ⟨[t], none⟩ := by
  unfold changeTableQueryToAdjustDatabaseMapping
  refine ⟨remapFrom_empty_getElem uni newUUID dbMapRule 0 pre post t hq,
    remapFrom_empty_err uni newUUID dbMapRule 0 pre post t hq, ?_⟩
  rw [remapFrom_cons_ok uni newUUID dbMapRule 0 t [] (unrewritable_empty dbMapRule t hq),
    rewrittenRecord_empty uni _ dbMapRule t hq]
  rfl

/-- C12 (witness): a mapped record without statement between two CREATE statements. -/
theorem remap_empty_statement_witness :
    (changeTableQueryToAdjustDatabaseMapping noUnicode exUUID
        ([exRecord "a" "CREATE TABLE a.b (x UInt64)"] ++ exRecord "a" ""
          :: [exRecord "a" "CREATE TABLE a.z (x UInt64)"]) (rule1 "a".data "c".data)
      ).tables[[exRecord "a" "CREATE TABLE a.b (x UInt64)"].length]? = some (exRecord "a" "")
    ∧ (rule1 "a".data "c".data) (exRecord "a" "").Database = some "c".data :=
  ⟨(remap_empty_statement noUnicode exUUID (rule1 "a".data "c".data)
      [exRecord "a" "CREATE TABLE a.b (x UInt64)"] [exRecord "a" "CREATE TABLE a.z (x UInt64)"]
      (exRecord "a" "") rfl).1, by decide⟩

/-- C13 (counterexample): the remap of two records of the mapped database `a`, the first
without statement and the second with a DROP statement, fails at index 1, and the record
at index 0, which is mapped, does not carry the new database name: a mapped record
without statement is skipped. -/
theorem remap_failure_skipped_record :
    changeTableQueryToAdjustDatabaseMapping noUnicode exUUID
        [exRecord "a" "", exRecord "a" "DROP TABLE a.b"] (rule1 "a".data "c".data)
      = ⟨[exRecord "a" "", exRecord "a" "DROP TABLE a.b"],
          some (remapError "a".data "c".data "DROP TABLE a.b".data)⟩
    ∧ (rule1 "a".data "c".data) (exRecord "a" "").Database = some "c".data
    ∧ (exRecord "a" "").Database ≠ "c".data := by
  decide

/-- C13 (amended): when the remap fails at the record `t` of index `pre.length` (no
record before it is rejected and `t` is), it returns the error for `t` and leaves the
catalog partially rewritten: the records before `t` are exactly what the remap of these
records alone, which succeeds, makes of them, and `t` and every record after it are
unchanged. Among the records before `t`, every mapped record with a non-empty statement
carries the new database name; a mapped record without statement is skipped. -/
theorem remap_failure_partially_rewritten (uni : Char → Bool) (newUUID : Nat → Str)
    (dbMapRule : Str → Option Str) (pre post : ListOfTables) (t : TableMetadata)
    (targetDB : Str)
    (hpre : ∀ x ∈ pre, unrewritable dbMapRule x = false)
    (ht : unrewritable dbMapRule t = true) (hr : dbMapRule t.Database = some targetDB) :
    changeTableQueryToAdjustDatabaseMapping uni newUUID (pre ++ t :: post) dbMapRule
      = ⟨(changeTableQueryToAdjustDatabaseMapping uni newUUID pre dbMapRule).tables
            ++ t :: post,
          some (remapError t.Database targetDB t.Query)⟩
    ∧ (changeTableQueryToAdjustDatabaseMapping uni newUUID pre dbMapRule).err = none
    ∧ ∀ (k : Nat) (x : TableMetadata) (target : Str), pre[k]? = some x →
        dbMapRule x.Database = some target → x.Query ≠ [] →
        ((changeTableQueryToAdjustDatabaseMapping uni newUUID pre dbMapRule).tables[k]?).map
          (fun r => r.Database) = some target := by
  unfold changeTableQueryToAdjustDatabaseMapping
  obtain ⟨e1, e2⟩ := remapFrom_append uni newUUID dbMapRule 0 pre (t :: post) hpre
  refine ⟨?_, e2, ?_⟩
  · rw [e1, remapFrom_err_of_bad uni newUUID dbMapRule _ t post targetDB hr ht]
  · intro k x target hk hx hq
    rw [remapFrom_getElem_ok uni newUUID dbMapRule 0 pre hpre k x hk]
    simp only [Option.map_some', Option.some.injEq]
    exact rewrittenRecord_Database uni _ dbMapRule x target hx hq
      (hpre x (List.mem_iff_getElem?.mpr ⟨k, hk⟩))

/-- C13 (witness): a CREATE statement, a DROP statement and a CREATE statement of the
mapped database: the first record is rewritten, the other two are as they were. -/
theorem remap_failure_partially_rewritten_witness :
    changeTableQueryToAdjustDatabaseMapping noUnicode exUUID
        ([exRecord "a" "CREATE TABLE a.b (x UInt64)"] ++ exRecord "a" "DROP TABLE a.b"
          :: [exRecord "a" "CREATE TABLE a.z (x UInt64)"]) (rule1 "a".data "c".data)
      = ⟨[exRecord "c" "CREATE TABLE c.b (x UInt64)", exRecord "a" "DROP TABLE a.b",
          exRecord "a" "CREATE TABLE a.z (x UInt64)"],
          some (remapError "a".data "c".data "DROP TABLE a.b".data)⟩ :=
  (remap_failure_partially_rewritten noUnicode exUUID (rule1 "a".data "c".data)
    [exRecord "a" "CREATE TABLE a.b (x UInt64)"] [exRecord "a" "CREATE TABLE a.z (x UInt64)"]
    (exRecord "a" "DROP TABLE a.b") "c".data (by decide) (by decide) (by decide)).1.trans
    (by decide)

/-- C14: for every catalog and rule, the remap, whether it succeeds or fails, leaves a
catalog with the same number of records, the same table names and the same parts in the
same order, and every record whose database is not a key of the rule is found at its
index exactly as it was, statement text included. -/
theorem remap_frame (uni : Char → Bool) (newUUID : Nat → Str)
    (dbMapRule : Str → Option Str) (tables : ListOfTables) :
    (changeTableQueryToAdjustDatabaseMapping uni newUUID tables dbMapRule).tables.length
        = tables.length
    ∧ (changeTableQueryToAdjustDatabaseMapping uni newUUID tables dbMapRule).tables.map
        (fun t => t.Table) = tables.map (fun t => t.Table)
    ∧ (changeTableQueryToAdjustDatabaseMapping uni newUUID tables dbMapRule).tables.map
        (fun t => t.Parts) = tables.map (fun t => t.Parts)
    ∧ ∀ (k : Nat) (t : TableMetadata), tables[k]? = some t → dbMapRule t.Database = none →
        (changeTableQueryToAdjustDatabaseMapping uni newUUID tables dbMapRule).tables[k]?
          = some t := by
  unfold changeTableQueryToAdjustDatabaseMapping
  exact ⟨remapFrom_length uni newUUID dbMapRule 0 tables,
    remapFrom_frame uni newUUID dbMapRule 0 tables⟩

/-! ## Regeneration of UUID literals -/

theorem data_quote : "'".data = [Char.ofNat 39] := rfl

theorem data_UUID : "UUID '".data = ['U', 'U', 'I', 'D', ' ', Char.ofNat 39] := rfl

theorem uuidClass_not_quote (c : Char) (cs : Str) (h : uuidClass c = true) :
    hasPrefix (c :: cs) "'".data = false := by
  have hc : c ≠ Char.ofNat 39 := by
    intro e
    rw [e] at h
    exact absurd h (by decide)
  simp [data_quote, hasPrefix, hc]

theorem uuidClass_not_dollar (c : Char) (h : uuidClass c = true) : c ≠ '$' := by
  intro e
  rw [e] at h
  exact absurd h (by decide)

/-- The closing quote of a UUID literal after the greedy run of its characters: the run
is taken whole, and the quote has to come right behind it. -/
theorem starLoop_uuid_quote (caps : List (Nat × Str)) (prev : Option Char) (s : Str) :
    starLoop uuidClass caps (fun s1 => (Regex.lit "'".data).run s1 some) prev s
      = if hasPrefix (s.dropWhile uuidClass) "'".data = true then
          some ⟨"'".data.head?, (s.dropWhile uuidClass).drop 1, caps⟩
        else none := by
  induction s generalizing prev with
  | nil => simp [starLoop, Regex.run, data_quote, matchLit, hasPrefix]
  | cons c cs ih =>
    by_cases hc : uuidClass c = true
    · have hq := uuidClass_not_quote c cs hc
      have hcne : c ≠ Char.ofNat 39 := by
        intro e
        rw [e] at hc
        exact absurd hc (by decide)
      simp only [starLoop, hc, if_true, ih, List.dropWhile_cons_of_pos]
      by_cases hp : hasPrefix (cs.dropWhile uuidClass) "'".data = true
      · simp [hp]
      · simp [hp, Regex.run, data_quote, matchLit, hcne]
    · have hd : (c :: cs).dropWhile uuidClass = c :: cs := by
        simp [List.dropWhile, hc]
      simp only [starLoop, hc, hd]
      by_cases he : c = Char.ofNat 39
      · subst he
        simp [Regex.run, data_quote, matchLit, hasPrefix]
      · simp [Regex.run, data_quote, matchLit, hasPrefix, he]

theorem hasPrefix_split (s w : Str) (h : hasPrefix s w = true) : s = w ++ s.drop w.length := by
  induction w generalizing s with
  | nil => simp
  | cons c cs ih =>
    cases s with
    | nil => simp [hasPrefix] at h
    | cons x xs =>
      simp only [hasPrefix, Bool.and_eq_true, beq_iff_eq] at h
      simp only [List.length_cons, List.drop_succ_cons, List.cons_append, h.1]
      exact congrArg (c :: ·) (ih xs h.2)

/-- The match of `uuidRE` at a position: there is one exactly when a UUID literal begins
there, and it covers that literal. -/
theorem uuidRE_execAt (prev : Option Char) (s : Str) :
    (uuidLiteralLength s = 0 ∧ uuidRE.execAt prev s = none)
      ∨ (uuidLiteralLength s ≠ 0 ∧ ∃ m, uuidRE.execAt prev s = some m
          ∧ s.length - m.rest.length = uuidLiteralLength s) := by
  by_cases hp : hasPrefix s "UUID '".data = true
  · have hs := hasPrefix_split s _ hp
    have h6 : "UUID '".data.length = 6 := rfl
    rw [h6] at hs
    generalize s.drop 6 = r at hs
    subst hs
    have hd : ("UUID '".data ++ r).drop 6 = r := List.drop_left' h6
    have hrun : uuidRE.execAt prev ("UUID '".data ++ r)
        = (Regex.cls uuidClass).run ⟨lastOr prev "UUID '".data, r, []⟩
            (fun s1 => (Regex.star uuidClass).run s1
              (fun s2 => (Regex.lit "'".data).run s2 some)) := by
      simp only [Regex.execAt, uuidRE, Regex.cat, Regex.run, matchLit_append]
    rw [hrun]
    unfold uuidLiteralLength
    rw [hd]
    cases r with
    | nil => left; simp [Regex.run, hp]
    | cons c cs =>
      by_cases hc : uuidClass c = true
      · have hstar := starLoop_uuid_quote [] (some c) cs
        simp only [Regex.run] at hstar
        simp only [Regex.run, hc, if_true, hstar, List.takeWhile_cons_of_pos,
          List.dropWhile_cons_of_pos, hp, true_and, ne_eq, reduceCtorEq, not_false_eq_true]
        by_cases hq : hasPrefix (cs.dropWhile uuidClass) "'".data = true
        · right
          simp only [hq, if_true]
          refine ⟨by omega, _, rfl, ?_⟩
          have hl := congrArg List.length (List.takeWhile_append_dropWhile uuidClass cs)
          have hne : (cs.dropWhile uuidClass).length ≥ 1 := by
            cases hdw : cs.dropWhile uuidClass with
            | nil => rw [hdw] at hq; simp [data_quote, hasPrefix] at hq
            | cons y ys => simp
          simp only [List.length_append, List.length_cons, List.length_drop, h6] at hl ⊢
          omega
        · left
          simp [hq]
      · left
        simp [Regex.run, hc, List.takeWhile]
  · left
    have hp2 : hasPrefix s "UUID '".data = false := by simpa using hp
    refine ⟨by simp [uuidLiteralLength, hp2], execAt_of_fails ?_⟩
    simp only [uuidRE, Regex.cat]
    exact fails_seq_left (fails_lit _ _ hp2)

/-- With a replacement that does not depend on the match, the replace loop of `uuidRE`
is the reference. -/
theorem replaceAllFrom_uuid (repl : Str → List (Nat × Str) → Str) (u : Str)
    (hrepl : ∀ m caps, repl m caps = "UUID '".data ++ u ++ "'".data) (k : Nat) (am : Bool)
    (prev : Option Char) (s : Str) :
    replaceAllFrom uuidRE repl k am prev s = replaceUUIDLiterals u k s := by
  induction s generalizing k am prev with
  | nil =>
    cases k with
    | zero =>
      rcases uuidRE_execAt prev [] with ⟨_, h⟩ | ⟨h, _⟩
      · simp [replaceAllFrom, replaceUUIDLiterals, h]
      · exact absurd rfl h
    | succ k => rfl
  | cons c cs ih =>
    cases k with
    | zero =>
      rcases uuidRE_execAt prev (c :: cs) with ⟨h0, h⟩ | ⟨h0, m, h, hl⟩
      · rw [replaceAllFrom_nomatch _ _ _ _ _ _ h, ih]
        simp only [replaceUUIDLiterals, h0, if_true]
      · simp only [replaceAllFrom, h, hl, h0, if_false, hrepl, ih, replaceUUIDLiterals]
    | succ k =>
      simp only [replaceAllFrom, replaceUUIDLiterals, ih]

theorem replaceUUIDLiterals_id (u s : Str) (h : containsUUIDLiteral s = false) :
    replaceUUIDLiterals u 0 s = s := by
  induction s with
  | nil => rfl
  | cons c cs ih =>
    simp only [containsUUIDLiteral, Bool.or_eq_false_iff, decide_eq_false_iff_not, ne_eq,
      not_not] at h
    simp only [replaceUUIDLiterals, h.1, if_true, ih h.2]

/-- The regeneration step of the rewriter on any statement is the reference, for an
identifier made of lowercase hexadecimal digits and dashes. -/
theorem regenerateUUID_eq (uni : Char → Bool) (u q : Str)
    (hu : ∀ x ∈ u, uuidClass x = true) :
    regenerateUUID uni u q = replaceUUIDLiterals u 0 q := by
  have hplain : ∀ x ∈ "UUID '".data ++ u ++ "'".data, x ≠ '$' := by
    intro x hx
    simp only [List.mem_append] at hx
    rcases hx with (hx | hx) | hx
    · revert x; decide
    · exact uuidClass_not_dollar x (hu x hx)
    · revert x; decide
  have hrepl : ∀ (m : Str) (caps : List (Nat × Str)),
      expandFrom uni ((0, m) :: caps) 0 ("UUID '".data ++ u ++ "'".data)
        = "UUID '".data ++ u ++ "'".data := by
    intro m caps
    have h := expandFrom_append_plain uni ((0, m) :: caps) ("UUID '".data ++ u ++ "'".data) []
      hplain
    simpa [expandFrom] using h
  unfold regenerateUUID
  by_cases hf : (uuidRE.FindAllString q).length > 0
  · rw [if_pos hf]
    exact replaceAllFrom_uuid _ u hrepl 0 false none q
  · rw [if_neg hf]
    have hnil : findAllFrom uuidRE 0 false none q = [] := by
      have : (uuidRE.FindAllString q).length = 0 := by omega
      exact List.length_eq_zero.mp this
    rw [← replaceAllFrom_uuid _ u hrepl 0 false none q]
    exact (replaceAllFrom_of_findAll_nil uuidRE _ q none false hnil).symm

/-- C15: for every record that the rewriter rewrites, whatever the target and the
template, with `u` the text of the identifier generated, made of lowercase hexadecimal
digits and dashes as every UUID is: the statement left in the record is the statement
after the replacement of the database in which every UUID literal is replaced by the
literal of `u` and every other character is kept; if that statement holds no UUID
literal it is left as it is. -/
theorem remap_regenerates_uuid (uni : Char → Bool) (u : Str) (t : TableMetadata)
    (targetDB substitution : Str) (hu : ∀ x ∈ u, uuidClass x = true) :
    (rewriteRecord uni u t targetDB substitution).Query
        = replaceUUIDLiterals u 0 (queryRE.ReplaceAllString uni t.Query substitution)
    ∧ (containsUUIDLiteral (queryRE.ReplaceAllString uni t.Query substitution) = false →
        (rewriteRecord uni u t targetDB substitution).Query
          = queryRE.ReplaceAllString uni t.Query substitution) := by
  rw [rewriteRecord_Query, regenerateUUID_eq uni u _ hu]
  exact ⟨rfl, fun h => replaceUUIDLiterals_id u _ h⟩

/-- C15 (witness): a statement with two UUID literals, in the CREATE branch. -/
theorem remap_regenerates_uuid_witness :
    (rewriteRecord noUnicode (exUUID 0)
        (exRecord "a" "CREATE TABLE a.b UUID 'ab-1' (x UUID DEFAULT UUID '0-0')") "c".data
        ("${1} ${2} ${3}".data ++ "c".data ++ "${5}.${6}".data)).Query
      = ("CREATE TABLE c.b UUID '11111111-2222-3333-4444-555555555555' "
          ++ "(x UUID DEFAULT UUID '11111111-2222-3333-4444-555555555555')").data :=
  (remap_regenerates_uuid noUnicode (exUUID 0)
    (exRecord "a" "CREATE TABLE a.b UUID 'ab-1' (x UUID DEFAULT UUID '0-0')") "c".data
    ("${1} ${2} ${3}".data ++ "c".data ++ "${5}.${6}".data) (by decide)).1.trans (by decide)

/-! ## A remap that changes the ordering class -/

theorem strContains_skip_ne (x t : Str) (m0 : Char) (ms : Str) (hx : ∀ y ∈ x, y ≠ m0) :
    strContains (x ++ t) (m0 :: ms) = strContains t (m0 :: ms) := by
  induction x with
  | nil => rfl
  | cons y ys ih =>
    have hy : y ≠ m0 := hx y (List.mem_cons_self _ _)
    have e : strContains (y :: (ys ++ t)) (m0 :: ms)
        = (hasPrefix (y :: (ys ++ t)) (m0 :: ms) || strContains (ys ++ t) (m0 :: ms)) := rfl
    rw [List.cons_append, e, ih (fun z hz => hx z (List.mem_cons_of_mem _ hz))]
    simp [hasPrefix, hy]

theorem isSortedBy_priority_iff (d : Bool) (l : ListOfTables) :
    IsSortedBy (fun x y =>
        decide (getOrderByEngine x.Query d < getOrderByEngine y.Query d)) l
      ↔ (l.map (fun t => getOrderByEngine t.Query d)).Chain'
          (fun p q => decide (q < p) = false) := by
  unfold IsSortedBy
  rw [List.chain'_map]

/-- C16 (counterexample): the rule sends `a` to the name `x.inner.y`. The remap of
`CREATE TABLE a.b (x UInt64)` succeeds and gives `CREATE TABLE x.inner.y.b (x UInt64)`,
whose priority is 1 where that of the original is 0; the catalog of this record followed
by a base table of another database, sorted by priority before the remap, is not sorted
after it. The priority changes as well with a blank in the target (`x ENGINE = Kafka`,
from 0 to 4); with a `$` in the target (`$0` is expanded to the whole match, from 0 to
1); when the template of the CREATE branch meets a match with a TO clause, which it
drops (from 1 to 0); when the template of the ATTACH branch meets a match without TO
clause, behind whose name it writes the target (from 0 to 4); and when the text of the
fresh identifier is not that of a UUID (from 0 to 4). -/
theorem remap_changes_priority :
    changeTableQueryToAdjustDatabaseMapping noUnicode exUUID
        [exRecord "a" "CREATE TABLE a.b (x UInt64)", exRecord "z" "CREATE TABLE z.t (x UInt64)"]
        (rule1 "a".data "x.inner.y".data)
      = ⟨[exRecord "x.inner.y" "CREATE TABLE x.inner.y.b (x UInt64)",
          exRecord "z" "CREATE TABLE z.t (x UInt64)"], none⟩
    ∧ getOrderByEngine "CREATE TABLE a.b (x UInt64)".data false = 0
    ∧ getOrderByEngine "CREATE TABLE x.inner.y.b (x UInt64)".data false = 1
    ∧ IsSortedBy (fun x y =>
          decide (getOrderByEngine x.Query false < getOrderByEngine y.Query false))
        [exRecord "a" "CREATE TABLE a.b (x UInt64)", exRecord "z" "CREATE TABLE z.t (x UInt64)"]
    ∧ ¬ IsSortedBy (fun x y =>
          decide (getOrderByEngine x.Query false < getOrderByEngine y.Query false))
        [exRecord "x.inner.y" "CREATE TABLE x.inner.y.b (x UInt64)",
          exRecord "z" "CREATE TABLE z.t (x UInt64)"]
    ∧ (changeTableQueryToAdjustDatabaseMapping noUnicode exUUID
          [exRecord "a" "CREATE TABLE a.b (x UInt64)"] (rule1 "a".data "x ENGINE = Kafka".data)
        = ⟨[exRecord "x ENGINE = Kafka" "CREATE TABLE x ENGINE = Kafka.b (x UInt64)"], none⟩
      ∧ getOrderByEngine "CREATE TABLE x ENGINE = Kafka.b (x UInt64)".data false = 4)
    ∧ (changeTableQueryToAdjustDatabaseMapping noUnicode exUUID
          [exRecord "a" "CREATE TABLE a.inner (x UInt64)"] (rule1 "a".data "$0".data)
        = ⟨[exRecord "$0" "CREATE TABLE CREATE TABLE a.inner.inner (x UInt64)"], none⟩
      ∧ getOrderByEngine "CREATE TABLE a.inner (x UInt64)".data false = 0
      ∧ getOrderByEngine "CREATE TABLE CREATE TABLE a.inner.inner (x UInt64)".data false = 1)
    ∧ (templateFits "CREATE TABLE a.b TO a.inner.x (x UInt64)".data = false
      ∧ changeTableQueryToAdjustDatabaseMapping noUnicode exUUID
          [exRecord "a" "CREATE TABLE a.b TO a.inner.x (x UInt64)"] (rule1 "a".data "c".data)
        = ⟨[exRecord "c" "CREATE TABLE c.binner.x (x UInt64)"], none⟩
      ∧ getOrderByEngine "CREATE TABLE a.b TO a.inner.x (x UInt64)".data false = 1
      ∧ getOrderByEngine "CREATE TABLE c.binner.x (x UInt64)".data false = 0)
    ∧ (templateFits "ATTACH TABLE a.x = Distributed('c', 'd', 't')".data = false
      ∧ changeTableQueryToAdjustDatabaseMapping noUnicode exUUID
          [exRecord "a" "ATTACH TABLE a.x = Distributed('c', 'd', 't')"]
          (rule1 "a".data "ENGINE".data)
        = ⟨[exRecord "ENGINE" "ATTACH TABLE ENGINE.xENGINE = Distributed('c', 'd', 't')"], none⟩
      ∧ getOrderByEngine "ATTACH TABLE a.x = Distributed('c', 'd', 't')".data false = 0
      ∧ getOrderByEngine "ATTACH TABLE ENGINE.xENGINE = Distributed('c', 'd', 't')".data false
        = 4)
    ∧ (changeTableQueryToAdjustDatabaseMapping noUnicode (fun _ => "0' ENGINE = Kafka '1".data)
          [exRecord "a" "CREATE TABLE a.b UUID 'ab-12' (x UInt64)"] (rule1 "a".data "c".data)
        = ⟨[exRecord "c" "CREATE TABLE c.b UUID '0' ENGINE = Kafka '1' (x UInt64)"], none⟩
      ∧ getOrderByEngine "CREATE TABLE a.b UUID 'ab-12' (x UInt64)".data false = 0
      ∧ getOrderByEngine "CREATE TABLE c.b UUID '0' ENGINE = Kafka '1' (x UInt64)".data false
        = 4) := by
  refine ⟨by decide, by decide, by decide, ?_, ?_, by decide, by decide, by decide,
    by decide, by decide⟩
  · unfold IsSortedBy
    rw [List.chain'_pair]
    decide
  · unfold IsSortedBy
    rw [List.chain'_pair]
    decide

/-! ## Uniqueness of the key (database, table) -/

/-- The keys of a catalog after a merge: unchanged when the key of the record is there,
and followed by the key of the record when it is not. -/
theorem addTable_keys (catalog : ListOfTables) (r : TableMetadata) :
    (addTableToListIfNotExistsOrEnrichQueryAndParts catalog r).map
        (fun e => (e.Database, e.Table))
      = if (r.Database, r.Table) ∈ catalog.map (fun e => (e.Database, e.Table)) then
          catalog.map (fun e => (e.Database, e.Table))
        else catalog.map (fun e => (e.Database, e.Table)) ++ [(r.Database, r.Table)] := by
  induction catalog with
  | nil => simp [addTableToListIfNotExistsOrEnrichQueryAndParts]
  | cons t rest ih =>
    cases h : sameKey r t with
    | true =>
      have hk := (sameKey_iff r t).mp h
      rw [addTable_cons_match t rest r h]
      have hm : (r.Database, r.Table) ∈ (t :: rest).map (fun e => (e.Database, e.Table)) := by
        simp [hk.1, hk.2]
      rw [if_pos hm]
      simp [enrich]
    | false =>
      have hk : ¬ (r.Database, r.Table) = (t.Database, t.Table) := by
        intro e
        have e1 := congrArg Prod.fst e
        have e2 := congrArg Prod.snd e
        simp only at e1 e2
        rw [(sameKey_iff r t).mpr ⟨e1.symm, e2.symm⟩] at h
        exact Bool.noConfusion h
      rw [addTable_cons_other t rest r h]
      simp only [List.map_cons, ih, List.mem_cons, hk, false_or]
      split <;> simp

theorem addTable_keys_nodup (catalog : ListOfTables) (r : TableMetadata)
    (h : (catalog.map (fun e => (e.Database, e.Table))).Nodup) :
    ((addTableToListIfNotExistsOrEnrichQueryAndParts catalog r).map
      (fun e => (e.Database, e.Table))).Nodup := by
  rw [addTable_keys]
  split
  · exact h
  · rename_i hm
    exact List.Nodup.append h (List.nodup_singleton _)
      (by simpa [List.disjoint_singleton] using hm)

theorem mergeAll_keys_nodup (records : List TableMetadata) :
    ((mergeAll records).map (fun e => (e.Database, e.Table))).Nodup := by
  unfold mergeAll
  induction records using List.reverseRecOn with
  | nil => simp
  | append_singleton rs r ih =>
    rw [List.foldl_append, List.foldl_cons, List.foldl_nil]
    exact addTable_keys_nodup _ r ih

/-- C21: for every catalog whose entries have pairwise distinct (database, table), the
entries have pairwise distinct (database, table) after the merge of any record and after
`Sort` in either direction, whatever `sort.Slice` does within its contract; hence the
catalog built by merging any sequence of records into the empty catalog and sorting it
has pairwise distinct (database, table). -/
theorem keys_unique_invariant
    (sortSlice : (TableMetadata → TableMetadata → Bool) → ListOfTables → ListOfTables)
    (hS : SortSliceContract sortSlice) (catalog : ListOfTables) (record : TableMetadata)
    (records : List TableMetadata) (dropTable : Bool) :
    ((catalog.map (fun e => (e.Database, e.Table))).Nodup →
      ((addTableToListIfNotExistsOrEnrichQueryAndParts catalog record).map
        (fun e => (e.Database, e.Table))).Nodup)
    ∧ ((catalog.map (fun e => (e.Database, e.Table))).Nodup →
      ((ListOfTables.Sort sortSlice catalog dropTable).map
        (fun e => (e.Database, e.Table))).Nodup)
    ∧ ((ListOfTables.Sort sortSlice (mergeAll records) dropTable).map
        (fun e => (e.Database, e.Table))).Nodup := by
  have hperm : ∀ l : ListOfTables, ((ListOfTables.Sort sortSlice l dropTable).map
      (fun e => (e.Database, e.Table))).Perm (l.map (fun e => (e.Database, e.Table))) :=
    fun l => ((sortSlice_key_perm_sorted sortSlice hS
      (fun x => getOrderByEngine x.Query dropTable) l).1).map _
  exact ⟨addTable_keys_nodup catalog record, fun h => (hperm catalog).nodup_iff.mpr h,
    (hperm _).nodup_iff.mpr (mergeAll_keys_nodup records)⟩

/-- C21 (witness): Go's insertion sort as `sort.Slice`, on the records of a view, its
inner table and a base table, the view observed twice. -/
theorem keys_unique_invariant_witness :
    SortSliceContract (insertionSort_func : (TableMetadata → TableMetadata → Bool) → _) ∧
    ((ListOfTables.Sort insertionSort_func (mergeAll [exView, exInner, exView, exBase]) false
      ).map (fun e => (e.Database, e.Table))).Nodup :=
  ⟨insertionSort_func_contract,
    (keys_unique_invariant insertionSort_func insertionSort_func_contract [] exView
      [exView, exInner, exView, exBase] false).2.2⟩

/-! ## Partition filter -/

/-- C22: for every record and partition selection, with the part-in-partition test as a
parameter: with an empty selection the record is left as it is; otherwise the part list
of every disk is replaced by the sub-list, in the same order, of exactly the parts whose
name passes the test; in both cases the list of a disk after filtering is a sub-list of
the list before it, so the part count does not increase on any disk. -/
theorem filterParts_sublist (isPartInPartition : Str → EmptyMap → Bool)
    (t : TableMetadata) (partitionsFilter : EmptyMap) :
    (filterPartsByPartitionsFilter isPartInPartition t [] = t)
    ∧ (partitionsFilter ≠ [] →
        (filterPartsByPartitionsFilter isPartInPartition t partitionsFilter).Parts
          = t.Parts.map (fun dp =>
              (dp.1, dp.2.filter (fun part => isPartInPartition part.Name partitionsFilter))))
    ∧ List.Forall₂ (fun after before =>
          after.1 = before.1 ∧ after.2.Sublist before.2 ∧ after.2.length ≤ before.2.length)
        (filterPartsByPartitionsFilter isPartInPartition t partitionsFilter).Parts t.Parts := by
  refine ⟨rfl, ?_, ?_⟩
  · intro h
    have hl : partitionsFilter.length > 0 := List.length_pos.mpr h
    simp only [filterPartsByPartitionsFilter, hl, if_true]
  · unfold filterPartsByPartitionsFilter
    split
    · simp only [List.forall₂_map_left_iff]
      exact List.forall₂_same.mpr (fun dp _ =>
        ⟨rfl, List.filter_sublist _, List.length_filter_le _ _⟩)
    · exact List.forall₂_same.mpr (fun dp _ => ⟨rfl, List.Sublist.refl _, Nat.le_refl _⟩)

/-- C22 (witness): table `default.t1` with one part in each of four daily partitions;
with partitions 20220102 and 20220103 selected the two parts of these remain. -/
theorem filterParts_sublist_witness :
    (filterPartsByPartitionsFilter exIsPartInPartition
        { Database := "default".data, Table := "t1".data,
          Query := "CREATE TABLE default.t1 (dt DateTime, v UInt64)".data,
          Parts := [("default".data,
            [⟨"20220101_1_1_0".data⟩, ⟨"20220102_2_2_0".data⟩, ⟨"20220103_3_3_0".data⟩,
              ⟨"20220104_4_4_0".data⟩])] }
        ["20220102".data, "20220103".data]).Parts
      = [("default".data, [⟨"20220102_2_2_0".data⟩, ⟨"20220103_3_3_0".data⟩])] :=
  ((filterParts_sublist exIsPartInPartition
      { Database := "default".data, Table := "t1".data,
        Query := "CREATE TABLE default.t1 (dt DateTime, v UInt64)".data,
        Parts := [("default".data,
          [⟨"20220101_1_1_0".data⟩, ⟨"20220102_2_2_0".data⟩, ⟨"20220103_3_3_0".data⟩,
            ⟨"20220104_4_4_0".data⟩])] }
      ["20220102".data, "20220103".data]).2.1 (by decide)).trans (by decide)

/-- C23: for every record and selection, `filterPartsByPartitionsFilter`, which has no
error to return, leaves the disk names of the parts map as they were, in number and in
order (a disk without matching part stays, with an empty list), and leaves database,
table and query unchanged. -/
theorem filterParts_frame (isPartInPartition : Str → EmptyMap → Bool)
    (t : TableMetadata) (partitionsFilter : EmptyMap) :
    (filterPartsByPartitionsFilter isPartInPartition t partitionsFilter).Parts.map Prod.fst
        = t.Parts.map Prod.fst
    ∧ (filterPartsByPartitionsFilter isPartInPartition t partitionsFilter).Database = t.Database
    ∧ (filterPartsByPartitionsFilter isPartInPartition t partitionsFilter).Table = t.Table
    ∧ (filterPartsByPartitionsFilter isPartInPartition t partitionsFilter).Query = t.Query
    ∧ (∀ disk parts, (disk, parts) ∈ t.Parts →
        (∀ part ∈ parts, isPartInPartition part.Name partitionsFilter = false) →
        partitionsFilter ≠ [] →
        (disk, []) ∈ (filterPartsByPartitionsFilter isPartInPartition t partitionsFilter).Parts)
    := by
  unfold filterPartsByPartitionsFilter
  split
  · refine ⟨?_, rfl, rfl, rfl, ?_⟩
    · simp only [List.map_map]
      exact List.map_congr_left (fun dp _ => rfl)
    · intro disk parts hm hnone _
      simp only [List.mem_map]
      refine ⟨(disk, parts), hm, ?_⟩
      simp only [Prod.mk.injEq, true_and, List.filter_eq_nil_iff]
      intro part hp
      simp [hnone part hp]
  · rename_i h
    refine ⟨rfl, rfl, rfl, rfl, ?_⟩
    intro disk parts _ _ hne
    exact absurd (List.length_pos.mpr hne) h

/-! ## Pattern filter over table identities -/

theorem parseLoop_eq (fpMatch : Str → Str → MatchResult) (tablePatterns : List Str)
    (tables result : List TableTitle) :
    parseLoop fpMatch tablePatterns tables result
      = result ++ tables.filter (fun t =>
          matchesSomePattern fpMatch (tableNameOf t.Database t.Table) tablePatterns) := by
  induction tables generalizing result with
  | nil => simp [parseLoop]
  | cons t ts ih =>
    simp only [parseLoop, ih, List.filter_cons]
    split <;> simp

theorem matchesSomePattern_eq_any (fpMatch : Str → Str → MatchResult) (tableName : Str)
    (tablePatterns : List Str) :
    matchesSomePattern fpMatch tableName tablePatterns
      = tablePatterns.any (fun p => (fpMatch (strTrim p " \t\r\n".data) tableName).matched) := by
  induction tablePatterns with
  | nil => rfl
  | cons p ps ih =>
    simp only [matchesSomePattern, ih, List.any_cons]
    cases (fpMatch (strTrim p " \t\r\n".data) tableName).matched <;> simp

theorem parse_eq_filter (fpMatch : Str → Str → MatchResult) (tables : List TableTitle)
    (tablePattern : Str) :
    parseTablePatternForDownload fpMatch tables tablePattern
      = tables.filter (fun t => (tablePatternsOf tablePattern).any (fun p =>
          (fpMatch (strTrim p " \t\r\n".data) (tableNameOf t.Database t.Table)).matched)) := by
  unfold parseTablePatternForDownload
  rw [parseLoop_eq, List.nil_append]
  exact List.filter_congr (fun t _ => matchesSomePattern_eq_any fpMatch _ _)

/-- C24: for every list of table identities the empty pattern string gives what the
pattern string `*` gives in `parseTablePatternForDownload`, and both builds return the
same results and issue the same reads with the empty pattern string as with `*`, whatever
the environment and the other arguments. -/
theorem empty_pattern_is_star (fpMatch : Str → Str → MatchResult)
    (sortSlice : (TableMetadata → TableMetadata → Bool) → ListOfTables → ListOfTables)
    (tables : List TableTitle) (localEnv : LocalEnv) (metadataPath : Str)
    (dropTable : Bool) (partitionsFilter : EmptyMap) (remoteEnv : RemoteEnv)
    (remoteBackupMetadata : BackupMetadata) :
    parseTablePatternForDownload fpMatch tables [] =
        parseTablePatternForDownload fpMatch tables "*".data
    ∧ getTableListByPatternLocal fpMatch sortSlice localEnv metadataPath [] dropTable
          partitionsFilter
        = getTableListByPatternLocal fpMatch sortSlice localEnv metadataPath "*".data
          dropTable partitionsFilter
    ∧ getTableListByPatternRemote fpMatch sortSlice remoteEnv remoteBackupMetadata []
          dropTable
        = getTableListByPatternRemote fpMatch sortSlice remoteEnv remoteBackupMetadata
          "*".data dropTable
    ∧ tablePatternsOf [] = ["*".data] :=
  ⟨rfl, rfl, rfl, rfl⟩

/-- C28: for every list of table identities and pattern string,
`parseTablePatternForDownload` returns the entries of the input, in the order of the
input and each as often as it occurs there, whose `database.table` is matched by at least
one of the trimmed patterns; nothing else decides, neither skip patterns nor the
information-schema exclusion: with Go's matcher an entry of `INFORMATION_SCHEMA` matched
by a pattern is returned, and an entry that matches two patterns is returned once. -/
theorem parse_is_filter (fpMatch : Str → Str → MatchResult) (tables : List TableTitle)
    (tablePattern : Str) :
    parseTablePatternForDownload fpMatch tables tablePattern
        = tables.filter (fun t => (tablePatternsOf tablePattern).any (fun p =>
            (fpMatch (strTrim p " \t\r\n".data) (tableNameOf t.Database t.Table)).matched))
    ∧ parseTablePatternForDownload filepathMatch
          [⟨"INFORMATION_SCHEMA".data, "tables".data⟩, ⟨"db".data, "t1".data⟩,
            ⟨"other".data, "t2".data⟩, ⟨"db".data, "t1".data⟩]
          "db.*,*.t1, INFORMATION_SCHEMA.*".data
        = [⟨"INFORMATION_SCHEMA".data, "tables".data⟩, ⟨"db".data, "t1".data⟩,
            ⟨"db".data, "t1".data⟩] :=
  ⟨parse_eq_filter fpMatch tables tablePattern, by decide⟩

/-! ## The matcher of Go as an instance of the contract -/

theorem matchFrom_err (fuel : Nat) (pattern name : Str)
    (h : (matchFrom fuel pattern name).err ≠ none) :
    (matchFrom fuel pattern name).matched = false := by
  induction fuel generalizing pattern name with
  | zero => rfl
  | succ fuel ih =>
    unfold matchFrom at h ⊢
    split
    · rename_i hp
      rw [if_pos hp] at h
      exact absurd rfl h
    · rename_i hp
      rw [if_neg hp] at h
      split
      · rename_i hs
        rw [if_pos hs] at h
        exact absurd rfl h
      · rename_i hs
        rw [if_neg hs] at h
        split
        · rfl
        · rename_i t heq
          rw [heq] at h
          simp only at h
          split
          · rename_i ht
            rw [if_pos ht] at h
            exact ih _ _ h
          · rename_i ht
            rw [if_neg ht] at h
            split
            · rename_i hst
              rw [if_pos hst] at h
              split
              · rfl
              · rename_i t2 heq2
                rw [heq2] at h
                exact ih _ _ h
              · rfl
            · rfl
        · rename_i heq
          rw [heq] at h
          simp only at h
          split
          · rename_i hst
            rw [if_pos hst] at h
            split
            · rfl
            · rename_i t2 heq2
              rw [heq2] at h
              exact ih _ _ h
            · rfl
          · rfl

/-- Go's `filepath.Match`, read on characters, meets the contract. -/
theorem filepathMatch_contract : GlobContract filepathMatch := by
  refine ⟨fun name => rfl, fun name => rfl, fun pattern name h => ?_⟩
  exact matchFrom_err _ pattern name h

/-! ## The wildcard, trimming and malformed patterns -/

theorem strContains_singleton (s : Str) (c : Char) :
    strContains s [c] = true ↔ c ∈ s := by
  induction s with
  | nil => simp [strContains, hasPrefix]
  | cons x xs ih =>
    have e : strContains (x :: xs) [c] = (hasPrefix (x :: xs) [c] || strContains xs [c]) := rfl
    rw [e, Bool.or_eq_true, ih]
    have e2 : hasPrefix (x :: xs) [c] = (x == c && hasPrefix xs []) := rfl
    have e3 : hasPrefix xs [] = true := by cases xs <;> rfl
    rw [e2, e3]
    simp only [Bool.and_true, beq_iff_eq, List.mem_cons]
    constructor
    · rintro (h | h)
      · exact Or.inl h.symm
      · exact Or.inr h
    · rintro (h | h)
      · exact Or.inl h.symm
      · exact Or.inr h

theorem tableNameOf_slash (d t : Str) :
    strContains (tableNameOf d t) "/".data = false ↔ '/' ∉ d ∧ '/' ∉ t := by
  rw [← Bool.not_eq_true, show "/".data = ['/'] from rfl, strContains_singleton]
  simp only [tableNameOf, List.mem_append, not_or]
  constructor
  · rintro ⟨⟨h1, _⟩, h2⟩
    exact ⟨h1, h2⟩
  · rintro ⟨h1, h2⟩
    exact ⟨⟨h1, by decide⟩, h2⟩

theorem tableNameOf_ne_nil (d t : Str) : (tableNameOf d t).isEmpty = false := by
  cases d <;> rfl

theorem star_matched (fpMatch : Str → Str → MatchResult) (hG : GlobContract fpMatch)
    (d t : Str) :
    (fpMatch (strTrim "*".data " \t\r\n".data) (tableNameOf d t)).matched
      = decide ('/' ∉ d ∧ '/' ∉ t) := by
  have e : strTrim "*".data " \t\r\n".data = "*".data := by decide
  rw [e, hG.1, Bool.eq_iff_iff]
  simp only [Bool.not_eq_true', decide_eq_true_eq]
  exact tableNameOf_slash d t

/-- C25 (counterexample): with Go's matcher, which meets the contract, the pattern `*`
does not match the identity of database `a/b` and table `t`, and the empty pattern string
leaves that entry out. -/
theorem star_misses_slash :
    GlobContract filepathMatch
    ∧ (filepathMatch "*".data (tableNameOf "a/b".data "t".data)).matched = false
    ∧ parseTablePatternForDownload filepathMatch
        [⟨"a/b".data, "t".data⟩, ⟨"db".data, "t1".data⟩] []
      = [⟨"db".data, "t1".data⟩] :=
  ⟨filepathMatch_contract, by decide, by decide⟩

/-- C25 (amended): for every database name `d` and table name `t`, the identity `d.t` is
matched by the pattern `*` exactly when neither name contains `/`, the directory
separator that `*` does not pass; so `parseTablePatternForDownload` with the empty
pattern string returns the input tables without `/` in their names, and every input
table when no name contains `/`. -/
theorem star_matches_without_slash (fpMatch : Str → Str → MatchResult)
    (hG : GlobContract fpMatch) (d t : Str) (tables : List TableTitle) :
    ((fpMatch "*".data (tableNameOf d t)).matched = true ↔ '/' ∉ d ∧ '/' ∉ t)
    ∧ parseTablePatternForDownload fpMatch tables []
        = tables.filter (fun x => decide ('/' ∉ x.Database ∧ '/' ∉ x.Table))
    ∧ ((∀ x ∈ tables, '/' ∉ x.Database ∧ '/' ∉ x.Table) →
        parseTablePatternForDownload fpMatch tables [] = tables) := by
  have hp : parseTablePatternForDownload fpMatch tables []
      = tables.filter (fun x => decide ('/' ∉ x.Database ∧ '/' ∉ x.Table)) := by
    rw [parse_eq_filter]
    refine List.filter_congr (fun x _ => ?_)
    have e : tablePatternsOf [] = ["*".data] := rfl
    rw [e, List.any_cons, List.any_nil, Bool.or_false, star_matched fpMatch hG]
  refine ⟨?_, hp, ?_⟩
  · rw [hG.1]
    simp only [Bool.not_eq_true']
    exact tableNameOf_slash d t
  · intro h
    rw [hp, List.filter_eq_self]
    intro x hx
    simpa using h x hx

/-- C25 (witness): Go's matcher on three ordinary identities. -/
theorem star_matches_without_slash_witness :
    GlobContract filepathMatch
    ∧ parseTablePatternForDownload filepathMatch
        [⟨"db".data, "t1".data⟩, ⟨"INFORMATION_SCHEMA".data, "tables".data⟩,
          ⟨"my db".data, ".inner.mv".data⟩] []
      = [⟨"db".data, "t1".data⟩, ⟨"INFORMATION_SCHEMA".data, "tables".data⟩,
          ⟨"my db".data, ".inner.mv".data⟩] :=
  ⟨filepathMatch_contract,
    (star_matches_without_slash filepathMatch filepathMatch_contract "db".data "t1".data
      [⟨"db".data, "t1".data⟩, ⟨"INFORMATION_SCHEMA".data, "tables".data⟩,
        ⟨"my db".data, ".inner.mv".data⟩]).2.2 (by decide)⟩

/-! ### Trimming -/

theorem matchesSomePattern_congr (fpMatch : Str → Str → MatchResult) (tableName : Str)
    (l1 l2 : List Str)
    (h : l1.map (fun p => strTrim p " \t\r\n".data) = l2.map (fun p => strTrim p " \t\r\n".data)) :
    matchesSomePattern fpMatch tableName l1 = matchesSomePattern fpMatch tableName l2 := by
  rw [matchesSomePattern_eq_any, matchesSomePattern_eq_any]
  have e : ∀ l : List Str,
      l.any (fun p => (fpMatch (strTrim p " \t\r\n".data) tableName).matched)
        = (l.map (fun p => strTrim p " \t\r\n".data)).any
            (fun q => (fpMatch q tableName).matched) := by
    intro l
    rw [List.any_map]
    rfl
  rw [e l1, e l2, h]

theorem localPatterns_congr (fpMatch : Str → Str → MatchResult) (env : LocalEnv)
    (metadataPath : Str) (partitionsFilter : EmptyMap) (filePath : Str) (isEmbedded : Bool)
    (names : List Str) (database table : Str) (shallSkipped : Bool) (l1 l2 : List Str)
    (h : l1.map (fun p => strTrim p " \t\r\n".data) = l2.map (fun p => strTrim p " \t\r\n".data))
    (s : BuildState) :
    localPatterns fpMatch env metadataPath partitionsFilter filePath isEmbedded names
        database table shallSkipped l1 s
      = localPatterns fpMatch env metadataPath partitionsFilter filePath isEmbedded names
        database table shallSkipped l2 s := by
  induction l1 generalizing l2 s with
  | nil =>
    cases l2 with
    | nil => rfl
    | cons q qs => simp at h
  | cons p ps ih =>
    cases l2 with
    | nil => simp at h
    | cons q qs =>
      simp only [List.map_cons, List.cons.injEq] at h
      simp only [localPatterns, h.1]
      split
      · exact ih qs h.2 s
      · rfl

theorem remotePatterns_congr (fpMatch : Str → Str → MatchResult) (env : RemoteEnv)
    (backupName : Str) (t : TableTitle) (shallSkipped : Bool) (l1 l2 : List Str)
    (h : l1.map (fun p => strTrim p " \t\r\n".data) = l2.map (fun p => strTrim p " \t\r\n".data))
    (s : BuildState) :
    remotePatterns fpMatch env backupName t shallSkipped l1 s
      = remotePatterns fpMatch env backupName t shallSkipped l2 s := by
  induction l1 generalizing l2 s with
  | nil =>
    cases l2 with
    | nil => rfl
    | cons q qs => simp at h
  | cons p ps ih =>
    cases l2 with
    | nil => simp at h
    | cons q qs =>
      simp only [List.map_cons, List.cons.injEq] at h
      simp only [remotePatterns, h.1]
      split
      · rfl
      · split
        · exact ih qs h.2 _
        · rfl

/-- The parsers and both builds depend on the list of patterns through the trimmed
patterns only. -/
theorem builds_congr (fpMatch : Str → Str → MatchResult)
    (sortSlice : (TableMetadata → TableMetadata → Bool) → ListOfTables → ListOfTables)
    (l1 l2 : List Str)
    (h : l1.map (fun p => strTrim p " \t\r\n".data) = l2.map (fun p => strTrim p " \t\r\n".data))
    (tables : List TableTitle) (localEnv : LocalEnv) (metadataPath : Str)
    (dropTable : Bool) (partitionsFilter : EmptyMap) (remoteEnv : RemoteEnv)
    (remoteBackupMetadata : BackupMetadata) :
    parseLoop fpMatch l1 tables [] = parseLoop fpMatch l2 tables []
    ∧ finishBuild sortSlice dropTable
          (walkLoop (localVisit fpMatch localEnv metadataPath l1 partitionsFilter)
            (localEnv.walk metadataPath) ⟨[], [], 0, none⟩)
        = finishBuild sortSlice dropTable
          (walkLoop (localVisit fpMatch localEnv metadataPath l2 partitionsFilter)
            (localEnv.walk metadataPath) ⟨[], [], 0, none⟩)
    ∧ finishBuild sortSlice dropTable
          (remoteLoop (remoteVisit fpMatch remoteEnv remoteBackupMetadata.BackupName l1)
            remoteBackupMetadata.Tables ⟨[], [], 0, none⟩)
        = finishBuild sortSlice dropTable
          (remoteLoop (remoteVisit fpMatch remoteEnv remoteBackupMetadata.BackupName l2)
            remoteBackupMetadata.Tables ⟨[], [], 0, none⟩) := by
  have hl : localVisit fpMatch localEnv metadataPath l1 partitionsFilter
      = localVisit fpMatch localEnv metadataPath l2 partitionsFilter := by
    funext e s
    unfold localVisit
    split
    · rfl
    · split
      · rfl
      · split
        · rfl
        · split
          · rfl
          · exact localPatterns_congr fpMatch localEnv _ _ _ _ _ _ _ _ l1 l2 h s
  have hr : remoteVisit fpMatch remoteEnv remoteBackupMetadata.BackupName l1
      = remoteVisit fpMatch remoteEnv remoteBackupMetadata.BackupName l2 := by
    funext t s
    unfold remoteVisit
    split
    · rfl
    · exact remotePatterns_congr fpMatch remoteEnv _ t _ l1 l2 h s
  refine ⟨?_, by rw [hl], by rw [hr]⟩
  rw [parseLoop_eq, parseLoop_eq]
  exact congrArg _ (List.filter_congr (fun t _ => matchesSomePattern_congr fpMatch _ l1 l2 h))

theorem tablePatternsOf_ne_nil (s : Str) (h : s ≠ []) :
    tablePatternsOf s = strSplit s ',' := by
  simp [tablePatternsOf, h]

/-- C26 (counterexample): the pattern string of one blank and the empty pattern string
have the same patterns once trimmed, one empty pattern, and do not give the same result:
the blank selects nothing, the empty string is read as `*` and selects the table. -/
theorem blank_pattern_differs :
    (strSplit " ".data ',').map (fun p => strTrim p " \t\r\n".data)
      = (strSplit [] ',').map (fun p => strTrim p " \t\r\n".data)
    ∧ parseTablePatternForDownload filepathMatch [⟨"db".data, "t1".data⟩] " ".data = []
    ∧ parseTablePatternForDownload filepathMatch [⟨"db".data, "t1".data⟩] []
      = [⟨"db".data, "t1".data⟩] := by
  decide

/-- C26 (amended): for every two pattern strings that are not empty and whose
comma-separated patterns are the same once trimmed of spaces, tabs, carriage returns and
newlines, `parseTablePatternForDownload` returns the same list for every list of
identities, and each build returns the same results and issues the same reads, whatever
the environment and the other arguments. -/
theorem trimmed_patterns_same_result (fpMatch : Str → Str → MatchResult)
    (sortSlice : (TableMetadata → TableMetadata → Bool) → ListOfTables → ListOfTables)
    (p1 p2 : Str) (h1 : p1 ≠ []) (h2 : p2 ≠ [])
    (h : (strSplit p1 ',').map (fun p => strTrim p " \t\r\n".data)
      = (strSplit p2 ',').map (fun p => strTrim p " \t\r\n".data))
    (tables : List TableTitle) (localEnv : LocalEnv) (metadataPath : Str)
    (dropTable : Bool) (partitionsFilter : EmptyMap) (remoteEnv : RemoteEnv)
    (remoteBackupMetadata : BackupMetadata) :
    parseTablePatternForDownload fpMatch tables p1
        = parseTablePatternForDownload fpMatch tables p2
    ∧ getTableListByPatternLocal fpMatch sortSlice localEnv metadataPath p1 dropTable
          partitionsFilter
        = getTableListByPatternLocal fpMatch sortSlice localEnv metadataPath p2 dropTable
          partitionsFilter
    ∧ getTableListByPatternRemote fpMatch sortSlice remoteEnv remoteBackupMetadata p1
          dropTable
        = getTableListByPatternRemote fpMatch sortSlice remoteEnv remoteBackupMetadata p2
          dropTable := by
  unfold parseTablePatternForDownload getTableListByPatternLocal getTableListByPatternRemote
  rw [tablePatternsOf_ne_nil p1 h1, tablePatternsOf_ne_nil p2 h2]
  exact builds_congr fpMatch sortSlice _ _ h tables localEnv metadataPath dropTable
    partitionsFilter remoteEnv remoteBackupMetadata

/-- C26 (witness): the pattern ` db.*` of the integration test, with its leading blank,
against `db.*`: both select the two tables of `db` in the remote build of the example
backup. -/
theorem trimmed_patterns_same_result_witness :
    (getTableListByPatternRemote filepathMatch insertionSort_func (exRemoteEnv exFiles [])
        (exManifest [("db", "t1"), ("db", "v1"), ("other", "t2")]) " db.*".data false).tables
      = (getTableListByPatternRemote filepathMatch insertionSort_func (exRemoteEnv exFiles [])
        (exManifest [("db", "t1"), ("db", "v1"), ("other", "t2")]) "db.*".data false).tables
    ∧ ((getTableListByPatternRemote filepathMatch insertionSort_func (exRemoteEnv exFiles [])
        (exManifest [("db", "t1"), ("db", "v1"), ("other", "t2")]) "db.*".data false).tables.map
          (fun l => l.map (fun t => (t.Database, t.Table))))
      = some [("db".data, "t1".data), ("db".data, "v1".data)] :=
  ⟨congrArg BuildResult.tables
    (trimmed_patterns_same_result filepathMatch insertionSort_func " db.*".data "db.*".data
      (by decide) (by decide) (by decide) [] (exLocalEnv exFiles []) "/backup/metadata".data
      false [] (exRemoteEnv exFiles [])
      (exManifest [("db", "t1"), ("db", "v1"), ("other", "t2")])).2.2,
    by decide⟩

/-! ### Malformed patterns -/

theorem strSplit_no_sep (p : Str) (sep : Char) (h : sep ∉ p) : strSplit p sep = [p] := by
  induction p with
  | nil => rfl
  | cons c cs ih =>
    have hc : c ≠ sep := fun e => h (e ▸ List.mem_cons_self _ _)
    have hcs : sep ∉ cs := fun hm => h (List.mem_cons_of_mem _ hm)
    simp only [strSplit, hc, if_false, ih hcs]

theorem strSplit_append_sep (p s : Str) (sep : Char) (h : sep ∉ p) :
    strSplit (p ++ sep :: s) sep = p :: strSplit s sep := by
  induction p with
  | nil => simp [strSplit]
  | cons c cs ih =>
    have hc : c ≠ sep := fun e => h (e ▸ List.mem_cons_self _ _)
    have hcs : sep ∉ cs := fun hm => h (List.mem_cons_of_mem _ hm)
    rw [List.cons_append, strSplit, if_neg hc, ih hcs]

/-- Splitting the pattern string of a list of patterns without comma gives the list
back, unless the list is empty. -/
theorem strSplit_joinPatterns (l : List Str) (hl : l ≠ []) (hc : ∀ p ∈ l, ',' ∉ p) :
    strSplit (joinPatterns l) ',' = l := by
  induction l with
  | nil => exact absurd rfl hl
  | cons p rest ih =>
    cases rest with
    | nil => exact strSplit_no_sep p ',' (hc p (List.mem_cons_self _ _))
    | cons q rest2 =>
      have e : joinPatterns (p :: q :: rest2) = p ++ ',' :: joinPatterns (q :: rest2) := rfl
      rw [e, strSplit_append_sep p _ ',' (hc p (List.mem_cons_self _ _)),
        ih (by simp) (fun x hx => hc x (List.mem_cons_of_mem _ hx))]

theorem joinPatterns_eq_nil (l : List Str) (h : joinPatterns l = []) : l = [] ∨ l = [[]] := by
  cases l with
  | nil => exact Or.inl rfl
  | cons p rest =>
    cases rest with
    | nil =>
      right
      have e : joinPatterns [p] = p := rfl
      rw [e] at h
      rw [h]
    | cons q rest2 =>
      have e : joinPatterns (p :: q :: rest2) = p ++ ',' :: joinPatterns (q :: rest2) := rfl
      rw [e] at h
      simp at h

/-- The empty pattern, trimmed or not, matches no identity. -/
theorem empty_pattern_no_match (fpMatch : Str → Str → MatchResult) (hG : GlobContract fpMatch)
    (d t : Str) :
    (fpMatch (strTrim [] " \t\r\n".data) (tableNameOf d t)).matched = false := by
  have e : strTrim [] " \t\r\n".data = [] := rfl
  rw [e, hG.2.1, tableNameOf_ne_nil]

/-- C27: for every list of comma-separated patterns with a pattern `m` in it that
`filepath.Match` reports as malformed on the identities at hand, and every list of
identities, `parseTablePatternForDownload`, which has no error to return, gives exactly
what it gives for the pattern string of the list with `m` removed, and nothing when that
pattern string is empty (no pattern is left, or an empty one only). -/
theorem malformed_pattern_ignored (fpMatch : Str → Str → MatchResult)
    (hG : GlobContract fpMatch) (tables : List TableTitle) (pre post : List Str) (m : Str)
    (hc : ∀ p ∈ pre ++ m :: post, ',' ∉ p)
    (hm : ∀ t ∈ tables,
      (fpMatch (strTrim m " \t\r\n".data) (tableNameOf t.Database t.Table)).err ≠ none) :
    parseTablePatternForDownload fpMatch tables (joinPatterns (pre ++ m :: post))
      = if joinPatterns (pre ++ post) = [] then []
        else parseTablePatternForDownload fpMatch tables (joinPatterns (pre ++ post)) := by
  have hcr : ∀ p ∈ pre ++ post, ',' ∉ p := by
    intro p hp
    refine hc p ?_
    rcases List.mem_append.mp hp with h | h
    · exact List.mem_append_left _ h
    · exact List.mem_append_right _ (List.mem_cons_of_mem _ h)
  -- what the full list selects is what the other patterns select
  have hfull : ∀ t ∈ tables,
      (tablePatternsOf (joinPatterns (pre ++ m :: post))).any (fun p =>
        (fpMatch (strTrim p " \t\r\n".data) (tableNameOf t.Database t.Table)).matched)
      = (pre ++ post).any (fun p =>
        (fpMatch (strTrim p " \t\r\n".data) (tableNameOf t.Database t.Table)).matched) := by
    intro t ht
    have hmf := hG.2.2 _ _ (hm t ht)
    have hne : joinPatterns (pre ++ m :: post) ≠ [] := by
      intro h0
      rcases joinPatterns_eq_nil _ h0 with h1 | h1
      · simp at h1
      · have hm0 : m = [] := by
          have hmem : m ∈ pre ++ m :: post := by simp
          rw [h1] at hmem
          simpa using hmem
        have := hm t ht
        rw [hm0, show strTrim [] " \t\r\n".data = [] from rfl, hG.2.1] at this
        exact this rfl
    rw [tablePatternsOf_ne_nil _ hne, strSplit_joinPatterns _ (by simp) hc]
    simp only [List.any_append, List.any_cons, hmf, Bool.false_or]
  rw [parse_eq_filter]
  by_cases h0 : joinPatterns (pre ++ post) = []
  · rw [if_pos h0, List.filter_eq_nil_iff]
    intro t ht
    rw [hfull t ht]
    rcases joinPatterns_eq_nil _ h0 with h1 | h1
    · rw [h1]; simp
    · rw [h1]
      simp [empty_pattern_no_match fpMatch hG]
  · rw [if_neg h0, parse_eq_filter]
    have hne : pre ++ post ≠ [] := by
      intro h1
      rw [h1] at h0
      exact h0 rfl
    rw [tablePatternsOf_ne_nil _ h0, strSplit_joinPatterns _ hne hcr]
    exact List.filter_congr hfull

/-- C27 (witness): the pattern string `db.*,[` with Go's matcher: the unterminated class
is reported as malformed and the result is that of `db.*`. -/
theorem malformed_pattern_ignored_witness :
    GlobContract filepathMatch
    ∧ (filepathMatch "[".data "db.t1".data).err = some ErrBadPattern
    ∧ parseTablePatternForDownload filepathMatch
        [⟨"db".data, "t1".data⟩, ⟨"other".data, "t2".data⟩] "db.*,[".data
      = [⟨"db".data, "t1".data⟩] :=
  ⟨filepathMatch_contract, by decide,
    (malformed_pattern_ignored filepathMatch filepathMatch_contract
      [⟨"db".data, "t1".data⟩, ⟨"other".data, "t2".data⟩] ["db.*".data] [] "[".data
      (by decide) (by decide)).trans (by decide)⟩

/-! ## The builds: what is read and what the catalog is made of -/

theorem mergeAll_snoc (records : List TableMetadata) (t : TableMetadata) :
    mergeAll (records ++ [t])
      = addTableToListIfNotExistsOrEnrichQueryAndParts (mergeAll records) t := by
  unfold mergeAll
  rw [List.foldl_append, List.foldl_cons, List.foldl_nil]

theorem shallSkip_eq_any (fpMatch : Str → Str → MatchResult) (tableName : Str)
    (skipTables : List Str) :
    shallSkip fpMatch tableName skipTables
      = skipTables.any (fun sp => (fpMatch sp tableName).matched) := by
  induction skipTables with
  | nil => rfl
  | cons p ps ih =>
    simp only [shallSkip, ih, List.any_cons]
    cases (fpMatch p tableName).matched <;> simp

/-- A loop that visits the elements in order until an error keeps an invariant that each
visit keeps. -/
theorem walkLoop_invariant (P : BuildState → Prop) (visit : WalkEntry → BuildState → BuildState)
    (hv : ∀ e s, P s → P (visit e s)) (es : List WalkEntry) (s : BuildState) (hs : P s) :
    P (walkLoop visit es s) := by
  induction es generalizing s with
  | nil => exact hs
  | cons e es ih =>
    unfold walkLoop
    split
    · exact hv e s hs
    · exact ih _ (hv e s hs)

theorem remoteLoop_invariant (P : BuildState → Prop)
    (visit : TableTitle → BuildState → BuildState)
    (hv : ∀ t s, P s → P (visit t s)) (ts : List TableTitle) (s : BuildState) (hs : P s) :
    P (remoteLoop visit ts s) := by
  induction ts generalizing s with
  | nil => exact hs
  | cons t ts ih =>
    unfold remoteLoop
    split
    · exact hv t s hs
    · exact ih _ (hv t s hs)

/-- A state that differs from one with the invariant in the error and the count of
checks only has the invariant. -/
theorem buildInvariant_of_same (fpMatch : Str → Str → MatchResult) (skipTables : List Str)
    (recordOfRead : ReadEvent → Option TableMetadata) (s s2 : BuildState)
    (h : BuildInvariant fpMatch skipTables recordOfRead s)
    (h1 : s2.result = s.result) (h2 : s2.reads = s.reads) :
    BuildInvariant fpMatch skipTables recordOfRead s2 := by
  unfold BuildInvariant
  rw [h1, h2]
  exact h

/-- A read for an identity that is neither excluded nor skipped keeps the invariant when
the catalog is extended by the record of that read, if there is one. -/
theorem buildInvariant_read (fpMatch : Str → Str → MatchResult) (skipTables : List Str)
    (recordOfRead : ReadEvent → Option TableMetadata) (s s2 : BuildState) (ev : ReadEvent)
    (h : BuildInvariant fpMatch skipTables recordOfRead s)
    (hi : IsInformationSchema ev.Database = false)
    (hk : shallSkip fpMatch (tableNameOf ev.Database ev.Table) skipTables = false)
    (h2 : s2.reads = s.reads ++ [ev])
    (h1 : s2.result = match recordOfRead ev with
      | some t => addTableToListIfNotExistsOrEnrichQueryAndParts s.result t
      | none => s.result) :
    BuildInvariant fpMatch skipTables recordOfRead s2 := by
  unfold BuildInvariant
  rw [h1, h2]
  refine ⟨?_, ?_⟩
  · rw [List.filterMap_append, h.1]
    cases hr : recordOfRead ev with
    | none => simp [List.filterMap, hr]
    | some t =>
      simp only [List.filterMap_cons, hr, List.filterMap_nil]
      rw [mergeAll_snoc]
  · intro x hx
    rcases List.mem_append.mp hx with hx | hx
    · exact h.2 x hx
    · rw [List.mem_singleton] at hx
      rw [hx]
      exact ⟨hi, hk⟩

theorem localReadTable_invariant (fpMatch : Str → Str → MatchResult) (env : LocalEnv)
    (metadataPath : Str) (partitionsFilter : EmptyMap) (filePath database table : Str)
    (s : BuildState)
    (h : BuildInvariant fpMatch env.SkipTables
      (localRecordOfRead env metadataPath partitionsFilter) s)
    (hi : IsInformationSchema database = false)
    (hk : shallSkip fpMatch (tableNameOf database table) env.SkipTables = false) :
    BuildInvariant fpMatch env.SkipTables
      (localRecordOfRead env metadataPath partitionsFilter)
      (localReadTable env metadataPath partitionsFilter filePath
        (hasSuffix filePath ".sql".data) (entryNames metadataPath filePath) database table s)
    := by
  refine buildInvariant_read fpMatch _ _ s _ ⟨database, table, filePath⟩ h hi hk ?_ ?_
  · unfold localReadTable
    split
    · rfl
    · split <;> rfl
  · unfold localReadTable localRecordOfRead
    cases hr : env.readFile filePath with
    | error e => simp only [hr]
    | ok data =>
      simp only [hr]
      cases hl : localRecord env metadataPath partitionsFilter (hasSuffix filePath ".sql".data)
          (entryNames metadataPath filePath) database table data with
      | error e => simp only [hl]
      | ok t => simp only [hl]

theorem localPatterns_invariant (fpMatch : Str → Str → MatchResult) (env : LocalEnv)
    (metadataPath : Str) (partitionsFilter : EmptyMap) (filePath database table : Str)
    (tablePatterns : List Str) (s : BuildState)
    (h : BuildInvariant fpMatch env.SkipTables
      (localRecordOfRead env metadataPath partitionsFilter) s)
    (hi : IsInformationSchema database = false) :
    BuildInvariant fpMatch env.SkipTables
      (localRecordOfRead env metadataPath partitionsFilter)
      (localPatterns fpMatch env metadataPath partitionsFilter filePath
        (hasSuffix filePath ".sql".data) (entryNames metadataPath filePath) database table
        (shallSkip fpMatch (tableNameOf database table) env.SkipTables) tablePatterns s) := by
  induction tablePatterns with
  | nil => exact h
  | cons p ps ih =>
    unfold localPatterns
    split
    · exact ih
    · rename_i hc
      have hk : shallSkip fpMatch (tableNameOf database table) env.SkipTables = false := by
        cases hsk : shallSkip fpMatch (tableNameOf database table) env.SkipTables with
        | false => rfl
        | true => rw [hsk] at hc; simp at hc
      exact localReadTable_invariant fpMatch env metadataPath partitionsFilter filePath
        database table s h hi hk

theorem localVisit_invariant (fpMatch : Str → Str → MatchResult) (env : LocalEnv)
    (metadataPath : Str) (tablePatterns : List Str) (partitionsFilter : EmptyMap)
    (e : WalkEntry) (s : BuildState)
    (h : BuildInvariant fpMatch env.SkipTables
      (localRecordOfRead env metadataPath partitionsFilter) s) :
    BuildInvariant fpMatch env.SkipTables
      (localRecordOfRead env metadataPath partitionsFilter)
      (localVisit fpMatch env metadataPath tablePatterns partitionsFilter e s) := by
  unfold localVisit
  split
  · exact buildInvariant_of_same fpMatch _ _ s _ h rfl rfl
  · split
    · exact h
    · split
      · exact h
      · split
        · exact h
        · rename_i hi
          exact localPatterns_invariant fpMatch env metadataPath partitionsFilter e.filePath
            _ _ tablePatterns s h (by simpa using hi)

theorem remotePatterns_invariant (fpMatch : Str → Str → MatchResult) (env : RemoteEnv)
    (backupName : Str) (t : TableTitle) (tablePatterns : List Str) (s : BuildState)
    (h : BuildInvariant fpMatch env.SkipTables (remoteRecordOfRead env) s)
    (hi : IsInformationSchema t.Database = false) :
    BuildInvariant fpMatch env.SkipTables (remoteRecordOfRead env)
      (remotePatterns fpMatch env backupName t
        (shallSkip fpMatch (tableNameOf t.Database t.Table) env.SkipTables)
        tablePatterns s) := by
  induction tablePatterns generalizing s with
  | nil => exact h
  | cons p ps ih =>
    unfold remotePatterns
    split
    · exact buildInvariant_of_same fpMatch _ _ s _ h rfl rfl
    · split
      · exact ih _ (buildInvariant_of_same fpMatch _ _ s _ h rfl rfl)
      · rename_i hc
        have hk : shallSkip fpMatch (tableNameOf t.Database t.Table) env.SkipTables
            = false := by
          cases hsk : shallSkip fpMatch (tableNameOf t.Database t.Table) env.SkipTables with
          | false => rfl
          | true => rw [hsk] at hc; simp at hc
        refine buildInvariant_read fpMatch _ _ s _
          ⟨t.Database, t.Table, remotePathOf env backupName t⟩ h hi hk ?_ ?_
        · split <;> rfl
        · unfold remoteRecordOfRead
          cases hr : remoteRecord env (remotePathOf env backupName t) with
          | error e => simp only [hr]
          | ok tm => simp only [hr]

theorem remoteVisit_invariant (fpMatch : Str → Str → MatchResult) (env : RemoteEnv)
    (backupName : Str) (tablePatterns : List Str) (t : TableTitle) (s : BuildState)
    (h : BuildInvariant fpMatch env.SkipTables (remoteRecordOfRead env) s) :
    BuildInvariant fpMatch env.SkipTables (remoteRecordOfRead env)
      (remoteVisit fpMatch env backupName tablePatterns t s) := by
  unfold remoteVisit
  split
  · exact h
  · rename_i hi
    exact remotePatterns_invariant fpMatch env backupName t tablePatterns s h
      (by simpa using hi)

theorem buildInvariant_init (fpMatch : Str → Str → MatchResult) (skipTables : List Str)
    (recordOfRead : ReadEvent → Option TableMetadata) :
    BuildInvariant fpMatch skipTables recordOfRead ⟨[], [], 0, none⟩ :=
  ⟨rfl, fun ev h => by simp at h⟩

/-- The state of the local build after its walk has the invariant. -/
theorem local_invariant (fpMatch : Str → Str → MatchResult) (env : LocalEnv)
    (metadataPath : Str) (tablePatterns : List Str) (partitionsFilter : EmptyMap) :
    BuildInvariant fpMatch env.SkipTables
      (localRecordOfRead env metadataPath partitionsFilter)
      (walkLoop (localVisit fpMatch env metadataPath tablePatterns partitionsFilter)
        (env.walk metadataPath) ⟨[], [], 0, none⟩) :=
  walkLoop_invariant _ _
    (fun e s h => localVisit_invariant fpMatch env metadataPath tablePatterns
      partitionsFilter e s h)
    _ _ (buildInvariant_init fpMatch _ _)

/-- The state of the remote build after its loop has the invariant. -/
theorem remote_invariant (fpMatch : Str → Str → MatchResult) (env : RemoteEnv)
    (backupName : Str) (tablePatterns : List Str) (tables : List TableTitle) :
    BuildInvariant fpMatch env.SkipTables (remoteRecordOfRead env)
      (remoteLoop (remoteVisit fpMatch env backupName tablePatterns) tables
        ⟨[], [], 0, none⟩) :=
  remoteLoop_invariant _ _
    (fun t s h => remoteVisit_invariant fpMatch env backupName tablePatterns t s h)
    _ _ (buildInvariant_init fpMatch _ _)

theorem finishBuild_reads
    (sortSlice : (TableMetadata → TableMetadata → Bool) → ListOfTables → ListOfTables)
    (dropTable : Bool) (s : BuildState) : (finishBuild sortSlice dropTable s).reads = s.reads := by
  unfold finishBuild
  split <;> rfl

theorem finishBuild_tables
    (sortSlice : (TableMetadata → TableMetadata → Bool) → ListOfTables → ListOfTables)
    (dropTable : Bool) (s : BuildState) (l : ListOfTables)
    (h : (finishBuild sortSlice dropTable s).tables = some l) :
    l = ListOfTables.Sort sortSlice s.result dropTable := by
  unfold finishBuild at h
  split at h
  · exact Option.noConfusion h
  · exact (Option.some.inj h).symm

/-- Every entry of a catalog built by merges has the identity of one of the records
merged. -/
theorem mergeAll_mem (records : List TableMetadata) (r : TableMetadata)
    (h : r ∈ mergeAll records) :
    ∃ tm ∈ records, tm.Database = r.Database ∧ tm.Table = r.Table := by
  have hk : (r.Database, r.Table) ∈ (mergeAll records).map (fun e => (e.Database, e.Table)) :=
    List.mem_map.mpr ⟨r, h, rfl⟩
  clear h
  induction records using List.reverseRecOn with
  | nil => simp [mergeAll] at hk
  | append_singleton rs t ih =>
    rw [mergeAll_snoc, addTable_keys] at hk
    split at hk
    · obtain ⟨tm, htm, e⟩ := ih hk
      exact ⟨tm, List.mem_append_left _ htm, e⟩
    · rcases List.mem_append.mp hk with h1 | h1
      · obtain ⟨tm, htm, e⟩ := ih h1
        exact ⟨tm, List.mem_append_left _ htm, e⟩
      · rw [List.mem_singleton] at h1
        have e1 := congrArg Prod.fst h1
        have e2 := congrArg Prod.snd h1
        exact ⟨t, by simp, e1.symm, e2.symm⟩

/-- In a state with the invariant, when every record read carries the database of the
identity it is read for, no entry of the catalog has an information-schema database. -/
theorem invariant_no_information_schema (fpMatch : Str → Str → MatchResult)
    (skipTables : List Str) (recordOfRead : ReadEvent → Option TableMetadata)
    (s : BuildState) (h : BuildInvariant fpMatch skipTables recordOfRead s)
    (hdoc : ∀ ev ∈ s.reads, ∀ tm, recordOfRead ev = some tm → tm.Database = ev.Database)
    (r : TableMetadata) (hr : r ∈ s.result) : IsInformationSchema r.Database = false := by
  rw [h.1] at hr
  obtain ⟨tm, htm, e, _⟩ := mergeAll_mem _ r hr
  obtain ⟨ev, hev, hrec⟩ := List.mem_filterMap.mp htm
  rw [← e, hdoc ev hev tm hrec]
  exact (h.2 ev hev).1

theorem Sort_mem
    (sortSlice : (TableMetadata → TableMetadata → Bool) → ListOfTables → ListOfTables)
    (hS : SortSliceContract sortSlice) (l : ListOfTables) (dropTable : Bool)
    (r : TableMetadata) (h : r ∈ ListOfTables.Sort sortSlice l dropTable) : r ∈ l :=
  ((sortSlice_key_perm_sorted sortSlice hS
    (fun x => getOrderByEngine x.Query dropTable) l).1.mem_iff).mp h

theorem IsInformationSchema_iff (d : Str) :
    IsInformationSchema d = true ↔
      d = "INFORMATION_SCHEMA".data ∨ d = "information_schema".data
        ∨ d = "_temporary_and_external_tables".data := by
  simp [IsInformationSchema]

/-! ## Information schema and skip patterns in the builds -/

/-- C29 (counterexample): the manifest lists the identity `odd.t3` and the document
stored for it decodes to a record of database `information_schema`: the remote build
succeeds and returns that record, and so does the local build on the directory tree of
the same documents. -/
theorem build_returns_information_schema :
    (getTableListByPatternRemote filepathMatch insertionSort_func (exRemoteEnv exFiles [])
        (exManifest [("odd", "t3")]) [] false).tables
      = some [{ Database := "information_schema".data, Table := "t3".data,
                Query := "CREATE TABLE odd.t3 (x UInt64)".data, Parts := [] }]
    ∧ ((getTableListByPatternLocal filepathMatch insertionSort_func (exLocalEnv exFiles [])
        "/backup/metadata".data [] false []).tables.map
          (fun l => l.map (fun r => r.Database)))
      = some ["db".data, "other".data, "information_schema".data, "db".data]
    ∧ IsInformationSchema "information_schema".data = true := by
  decide

/-- C29 (amended): `IsInformationSchema(d)` is true exactly for `INFORMATION_SCHEMA`,
`information_schema` and `_temporary_and_external_tables`. For every metadata source,
include pattern string and skip list, neither build reads metadata for an identity whose
database is one of these three; and when every record that is read carries the database
of the identity it is read for, the catalog returned by either build, whatever
`sort.Slice` does within its contract, contains no record whose database is one of the
three. -/
theorem information_schema_excluded (fpMatch : Str → Str → MatchResult)
    (sortSlice : (TableMetadata → TableMetadata → Bool) → ListOfTables → ListOfTables)
    (hS : SortSliceContract sortSlice)
    (localEnv : LocalEnv) (metadataPath tablePattern : Str) (dropTable : Bool)
    (partitionsFilter : EmptyMap) (remoteEnv : RemoteEnv)
    (remoteBackupMetadata : BackupMetadata) (d : Str) :
    (IsInformationSchema d = true ↔
      d = "INFORMATION_SCHEMA".data ∨ d = "information_schema".data
        ∨ d = "_temporary_and_external_tables".data)
    ∧ (∀ ev ∈ (getTableListByPatternLocal fpMatch sortSlice localEnv metadataPath
          tablePattern dropTable partitionsFilter).reads,
        IsInformationSchema ev.Database = false)
    ∧ (∀ ev ∈ (getTableListByPatternRemote fpMatch sortSlice remoteEnv remoteBackupMetadata
          tablePattern dropTable).reads,
        IsInformationSchema ev.Database = false)
    ∧ ((∀ ev ∈ (getTableListByPatternLocal fpMatch sortSlice localEnv metadataPath
          tablePattern dropTable partitionsFilter).reads,
          ∀ tm, localRecordOfRead localEnv metadataPath partitionsFilter ev = some tm →
            tm.Database = ev.Database) →
        ∀ l, (getTableListByPatternLocal fpMatch sortSlice localEnv metadataPath
          tablePattern dropTable partitionsFilter).tables = some l →
          ∀ r ∈ l, IsInformationSchema r.Database = false)
    ∧ ((∀ ev ∈ (getTableListByPatternRemote fpMatch sortSlice remoteEnv remoteBackupMetadata
          tablePattern dropTable).reads,
          ∀ tm, remoteRecordOfRead remoteEnv ev = some tm → tm.Database = ev.Database) →
        ∀ l, (getTableListByPatternRemote fpMatch sortSlice remoteEnv remoteBackupMetadata
          tablePattern dropTable).tables = some l →
          ∀ r ∈ l, IsInformationSchema r.Database = false) := by
  have hL := local_invariant fpMatch localEnv metadataPath (tablePatternsOf tablePattern)
    partitionsFilter
  have hR := remote_invariant fpMatch remoteEnv remoteBackupMetadata.BackupName
    (tablePatternsOf tablePattern) remoteBackupMetadata.Tables
  unfold getTableListByPatternLocal getTableListByPatternRemote
  simp only [finishBuild_reads]
  refine ⟨IsInformationSchema_iff d, fun ev hev => (hL.2 ev hev).1,
    fun ev hev => (hR.2 ev hev).1, ?_, ?_⟩
  · intro hdoc l hl r hr
    rw [finishBuild_tables sortSlice dropTable _ l hl] at hr
    exact invariant_no_information_schema fpMatch _ _ _ hL hdoc r
      (Sort_mem sortSlice hS _ dropTable r hr)
  · intro hdoc l hl r hr
    rw [finishBuild_tables sortSlice dropTable _ l hl] at hr
    exact invariant_no_information_schema fpMatch _ _ _ hR hdoc r
      (Sort_mem sortSlice hS _ dropTable r hr)

/-- C29 (witness): the remote build of the example backup, with every table in the
manifest and Go's insertion sort: no document of `information_schema` is fetched. -/
theorem information_schema_excluded_witness :
    SortSliceContract (insertionSort_func : (TableMetadata → TableMetadata → Bool) → _)
    ∧ ((getTableListByPatternRemote filepathMatch insertionSort_func
        (exRemoteEnv exFilesSound [])
        (exManifest [("db", "t1"), ("information_schema", "tables"), ("other", "t2")])
        [] false).reads.all (fun ev => !IsInformationSchema ev.Database)) = true :=
  ⟨insertionSort_func_contract,
    List.all_eq_true.mpr (fun ev hev => by
      rw [(information_schema_excluded filepathMatch insertionSort_func
        insertionSort_func_contract (exLocalEnv exFilesSound []) "/backup/metadata".data []
        false [] (exRemoteEnv exFilesSound [])
        (exManifest [("db", "t1"), ("information_schema", "tables"), ("other", "t2")])
        []).2.2.1 ev hev]
      rfl)⟩

/-- C30: in both builds, for every environment, pattern string and skip list: every read
of metadata is for an identity that no skip pattern of the configuration matches,
whether or not an include pattern matches it; and the catalog returned is made of the
records of these reads alone, merged in the order of the reads and sorted. So an
identity matched by a skip pattern is never read or fetched and brings no record. -/
theorem skip_patterns_first (fpMatch : Str → Str → MatchResult)
    (sortSlice : (TableMetadata → TableMetadata → Bool) → ListOfTables → ListOfTables)
    (localEnv : LocalEnv) (metadataPath tablePattern : Str) (dropTable : Bool)
    (partitionsFilter : EmptyMap) (remoteEnv : RemoteEnv)
    (remoteBackupMetadata : BackupMetadata) :
    (∀ ev ∈ (getTableListByPatternLocal fpMatch sortSlice localEnv metadataPath
          tablePattern dropTable partitionsFilter).reads,
        ∀ sp ∈ localEnv.SkipTables,
          (fpMatch sp (tableNameOf ev.Database ev.Table)).matched = false)
    ∧ (∀ l, (getTableListByPatternLocal fpMatch sortSlice localEnv metadataPath
          tablePattern dropTable partitionsFilter).tables = some l →
        l = ListOfTables.Sort sortSlice
          (mergeAll ((getTableListByPatternLocal fpMatch sortSlice localEnv metadataPath
            tablePattern dropTable partitionsFilter).reads.filterMap
              (localRecordOfRead localEnv metadataPath partitionsFilter))) dropTable)
    ∧ (∀ ev ∈ (getTableListByPatternRemote fpMatch sortSlice remoteEnv remoteBackupMetadata
          tablePattern dropTable).reads,
        ∀ sp ∈ remoteEnv.SkipTables,
          (fpMatch sp (tableNameOf ev.Database ev.Table)).matched = false)
    ∧ (∀ l, (getTableListByPatternRemote fpMatch sortSlice remoteEnv remoteBackupMetadata
          tablePattern dropTable).tables = some l →
        l = ListOfTables.Sort sortSlice
          (mergeAll ((getTableListByPatternRemote fpMatch sortSlice remoteEnv
            remoteBackupMetadata tablePattern dropTable).reads.filterMap
              (remoteRecordOfRead remoteEnv))) dropTable) := by
  have hL := local_invariant fpMatch localEnv metadataPath (tablePatternsOf tablePattern)
    partitionsFilter
  have hR := remote_invariant fpMatch remoteEnv remoteBackupMetadata.BackupName
    (tablePatternsOf tablePattern) remoteBackupMetadata.Tables
  have hskip : ∀ (skipTables : List Str) (name sp : Str), sp ∈ skipTables →
      shallSkip fpMatch name skipTables = false → (fpMatch sp name).matched = false := by
    intro skipTables name sp hsp h
    rw [shallSkip_eq_any] at h
    cases hm : (fpMatch sp name).matched with
    | false => rfl
    | true =>
      have : skipTables.any (fun sp => (fpMatch sp name).matched) = true :=
        List.any_eq_true.mpr ⟨sp, hsp, hm⟩
      rw [this] at h
      exact Bool.noConfusion h
  unfold getTableListByPatternLocal getTableListByPatternRemote
  simp only [finishBuild_reads]
  refine ⟨fun ev hev sp hsp => hskip _ _ sp hsp (hL.2 ev hev).2, ?_,
    fun ev hev sp hsp => hskip _ _ sp hsp (hR.2 ev hev).2, ?_⟩
  · intro l hl
    rw [finishBuild_tables sortSlice dropTable _ l hl, hL.1]
  · intro l hl
    rw [finishBuild_tables sortSlice dropTable _ l hl, hR.1]

/-- C30 (witness): the remote build of the example backup with the include pattern `db.*`
and the skip pattern `db.v*`: the view `db.v1` matches both, and only the document of
`db.t1` is fetched. -/
theorem skip_patterns_first_witness :
    ((getTableListByPatternRemote filepathMatch insertionSort_func
        (exRemoteEnv exFilesSound ["db.v*"])
        (exManifest [("db", "t1"), ("db", "v1"), ("other", "t2")])
        "db.*".data false).reads.all
      (fun ev => !(filepathMatch "db.v*".data (tableNameOf ev.Database ev.Table)).matched))
      = true
    ∧ (getTableListByPatternRemote filepathMatch insertionSort_func
        (exRemoteEnv exFilesSound ["db.v*"])
        (exManifest [("db", "t1"), ("db", "v1"), ("other", "t2")])
        "db.*".data false).reads
      = [⟨"db".data, "t1".data, "backup/metadata/db/t1.json".data⟩]
    ∧ (filepathMatch "db.*".data (tableNameOf "db".data "v1".data)).matched = true :=
  ⟨List.all_eq_true.mpr (fun ev hev => by
      rw [(skip_patterns_first filepathMatch insertionSort_func
        (exLocalEnv exFilesSound ["db.v*"]) "/backup/metadata".data "db.*".data false []
        (exRemoteEnv exFilesSound ["db.v*"])
        (exManifest [("db", "t1"), ("db", "v1"), ("other", "t2")])).2.2.1 ev hev
        "db.v*".data (by decide)]
      rfl),
    by decide, by decide⟩

/-! ## Cancellation of the remote build -/

/-- The loop over the manifest, run on a list that ends without error, goes on with the
entries that follow the list. -/
theorem remoteLoop_append (visit : TableTitle → BuildState → BuildState)
    (pre rest : List TableTitle) (s : BuildState)
    (h : (remoteLoop visit pre s).err = none) :
    remoteLoop visit (pre ++ rest) s = remoteLoop visit rest (remoteLoop visit pre s) := by
  induction pre generalizing s with
  | nil => rfl
  | cons t ts ih =>
    by_cases hv : (visit t s).err.isSome = true
    · rw [remoteLoop, if_pos hv] at h
      rw [h] at hv
      exact Bool.noConfusion hv
    · have e1 : remoteLoop visit (t :: ts) s = remoteLoop visit ts (visit t s) := by
        rw [remoteLoop, if_neg hv]
      have e2 : remoteLoop visit (t :: (ts ++ rest)) s
          = remoteLoop visit (ts ++ rest) (visit t s) := by
        rw [remoteLoop, if_neg hv]
      rw [e1] at h
      rw [List.cons_append, e1, e2]
      exact ih _ h

/-- Patterns that cause no fetch, looked at while the signal is not raised, only advance
the count of looks at the signal. -/
theorem remotePatterns_quiet (fpMatch : Str → Str → MatchResult) (env : RemoteEnv)
    (backupName : Str) (t : TableTitle) (shallSkipped : Bool) (ps1 rest : List Str)
    (s : BuildState)
    (hps1 : ∀ q ∈ ps1,
      (fpMatch (strTrim q " \t\r\n".data) (tableNameOf t.Database t.Table)).matched = false
        ∨ shallSkipped = true)
    (hquiet : ∀ j, j < ps1.length → env.ctxDone (s.checks + j) = none) :
    remotePatterns fpMatch env backupName t shallSkipped (ps1 ++ rest) s
      = remotePatterns fpMatch env backupName t shallSkipped rest
          { s with checks := s.checks + ps1.length } := by
  induction ps1 generalizing s with
  | nil => rfl
  | cons q qs ih =>
    have h0 : env.ctxDone s.checks = none := by
      simpa using hquiet 0 (by simp)
    have hq : (!(fpMatch (strTrim q " \t\r\n".data)
        (tableNameOf t.Database t.Table)).matched || shallSkipped) = true := by
      rcases hps1 q (List.mem_cons_self _ _) with h | h
      · rw [h]; rfl
      · rw [h]; simp
    rw [List.cons_append, remotePatterns]
    simp only [h0, hq, if_true]
    rw [ih _ (fun q' hq' => hps1 q' (List.mem_cons_of_mem _ hq'))]
    · simp only [List.length_cons]
      congr 2
      omega
    · intro j hj
      have := hquiet (j + 1) (by simpa using hj)
      simpa [Nat.add_assoc, Nat.add_comm 1 j] using this

/-- C32: the remote build looks at the cancellation signal before every pattern
candidate. Let the manifest be `pre ++ t :: post` and the patterns `ps1 ++ p :: ps2`;
let the entries of `pre` have been processed without error, let `t` be no
information-schema identity, and let the patterns of `ps1` have been looked at for `t`
without a fetch while the signal was not raised. If the signal is raised when the build
is about to examine `p` for `t`, the build returns a `nil` catalog and the cancellation
error, and the reads it has issued are those issued before: no further blob is fetched
and the entries of `post` are not processed. -/
theorem remote_cancellation (fpMatch : Str → Str → MatchResult)
    (sortSlice : (TableMetadata → TableMetadata → Bool) → ListOfTables → ListOfTables)
    (env : RemoteEnv) (manifest : BackupMetadata) (tablePattern : Str) (dropTable : Bool)
    (pre post : List TableTitle) (t : TableTitle) (ps1 ps2 : List Str) (p : Str) (e : Err)
    (hm : manifest.Tables = pre ++ t :: post)
    (hp : tablePatternsOf tablePattern = ps1 ++ p :: ps2)
    (hpre : (remoteLoop (remoteVisit fpMatch env manifest.BackupName
      (tablePatternsOf tablePattern)) pre ⟨[], [], 0, none⟩).err = none)
    (hinfo : IsInformationSchema t.Database = false)
    (hps1 : ∀ q ∈ ps1,
      (fpMatch (strTrim q " \t\r\n".data) (tableNameOf t.Database t.Table)).matched = false
        ∨ shallSkip fpMatch (tableNameOf t.Database t.Table) env.SkipTables = true)
    (hquiet : ∀ j, j < ps1.length →
      env.ctxDone ((remoteLoop (remoteVisit fpMatch env manifest.BackupName
        (tablePatternsOf tablePattern)) pre ⟨[], [], 0, none⟩).checks + j) = none)
    (hcancel : env.ctxDone ((remoteLoop (remoteVisit fpMatch env manifest.BackupName
        (tablePatternsOf tablePattern)) pre ⟨[], [], 0, none⟩).checks + ps1.length)
      = some e) :
    getTableListByPatternRemote fpMatch sortSlice env manifest tablePattern dropTable
      = ⟨none, some e,
          (remoteLoop (remoteVisit fpMatch env manifest.BackupName
            (tablePatternsOf tablePattern)) pre ⟨[], [], 0, none⟩).reads⟩ := by
  unfold getTableListByPatternRemote
  rw [hm, remoteLoop_append _ _ _ _ hpre]
  generalize remoteLoop (remoteVisit fpMatch env manifest.BackupName
    (tablePatternsOf tablePattern)) pre ⟨[], [], 0, none⟩ = s at hpre hquiet hcancel ⊢
  have hv : remoteVisit fpMatch env manifest.BackupName (tablePatternsOf tablePattern) t s
      = { s with checks := s.checks + ps1.length + 1, err := some e } := by
    unfold remoteVisit
    rw [hinfo, hp]
    simp only [Bool.false_eq_true, if_false]
    rw [remotePatterns_quiet _ _ _ _ _ _ _ _ hps1 hquiet]
    simp only [remotePatterns, hcancel]
  simp only [remoteLoop, hv, Option.isSome_some, if_true, finishBuild]

/-- C32 (witness): the signal is raised from the fourth look on, while the build examines
the second pattern for the second entry of the manifest; one blob has been fetched. -/
theorem remote_cancellation_witness :
    getTableListByPatternRemote filepathMatch insertionSort_func
        (exCancelledEnv exFiles 3) (exManifest [("db", "t1"), ("db", "v1"), ("other", "t2")])
        "other.*, db.*".data false
      = ⟨none, some "context canceled".data,
          [⟨"db".data, "t1".data, "backup/metadata/db/t1.json".data⟩]⟩ :=
  remote_cancellation filepathMatch insertionSort_func (exCancelledEnv exFiles 3)
    (exManifest [("db", "t1"), ("db", "v1"), ("other", "t2")]) "other.*, db.*".data false
    [⟨"db".data, "t1".data⟩] [⟨"other".data, "t2".data⟩] ⟨"db".data, "v1".data⟩
    ["other.*".data] [] " db.*".data "context canceled".data
    rfl (by decide) (by decide) (by decide) (by decide) (by decide) (by decide)

/-! ## The two builds on the same metadata -/

theorem filterParts_empty (isPartInPartition : Str → EmptyMap → Bool) (t : TableMetadata) :
    filterPartsByPartitionsFilter isPartInPartition t [] = t := by
  simp [filterPartsByPartitionsFilter]

theorem localVisit_passedOver (fpMatch : Str → Str → MatchResult) (env : LocalEnv)
    (metadataPath : Str) (tablePatterns : List Str) (partitionsFilter : EmptyMap)
    (e : WalkEntry) (s : BuildState) (h : passedOver metadataPath e = true) :
    localVisit fpMatch env metadataPath tablePatterns partitionsFilter e s = s := by
  unfold passedOver at h
  simp only [Bool.and_eq_true, Bool.or_eq_true, Option.isNone_iff_eq_none, bne_iff_ne] at h
  unfold localVisit
  rw [h.1]
  simp only
  rcases h.2 with h2 | h2
  · have h3 : (!hasSuffix e.filePath ".sql".data && !hasSuffix e.filePath ".json".data
        && !e.isRegular) = true := by
      simp only [Bool.and_eq_true]; exact h2
    rw [if_pos h3]
  · split
    · rfl
    · rfl

/-- On the sidecar of an identity the pattern loops of the two builds do the same to the
catalog and end with the same error. -/
theorem patterns_agree (fpMatch : Str → Str → MatchResult) (envL : LocalEnv)
    (envR : RemoteEnv) (metadataPath backupName filePath : Str) (names : List Str)
    (t : TableTitle) (shallSkipped : Bool) (data : Str) (tmReader : RemoteFile)
    (hu : envL.unmarshal = envR.unmarshal) (hc : ∀ k, envR.ctxDone k = none)
    (hr : envL.readFile filePath = Except.ok data)
    (hg : envR.getFileReader (remotePathOf envR backupName t) = Except.ok tmReader)
    (hd : tmReader.data = Except.ok data) (hcl : tmReader.closeErr = none)
    (ps : List Str) (sL sR : BuildState)
    (hs : sL.result = sR.result ∧ sL.err = sR.err) :
    (localPatterns fpMatch envL metadataPath [] filePath false names t.Database t.Table
        shallSkipped ps sL).result
      = (remotePatterns fpMatch envR backupName t shallSkipped ps sR).result
    ∧ (localPatterns fpMatch envL metadataPath [] filePath false names t.Database t.Table
        shallSkipped ps sL).err
      = (remotePatterns fpMatch envR backupName t shallSkipped ps sR).err := by
  induction ps generalizing sR with
  | nil => exact hs
  | cons p ps ih =>
    rw [localPatterns, remotePatterns]
    simp only [hc]
    split
    · exact ih _ hs
    · have hrec : remoteRecord envR (remotePathOf envR backupName t)
          = envR.unmarshal data := by
        unfold remoteRecord
        simp only [hg, hd, hcl]
      unfold localReadTable localRecord
      simp only [hr, hrec, hu, Bool.false_eq_true, if_false, filterParts_empty]
      cases envR.unmarshal data with
      | error x => exact ⟨hs.1, rfl⟩
      | ok tm => exact ⟨by simp only [hs.1], hs.2⟩

theorem visits_agree (fpMatch : Str → Str → MatchResult) (envL : LocalEnv)
    (envR : RemoteEnv) (metadataPath backupName : Str) (tablePatterns : List Str)
    (e : WalkEntry) (t : TableTitle)
    (hu : envL.unmarshal = envR.unmarshal) (hk : envL.SkipTables = envR.SkipTables)
    (hc : ∀ k, envR.ctxDone k = none)
    (hp : passedOver metadataPath e = false)
    (h : IsSidecarOf envL envR metadataPath backupName e t) (sL sR : BuildState)
    (hs : sL.result = sR.result ∧ sL.err = sR.err) :
    (localVisit fpMatch envL metadataPath tablePatterns [] e sL).result
      = (remoteVisit fpMatch envR backupName tablePatterns t sR).result
    ∧ (localVisit fpMatch envL metadataPath tablePatterns [] e sL).err
      = (remoteVisit fpMatch envR backupName tablePatterns t sR).err := by
  obtain ⟨he, hsql, hlen, hdb, htb, data, hr, tmReader, hg, hd, hcl⟩ := h
  have htest : (!hasSuffix e.filePath ".sql".data && !hasSuffix e.filePath ".json".data
      && !e.isRegular) = false := by
    unfold passedOver at hp
    rw [he] at hp
    simp only [Option.isNone_none, Bool.true_and, Bool.or_eq_false_iff] at hp
    exact hp.1
  unfold localVisit remoteVisit
  rw [he]
  simp only [htest, Bool.false_eq_true, if_false]
  simp only [hlen, ne_eq, not_true_eq_false, if_false, hdb, htb, hk, hsql]
  cases hi : IsInformationSchema t.Database with
  | true => exact hs
  | false =>
    simp only [Bool.false_eq_true, if_false]
    exact patterns_agree fpMatch envL envR metadataPath backupName e.filePath _ t _ data
      tmReader hu hc hr hg hd hcl tablePatterns sL sR hs

theorem loops_agree (fpMatch : Str → Str → MatchResult) (envL : LocalEnv)
    (envR : RemoteEnv) (metadataPath backupName : Str) (tablePatterns : List Str)
    (hu : envL.unmarshal = envR.unmarshal) (hk : envL.SkipTables = envR.SkipTables)
    (hc : ∀ k, envR.ctxDone k = none)
    (es : List WalkEntry) (ts : List TableTitle) (sL sR : BuildState)
    (h : List.Forall₂ (IsSidecarOf envL envR metadataPath backupName)
      (es.filter (fun e => !passedOver metadataPath e)) ts)
    (hs : sL.result = sR.result ∧ sL.err = sR.err) (hn : sL.err = none) :
    (walkLoop (localVisit fpMatch envL metadataPath tablePatterns []) es sL).result
      = (remoteLoop (remoteVisit fpMatch envR backupName tablePatterns) ts sR).result
    ∧ (walkLoop (localVisit fpMatch envL metadataPath tablePatterns []) es sL).err
      = (remoteLoop (remoteVisit fpMatch envR backupName tablePatterns) ts sR).err := by
  induction es generalizing ts sL sR with
  | nil =>
    cases h
    exact hs
  | cons e es ih =>
    cases hp : passedOver metadataPath e with
    | true =>
      have hv := localVisit_passedOver fpMatch envL metadataPath tablePatterns [] e sL hp
      rw [List.filter_cons_of_neg (by simp [hp])] at h
      rw [walkLoop, hv, hn]
      simp only [Option.isSome_none, Bool.false_eq_true, if_false]
      exact ih ts sL sR h hs hn
    | false =>
      rw [List.filter_cons_of_pos (by simp [hp])] at h
      cases h with
      | cons hside hrest =>
        rename_i t ts'
        have hv := visits_agree fpMatch envL envR metadataPath backupName tablePatterns e t
          hu hk hc hp hside sL sR hs
        rw [walkLoop, remoteLoop]
        rw [← hv.2]
        by_cases hsome : (localVisit fpMatch envL metadataPath tablePatterns [] e sL).err.isSome
            = true
        · rw [if_pos hsome, if_pos hsome]
          exact hv
        · rw [if_neg hsome, if_neg hsome]
          refine ih ts' _ _ hrest hv ?_
          cases hx : (localVisit fpMatch envL metadataPath tablePatterns [] e sL).err with
          | none => rfl
          | some x => rw [hx] at hsome; exact absurd rfl hsome

/-- C33: the local and the remote build behave identically on the same metadata. Let the
entries of the walk that the local build does not pass over be, in order, the JSON
sidecars of the identities of the manifest, each holding the document of the blob of its
identity, with no read failure and the cancellation signal never raised, and let both
sides decode JSON alike and have the same skip list. Then for every include pattern
string and direction, with an empty partition selection, the two builds return the same
catalog and the same error. -/
theorem local_remote_agree (fpMatch : Str → Str → MatchResult)
    (sortSlice : (TableMetadata → TableMetadata → Bool) → ListOfTables → ListOfTables)
    (envL : LocalEnv) (envR : RemoteEnv) (metadataPath : Str) (manifest : BackupMetadata)
    (tablePattern : Str) (dropTable : Bool)
    (h : SameMetadata envL envR metadataPath manifest) :
    (getTableListByPatternLocal fpMatch sortSlice envL metadataPath tablePattern dropTable
        []).tables
      = (getTableListByPatternRemote fpMatch sortSlice envR manifest tablePattern
          dropTable).tables
    ∧ (getTableListByPatternLocal fpMatch sortSlice envL metadataPath tablePattern dropTable
        []).err
      = (getTableListByPatternRemote fpMatch sortSlice envR manifest tablePattern
          dropTable).err := by
  obtain ⟨hf, hu, hk, hc⟩ := h
  have hl := loops_agree fpMatch envL envR metadataPath manifest.BackupName
    (tablePatternsOf tablePattern) hu hk hc (envL.walk metadataPath) manifest.Tables
    ⟨[], [], 0, none⟩ ⟨[], [], 0, none⟩ hf ⟨rfl, rfl⟩ rfl
  unfold getTableListByPatternLocal getTableListByPatternRemote finishBuild
  rw [hl.1, hl.2]
  cases (remoteLoop (remoteVisit fpMatch envR manifest.BackupName
    (tablePatternsOf tablePattern)) manifest.Tables ⟨[], [], 0, none⟩).err <;> exact ⟨rfl, rfl⟩

/-- The example tree and the example backup hold the same metadata. -/
theorem exSameMetadata :
    SameMetadata (exLocalEnv exFilesSound ["other.*"]) (exRemoteEnv exFilesSound ["other.*"])
      "/backup/metadata".data
      (exManifest [("db", "t1"), ("db", "v1"), ("other", "t2"),
        ("information_schema", "tables")]) := by
  have hf : ((exLocalEnv exFilesSound ["other.*"]).walk "/backup/metadata".data).filter
      (fun e => !passedOver "/backup/metadata".data e)
      = [⟨"/backup/metadata/db/t1.json".data, true, none⟩,
         ⟨"/backup/metadata/db/v1.json".data, true, none⟩,
         ⟨"/backup/metadata/other/t2.json".data, true, none⟩,
         ⟨"/backup/metadata/information_schema/tables.json".data, true, none⟩] := by
    decide
  unfold SameMetadata
  rw [hf]
  refine ⟨?_, rfl, rfl, fun _ => rfl⟩
  refine List.Forall₂.cons ⟨rfl, rfl, rfl, rfl, rfl, _, rfl, _, rfl, rfl, rfl⟩
    (List.Forall₂.cons ⟨rfl, rfl, rfl, rfl, rfl, _, rfl, _, rfl, rfl, rfl⟩
      (List.Forall₂.cons ⟨rfl, rfl, rfl, rfl, rfl, _, rfl, _, rfl, rfl, rfl⟩
        (List.Forall₂.cons ⟨rfl, rfl, rfl, rfl, rfl, _, rfl, _, rfl, rfl, rfl⟩
          List.Forall₂.nil)))

/-- C33 (witness): the example backup, read from its tree and from its manifest, with a
skip pattern and the include pattern `*.t*`. -/
theorem local_remote_agree_witness :
    (getTableListByPatternLocal filepathMatch insertionSort_func
        (exLocalEnv exFilesSound ["other.*"]) "/backup/metadata".data "*.t*".data true
        []).tables
      = (getTableListByPatternRemote filepathMatch insertionSort_func
          (exRemoteEnv exFilesSound ["other.*"])
          (exManifest [("db", "t1"), ("db", "v1"), ("other", "t2"),
            ("information_schema", "tables")]) "*.t*".data true).tables
    ∧ (getTableListByPatternLocal filepathMatch insertionSort_func
        (exLocalEnv exFilesSound ["other.*"]) "/backup/metadata".data "*.t*".data true
        []).err
      = (getTableListByPatternRemote filepathMatch insertionSort_func
          (exRemoteEnv exFilesSound ["other.*"])
          (exManifest [("db", "t1"), ("db", "v1"), ("other", "t2"),
            ("information_schema", "tables")]) "*.t*".data true).err :=
  local_remote_agree filepathMatch insertionSort_func (exLocalEnv exFilesSound ["other.*"])
    (exRemoteEnv exFilesSound ["other.*"]) "/backup/metadata".data
    (exManifest [("db", "t1"), ("db", "v1"), ("other", "t2"),
      ("information_schema", "tables")]) "*.t*".data true exSameMetadata

/-! ## The file test of the local build and the text of statement files -/

/-- C35 (failing input): the file test of line 60 passes over an entry only when
it has neither suffix and is not regular. A regular file `db/table.txt` is read and
handed to the JSON decoder: with a text that is no document the build returns the
decoder's error, with a document it contributes the record; and a directory
`db/dir.json` is read as a file, so the build returns the error of the read. Entries
that are passed over or whose path is not of two segments cause no read, as the second
part states for every entry. -/
theorem other_suffix_file_is_read :
    getTableListByPatternLocal filepathMatch insertionSort_func
        (exLocalEnv [("/backup/metadata/db/table.txt", "plain text")] [])
        "/backup/metadata".data "".data false []
      = ⟨none, some "invalid character".data,
          [⟨"db".data, "table.txt".data, "/backup/metadata/db/table.txt".data⟩]⟩
    ∧ getTableListByPatternLocal filepathMatch insertionSort_func
        (exLocalEnv [("/backup/metadata/db/table.txt",
          "db|t9|CREATE TABLE db.t9 (x UInt64)")] [])
        "/backup/metadata".data "".data false []
      = ⟨some [⟨"db".data, "t9".data, "CREATE TABLE db.t9 (x UInt64)".data, []⟩], none,
          [⟨"db".data, "table.txt".data, "/backup/metadata/db/table.txt".data⟩]⟩
    ∧ getTableListByPatternLocal filepathMatch insertionSort_func
        (exLocalEnvWithDir "/backup/metadata/db/dir.json" [])
        "/backup/metadata".data "".data false []
      = ⟨none, some "is a directory".data,
          [⟨"db".data, "dir".data, "/backup/metadata/db/dir.json".data⟩]⟩
    ∧ (∀ (fpMatch : Str → Str → MatchResult) (env : LocalEnv) (metadataPath : Str)
        (tablePatterns : List Str) (partitionsFilter : EmptyMap) (e : WalkEntry)
        (s : BuildState), passedOver metadataPath e = true →
        localVisit fpMatch env metadataPath tablePatterns partitionsFilter e s = s) := by
  refine ⟨by decide, by decide, by decide, ?_⟩
  intro fpMatch env metadataPath tablePatterns partitionsFilter e s h
  exact localVisit_passedOver fpMatch env metadataPath tablePatterns partitionsFilter e s h

theorem strReplace_of_not_contains (s old new : Str) (h : strContains s old = false) :
    strReplace s old new = s := by
  induction s with
  | nil =>
    have h1 : hasPrefix [] old = false := h
    unfold strReplace
    rw [h1]
    rfl
  | cons c cs ih =>
    have h1 := strContains_cons_false c cs old h
    unfold strReplace
    rw [h1.1]
    simp only [Bool.false_eq_true, if_false]
    rw [ih h1.2]

theorem strReplace_of_hasPrefix (s old new : Str) (h : hasPrefix s old = true) :
    strReplace s old new = new ++ s.drop old.length := by
  unfold strReplace
  rw [h]
  rfl

/-- C36 (failing input): a statement file whose text begins with `CREATE` and
holds the word `ATTACH` later has that later word replaced, since line 102 replaces the
first `ATTACH` of the text wherever it stands. The other cases are as described: a text
beginning with `ATTACH` has this leading word replaced, a text beginning with neither
word gives the empty statement, and a text beginning with `CREATE` in which `ATTACH`
does not occur is kept. -/
theorem create_text_with_later_attach :
    (getTableListByPatternLocal filepathMatch insertionSort_func
        (exLocalEnv [("/backup/metadata/db/t.sql",
          "CREATE TABLE db.t (s String DEFAULT 'ATTACH') ENGINE = Memory")] [])
        "/backup/metadata".data "".data false []).tables
      = some [⟨"db".data, "t".data,
          "CREATE TABLE db.t (s String DEFAULT 'CREATE') ENGINE = Memory".data,
          [("default".data, [])]⟩]
    ∧ (∀ (env : LocalEnv) (metadataPath : Str) (names : List Str)
        (database table data : Str), hasPrefix data "ATTACH".data = true →
        (embeddedTable env metadataPath names database table data).Query
          = "CREATE".data ++ data.drop 6)
    ∧ (∀ (env : LocalEnv) (metadataPath : Str) (names : List Str)
        (database table data : Str), hasPrefix data "ATTACH".data = false →
        hasPrefix data "CREATE".data = false →
        (embeddedTable env metadataPath names database table data).Query = [])
    ∧ (∀ (env : LocalEnv) (metadataPath : Str) (names : List Str)
        (database table data : Str), hasPrefix data "CREATE".data = true →
        strContains data "ATTACH".data = false →
        (embeddedTable env metadataPath names database table data).Query = data) := by
  refine ⟨by decide, ?_, ?_, ?_⟩
  · intro env metadataPath names database table data h
    simp only [embeddedTable, h, Bool.true_or, if_true]
    exact strReplace_of_hasPrefix _ _ _ h
  · intro env metadataPath names database table data h1 h2
    simp only [embeddedTable, h1, h2, Bool.or_self, Bool.false_eq_true, if_false]
  · intro env metadataPath names database table data h1 h2
    simp only [embeddedTable, h1, Bool.or_true, if_true]
    exact strReplace_of_not_contains _ _ _ h2

/-! ## One read for each entry -/

theorem localPatterns_reads (fpMatch : Str → Str → MatchResult) (env : LocalEnv)
    (metadataPath : Str) (partitionsFilter : EmptyMap) (filePath database table : Str)
    (shallSkipped : Bool) (ps : List Str) (s : BuildState) :
    (localPatterns fpMatch env metadataPath partitionsFilter filePath
        (hasSuffix filePath ".sql".data) (entryNames metadataPath filePath) database table
        shallSkipped ps s).reads
      = s.reads ++
          (if matchesSomePattern fpMatch (tableNameOf database table) ps && !shallSkipped
            then [⟨database, table, filePath⟩] else [])
    ∧ (localPatterns fpMatch env metadataPath partitionsFilter filePath
        (hasSuffix filePath ".sql".data) (entryNames metadataPath filePath) database table
        shallSkipped ps s).result
      = (if matchesSomePattern fpMatch (tableNameOf database table) ps && !shallSkipped
          then reconcileRead (localRecordOfRead env metadataPath partitionsFilter) s.result
            (some ⟨database, table, filePath⟩)
          else s.result) := by
  induction ps with
  | nil => simp [localPatterns, matchesSomePattern]
  | cons p ps ih =>
    rw [localPatterns, matchesSomePattern]
    cases hm : (fpMatch (strTrim p " \t\r\n".data) (tableNameOf database table)).matched with
    | false =>
      simp only [Bool.not_false, Bool.true_or, if_true, Bool.false_eq_true, if_false]
      exact ih
    | true =>
      cases hs : shallSkipped with
      | true =>
        subst hs
        simp only [Bool.not_true, Bool.false_or, if_true, Bool.and_false, Bool.false_eq_true,
          if_false]
        simpa using ih
      | false =>
        simp only [Bool.not_true, Bool.or_self, Bool.false_eq_true, if_false, if_true,
          Bool.not_false, Bool.and_self]
        unfold localReadTable reconcileRead localRecordOfRead
        cases hr : env.readFile filePath with
        | error x => simp only [hr]; simp
        | ok data =>
          simp only [hr]
          cases hl : localRecord env metadataPath partitionsFilter
              (hasSuffix filePath ".sql".data) (entryNames metadataPath filePath) database
              table data with
          | error x => simp only [hl]; simp
          | ok t => simp only [hl]; simp

theorem localVisit_reads (fpMatch : Str → Str → MatchResult) (env : LocalEnv)
    (metadataPath : Str) (tablePatterns : List Str) (partitionsFilter : EmptyMap)
    (e : WalkEntry) (s : BuildState) :
    (localVisit fpMatch env metadataPath tablePatterns partitionsFilter e s).reads
      = s.reads ++ (localReadOf fpMatch env metadataPath tablePatterns e).toList
    ∧ (localVisit fpMatch env metadataPath tablePatterns partitionsFilter e s).result
      = reconcileRead (localRecordOfRead env metadataPath partitionsFilter) s.result
          (localReadOf fpMatch env metadataPath tablePatterns e) := by
  unfold localVisit localReadOf
  cases he : e.err with
  | some x => simp [reconcileRead]
  | none =>
    simp only [Option.isSome_none, Bool.false_eq_true, if_false]
    split
    · simp [reconcileRead]
    · split
      · simp [reconcileRead]
      · split
        · simp [reconcileRead]
        · have h := localPatterns_reads fpMatch env metadataPath partitionsFilter e.filePath
            (env.pathUnescape ((entryNames metadataPath e.filePath).getD 0 []))
            (env.pathUnescape ((entryNames metadataPath e.filePath).getD 1 []))
            (shallSkip fpMatch
              (tableNameOf (env.pathUnescape ((entryNames metadataPath e.filePath).getD 0 []))
                (env.pathUnescape ((entryNames metadataPath e.filePath).getD 1 [])))
              env.SkipTables) tablePatterns s
          rw [h.1, h.2]
          split <;> simp [reconcileRead]

theorem remotePatterns_reads (fpMatch : Str → Str → MatchResult) (env : RemoteEnv)
    (backupName : Str) (t : TableTitle) (shallSkipped : Bool) (ps : List Str)
    (s : BuildState) :
    ((remotePatterns fpMatch env backupName t shallSkipped ps s).reads
        = s.reads ++
          (if matchesSomePattern fpMatch (tableNameOf t.Database t.Table) ps && !shallSkipped
            then [⟨t.Database, t.Table, remotePathOf env backupName t⟩] else [])
      ∧ (remotePatterns fpMatch env backupName t shallSkipped ps s).result
        = (if matchesSomePattern fpMatch (tableNameOf t.Database t.Table) ps && !shallSkipped
            then reconcileRead (remoteRecordOfRead env) s.result
              (some ⟨t.Database, t.Table, remotePathOf env backupName t⟩)
            else s.result))
    ∨ ((∃ k, (remotePatterns fpMatch env backupName t shallSkipped ps s).err = env.ctxDone k
          ∧ env.ctxDone k ≠ none)
      ∧ (remotePatterns fpMatch env backupName t shallSkipped ps s).reads = s.reads
      ∧ (remotePatterns fpMatch env backupName t shallSkipped ps s).result = s.result) := by
  induction ps generalizing s with
  | nil => left; simp [remotePatterns, matchesSomePattern]
  | cons p ps ih =>
    rw [remotePatterns, matchesSomePattern]
    cases hc : env.ctxDone s.checks with
    | some x =>
      right
      exact ⟨⟨s.checks, by simp [hc], by simp [hc]⟩, rfl, rfl⟩
    | none =>
      simp only
      cases hm : (fpMatch (strTrim p " \t\r\n".data)
          (tableNameOf t.Database t.Table)).matched with
      | false =>
        simp only [Bool.not_false, Bool.true_or, if_true, Bool.false_eq_true, if_false]
        exact ih _
      | true =>
        cases hs : shallSkipped with
        | true =>
          subst hs
          simp only [Bool.not_true, Bool.false_or, if_true, Bool.and_false,
            Bool.false_eq_true, if_false]
          simpa using ih { s with checks := s.checks + 1 }
        | false =>
          left
          simp only [Bool.not_true, Bool.or_self, Bool.false_eq_true, if_false, if_true,
            Bool.not_false, Bool.and_self]
          unfold reconcileRead remoteRecordOfRead
          cases hr : remoteRecord env (remotePathOf env backupName t) with
          | error x => simp only [hr]; simp
          | ok tm => simp only [hr]; simp

/-- C37 (amended): pattern evaluation does not differ between the two builds.
In the local build the function handed to `Walk` returns after the first pattern that
matches, and in the remote build the pattern loop is left there: for every entry of the
walk, whatever the number of patterns that match its identity, the local build issues
the one read `localReadOf` gives for the entry, or none, and merges the record of that
read into the catalog once; and for every entry of the manifest the remote build issues
the one fetch `remoteReadOf` gives, or none, and merges its record once, unless the
cancellation signal ends the build before the fetch. -/
theorem entry_read_once (fpMatch : Str → Str → MatchResult) (envL : LocalEnv)
    (envR : RemoteEnv) (metadataPath backupName : Str) (tablePatterns : List Str)
    (partitionsFilter : EmptyMap) (e : WalkEntry) (t : TableTitle) (sL sR : BuildState) :
    ((localVisit fpMatch envL metadataPath tablePatterns partitionsFilter e sL).reads
        = sL.reads ++ (localReadOf fpMatch envL metadataPath tablePatterns e).toList
      ∧ (localVisit fpMatch envL metadataPath tablePatterns partitionsFilter e sL).result
        = reconcileRead (localRecordOfRead envL metadataPath partitionsFilter) sL.result
            (localReadOf fpMatch envL metadataPath tablePatterns e))
    ∧ (((remoteVisit fpMatch envR backupName tablePatterns t sR).reads
          = sR.reads ++ (remoteReadOf fpMatch envR backupName tablePatterns t).toList
        ∧ (remoteVisit fpMatch envR backupName tablePatterns t sR).result
          = reconcileRead (remoteRecordOfRead envR) sR.result
              (remoteReadOf fpMatch envR backupName tablePatterns t))
      ∨ ((∃ k, (remoteVisit fpMatch envR backupName tablePatterns t sR).err = envR.ctxDone k
            ∧ envR.ctxDone k ≠ none)
        ∧ (remoteVisit fpMatch envR backupName tablePatterns t sR).reads = sR.reads
        ∧ (remoteVisit fpMatch envR backupName tablePatterns t sR).result = sR.result)) := by
  refine ⟨localVisit_reads fpMatch envL metadataPath tablePatterns partitionsFilter e sL, ?_⟩
  unfold remoteVisit remoteReadOf
  cases hi : IsInformationSchema t.Database with
  | true => left; simp [reconcileRead]
  | false =>
    simp only [Bool.false_eq_true, if_false]
    rcases remotePatterns_reads fpMatch envR backupName t
      (shallSkip fpMatch (tableNameOf t.Database t.Table) envR.SkipTables) tablePatterns sR
      with h | h
    · left
      rw [h.1, h.2]
      split <;> simp [reconcileRead]
    · right; exact h

/-- C37 (counterexample): the identity `db.t1` matches each of the three include patterns
`db.*`, `*.t1` and `*`, yet the local build reads its file once, not three times, as the
remote build fetches its blob once. -/
theorem local_reads_once_for_three_patterns :
    tablePatternsOf "db.*,*.t1,*".data = ["db.*".data, "*.t1".data, "*".data]
    ∧ (∀ p ∈ tablePatternsOf "db.*,*.t1,*".data,
        (filepathMatch (strTrim p " \t\r\n".data) (tableNameOf "db".data "t1".data)).matched
          = true)
    ∧ (getTableListByPatternLocal filepathMatch insertionSort_func
        (exLocalEnv [("/backup/metadata/db/t1.json", "db|t1|CREATE TABLE db.t1 (x UInt64)")] [])
        "/backup/metadata".data "db.*,*.t1,*".data false []).reads
      = [⟨"db".data, "t1".data, "/backup/metadata/db/t1.json".data⟩]
    ∧ (getTableListByPatternRemote filepathMatch insertionSort_func
        (exRemoteEnv [("/backup/metadata/db/t1.json", "db|t1|CREATE TABLE db.t1 (x UInt64)")] [])
        (exManifest [("db", "t1")]) "db.*,*.t1,*".data false).reads
      = [⟨"db".data, "t1".data, "backup/metadata/db/t1.json".data⟩] := by
  refine ⟨by decide, by decide, by decide, by decide⟩

/-! ## Remap of a statement of several lines -/

theorem runs_bol_line (prev : Option Char) (h : prev = none ∨ prev = some '\n') (rest : Str)
    (caps : List (Nat × Str)) :
    Runs Regex.bol ⟨prev, rest, caps⟩ ⟨prev, rest, caps⟩ := by
  intro k _
  rcases h with h | h <;> subst h <;> simp [Regex.run]

/-- The match of `queryRE` on a line `(CREATE|ATTACH) <kind> a.b` at the start of the
text or after a newline, without TO clause. -/
theorem queryRE_runs_line (prev : Option Char) (hprev : prev = none ∨ prev = some '\n')
    (verb kind a b tail : Str) (hv : verb = "CREATE".data ∨ verb = "ATTACH".data)
    (hk : kind ∈ objectKinds)
    (ha : ∀ x ∈ a, identClass x = true) (hb : ∀ x ∈ b, identClass x = true)
    (ht1 : ∀ c cs, tail = c :: cs → identClass c = false)
    (ht2 : hasPrefix tail " TO ".data = false) :
    Runs queryRE
      ⟨prev, verb ++ (' ' :: (kind ++ (' ' :: (a ++ ('.' :: (b ++ tail)))))), []⟩
      ⟨lastOr (some '.') b, tail,
        [(6, b), (5, []), (4, a), (3, []), (2, kind), (1, verb)]⟩ := by
  simp only [queryRE, Regex.cat]
  refine runs_seq (runs_bol_line _ hprev _ _) ?_
  have h1 : Runs (Regex.cap 1 (Regex.alt (Regex.lit "CREATE".data) (Regex.lit "ATTACH".data)))
      ⟨prev, verb ++ (' ' :: (kind ++ (' ' :: (a ++ ('.' :: (b ++ tail)))))), []⟩
      ⟨lastOr prev verb, ' ' :: (kind ++ (' ' :: (a ++ ('.' :: (b ++ tail))))),
        [(1, verb)]⟩ := by
    rcases hv with hv | hv <;> subst hv
    · exact runs_cap 1 (runs_alt_left (runs_lit _ _ _ _))
    · exact runs_cap 1 (runs_alt_right (fails_lit _ _ rfl) (runs_lit _ _ _ _))
  refine runs_seq h1 ?_
  refine runs_seq (runs_lit [' '] _ _ _) ?_
  refine runs_seq (runs_cap 2 (runs_kind kind hk _ _ _)) ?_
  refine runs_seq (runs_lit [' '] _ _ _) ?_
  refine runs_seq (runs_cap (w := []) 3 (runs_opt_skip (fails_lit _ _ ?_))) ?_
  · exact hasPrefix_ident_append a _ _ _ ha rfl rfl
  refine runs_seq (runs_cap 4 (runs_star identClass _ a _ _ ha ?_)) ?_
  · intro c cs h; cases h; rfl
  refine runs_seq (runs_cap (w := []) 5 (runs_opt_skip (fails_lit _ _ rfl))) ?_
  refine runs_seq (runs_lit ['.'] _ _ _) ?_
  refine runs_seq (runs_cap 6 (runs_star identClass _ b _ _ hb ht1)) ?_
  exact runs_opt_skip (fails_seq_left (fails_cap 7 (fails_lit _ _ ht2)))

theorem lastOr_append (p : Option Char) (u v : Str) :
    lastOr p (u ++ v) = lastOr (lastOr p u) v := by
  induction u generalizing p with
  | nil => rfl
  | cons c cs ih => exact ih (some c)

/-- After text without a newline the position is not the start of a line, unless it was
one before and the text is empty. -/
theorem lastOr_not_line_start (p : Option Char) (w : Str) (hw : ∀ x ∈ w, x ≠ '\n')
    (hp : p ≠ none ∧ p ≠ some '\n') :
    lastOr p w ≠ none ∧ lastOr p w ≠ some '\n' := by
  induction w generalizing p with
  | nil => exact hp
  | cons c cs ih =>
    refine ih (some c) (fun x hx => hw x (List.mem_cons_of_mem _ hx)) ⟨by simp, ?_⟩
    intro h
    exact hw c (List.mem_cons_self _ _) (Option.some.inj h)

/-- One step of the replacement of `queryRE` with the template of the CREATE branch, at
a line of the shape: the database segment becomes `c` and the walk resumes after the
name. -/
theorem queryRE_replace_line (uni : Char → Bool) (prev : Option Char)
    (hprev : prev = none ∨ prev = some '\n') (am : Bool)
    (verb kind a b c tail : Str) (hv : verb = "CREATE".data ∨ verb = "ATTACH".data)
    (hk : kind ∈ objectKinds)
    (ha : ∀ x ∈ a, identClass x = true) (hb : ∀ x ∈ b, identClass x = true)
    (hc : ∀ x ∈ c, x ≠ '$')
    (ht1 : ∀ c cs, tail = c :: cs → identClass c = false)
    (ht2 : hasPrefix tail " TO ".data = false) :
    replaceAllFrom queryRE
        (fun m caps => expandFrom uni ((0, m) :: caps) 0
          ("${1} ${2} ${3}".data ++ c ++ "${5}.${6}".data))
        0 am prev (verb ++ (' ' :: (kind ++ (' ' :: (a ++ ('.' :: (b ++ tail)))))))
      = verb ++ (' ' :: (kind ++ (' ' :: (c ++ ('.' :: b)))))
        ++ replaceAllFrom queryRE
          (fun m caps => expandFrom uni ((0, m) :: caps) 0
            ("${1} ${2} ${3}".data ++ c ++ "${5}.${6}".data))
          0 true (lastOr (some '.') b) tail := by
  have hrun := queryRE_runs_line prev hprev verb kind a b tail hv hk ha hb ht1 ht2
  have hex := execAt_of_runs hrun
  obtain ⟨v0, vs, hvs⟩ : ∃ v0 vs, verb = v0 :: vs := by
    rcases hv with hv | hv <;> subst hv
    · exact ⟨'C', "REATE".data, rfl⟩
    · exact ⟨'A', "TTACH".data, rfl⟩
  have e2 : verb ++ (' ' :: (kind ++ (' ' :: (a ++ ('.' :: (b ++ tail))))))
      = v0 :: ((vs ++ (' ' :: (kind ++ (' ' :: (a ++ ('.' :: b)))))) ++ tail) := by
    rw [hvs]
    simp only [List.cons_append, List.nil_append, List.append_assoc]
  rw [e2] at hex
  rw [e2, replaceAllFrom_match queryRE _ v0 _ _ am prev _ hex rfl]
  simp only []
  rw [expand_create_template uni _ _ _ _ _ _ _ _ hc]
  have hl : lastOr (some v0) (vs ++ (' ' :: (kind ++ (' ' :: (a ++ ('.' :: b))))))
      = lastOr (some '.') b := by
    simp only [lastOr_append, lastOr, List.cons_append]
  rw [hl]
  simp only [List.cons_append, List.nil_append, List.append_assoc]

/-- Text without a newline that follows a position that is not the start of a line is
copied by the replacement of `queryRE`, together with the newline that ends it. -/
theorem replaceAllFrom_queryRE_copy (repl : Str → List (Nat × Str) → Str) (w s : Str)
    (prev : Option Char) (am : Bool) (hp : prev ≠ none ∧ prev ≠ some '\n')
    (hw : ∀ x ∈ w, x ≠ '\n') :
    replaceAllFrom queryRE repl 0 am prev (w ++ '\n' :: s)
      = w ++ '\n' :: replaceAllFrom queryRE repl 0 false (some '\n') s := by
  have hfail : ∀ (p : Option Char) (r : Str), (p ≠ none ∧ p ≠ some '\n') →
      queryRE.execAt p r = none := by
    intro p r hpr
    refine execAt_of_fails ?_
    simp only [queryRE, Regex.cat]
    exact fails_anchored _ _ _ (fun h => (h.elim hpr.1 hpr.2).elim)
  induction w generalizing prev am with
  | nil =>
    rw [List.nil_append, replaceAllFrom_nomatch _ _ _ _ _ _ (hfail prev _ hp)]
    rfl
  | cons x xs ih =>
    rw [List.cons_append, replaceAllFrom_nomatch _ _ _ _ _ _ (hfail prev _ hp)]
    rw [ih (some x) false ⟨by simp, fun h => hw x (List.mem_cons_self _ _) (Option.some.inj h)⟩
      (fun y hy => hw y (List.mem_cons_of_mem _ hy))]
    rfl

/-- Text without a newline that follows a position that is not the start of a line and
ends the statement is copied by the replacement of `queryRE`. -/
theorem replaceAllFrom_queryRE_last (repl : Str → List (Nat × Str) → Str) (w : Str)
    (prev : Option Char) (am : Bool) (hp : prev ≠ none ∧ prev ≠ some '\n')
    (hw : ∀ x ∈ w, x ≠ '\n') :
    replaceAllFrom queryRE repl 0 am prev w = w := by
  refine replaceAllFrom_queryRE_id repl w prev am (fun h => (h.elim hp.1 hp.2).elim) ?_ ?_
  · have := strContains_skip_ne w [] '\n' "CREATE".data hw
    rw [List.append_nil] at this
    rw [this]; rfl
  · have := strContains_skip_ne w [] '\n' "ATTACH".data hw
    rw [List.append_nil] at this
    rw [this]; rfl

theorem hasPrefix_append_newline (r w t : Str) (h : hasPrefix r w = false)
    (hw : ∀ x ∈ w, x ≠ '\n') : hasPrefix (r ++ '\n' :: t) w = false := by
  induction w generalizing r with
  | nil => cases r <;> simp [hasPrefix] at h
  | cons p ps ih =>
    cases r with
    | nil =>
      have hp : p ≠ '\n' := hw p (List.mem_cons_self _ _)
      simp [hasPrefix, Ne.symm hp]
    | cons c cs =>
      simp only [List.cons_append, hasPrefix] at h ⊢
      cases hcp : (c == p) with
      | false => rfl
      | true =>
        rw [hcp, Bool.true_and] at h
        rw [Bool.true_and]
        exact ih cs h (fun x hx => hw x (List.mem_cons_of_mem _ hx))

theorem hasPrefix_append_right (s w t : Str) (h : hasPrefix s w = true) :
    hasPrefix (s ++ t) w = true := by
  induction w generalizing s with
  | nil => cases s <;> cases t <;> rfl
  | cons p ps ih =>
    cases s with
    | nil => simp [hasPrefix] at h
    | cons c cs =>
      simp only [List.cons_append, hasPrefix, Bool.and_eq_true] at h ⊢
      exact ⟨h.1, ih cs h.2⟩

theorem strContains_append_right (w s sub : Str) (h : strContains s sub = true) :
    strContains (w ++ s) sub = true := by
  induction w with
  | nil => exact h
  | cons c cs ih =>
    have e : strContains (c :: (cs ++ s)) sub
        = (hasPrefix (c :: (cs ++ s)) sub || strContains (cs ++ s) sub) := rfl
    rw [List.cons_append, e, ih, Bool.or_true]

theorem joinLines_cons_cons (l m : Str) (rest : List Str) :
    joinLines (l :: m :: rest) = l ++ '\n' :: joinLines (m :: rest) := rfl

/-- The replacement of `queryRE` with the template of the CREATE branch, in a statement
whose lines are all of the shape: the database segment of every line becomes `c`. -/
theorem replaceAll_lines (uni : Char → Bool) (c : Str) (hc : ∀ x ∈ c, x ≠ '$')
    (lines : List ShapeLine) (hne : lines ≠ []) (hwf : ∀ l ∈ lines, l.WellFormed)
    (prev : Option Char) (hprev : prev = none ∨ prev = some '\n') (am : Bool) :
    replaceAllFrom queryRE
        (fun m caps => expandFrom uni ((0, m) :: caps) 0 (createTemplate c))
        0 am prev (joinLines (lines.map ShapeLine.text))
      = joinLines (lines.map (fun l => (l.retarget c).text)) := by
  induction lines generalizing prev am with
  | nil => exact absurd rfl hne
  | cons l rest ih =>
    obtain ⟨hv, hk, ha, hb, ht1, ht2, hnl⟩ := hwf l (List.mem_cons_self _ _)
    have hp : lastOr (some '.') l.name ≠ none ∧ lastOr (some '.') l.name ≠ some '\n' :=
      lastOr_not_line_start _ _ (fun x hx => (identClass_ne x (hb x hx)).2.2.2)
        ⟨by simp, by decide⟩
    cases rest with
    | nil =>
      have ht1' : ∀ x xs, l.rest = x :: xs → identClass x = false := by
        intro x xs h
        exact ht1 x (by rw [h]; rfl)
      simp only [List.map, joinLines, ShapeLine.text, ShapeLine.retarget, createTemplate]
      rw [queryRE_replace_line uni prev hprev am _ _ _ _ c _ hv hk ha hb hc ht1' ht2]
      rw [replaceAllFrom_queryRE_last _ _ _ _ hp hnl]
      simp only [List.append_assoc, List.cons_append]
    | cons m rest' =>
      have ih' := ih (by simp) (fun x hx => hwf x (List.mem_cons_of_mem _ hx)) (some '\n')
        (Or.inr rfl) false
      have e1 : joinLines ((l :: m :: rest').map ShapeLine.text)
          = l.text ++ '\n' :: joinLines ((m :: rest').map ShapeLine.text) := rfl
      have e2 : joinLines ((l :: m :: rest').map (fun l => (l.retarget c).text))
          = (l.retarget c).text
            ++ '\n' :: joinLines ((m :: rest').map (fun l => (l.retarget c).text)) := rfl
      rw [e1, e2]
      generalize joinLines ((m :: rest').map ShapeLine.text) = J at ih' ⊢
      generalize joinLines ((m :: rest').map (fun l => (l.retarget c).text)) = Jc at ih' ⊢
      have ht1' : ∀ x xs, l.rest ++ '\n' :: J = x :: xs → identClass x = false := by
        intro x xs h
        cases hr : l.rest with
        | nil =>
          rw [hr] at h
          cases h
          rfl
        | cons y ys =>
          rw [hr] at h
          cases h
          exact ht1 x (by rw [hr]; rfl)
      have ht2' : hasPrefix (l.rest ++ '\n' :: J) " TO ".data = false :=
        hasPrefix_append_newline _ _ _ ht2 (by decide)
      have e : l.text ++ '\n' :: J
          = l.verb ++ (' ' :: (l.kind ++ (' ' :: (l.database ++ ('.' :: (l.name
              ++ (l.rest ++ '\n' :: J))))))) := by
        simp only [ShapeLine.text, List.append_assoc, List.cons_append]
      rw [e]
      simp only [createTemplate] at ih' ⊢
      rw [queryRE_replace_line uni prev hprev am _ _ _ _ c _ hv hk ha hb hc ht1' ht2']
      rw [replaceAllFrom_queryRE_copy _ _ _ _ _ hp hnl, ih']
      simp only [ShapeLine.text, ShapeLine.retarget, List.append_assoc, List.cons_append]

/-- A statement one of whose lines is of the shape with the verb `CREATE` has a line
beginning with `CREATE`. -/
theorem createRE_lines (lines : List ShapeLine)
    (h : ∃ l ∈ lines, l.verb = "CREATE".data) :
    someLineBeginsWith "CREATE".data (joinLines (lines.map ShapeLine.text)) = true := by
  induction lines with
  | nil =>
    obtain ⟨l, hl, _⟩ := h
    cases hl
  | cons l rest ih =>
    have hjoin : ∃ t, joinLines ((l :: rest).map ShapeLine.text) = l.text ++ t
        ∧ (rest ≠ [] → t = '\n' :: joinLines (rest.map ShapeLine.text)) := by
      cases rest with
      | nil => exact ⟨[], by simp [joinLines], fun h => absurd rfl h⟩
      | cons m rest' => exact ⟨_, rfl, fun _ => rfl⟩
    obtain ⟨t, ht, ht'⟩ := hjoin
    rw [ht]
    unfold someLineBeginsWith
    by_cases hv : l.verb = "CREATE".data
    · have h1 : hasPrefix l.text "CREATE".data = true := by
        unfold ShapeLine.text
        rw [hv]
        exact hasPrefix_append_self _ _
      rw [hasPrefix_append_right _ _ _ h1, Bool.true_or]
    · have hrest : ∃ x ∈ rest, x.verb = "CREATE".data := by
        obtain ⟨x, hx, hxv⟩ := h
        rcases List.mem_cons.mp hx with hx | hx
        · exact absurd (hx ▸ hxv) hv
        · exact ⟨x, hx, hxv⟩
      have hne : rest ≠ [] := by
        obtain ⟨x, hx, _⟩ := hrest
        exact List.ne_nil_of_mem hx
      have hi := ih hrest
      unfold someLineBeginsWith at hi
      rw [ht' hne]
      have h2 : strContains ('\n' :: joinLines (rest.map ShapeLine.text))
          ('\n' :: "CREATE".data) = true := by
        have e : strContains ('\n' :: joinLines (rest.map ShapeLine.text))
            ('\n' :: "CREATE".data)
            = (hasPrefix ('\n' :: joinLines (rest.map ShapeLine.text)) ('\n' :: "CREATE".data)
                || strContains (joinLines (rest.map ShapeLine.text))
                    ('\n' :: "CREATE".data)) := rfl
        rw [e, hasPrefix_newline_cons]
        exact hi
      rw [strContains_append_right _ _ _ h2, Bool.or_true]

/-- C34 (amended): `ReplaceAllString` rewrites every occurrence of the
statement pattern at the start of a line. For every mapped record whose statement
consists of lines of the shape `(CREATE|ATTACH) <kind> database.name` followed by the
rest of the line, at least one of them with the verb `CREATE`, and every target `c`
without `$`: remap succeeds, the database of the record becomes `c`, and in every line,
the first as well as every later one, the database segment is replaced by `c`; UUID
literals are then regenerated. -/
theorem remap_every_line (uni : Char → Bool) (newUUID : Nat → Str)
    (dbMapRule : Str → Option Str) (t : TableMetadata) (lines : List ShapeLine) (c : Str)
    (hwf : ∀ l ∈ lines, l.WellFormed)
    (hcreate : ∃ l ∈ lines, l.verb = "CREATE".data)
    (hc : ∀ x ∈ c, x ≠ '$')
    (hrule : dbMapRule t.Database = some c)
    (hq : t.Query = joinLines (lines.map ShapeLine.text)) :
    changeTableQueryToAdjustDatabaseMapping uni newUUID [t] dbMapRule
      = ⟨[{ t with
            Database := c,
            Query := regenerateUUID uni (newUUID 0)
              (joinLines (lines.map (fun l => (l.retarget c).text))) }], none⟩ := by
  have hne : lines ≠ [] := by
    obtain ⟨l, hl, _⟩ := hcreate
    exact List.ne_nil_of_mem hl
  have hcre : (createRE.FindAllString t.Query).length > 0 := by
    rw [createRE_findAll, hq]
    exact createRE_lines lines hcreate
  have hrepl : queryRE.ReplaceAllString uni t.Query
      ("${1} ${2} ${3}".data ++ c ++ "${5}.${6}".data)
      = joinLines (lines.map (fun l => (l.retarget c).text)) := by
    rw [hq]
    exact replaceAll_lines uni c hc lines hne hwf none (Or.inl rfl) false
  unfold changeTableQueryToAdjustDatabaseMapping
  simp only [remapFrom, hrule, hcre, if_true, rewriteRecord, hrepl, regenerateUUID,
    RemapResult.cons]

/-- C34 (witness): a statement of three lines, the last one with the verb `ATTACH`. -/
theorem remap_every_line_witness :
    changeTableQueryToAdjustDatabaseMapping noUnicode exUUID
        [exRecord "a"
          "CREATE TABLE a.b (x UInt64)\nCREATE VIEW z.v AS SELECT 1\nATTACH TABLE q.w (y Int8)"]
        (rule1 "a".data "c".data)
      = ⟨[exRecord "c"
          "CREATE TABLE c.b (x UInt64)\nCREATE VIEW c.v AS SELECT 1\nATTACH TABLE c.w (y Int8)"],
          none⟩ :=
  (remap_every_line noUnicode exUUID (rule1 "a".data "c".data)
    (exRecord "a"
      "CREATE TABLE a.b (x UInt64)\nCREATE VIEW z.v AS SELECT 1\nATTACH TABLE q.w (y Int8)")
    exThreeLines "c".data (by decide) (by decide) (by decide) (by decide) (by decide)).trans
    (by decide)

/-- C34 (counterexample): in a statement of two lines of the shape the second line is
rewritten as well; the result is not the statement in which only the first occurrence
has its database segment replaced. -/
theorem remap_rewrites_later_line :
    changeTableQueryToAdjustDatabaseMapping noUnicode exUUID
        [exRecord "a" "CREATE TABLE a.b (x UInt64)\nCREATE VIEW a.v AS SELECT x FROM a.b"]
        (rule1 "a".data "c".data)
      = ⟨[exRecord "c" "CREATE TABLE c.b (x UInt64)\nCREATE VIEW c.v AS SELECT x FROM a.b"],
          none⟩
    ∧ exRecord "c" "CREATE TABLE c.b (x UInt64)\nCREATE VIEW c.v AS SELECT x FROM a.b"
      ≠ exRecord "c" "CREATE TABLE c.b (x UInt64)\nCREATE VIEW a.v AS SELECT x FROM a.b" := by
  decide

/-! ## The target name in the template, and the database named in the statement -/

/-- C39 (failing input): the target name is pasted into the replacement template
of `ReplaceAllString`, where `$` introduces a reference to a group of the match. For the
record of `db1.orders` the target `$1` comes out as the verb `CREATE`, `${6}` as the name
of the table, `new$db` as `new` (a reference to a group that does not exist is empty),
and `us$4` as `us` followed by the old database. In each case the database field of the
record is the target name itself, so the statement and the field disagree. -/
theorem remap_target_reference_expanded :
    changeTableQueryToAdjustDatabaseMapping noUnicode exUUID
        [⟨"db1".data, "orders".data, "CREATE TABLE db1.orders (id UInt64)".data, []⟩]
        (rule1 "db1".data "$1".data)
      = ⟨[⟨"$1".data, "orders".data, "CREATE TABLE CREATE.orders (id UInt64)".data, []⟩],
          none⟩
    ∧ changeTableQueryToAdjustDatabaseMapping noUnicode exUUID
        [⟨"db1".data, "orders".data, "CREATE TABLE db1.orders (id UInt64)".data, []⟩]
        (rule1 "db1".data "${6}".data)
      = ⟨[⟨"${6}".data, "orders".data, "CREATE TABLE orders.orders (id UInt64)".data, []⟩],
          none⟩
    ∧ changeTableQueryToAdjustDatabaseMapping noUnicode exUUID
        [⟨"db1".data, "orders".data, "CREATE TABLE db1.orders (id UInt64)".data, []⟩]
        (rule1 "db1".data "new$db".data)
      = ⟨[⟨"new$db".data, "orders".data, "CREATE TABLE new.orders (id UInt64)".data, []⟩],
          none⟩
    ∧ changeTableQueryToAdjustDatabaseMapping noUnicode exUUID
        [⟨"db1".data, "orders".data, "CREATE TABLE db1.orders (id UInt64)".data, []⟩]
        (rule1 "db1".data "us$4".data)
      = ⟨[⟨"us$4".data, "orders".data, "CREATE TABLE usdb1.orders (id UInt64)".data, []⟩],
          none⟩ := by
  refine ⟨by decide, by decide, by decide, by decide⟩

/-- C40 (amended): the database segment of the statement is replaced without
being compared with the database field of the record. For every record of database `a`
whose statement is `CREATE <kind> z.b (...)`, whatever `z` is, and every rule that maps
`a` to `c`, where `z`, `b` and `c` are names of the class of the statement pattern, `c`
holds no `$`, no line of the remainder begins with `CREATE` or `ATTACH` and the
remainder holds no UUID literal: remap succeeds and leaves database `c` and the
statement `CREATE <kind> c.b (...)`, so that the database named in the statement is the
new database field of the record. -/
theorem remap_foreign_database (uni : Char → Bool) (newUUID : Nat → Str)
    (dbMapRule : Str → Option Str) (kind a z b c body table : Str)
    (parts : List (Str × List Part))
    (hk : kind ∈ objectKinds)
    (hz : ∀ x ∈ z, identClass x = true) (hb : ∀ x ∈ b, identClass x = true)
    (hc : ∀ x ∈ c, identClass x = true ∧ x ≠ '$')
    (hrule : dbMapRule a = some c)
    (h1 : strContains (' ' :: '(' :: body) ('\n' :: "CREATE".data) = false)
    (h2 : strContains (' ' :: '(' :: body) ('\n' :: "ATTACH".data) = false)
    (hu : uuidRE.FindAllString (' ' :: '(' :: body) = []) :
    changeTableQueryToAdjustDatabaseMapping uni newUUID
        [⟨a, table,
          "CREATE".data ++ (' ' :: (kind ++ (' ' :: (z ++ ('.' :: (b ++ (' ' :: '(' :: body))))))),
          parts⟩] dbMapRule
      = ⟨[⟨c, table,
          "CREATE".data ++ (' ' :: (kind ++ (' ' :: (c ++ ('.' :: b) ++ (' ' :: '(' :: body))))),
          parts⟩], none⟩ := by
  have hcre : (createRE.FindAllString
      ("CREATE".data ++ (' ' :: (kind ++ (' ' :: (z ++ ('.' :: (b ++ (' ' :: '(' :: body))))))))
      ).length > 0 := by
    rw [createRE_findAll]
    unfold someLineBeginsWith
    rw [hasPrefix_append_self]
    rfl
  have hq := queryRE_replace_create uni kind z b c body hk hz hb (fun x hx => (hc x hx).2) h1 h2
  have hu2 := uuid_findAll_create kind c b body hk (fun x hx => (hc x hx).1) hb hu
  unfold changeTableQueryToAdjustDatabaseMapping
  simp only [remapFrom, hrule, hcre, if_true, rewriteRecord, hq, hu2, List.length_nil,
    gt_iff_lt, Nat.lt_irrefl, if_false, RemapResult.cons]

/-- C40 (witness): a record of database `a` whose statement names the database `z`. -/
theorem remap_foreign_database_witness :
    changeTableQueryToAdjustDatabaseMapping noUnicode exUUID
        [exRecord "a" "CREATE TABLE z.b (x UInt64)"] (rule1 "a".data "c".data)
      = ⟨[exRecord "c" "CREATE TABLE c.b (x UInt64)"], none⟩ :=
  remap_foreign_database noUnicode exUUID (rule1 "a".data "c".data) "TABLE".data "a".data
    "z".data "b".data "c".data "x UInt64)".data "b".data [] (by decide) (by decide)
    (by decide) (by decide) (by decide) (by decide) (by decide) (by decide)

/-- C40 (counterexample): three records of database `a` whose statement names the
database `z`. With the target `$4`, a reference to the group of the old database
segment, the statement still names `z` while the database field becomes `$4`; a UUID
literal in the remainder is replaced by a new one; and a later line of the remainder
that begins with `CREATE` is rewritten as well: in none of them is the rewritten
statement `CREATE TABLE c.b` followed by the remainder as it was. -/
theorem remap_foreign_database_fails :
    changeTableQueryToAdjustDatabaseMapping noUnicode exUUID
        [exRecord "a" "CREATE TABLE z.b (x UInt64)"] (rule1 "a".data "$4".data)
      = ⟨[exRecord "$4" "CREATE TABLE z.b (x UInt64)"], none⟩
    ∧ changeTableQueryToAdjustDatabaseMapping noUnicode exUUID
        [exRecord "a" "CREATE TABLE z.b (id UUID DEFAULT UUID 'ab-12')"]
        (rule1 "a".data "c".data)
      = ⟨[exRecord "c"
          "CREATE TABLE c.b (id UUID DEFAULT UUID '11111111-2222-3333-4444-555555555555')"],
          none⟩
    ∧ changeTableQueryToAdjustDatabaseMapping noUnicode exUUID
        [exRecord "a" "CREATE TABLE z.b (x String COMMENT '\nCREATE TABLE q.w')"]
        (rule1 "a".data "c".data)
      = ⟨[exRecord "c" "CREATE TABLE c.b (x String COMMENT '\nCREATE TABLE c.w')"], none⟩ := by
  refine ⟨by decide, by decide, by decide⟩

/-! ## The status gauge of the API metrics -/

theorem Start_LastStatus (m : APIMetrics) (command : Str) (startUnix : Int) :
    (m.Start command startUnix).LastStatus = m.LastStatus
      ∧ (m.Start command startUnix).SuccessfulCounter = m.SuccessfulCounter
      ∧ (m.Start command startUnix).FailedCounter = m.FailedCounter := by
  unfold APIMetrics.Start
  split <;> exact ⟨rfl, rfl, rfl⟩

theorem Finish_LastStatus (m : APIMetrics) (command : Str) (sinceNanos nowUnix : Int) :
    (m.Finish command sinceNanos nowUnix).LastStatus = m.LastStatus
      ∧ (m.Finish command sinceNanos nowUnix).SuccessfulCounter = m.SuccessfulCounter
      ∧ (m.Finish command sinceNanos nowUnix).FailedCounter = m.FailedCounter := by
  unfold APIMetrics.Finish
  split <;> exact ⟨rfl, rfl, rfl⟩

theorem Success_LastStatus (m : APIMetrics) (command : Str) :
    (m.Success command).LastStatus = m.LastStatus
      ∧ (m.Success command).SuccessfulCounter = m.SuccessfulCounter
      ∧ (m.Success command).FailedCounter = m.FailedCounter := by
  unfold APIMetrics.Success
  split <;> exact ⟨rfl, rfl, rfl⟩

theorem Failure_LastStatus (m : APIMetrics) (command : Str) :
    (m.Failure command).LastStatus = m.LastStatus
      ∧ (m.Failure command).SuccessfulCounter = m.SuccessfulCounter
      ∧ (m.Failure command).FailedCounter = m.FailedCounter := by
  unfold APIMetrics.Failure
  split <;> exact ⟨rfl, rfl, rfl⟩

/-- C38 (failing input): after `RegisterMetrics` the status gauge of every command
is 2, and `ExecuteWithMetrics` returns the error of `f` unchanged, with 0 after a success
and the counter plus one (in the arithmetic of `int`) after a failure; but the status
gauge does not record the outcome. `Success` and `Failure` do nothing for a registered
command, so a call of `ExecuteWithMetrics` leaves every status gauge and every counter
of successes and failures as `f` left them: after a successful run of `create` on fresh
metrics the gauge is still 2, not 1, and after a failed run it is still 2, not 0. -/
theorem status_gauge_not_updated :
    (∀ (m : APIMetrics) (command : Str), command ∈ commandList →
      m.RegisterMetrics.LastStatus.lookup command = some 2)
    ∧ (∀ (m : APIMetrics) (clock : ClockReadings) (command : Str) (n : Int)
        (f : APIMetrics → APIMetrics × Option Err),
        (m.ExecuteWithMetrics clock command n f).err = (f (m.Start command clock.startUnix)).2
        ∧ (m.ExecuteWithMetrics clock command n f).errCounter
          = (if (f (m.Start command clock.startUnix)).2 = none then 0 else wrapInt64 (n + 1))
        ∧ (m.ExecuteWithMetrics clock command n f).metrics.LastStatus
          = (f (m.Start command clock.startUnix)).1.LastStatus
        ∧ (m.ExecuteWithMetrics clock command n f).metrics.SuccessfulCounter
          = (f (m.Start command clock.startUnix)).1.SuccessfulCounter
        ∧ (m.ExecuteWithMetrics clock command n f).metrics.FailedCounter
          = (f (m.Start command clock.startUnix)).1.FailedCounter)
    ∧ (∀ n : Int, -(2 ^ 63) ≤ n → n < 2 ^ 63 - 1 → wrapInt64 (n + 1) = n + 1)
    ∧ ((NewAPIMetrics.RegisterMetrics.ExecuteWithMetrics ⟨1700000000, 5000, 1700000005⟩
          "create".data 3 (exRun none)).metrics.LastStatus.lookup "create".data = some 2
      ∧ (NewAPIMetrics.RegisterMetrics.ExecuteWithMetrics ⟨1700000000, 5000, 1700000005⟩
          "create".data 3 (exRun none)).metrics.SuccessfulCounter.lookup "create".data
        = some 0
      ∧ (NewAPIMetrics.RegisterMetrics.ExecuteWithMetrics ⟨1700000000, 5000, 1700000005⟩
          "create".data 3 (exRun none)).errCounter = 0)
    ∧ ((NewAPIMetrics.RegisterMetrics.ExecuteWithMetrics ⟨1700000000, 5000, 1700000005⟩
          "create".data 3 (exRun (some "backup failed".data))).metrics.LastStatus.lookup
          "create".data = some 2
      ∧ (NewAPIMetrics.RegisterMetrics.ExecuteWithMetrics ⟨1700000000, 5000, 1700000005⟩
          "create".data 3 (exRun (some "backup failed".data))).metrics.FailedCounter.lookup
          "create".data = some 0
      ∧ (NewAPIMetrics.RegisterMetrics.ExecuteWithMetrics ⟨1700000000, 5000, 1700000005⟩
          "create".data 3 (exRun (some "backup failed".data))).err
        = some "backup failed".data
      ∧ (NewAPIMetrics.RegisterMetrics.ExecuteWithMetrics ⟨1700000000, 5000, 1700000005⟩
          "create".data 3 (exRun (some "backup failed".data))).errCounter = 4) := by
  refine ⟨?_, ?_, ?_, ⟨by decide, by decide, by decide⟩,
    ⟨by decide, by decide, by decide, by decide⟩⟩
  · intro m command hc
    have e : m.RegisterMetrics.LastStatus = NewAPIMetrics.RegisterMetrics.LastStatus := rfl
    rw [e]
    revert command
    decide
  · intro m clock command n f
    cases hf : f (m.Start command clock.startUnix) with
    | mk m1 e =>
      cases e with
      | none =>
        simp only [APIMetrics.ExecuteWithMetrics, hf, if_true, true_and]
        exact ⟨(Success_LastStatus _ _).1.trans (Finish_LastStatus _ _ _ _).1,
          (Success_LastStatus _ _).2.1.trans (Finish_LastStatus _ _ _ _).2.1,
          (Success_LastStatus _ _).2.2.trans (Finish_LastStatus _ _ _ _).2.2⟩
      | some err =>
        simp only [APIMetrics.ExecuteWithMetrics, hf, reduceCtorEq, if_false, true_and]
        exact ⟨(Failure_LastStatus _ _).1.trans (Finish_LastStatus _ _ _ _).1,
          (Failure_LastStatus _ _).2.1.trans (Finish_LastStatus _ _ _ _).2.1,
          (Failure_LastStatus _ _).2.2.trans (Finish_LastStatus _ _ _ _).2.2⟩
  · intro n h1 h2
    unfold wrapInt64
    omega

/-! ## Failures of the builds -/

theorem finishBuild_err
    (sortSlice : (TableMetadata → TableMetadata → Bool) → ListOfTables → ListOfTables)
    (dropTable : Bool) (s : BuildState) :
    (finishBuild sortSlice dropTable s).err = s.err
      ∧ ((finishBuild sortSlice dropTable s).tables = none ↔ s.err ≠ none) := by
  unfold finishBuild
  cases s.err <;> simp

theorem walkLoop_err (visit : WalkEntry → BuildState → BuildState)
    (f : WalkEntry → Option Err)
    (hv : ∀ e s, (visit e s).err = match f e with | some x => some x | none => s.err)
    (es : List WalkEntry) (s : BuildState) (hs : s.err = none) :
    (walkLoop visit es s).err = es.findSome? f := by
  induction es generalizing s with
  | nil => exact hs
  | cons e es ih =>
    rw [walkLoop, List.findSome?_cons]
    have h := hv e s
    cases hf : f e with
    | some x =>
      rw [hf] at h
      simp only at h
      rw [if_pos (by rw [h]; rfl), h]
    | none =>
      rw [hf] at h
      simp only at h
      rw [hs] at h
      rw [if_neg (by rw [h]; simp)]
      exact ih _ h

theorem remoteLoop_err (visit : TableTitle → BuildState → BuildState)
    (f : TableTitle → Option Err)
    (hv : ∀ t s, (visit t s).err = match f t with | some x => some x | none => s.err)
    (ts : List TableTitle) (s : BuildState) (hs : s.err = none) :
    (remoteLoop visit ts s).err = ts.findSome? f := by
  induction ts generalizing s with
  | nil => exact hs
  | cons t ts ih =>
    rw [remoteLoop, List.findSome?_cons]
    have h := hv t s
    cases hf : f t with
    | some x =>
      rw [hf] at h
      simp only at h
      rw [if_pos (by rw [h]; rfl), h]
    | none =>
      rw [hf] at h
      simp only at h
      rw [hs] at h
      rw [if_neg (by rw [h]; simp)]
      exact ih _ h

theorem walkLoop_reads (visit : WalkEntry → BuildState → BuildState)
    (g : WalkEntry → Option ReadEvent)
    (hv : ∀ e s, (visit e s).err = none → (visit e s).reads = s.reads ++ (g e).toList)
    (es : List WalkEntry) (s : BuildState) (h : (walkLoop visit es s).err = none) :
    (walkLoop visit es s).reads = s.reads ++ es.filterMap g := by
  induction es generalizing s with
  | nil => simp [walkLoop]
  | cons e es ih =>
    rw [walkLoop] at h ⊢
    by_cases hsome : (visit e s).err.isSome = true
    · rw [if_pos hsome] at h
      rw [h] at hsome
      exact Bool.noConfusion hsome
    · rw [if_neg hsome] at h ⊢
      have hnone : (visit e s).err = none := by
        cases hx : (visit e s).err with
        | none => rfl
        | some x => rw [hx] at hsome; exact absurd rfl hsome
      rw [ih _ h, hv e s hnone, List.filterMap_cons]
      cases g e <;> simp

theorem remoteLoop_reads (visit : TableTitle → BuildState → BuildState)
    (g : TableTitle → Option ReadEvent)
    (hv : ∀ t s, (visit t s).err = none → (visit t s).reads = s.reads ++ (g t).toList)
    (ts : List TableTitle) (s : BuildState) (h : (remoteLoop visit ts s).err = none) :
    (remoteLoop visit ts s).reads = s.reads ++ ts.filterMap g := by
  induction ts generalizing s with
  | nil => simp [remoteLoop]
  | cons t ts ih =>
    rw [remoteLoop] at h ⊢
    by_cases hsome : (visit t s).err.isSome = true
    · rw [if_pos hsome] at h
      rw [h] at hsome
      exact Bool.noConfusion hsome
    · rw [if_neg hsome] at h ⊢
      have hnone : (visit t s).err = none := by
        cases hx : (visit t s).err with
        | none => rfl
        | some x => rw [hx] at hsome; exact absurd rfl hsome
      rw [ih _ h, hv t s hnone, List.filterMap_cons]
      cases g t <;> simp

theorem localPatterns_err (fpMatch : Str → Str → MatchResult) (env : LocalEnv)
    (metadataPath : Str) (partitionsFilter : EmptyMap) (filePath : Str)
    (isEmbeddedMetadata : Bool) (names : List Str) (database table : Str)
    (shallSkipped : Bool) (ps : List Str) (s : BuildState) :
    (localPatterns fpMatch env metadataPath partitionsFilter filePath isEmbeddedMetadata
        names database table shallSkipped ps s).err
      = (if matchesSomePattern fpMatch (tableNameOf database table) ps && !shallSkipped then
          match env.readFile filePath with
          | Except.error err => some err
          | Except.ok data =>
            match localRecord env metadataPath partitionsFilter isEmbeddedMetadata names
                database table data with
            | Except.error err => some err
            | Except.ok _ => s.err
        else s.err) := by
  induction ps with
  | nil => simp [localPatterns, matchesSomePattern]
  | cons p ps ih =>
    rw [localPatterns, matchesSomePattern]
    cases hm : (fpMatch (strTrim p " \t\r\n".data) (tableNameOf database table)).matched with
    | false =>
      simp only [Bool.not_false, Bool.true_or, if_true, Bool.false_eq_true, if_false]
      exact ih
    | true =>
      cases hs : shallSkipped with
      | true =>
        subst hs
        simp only [Bool.not_true, Bool.false_or, if_true, Bool.and_false, Bool.false_eq_true,
          if_false]
        simpa using ih
      | false =>
        simp only [Bool.not_true, Bool.or_self, Bool.false_eq_true, if_false, if_true,
          Bool.not_false, Bool.and_self]
        unfold localReadTable
        cases hr : env.readFile filePath with
        | error x => rfl
        | ok data =>
          simp only
          cases hl : localRecord env metadataPath partitionsFilter isEmbeddedMetadata names
              database table data with
          | error x => rfl
          | ok t => rfl

/-- The error after the visit of an entry of the walk is the failure of the entry, and
the error before the visit when the entry does not fail. -/
theorem localVisit_err (fpMatch : Str → Str → MatchResult) (env : LocalEnv)
    (metadataPath : Str) (tablePatterns : List Str) (partitionsFilter : EmptyMap)
    (e : WalkEntry) (s : BuildState) :
    (localVisit fpMatch env metadataPath tablePatterns partitionsFilter e s).err
      = match localFailure fpMatch env metadataPath tablePatterns partitionsFilter e with
        | some x => some x
        | none => s.err := by
  unfold localVisit localFailure localReadOf
  cases he : e.err with
  | some x => rfl
  | none =>
    simp only [Option.isSome_none, Bool.false_eq_true, if_false]
    split
    · rfl
    · split
      · rfl
      · split
        · rfl
        · rw [localPatterns_err]
          split
          · simp only
            cases hr : env.readFile e.filePath with
            | error x => rfl
            | ok data =>
              simp only
              cases hl : localRecord env metadataPath partitionsFilter
                  (hasSuffix e.filePath ".sql".data) (entryNames metadataPath e.filePath)
                  (env.pathUnescape ((entryNames metadataPath e.filePath).getD 0 []))
                  (env.pathUnescape ((entryNames metadataPath e.filePath).getD 1 [])) data with
              | error x => rfl
              | ok t => rfl
          · rfl

theorem remotePatterns_err_quiet (fpMatch : Str → Str → MatchResult) (env : RemoteEnv)
    (backupName : Str) (t : TableTitle) (shallSkipped : Bool)
    (hc : ∀ k, env.ctxDone k = none) (ps : List Str) (s : BuildState) :
    (remotePatterns fpMatch env backupName t shallSkipped ps s).err
      = (if matchesSomePattern fpMatch (tableNameOf t.Database t.Table) ps && !shallSkipped
          then
            match remoteRecord env (remotePathOf env backupName t) with
            | Except.error err => some err
            | Except.ok _ => s.err
          else s.err) := by
  induction ps generalizing s with
  | nil => simp [remotePatterns, matchesSomePattern]
  | cons p ps ih =>
    rw [remotePatterns, matchesSomePattern]
    simp only [hc]
    cases hm : (fpMatch (strTrim p " \t\r\n".data)
        (tableNameOf t.Database t.Table)).matched with
    | false =>
      simp only [Bool.not_false, Bool.true_or, if_true, Bool.false_eq_true, if_false]
      exact ih _
    | true =>
      cases hs : shallSkipped with
      | true =>
        subst hs
        simp only [Bool.not_true, Bool.false_or, if_true, Bool.and_false, Bool.false_eq_true,
          if_false]
        simpa using ih { s with checks := s.checks + 1 }
      | false =>
        simp only [Bool.not_true, Bool.or_self, Bool.false_eq_true, if_false, if_true,
          Bool.not_false, Bool.and_self]
        cases hr : remoteRecord env (remotePathOf env backupName t) with
        | error x => rfl
        | ok tm => rfl

/-- While the cancellation signal is not raised, the error after the visit of an entry
of the manifest is the failure of the entry, and the error before the visit when the
entry does not fail. -/
theorem remoteVisit_err_quiet (fpMatch : Str → Str → MatchResult) (env : RemoteEnv)
    (backupName : Str) (tablePatterns : List Str) (hc : ∀ k, env.ctxDone k = none)
    (t : TableTitle) (s : BuildState) :
    (remoteVisit fpMatch env backupName tablePatterns t s).err
      = match remoteFailure fpMatch env backupName tablePatterns t with
        | some x => some x
        | none => s.err := by
  unfold remoteVisit remoteFailure remoteReadOf
  cases hi : IsInformationSchema t.Database with
  | true => rfl
  | false =>
    simp only [Bool.false_eq_true, if_false]
    rw [remotePatterns_err_quiet fpMatch env backupName t _ hc]
    split
    · simp only
      cases hr : remoteRecord env (remotePathOf env backupName t) with
      | error x => rfl
      | ok tm => rfl
    · rfl

theorem remoteVisit_reads (fpMatch : Str → Str → MatchResult) (env : RemoteEnv)
    (backupName : Str) (tablePatterns : List Str) (t : TableTitle) (s : BuildState)
    (h : (remoteVisit fpMatch env backupName tablePatterns t s).err = none) :
    (remoteVisit fpMatch env backupName tablePatterns t s).reads
      = s.reads ++ (remoteReadOf fpMatch env backupName tablePatterns t).toList := by
  unfold remoteVisit remoteReadOf at *
  cases hi : IsInformationSchema t.Database with
  | true => simp
  | false =>
    rw [hi] at h
    simp only [Bool.false_eq_true, if_false] at h ⊢
    rcases remotePatterns_reads fpMatch env backupName t
      (shallSkip fpMatch (tableNameOf t.Database t.Table) env.SkipTables) tablePatterns s
      with h1 | h1
    · rw [h1.1]
      split <;> simp
    · obtain ⟨⟨k, hk1, hk2⟩, _⟩ := h1
      rw [h] at hk1
      exact absurd hk1.symm hk2

/-- The remote build ends at the first entry of the manifest whose visit ends with an
error: it returns `nil`, that error, and the reads issued up to there. -/
theorem remote_stops_at (fpMatch : Str → Str → MatchResult)
    (sortSlice : (TableMetadata → TableMetadata → Bool) → ListOfTables → ListOfTables)
    (env : RemoteEnv) (manifest : BackupMetadata) (tablePattern : Str) (dropTable : Bool)
    (pre post : List TableTitle) (t : TableTitle) (x : Err)
    (hm : manifest.Tables = pre ++ t :: post)
    (hpre : (remoteLoop (remoteVisit fpMatch env manifest.BackupName
      (tablePatternsOf tablePattern)) pre ⟨[], [], 0, none⟩).err = none)
    (hx : (remoteVisit fpMatch env manifest.BackupName (tablePatternsOf tablePattern) t
      (remoteLoop (remoteVisit fpMatch env manifest.BackupName
        (tablePatternsOf tablePattern)) pre ⟨[], [], 0, none⟩)).err = some x) :
    getTableListByPatternRemote fpMatch sortSlice env manifest tablePattern dropTable
      = ⟨none, some x,
          (remoteVisit fpMatch env manifest.BackupName (tablePatternsOf tablePattern) t
            (remoteLoop (remoteVisit fpMatch env manifest.BackupName
              (tablePatternsOf tablePattern)) pre ⟨[], [], 0, none⟩)).reads⟩ := by
  unfold getTableListByPatternRemote
  rw [hm, remoteLoop_append _ _ _ _ hpre, remoteLoop, if_pos (by rw [hx]; rfl)]
  unfold finishBuild
  rw [hx]

/-- The visit of an entry of the manifest whose first pattern to match, looked at while
the signal is not raised, leads to a fetch that fails. -/
theorem remoteVisit_fetch_fails (fpMatch : Str → Str → MatchResult) (env : RemoteEnv)
    (backupName : Str) (tablePatterns : List Str) (t : TableTitle) (s : BuildState)
    (ps1 ps2 : List Str) (p : Str) (x : Err)
    (hp : tablePatterns = ps1 ++ p :: ps2)
    (hinfo : IsInformationSchema t.Database = false)
    (hskip : shallSkip fpMatch (tableNameOf t.Database t.Table) env.SkipTables = false)
    (hps1 : ∀ q ∈ ps1,
      (fpMatch (strTrim q " \t\r\n".data) (tableNameOf t.Database t.Table)).matched = false)
    (hmatch : (fpMatch (strTrim p " \t\r\n".data)
      (tableNameOf t.Database t.Table)).matched = true)
    (hquiet : ∀ j, j < ps1.length + 1 → env.ctxDone (s.checks + j) = none)
    (hfail : remoteRecord env (remotePathOf env backupName t) = Except.error x) :
    (remoteVisit fpMatch env backupName tablePatterns t s).err = some x
      ∧ (remoteVisit fpMatch env backupName tablePatterns t s).reads
        = s.reads ++ [⟨t.Database, t.Table, remotePathOf env backupName t⟩] := by
  unfold remoteVisit
  rw [hinfo, hp, hskip]
  simp only [Bool.false_eq_true, if_false]
  rw [remotePatterns_quiet _ _ _ _ _ _ _ _ (fun q hq => Or.inl (hps1 q hq))
    (fun j hj => hquiet j (Nat.lt_succ_of_lt hj))]
  have h0 : env.ctxDone (s.checks + ps1.length) = none := hquiet _ (Nat.lt_succ_self _)
  rw [remotePatterns]
  simp only [h0, hmatch, Bool.not_true, Bool.or_self, Bool.false_eq_true, if_false, hfail]
  simp

theorem remoteVisit_cancelled (fpMatch : Str → Str → MatchResult) (env : RemoteEnv)
    (backupName : Str) (tablePatterns : List Str) (t : TableTitle) (s : BuildState)
    (ps1 ps2 : List Str) (p : Str) (x : Err)
    (hp : tablePatterns = ps1 ++ p :: ps2)
    (hinfo : IsInformationSchema t.Database = false)
    (hps1 : ∀ q ∈ ps1,
      (fpMatch (strTrim q " \t\r\n".data) (tableNameOf t.Database t.Table)).matched = false
        ∨ shallSkip fpMatch (tableNameOf t.Database t.Table) env.SkipTables = true)
    (hquiet : ∀ j, j < ps1.length → env.ctxDone (s.checks + j) = none)
    (hcancel : env.ctxDone (s.checks + ps1.length) = some x) :
    (remoteVisit fpMatch env backupName tablePatterns t s).err = some x
      ∧ (remoteVisit fpMatch env backupName tablePatterns t s).reads = s.reads := by
  unfold remoteVisit
  rw [hinfo, hp]
  simp only [Bool.false_eq_true, if_false]
  rw [remotePatterns_quiet _ _ _ _ _ _ _ _ hps1 hquiet, remotePatterns]
  simp only [hcancel]
  simp

theorem localRecord_error_iff (env : LocalEnv) (metadataPath : Str)
    (partitionsFilter : EmptyMap) (isEmbeddedMetadata : Bool) (names : List Str)
    (database table data : Str) (x : Err) :
    localRecord env metadataPath partitionsFilter isEmbeddedMetadata names database table
        data = Except.error x
      ↔ (isEmbeddedMetadata = true
          ∧ env.stat (dataPartsPathOf env metadataPath names) = some x
          ∧ env.isNotExist x = false)
        ∨ (isEmbeddedMetadata = false ∧ env.unmarshal data = Except.error x) := by
  unfold localRecord
  cases isEmbeddedMetadata with
  | true =>
    cases hs : env.stat (dataPartsPathOf env metadataPath names) with
    | none => simp [Option.filter]
    | some y =>
      cases hy : env.isNotExist y with
      | true =>
        simp only [Option.filter, hy, Bool.not_true, Bool.false_eq_true, if_false, if_true]
        constructor
        · intro h; cases h
        · rintro (⟨_, h1, h2⟩ | ⟨h, _⟩)
          · cases h1
            rw [hy] at h2
            cases h2
          · cases h
      | false =>
        simp only [Option.filter, hy, Bool.not_false, if_true]
        constructor
        · intro h
          cases h
          simp [hy]
        · rintro (⟨_, h1, _⟩ | ⟨h, _⟩)
          · cases h1; rfl
          · cases h
  | false =>
    cases hu : env.unmarshal data with
    | error y => simp
    | ok t => simp

theorem remoteRecord_error_iff (env : RemoteEnv) (path : Str) (x : Err) :
    remoteRecord env path = Except.error x
      ↔ env.getFileReader path = Except.error x
        ∨ ∃ tmReader, env.getFileReader path = Except.ok tmReader
            ∧ (tmReader.data = Except.error x
              ∨ ∃ data, tmReader.data = Except.ok data
                  ∧ (tmReader.closeErr = some x
                    ∨ (tmReader.closeErr = none ∧ env.unmarshal data = Except.error x))) := by
  unfold remoteRecord
  cases hg : env.getFileReader path with
  | error y => simp
  | ok tmReader =>
    cases hd : tmReader.data with
    | error y => simp [hd]
    | ok data =>
      cases hc : tmReader.closeErr with
      | some y => simp [hd, hc]
      | none => simp [hd, hc]

theorem remoteLoop_invariant_mem (P : BuildState → Prop)
    (visit : TableTitle → BuildState → BuildState) (ts : List TableTitle)
    (hv : ∀ t ∈ ts, ∀ s, P s → P (visit t s)) (s : BuildState) (hs : P s) :
    P (remoteLoop visit ts s) := by
  induction ts generalizing s with
  | nil => exact hs
  | cons t ts ih =>
    simp only [remoteLoop]
    split
    · exact hv t (List.mem_cons_self _ _) s hs
    · exact ih (fun t' ht' => hv t' (List.mem_cons_of_mem _ ht')) _
        (hv t (List.mem_cons_self _ _) s hs)

theorem remotePatterns_err_cases (fpMatch : Str → Str → MatchResult) (env : RemoteEnv)
    (backupName : Str) (t : TableTitle) (shallSkipped : Bool) (ps : List Str)
    (s : BuildState) (x : Err)
    (h : (remotePatterns fpMatch env backupName t shallSkipped ps s).err = some x) :
    s.err = some x
      ∨ (∃ k, env.ctxDone k = some x)
      ∨ ((matchesSomePattern fpMatch (tableNameOf t.Database t.Table) ps && !shallSkipped)
          = true
        ∧ remoteRecord env (remotePathOf env backupName t) = Except.error x) := by
  induction ps generalizing s with
  | nil => exact Or.inl h
  | cons p ps ih =>
    rw [remotePatterns] at h
    rw [matchesSomePattern]
    cases hc : env.ctxDone s.checks with
    | some y =>
      simp only [hc] at h
      cases h
      exact Or.inr (Or.inl ⟨s.checks, hc⟩)
    | none =>
      simp only [hc] at h
      cases hm : (fpMatch (strTrim p " \t\r\n".data)
          (tableNameOf t.Database t.Table)).matched with
      | false =>
        simp only [hm, Bool.not_false, Bool.true_or, if_true] at h
        simpa using ih _ h
      | true =>
        cases hs : shallSkipped with
        | true =>
          subst hs
          simp only [hm, Bool.not_true, Bool.false_or, if_true] at h
          simpa using ih _ h
        | false =>
          subst hs
          simp only [hm, Bool.not_true, Bool.or_self, Bool.false_eq_true, if_false] at h
          cases hr : remoteRecord env (remotePathOf env backupName t) with
          | error y =>
            simp only [hr] at h
            cases h
            exact Or.inr (Or.inr ⟨by simp, rfl⟩)
          | ok tm =>
            simp only [hr] at h
            exact Or.inl h

/-- An error after the visit of an entry of the manifest is the error before the visit,
the cancellation error, or the failure of the entry. -/
theorem remoteVisit_err_cases (fpMatch : Str → Str → MatchResult) (env : RemoteEnv)
    (backupName : Str) (tablePatterns : List Str) (t : TableTitle) (s : BuildState) (x : Err)
    (h : (remoteVisit fpMatch env backupName tablePatterns t s).err = some x) :
    s.err = some x
      ∨ (∃ k, env.ctxDone k = some x)
      ∨ remoteFailure fpMatch env backupName tablePatterns t = some x := by
  unfold remoteVisit at h
  unfold remoteFailure remoteReadOf
  cases hi : IsInformationSchema t.Database with
  | true =>
    rw [hi] at h
    exact Or.inl h
  | false =>
    rw [hi] at h
    simp only [Bool.false_eq_true, if_false] at h ⊢
    rcases remotePatterns_err_cases _ _ _ _ _ _ _ _ h with h1 | h1 | ⟨h1, h2⟩
    · exact Or.inl h1
    · exact Or.inr (Or.inl h1)
    · right; right
      rw [if_pos h1]
      simp only [h2]

theorem localFailure_iff (fpMatch : Str → Str → MatchResult) (env : LocalEnv)
    (metadataPath : Str) (tablePatterns : List Str) (partitionsFilter : EmptyMap)
    (e : WalkEntry) (x : Err) :
    localFailure fpMatch env metadataPath tablePatterns partitionsFilter e = some x
      ↔ e.err = some x
        ∨ (e.err = none
          ∧ ∃ ev, localReadOf fpMatch env metadataPath tablePatterns e = some ev
            ∧ (env.readFile ev.path = Except.error x
              ∨ ∃ data, env.readFile ev.path = Except.ok data
                ∧ ((hasSuffix ev.path ".sql".data = true
                    ∧ env.stat (dataPartsPathOf env metadataPath
                        (entryNames metadataPath ev.path)) = some x
                    ∧ env.isNotExist x = false)
                  ∨ (hasSuffix ev.path ".sql".data = false
                    ∧ env.unmarshal data = Except.error x)))) := by
  unfold localFailure
  cases he : e.err with
  | some y => simp
  | none =>
    cases hr : localReadOf fpMatch env metadataPath tablePatterns e with
    | none => simp
    | some ev =>
      cases hf : env.readFile ev.path with
      | error y => simp [hf]
      | ok data =>
        simp only [hf, false_or, true_and, Option.some.injEq, exists_eq_left',
          Except.ok.injEq, reduceCtorEq]
        rw [← localRecord_error_iff env metadataPath partitionsFilter
          (hasSuffix ev.path ".sql".data) (entryNames metadataPath ev.path) ev.Database
          ev.Table data x]
        cases hl : localRecord env metadataPath partitionsFilter
            (hasSuffix ev.path ".sql".data) (entryNames metadataPath ev.path) ev.Database
            ev.Table data with
        | error y => simp
        | ok tm => simp

theorem remoteFailure_iff (fpMatch : Str → Str → MatchResult) (env : RemoteEnv)
    (backupName : Str) (tablePatterns : List Str) (t : TableTitle) (x : Err) :
    remoteFailure fpMatch env backupName tablePatterns t = some x
      ↔ ∃ ev, remoteReadOf fpMatch env backupName tablePatterns t = some ev
        ∧ (env.getFileReader ev.path = Except.error x
          ∨ ∃ tmReader, env.getFileReader ev.path = Except.ok tmReader
              ∧ (tmReader.data = Except.error x
                ∨ ∃ data, tmReader.data = Except.ok data
                    ∧ (tmReader.closeErr = some x
                      ∨ (tmReader.closeErr = none
                        ∧ env.unmarshal data = Except.error x)))) := by
  unfold remoteFailure
  cases hr : remoteReadOf fpMatch env backupName tablePatterns t with
  | none => simp
  | some ev =>
    simp only [Option.some.injEq, exists_eq_left']
    rw [← remoteRecord_error_iff env ev.path x]
    cases hl : remoteRecord env ev.path with
    | error y => simp
    | ok tm => simp

/-- C31: no partial catalog is ever returned, and the error returned is the underlying
error, unchanged. Local build: the error returned is the failure of the first entry of
the walk that fails, and none if no entry fails; an entry fails with `x` exactly when
`Walk` reports `x` for it or, the entry being read, when `os.ReadFile` fails with `x` on
its path, or `os.Stat` fails with `x`, not the absence of the path, on the directory of
the data parts of a statement file, or `json.Unmarshal` fails with `x` on the text read
from a JSON file; the catalog returned is `nil` exactly when an error is returned. Remote
build: the catalog returned is `nil` exactly when an error is returned; while the
cancellation signal is not raised the error returned is the failure of the first entry of
the manifest that fails, an entry failing with `x` exactly when its document is fetched
and `GetFileReader`, `io.ReadAll`, `Close` or `json.Unmarshal`, in this order, fails with
`x` on it; whatever the signal does elsewhere, a fetch that fails with `x` at the first
pattern matching an entry, after entries processed without error, makes the build return
`nil`, `x` and the reads issued up to this fetch; a signal raised with error `x` when the
build is about to examine a pattern makes it return `nil`, `x` and the reads issued
before; and every error returned is the cancellation error or the failure of an entry of
the manifest. In each of the example runs the record of `db.t1` has been reconciled when
the failure occurs: a walk failure, a read failure, a failure of `os.Stat`, malformed
JSON; a failure of `GetFileReader`, of `io.ReadAll`, of `Close`, malformed JSON, and a
cancellation. -/
theorem no_partial_catalog (fpMatch : Str → Str → MatchResult)
    (sortSlice : (TableMetadata → TableMetadata → Bool) → ListOfTables → ListOfTables)
    (envL : LocalEnv) (envR : RemoteEnv) (metadataPath tablePattern : Str)
    (manifest : BackupMetadata) (dropTable : Bool) (partitionsFilter : EmptyMap) :
    (getTableListByPatternLocal fpMatch sortSlice envL metadataPath tablePattern dropTable
        partitionsFilter).err
      = (envL.walk metadataPath).findSome?
          (localFailure fpMatch envL metadataPath (tablePatternsOf tablePattern)
            partitionsFilter)
    ∧ (∀ e x, localFailure fpMatch envL metadataPath (tablePatternsOf tablePattern)
          partitionsFilter e = some x
        ↔ e.err = some x
          ∨ (e.err = none
            ∧ ∃ ev, localReadOf fpMatch envL metadataPath (tablePatternsOf tablePattern) e
                = some ev
              ∧ (envL.readFile ev.path = Except.error x
                ∨ ∃ data, envL.readFile ev.path = Except.ok data
                  ∧ ((hasSuffix ev.path ".sql".data = true
                      ∧ envL.stat (dataPartsPathOf envL metadataPath
                          (entryNames metadataPath ev.path)) = some x
                      ∧ envL.isNotExist x = false)
                    ∨ (hasSuffix ev.path ".sql".data = false
                      ∧ envL.unmarshal data = Except.error x)))))
    ∧ ((getTableListByPatternLocal fpMatch sortSlice envL metadataPath tablePattern
          dropTable partitionsFilter).tables = none
        ↔ (getTableListByPatternLocal fpMatch sortSlice envL metadataPath tablePattern
          dropTable partitionsFilter).err ≠ none)
    ∧ ((getTableListByPatternRemote fpMatch sortSlice envR manifest tablePattern
          dropTable).tables = none
        ↔ (getTableListByPatternRemote fpMatch sortSlice envR manifest tablePattern
          dropTable).err ≠ none)
    ∧ ((∀ k, envR.ctxDone k = none) →
        (getTableListByPatternRemote fpMatch sortSlice envR manifest tablePattern
          dropTable).err
          = manifest.Tables.findSome?
              (remoteFailure fpMatch envR manifest.BackupName (tablePatternsOf tablePattern)))
    ∧ (∀ t x, remoteFailure fpMatch envR manifest.BackupName (tablePatternsOf tablePattern) t
          = some x
        ↔ ∃ ev, remoteReadOf fpMatch envR manifest.BackupName (tablePatternsOf tablePattern) t
              = some ev
            ∧ (envR.getFileReader ev.path = Except.error x
              ∨ ∃ tmReader, envR.getFileReader ev.path = Except.ok tmReader
                  ∧ (tmReader.data = Except.error x
                    ∨ ∃ data, tmReader.data = Except.ok data
                        ∧ (tmReader.closeErr = some x
                          ∨ (tmReader.closeErr = none
                            ∧ envR.unmarshal data = Except.error x)))))
    ∧ (∀ (pre post : List TableTitle) (t : TableTitle) (ps1 ps2 : List Str) (p : Str)
        (x : Err),
        manifest.Tables = pre ++ t :: post →
        tablePatternsOf tablePattern = ps1 ++ p :: ps2 →
        (remoteLoop (remoteVisit fpMatch envR manifest.BackupName
          (tablePatternsOf tablePattern)) pre ⟨[], [], 0, none⟩).err = none →
        IsInformationSchema t.Database = false →
        shallSkip fpMatch (tableNameOf t.Database t.Table) envR.SkipTables = false →
        (∀ q ∈ ps1, (fpMatch (strTrim q " \t\r\n".data)
          (tableNameOf t.Database t.Table)).matched = false) →
        (fpMatch (strTrim p " \t\r\n".data) (tableNameOf t.Database t.Table)).matched = true →
        (∀ j, j < ps1.length + 1 →
          envR.ctxDone ((remoteLoop (remoteVisit fpMatch envR manifest.BackupName
            (tablePatternsOf tablePattern)) pre ⟨[], [], 0, none⟩).checks + j) = none) →
        remoteRecord envR (remotePathOf envR manifest.BackupName t) = Except.error x →
        getTableListByPatternRemote fpMatch sortSlice envR manifest tablePattern dropTable
          = ⟨none, some x,
              (remoteLoop (remoteVisit fpMatch envR manifest.BackupName
                (tablePatternsOf tablePattern)) pre ⟨[], [], 0, none⟩).reads
              ++ [⟨t.Database, t.Table, remotePathOf envR manifest.BackupName t⟩]⟩)
    ∧ (∀ (pre post : List TableTitle) (t : TableTitle) (ps1 ps2 : List Str) (p : Str)
        (x : Err),
        manifest.Tables = pre ++ t :: post →
        tablePatternsOf tablePattern = ps1 ++ p :: ps2 →
        (remoteLoop (remoteVisit fpMatch envR manifest.BackupName
          (tablePatternsOf tablePattern)) pre ⟨[], [], 0, none⟩).err = none →
        IsInformationSchema t.Database = false →
        (∀ q ∈ ps1,
          (fpMatch (strTrim q " \t\r\n".data) (tableNameOf t.Database t.Table)).matched
              = false
            ∨ shallSkip fpMatch (tableNameOf t.Database t.Table) envR.SkipTables = true) →
        (∀ j, j < ps1.length →
          envR.ctxDone ((remoteLoop (remoteVisit fpMatch envR manifest.BackupName
            (tablePatternsOf tablePattern)) pre ⟨[], [], 0, none⟩).checks + j) = none) →
        envR.ctxDone ((remoteLoop (remoteVisit fpMatch envR manifest.BackupName
            (tablePatternsOf tablePattern)) pre ⟨[], [], 0, none⟩).checks + ps1.length)
          = some x →
        getTableListByPatternRemote fpMatch sortSlice envR manifest tablePattern dropTable
          = ⟨none, some x,
              (remoteLoop (remoteVisit fpMatch envR manifest.BackupName
                (tablePatternsOf tablePattern)) pre ⟨[], [], 0, none⟩).reads⟩)
    ∧ (∀ x, (getTableListByPatternRemote fpMatch sortSlice envR manifest tablePattern
          dropTable).err = some x →
        (∃ k, envR.ctxDone k = some x)
          ∨ ∃ t ∈ manifest.Tables,
              remoteFailure fpMatch envR manifest.BackupName (tablePatternsOf tablePattern) t
                = some x)
    ∧ getTableListByPatternLocal filepathMatch insertionSort_func
        (exLocalEnvBrokenWalk
          [("/backup/metadata/db/t1.json", "db|t1|CREATE TABLE db.t1 (x UInt64)")]
          "/backup/metadata/db2" "permission denied")
        "/backup/metadata".data "".data false []
      = ⟨none, some "permission denied".data,
          [⟨"db".data, "t1".data, "/backup/metadata/db/t1.json".data⟩]⟩
    ∧ getTableListByPatternLocal filepathMatch insertionSort_func
        (exLocalEnvUnreadable
          [("/backup/metadata/db/t1.json", "db|t1|CREATE TABLE db.t1 (x UInt64)")]
          "/backup/metadata/db/t2.json")
        "/backup/metadata".data "".data false []
      = ⟨none, some "no such file or directory".data,
          [⟨"db".data, "t1".data, "/backup/metadata/db/t1.json".data⟩,
           ⟨"db".data, "t2".data, "/backup/metadata/db/t2.json".data⟩]⟩
    ∧ getTableListByPatternLocal filepathMatch insertionSort_func
        (exLocalEnvStatFails
          [("/backup/metadata/db/t1.json", "db|t1|CREATE TABLE db.t1 (x UInt64)"),
           ("/backup/metadata/db/t2.sql", "ATTACH TABLE db.t2 (x UInt64)")]
          "/backup/data/db/t2" "permission denied")
        "/backup/metadata".data "".data false []
      = ⟨none, some "permission denied".data,
          [⟨"db".data, "t1".data, "/backup/metadata/db/t1.json".data⟩,
           ⟨"db".data, "t2".data, "/backup/metadata/db/t2.sql".data⟩]⟩
    ∧ getTableListByPatternLocal filepathMatch insertionSort_func
        (exLocalEnv [("/backup/metadata/db/t1.json", "db|t1|CREATE TABLE db.t1 (x UInt64)"),
          ("/backup/metadata/db/t2.json", "not a document")] [])
        "/backup/metadata".data "".data false []
      = ⟨none, some "invalid character".data,
          [⟨"db".data, "t1".data, "/backup/metadata/db/t1.json".data⟩,
           ⟨"db".data, "t2".data, "/backup/metadata/db/t2.json".data⟩]⟩
    ∧ getTableListByPatternRemote filepathMatch insertionSort_func
        (exRemoteEnv [("/backup/metadata/db/t1.json", "db|t1|CREATE TABLE db.t1 (x UInt64)")]
          [])
        (exManifest [("db", "t1"), ("db", "t2")]) "".data false
      = ⟨none, some "no such file or directory".data,
          [⟨"db".data, "t1".data, "backup/metadata/db/t1.json".data⟩,
           ⟨"db".data, "t2".data, "backup/metadata/db/t2.json".data⟩]⟩
    ∧ getTableListByPatternRemote filepathMatch insertionSort_func
        (exRemoteEnvReadAllFails
          [("/backup/metadata/db/t1.json", "db|t1|CREATE TABLE db.t1 (x UInt64)"),
           ("/backup/metadata/db/t2.json", "db|t2|CREATE TABLE db.t2 (x UInt64)")]
          "backup/metadata/db/t2.json" "unexpected EOF")
        (exManifest [("db", "t1"), ("db", "t2")]) "".data false
      = ⟨none, some "unexpected EOF".data,
          [⟨"db".data, "t1".data, "backup/metadata/db/t1.json".data⟩,
           ⟨"db".data, "t2".data, "backup/metadata/db/t2.json".data⟩]⟩
    ∧ getTableListByPatternRemote filepathMatch insertionSort_func
        (exRemoteEnvCloseFails
          [("/backup/metadata/db/t1.json", "db|t1|CREATE TABLE db.t1 (x UInt64)"),
           ("/backup/metadata/db/t2.json", "db|t2|CREATE TABLE db.t2 (x UInt64)")]
          "backup/metadata/db/t2.json" "close failed")
        (exManifest [("db", "t1"), ("db", "t2")]) "".data false
      = ⟨none, some "close failed".data,
          [⟨"db".data, "t1".data, "backup/metadata/db/t1.json".data⟩,
           ⟨"db".data, "t2".data, "backup/metadata/db/t2.json".data⟩]⟩
    ∧ getTableListByPatternRemote filepathMatch insertionSort_func
        (exRemoteEnv [("/backup/metadata/db/t1.json", "db|t1|CREATE TABLE db.t1 (x UInt64)"),
          ("/backup/metadata/db/t2.json", "not a document")] [])
        (exManifest [("db", "t1"), ("db", "t2")]) "".data false
      = ⟨none, some "invalid character".data,
          [⟨"db".data, "t1".data, "backup/metadata/db/t1.json".data⟩,
           ⟨"db".data, "t2".data, "backup/metadata/db/t2.json".data⟩]⟩
    ∧ getTableListByPatternRemote filepathMatch insertionSort_func
        (exCancelledEnv
          [("/backup/metadata/db/t1.json", "db|t1|CREATE TABLE db.t1 (x UInt64)"),
           ("/backup/metadata/db/t2.json", "db|t2|CREATE TABLE db.t2 (x UInt64)")] 1)
        (exManifest [("db", "t1"), ("db", "t2")]) "".data false
      = ⟨none, some "context canceled".data,
          [⟨"db".data, "t1".data, "backup/metadata/db/t1.json".data⟩]⟩ := by
  refine ⟨?_, ?_, ?_, ?_, ?_, ?_, ?_, ?_, ?_, by decide, by decide, by decide, by decide,
    by decide, by decide, by decide, by decide, by decide⟩
  · unfold getTableListByPatternLocal
    rw [(finishBuild_err _ _ _).1]
    exact walkLoop_err _ _ (fun e s => localVisit_err _ _ _ _ _ e s) _ _ rfl
  · exact fun e x => localFailure_iff _ _ _ _ _ e x
  · unfold getTableListByPatternLocal
    rw [(finishBuild_err _ _ _).1]
    exact (finishBuild_err _ _ _).2
  · unfold getTableListByPatternRemote
    rw [(finishBuild_err _ _ _).1]
    exact (finishBuild_err _ _ _).2
  · intro hc
    unfold getTableListByPatternRemote
    rw [(finishBuild_err _ _ _).1]
    exact remoteLoop_err _ _ (fun t s => remoteVisit_err_quiet _ _ _ _ hc t s) _ _ rfl
  · exact fun t x => remoteFailure_iff _ _ _ _ t x
  · intro pre post t ps1 ps2 p x hm hp hpre hinfo hskip hps1 hmatch hquiet hfail
    have hv := remoteVisit_fetch_fails fpMatch envR manifest.BackupName
      (tablePatternsOf tablePattern) t
      (remoteLoop (remoteVisit fpMatch envR manifest.BackupName
        (tablePatternsOf tablePattern)) pre ⟨[], [], 0, none⟩)
      ps1 ps2 p x hp hinfo hskip hps1 hmatch hquiet hfail
    rw [remote_stops_at fpMatch sortSlice envR manifest tablePattern dropTable pre post t x
      hm hpre hv.1, hv.2]
  · intro pre post t ps1 ps2 p x hm hp hpre hinfo hps1 hquiet hcancel
    have hv := remoteVisit_cancelled fpMatch envR manifest.BackupName
      (tablePatternsOf tablePattern) t
      (remoteLoop (remoteVisit fpMatch envR manifest.BackupName
        (tablePatternsOf tablePattern)) pre ⟨[], [], 0, none⟩)
      ps1 ps2 p x hp hinfo hps1 hquiet hcancel
    rw [remote_stops_at fpMatch sortSlice envR manifest tablePattern dropTable pre post t x
      hm hpre hv.1, hv.2]
  · intro x hx
    unfold getTableListByPatternRemote at hx
    rw [(finishBuild_err _ _ _).1] at hx
    exact remoteLoop_invariant_mem
      (fun s => ∀ x, s.err = some x → (∃ k, envR.ctxDone k = some x)
        ∨ ∃ t ∈ manifest.Tables, remoteFailure fpMatch envR manifest.BackupName
            (tablePatternsOf tablePattern) t = some x)
      _ _
      (fun t ht s hs y hy => by
        rcases remoteVisit_err_cases _ _ _ _ _ _ _ hy with h1 | h1 | h1
        · exact hs y h1
        · exact Or.inl h1
        · exact Or.inr ⟨t, ht, h1⟩)
      _ (fun y hy => Option.noConfusion hy) x hx

/-! ## Every match found is a match of the expression -/

theorem matchLit_some_prev (w : Str) (prev : Option Char) (s : Str) (p : Option Char) (r : Str)
    (h : matchLit w prev s = some (p, r)) : s = w ++ r ∧ p = lastOr prev w := by
  have hs := matchLit_some w prev s p r h
  subst hs
  rw [matchLit_append] at h
  simp only [Option.some.injEq, Prod.mk.injEq] at h
  exact ⟨rfl, h.1.symm⟩

theorem starLoop_sound (p : Char → Bool) (caps : List (Nat × Str))
    (k : MState → Option MState) (res : MState) (rest : Str) (prev : Option Char)
    (h : starLoop p caps k prev rest = some res) :
    ∃ w r, rest = w ++ r ∧ (∀ x ∈ w, p x = true) ∧ k ⟨lastOr prev w, r, caps⟩ = some res := by
  induction rest generalizing prev with
  | nil => exact ⟨[], [], rfl, by simp, h⟩
  | cons c cs ih =>
    simp only [starLoop] at h
    by_cases hc : p c = true
    · simp only [hc, if_true] at h
      cases hs : starLoop p caps k (some c) cs with
      | some r =>
        rw [hs] at h
        simp only [Option.some.injEq] at h
        subst h
        obtain ⟨w, r', e, hw, hk⟩ := ih (some c) hs
        refine ⟨c :: w, r', by rw [e]; rfl, ?_, hk⟩
        intro x hx
        rcases List.mem_cons.mp hx with hx | hx
        · rw [hx]; exact hc
        · exact hw x hx
      | none =>
        rw [hs] at h
        exact ⟨[], c :: cs, rfl, by simp, h⟩
    · simp only [hc, Bool.false_eq_true, if_false] at h
      exact ⟨[], c :: cs, rfl, by simp, h⟩

/-- Soundness of the matcher: a run of `r` from `s` that ends with a result has handed to
its continuation a position `s'` that a match of `r` from `s` reaches. -/
theorem run_sound (r : Regex) : ∀ (s : MState) (k : MState → Option MState) (res : MState),
    r.run s k = some res → ∃ s', r.Den s s' ∧ k s' = some res := by
  induction r with
  | lit w =>
    intro s k res h
    simp only [Regex.run] at h
    cases hm : matchLit w s.prev s.rest with
    | none => rw [hm] at h; exact Option.noConfusion h
    | some pr =>
      obtain ⟨p, r⟩ := pr
      rw [hm] at h
      obtain ⟨e1, e2⟩ := matchLit_some_prev w s.prev s.rest p r hm
      exact ⟨⟨p, r, s.caps⟩, ⟨e1, e2, rfl⟩, h⟩
  | cls p =>
    intro s k res h
    simp only [Regex.run] at h
    cases hr : s.rest with
    | nil => rw [hr] at h; exact Option.noConfusion h
    | cons c cs =>
      rw [hr] at h
      by_cases hc : p c = true
      · simp only [hc, if_true] at h
        exact ⟨⟨some c, cs, s.caps⟩, ⟨c, hc, hr, rfl, rfl⟩, h⟩
      · simp only [hc, Bool.false_eq_true, if_false] at h
        exact Option.noConfusion h
  | star p =>
    intro s k res h
    simp only [Regex.run] at h
    obtain ⟨w, r, e, hw, hk⟩ := starLoop_sound p s.caps k res s.rest s.prev h
    exact ⟨⟨lastOr s.prev w, r, s.caps⟩, ⟨w, hw, e, rfl, rfl⟩, hk⟩
  | bol =>
    intro s k res h
    simp only [Regex.run] at h
    cases hp : s.prev with
    | none =>
      rw [hp] at h
      exact ⟨s, ⟨Or.inl hp, rfl⟩, h⟩
    | some c =>
      rw [hp] at h
      by_cases hc : c = '\n'
      · simp only [hc, if_true] at h
        exact ⟨s, ⟨Or.inr (by rw [hp, hc]), rfl⟩, h⟩
      · simp only [hc, if_false] at h
        exact Option.noConfusion h
  | seq a b iha ihb =>
    intro s k res h
    simp only [Regex.run] at h
    obtain ⟨m, hm, hk⟩ := iha s _ res h
    obtain ⟨s', hs', hk'⟩ := ihb m k res hk
    exact ⟨s', ⟨m, hm, hs'⟩, hk'⟩
  | alt a b iha ihb =>
    intro s k res h
    simp only [Regex.run] at h
    cases ha : a.run s k with
    | some r =>
      rw [ha] at h
      simp only [Option.some.injEq] at h
      subst h
      obtain ⟨s', hs', hk⟩ := iha s k r ha
      exact ⟨s', Or.inl hs', hk⟩
    | none =>
      rw [ha] at h
      obtain ⟨s', hs', hk⟩ := ihb s k res h
      exact ⟨s', Or.inr hs', hk⟩
  | opt a iha =>
    intro s k res h
    simp only [Regex.run] at h
    cases ha : a.run s k with
    | some r =>
      rw [ha] at h
      simp only [Option.some.injEq] at h
      subst h
      obtain ⟨s', hs', hk⟩ := iha s k r ha
      exact ⟨s', Or.inl hs', hk⟩
    | none =>
      rw [ha] at h
      exact ⟨s, Or.inr rfl, h⟩
  | cap n a iha =>
    intro s k res h
    simp only [Regex.run] at h
    obtain ⟨m, hm, hk⟩ := iha s _ res h
    exact ⟨_, ⟨m, hm, rfl⟩, hk⟩

/-- The match that starts at a position, if one is found, is a match of the expression. -/
theorem execAt_sound (re : Regex) (prev : Option Char) (rest : Str) (st : MState)
    (h : re.execAt prev rest = some st) : re.Den ⟨prev, rest, []⟩ st := by
  unfold Regex.execAt at h
  obtain ⟨s', hs', hk⟩ := run_sound re _ _ _ h
  simp only [Option.some.injEq] at hk
  subst hk
  exact hs'

theorem den_seq {a b : Regex} {s s' : MState} :
    (Regex.seq a b).Den s s' ↔ ∃ m, a.Den s m ∧ b.Den m s' := Iff.rfl

theorem takes_lit (w : Str) : Takes (Regex.lit w) (fun x => x = w) :=
  fun _ _ h => ⟨w, rfl, h.1, h.2.2⟩

theorem takes_alt {a b : Regex} {Q Q' : Str → Prop} (ha : Takes a Q) (hb : Takes b Q') :
    Takes (Regex.alt a b) (fun x => Q x ∨ Q' x) := by
  intro s s' h
  rcases h with h | h
  · obtain ⟨w, hw, e⟩ := ha s s' h
    exact ⟨w, Or.inl hw, e⟩
  · obtain ⟨w, hw, e⟩ := hb s s' h
    exact ⟨w, Or.inr hw, e⟩

theorem takes_opt {a : Regex} {Q : Str → Prop} (ha : Takes a Q) :
    Takes (Regex.opt a) (fun x => x = [] ∨ Q x) := by
  intro s s' h
  rcases h with h | h
  · obtain ⟨w, hw, e⟩ := ha s s' h
    exact ⟨w, Or.inr hw, e⟩
  · subst h
    exact ⟨[], Or.inl rfl, rfl, rfl⟩

theorem takes_star (p : Char → Bool) : Takes (Regex.star p) (fun x => ∀ c ∈ x, p c = true) :=
  fun _ _ h => by
    obtain ⟨w, hw, e, _, hc⟩ := h
    exact ⟨w, hw, e, hc⟩

theorem takes_cls (p : Char → Bool) :
    Takes (Regex.cls p) (fun x => ∃ c, p c = true ∧ x = [c]) :=
  fun _ _ h => by
    obtain ⟨c, hc, e, _, hcaps⟩ := h
    exact ⟨[c], ⟨c, hc, rfl⟩, e, hcaps⟩

/-- A group around an expression that captures nothing records the text it covers. -/
theorem takes_cap {a : Regex} {Q : Str → Prop} (ha : Takes a Q) (n : Nat) (s s' : MState)
    (h : (Regex.cap n a).Den s s') :
    ∃ w, Q w ∧ s.rest = w ++ s'.rest ∧ s'.caps = (n, w) :: s.caps := by
  obtain ⟨m, hm, e⟩ := h
  obtain ⟨w, hw, e1, e2⟩ := ha s m hm
  subst e
  refine ⟨w, hw, e1, ?_⟩
  simp only [e1, take_append_sub, e2]

/-- The parts of a match of `queryRE`: it starts at the start of a line; it is made of
`CREATE` or `ATTACH`, an object kind, the database between optional backticks, a dot and
the name, and then either nothing more, with groups 1 to 6 set, or a TO clause up to the
dot behind its database, with groups 1 to 11 set. -/
theorem queryRE_shape (prev : Option Char) (text : Str) (st : MState)
    (h : queryRE.execAt prev text = some st) :
    (prev = none ∨ prev = some '\n')
    ∧ ∃ verb kind g3 a g5 b : Str,
        (verb = "CREATE".data ∨ verb = "ATTACH".data) ∧ kind ∈ objectKinds
        ∧ (g3 = [] ∨ g3 = "\x60".data) ∧ (∀ x ∈ a, identClass x = true)
        ∧ (g5 = [] ∨ g5 = "\x60".data) ∧ (∀ x ∈ b, identClass x = true)
        ∧ ((text = verb ++ (' ' :: (kind ++ (' ' :: (g3 ++ (a ++ (g5 ++ ('.' :: b)))))))
                ++ st.rest
            ∧ st.caps = [(6, b), (5, g5), (4, a), (3, g3), (2, kind), (1, verb)])
          ∨ ∃ g8 a2 g10 : Str,
              (g8 = [] ∨ g8 = "\x60".data) ∧ (∀ x ∈ a2, identClass x = true)
              ∧ (g10 = [] ∨ g10 = "\x60".data)
              ∧ text = verb ++ (' ' :: (kind ++ (' ' :: (g3 ++ (a ++ (g5 ++ ('.' :: (b ++
                  (" TO ".data ++ (g8 ++ (a2 ++ (g10 ++ ['.'])))))))))))) ++ st.rest
              ∧ st.caps = [(11, ['.']), (10, g10), (9, a2), (8, g8), (7, " TO ".data),
                  (6, b), (5, g5), (4, a), (3, g3), (2, kind), (1, verb)]) := by
  have hd := execAt_sound _ _ _ _ h
  simp only [queryRE, Regex.cat] at hd
  obtain ⟨s0, hbol, hd⟩ := den_seq.mp hd
  obtain ⟨hprev, e0⟩ := hbol
  subst e0
  obtain ⟨s1, h1, hd⟩ := den_seq.mp hd
  obtain ⟨verb, hverb, e1, c1⟩ := takes_cap (takes_alt (takes_lit _) (takes_lit _)) 1 _ _ h1
  obtain ⟨s2, h2, hd⟩ := den_seq.mp hd
  obtain ⟨_, rfl, e2, c2⟩ := takes_lit _ _ _ h2
  obtain ⟨s3, h3, hd⟩ := den_seq.mp hd
  obtain ⟨kind, hkind, e3, c3⟩ := takes_cap (takes_alt (takes_lit _) (takes_alt (takes_lit _)
    (takes_alt (takes_lit _) (takes_alt (takes_lit _) (takes_lit _))))) 2 _ _ h3
  obtain ⟨s4, h4, hd⟩ := den_seq.mp hd
  obtain ⟨_, rfl, e4, c4⟩ := takes_lit _ _ _ h4
  obtain ⟨s5, h5, hd⟩ := den_seq.mp hd
  obtain ⟨g3, hg3, e5, c5⟩ := takes_cap (takes_opt (takes_lit _)) 3 _ _ h5
  obtain ⟨s6, h6, hd⟩ := den_seq.mp hd
  obtain ⟨a, ha, e6, c6⟩ := takes_cap (takes_star _) 4 _ _ h6
  obtain ⟨s7, h7, hd⟩ := den_seq.mp hd
  obtain ⟨g5, hg5, e7, c7⟩ := takes_cap (takes_opt (takes_lit _)) 5 _ _ h7
  obtain ⟨s8, h8, hd⟩ := den_seq.mp hd
  obtain ⟨_, rfl, e8, c8⟩ := takes_lit _ _ _ h8
  obtain ⟨s9, h9, hd⟩ := den_seq.mp hd
  obtain ⟨b, hb, e9, c9⟩ := takes_cap (takes_star _) 6 _ _ h9
  simp only at hprev e1 c1
  have hk : kind ∈ objectKinds := by
    simp only [objectKinds, List.mem_cons, List.mem_singleton, List.not_mem_nil, or_false]
    exact hkind
  have etext : text = verb ++ (' ' :: (kind ++ (' ' :: (g3 ++ (a ++ (g5 ++ ('.' :: b)))))))
      ++ s9.rest := by
    rw [e1, e2, e3, e4, e5, e6, e7, e8, e9]
    simp only [List.append_assoc, List.cons_append, List.nil_append, List.singleton_append]
  have ecaps : s9.caps = [(6, b), (5, g5), (4, a), (3, g3), (2, kind), (1, verb)] := by
    rw [c9, c8, c7, c6, c5, c4, c3, c2, c1]
  refine ⟨hprev, verb, kind, g3, a, g5, b, hverb, hk, hg3, ha, hg5, hb, ?_⟩
  rcases hd with hd | hd
  · right
    obtain ⟨t1, k1, hd⟩ := den_seq.mp hd
    obtain ⟨_, rfl, f1, d1⟩ := takes_cap (takes_lit _) 7 _ _ k1
    obtain ⟨t2, k2, hd⟩ := den_seq.mp hd
    obtain ⟨g8, hg8, f2, d2⟩ := takes_cap (takes_opt (takes_lit _)) 8 _ _ k2
    obtain ⟨t3, k3, hd⟩ := den_seq.mp hd
    obtain ⟨a2, ha2, f3, d3⟩ := takes_cap (takes_star _) 9 _ _ k3
    obtain ⟨t4, k4, hd⟩ := den_seq.mp hd
    obtain ⟨g10, hg10, f4, d4⟩ := takes_cap (takes_opt (takes_lit _)) 10 _ _ k4
    obtain ⟨_, rfl, f5, d5⟩ := takes_cap (takes_lit _) 11 _ _ hd
    refine ⟨g8, a2, g10, hg8, ha2, hg10, ?_, ?_⟩
    · rw [etext, f1, f2, f3, f4, f5]
      simp only [List.append_assoc, List.cons_append, List.nil_append, List.singleton_append]
    · rw [d5, d4, d3, d2, d1, ecaps]
  · left
    subst hd
    exact ⟨etext, ecaps⟩

/-- The parts of a match of `uuidRE`: the text `UUID '`, one or more characters of the
class of the pattern, and a single quote; no group is set. -/
theorem uuidRE_shape (prev : Option Char) (text : Str) (st : MState)
    (h : uuidRE.execAt prev text = some st) :
    ∃ (c : Char) (w : Str), uuidClass c = true ∧ (∀ x ∈ w, uuidClass x = true)
      ∧ text = "UUID '".data ++ (c :: (w ++ "'".data)) ++ st.rest := by
  have hd := execAt_sound _ _ _ _ h
  simp only [uuidRE, Regex.cat] at hd
  obtain ⟨s1, h1, hd⟩ := den_seq.mp hd
  obtain ⟨_, rfl, e1, _⟩ := takes_lit _ _ _ h1
  obtain ⟨s2, h2, hd⟩ := den_seq.mp hd
  obtain ⟨_, ⟨c, hc, rfl⟩, e2, _⟩ := takes_cls _ _ _ h2
  obtain ⟨s3, h3, hd⟩ := den_seq.mp hd
  obtain ⟨w, hw, e3, _⟩ := takes_star _ _ _ h3
  obtain ⟨_, rfl, e4, _⟩ := takes_lit _ _ _ hd
  refine ⟨c, w, hc, hw, ?_⟩
  simp only at e1
  rw [e1, e2, e3, e4]
  simp only [List.append_assoc, List.cons_append, List.nil_append, List.singleton_append]

/-! ## What a replacement of matches leaves to an observer of the text -/

theorem findAllFrom_skip (re : Regex) (w s : Str) (am : Bool) (prev : Option Char) :
    findAllFrom re w.length am prev (w ++ s) = findAllFrom re 0 am (lastOr prev w) s := by
  induction w generalizing prev with
  | nil => rfl
  | cons c cs ih =>
    simp only [List.length_cons, List.cons_append, findAllFrom, lastOr]
    exact ih (some c)

theorem findAllFrom_match_eq (re : Regex) (m : Char) (ms tail : Str) (am : Bool)
    (prev : Option Char) (st : MState)
    (h : re.execAt prev (m :: (ms ++ tail)) = some st) (hst : st.rest = tail) :
    findAllFrom re 0 am prev (m :: (ms ++ tail))
      = (m :: ms) :: findAllFrom re 0 true (lastOr (some m) ms) tail := by
  have hlen : (m :: (ms ++ tail)).length - tail.length = ms.length + 1 := by
    simp only [List.length_cons, List.length_append]; omega
  simp only [findAllFrom, h, hst, hlen, Nat.add_sub_cancel, Nat.succ_ne_zero, if_false,
    List.take_succ_cons, List.take_left', findAllFrom_skip]

theorem lastOr_some_ne_none (c : Char) (w : Str) : lastOr (some c) w ≠ none := by
  induction w generalizing c with
  | nil => simp [lastOr]
  | cons x xs ih => exact ih x

theorem lineCtx_snoc (P : Str) (c : Char) : LineCtx (P ++ [c]) (some c) := by
  refine ⟨fun h => Option.noConfusion h, fun h => ?_⟩
  simp only [Option.some.injEq] at h
  subst h
  exact ⟨P, rfl⟩

/-- An observation `F` of a text that no replacement of a single match changes is not
changed by the replacement of all matches. The matches are non-empty and end with another
character than the newline; `good` is a property of the texts of all matches found, under
which the replacement of one match, in any text around it, is not observed. -/
theorem replaceAllFrom_observe (re : Regex) (repl : Str → List (Nat × Str) → Str)
    (F : Str → Bool) (good : Str → Prop)
    (hstep : ∀ (P : Str) (prev : Option Char) (text : Str) (st : MState),
      LineCtx P prev → re.execAt prev text = some st →
      ∃ m : Str, m ≠ [] ∧ text = m ++ st.rest ∧ lastOr none m ≠ some '\n'
        ∧ (good m → ∀ X : Str, F (P ++ (m ++ X)) = F (P ++ (repl m st.caps ++ X)))) :
    ∀ (n : Nat) (text : Str), text.length ≤ n → ∀ (am : Bool) (prev : Option Char) (P : Str),
      LineCtx P prev → (∀ m ∈ findAllFrom re 0 am prev text, good m) →
      F (P ++ text) = F (P ++ replaceAllFrom re repl 0 am prev text) := by
  intro n
  induction n with
  | zero =>
    intro text hlen am prev P hctx _
    have ht : text = [] := List.length_eq_zero.mp (Nat.le_zero.mp hlen)
    subst ht
    cases hex : re.execAt prev [] with
    | none => simp only [replaceAllFrom, hex]
    | some st =>
      obtain ⟨m, hm, e, _⟩ := hstep P prev [] st hctx hex
      exact absurd (List.append_eq_nil.mp e.symm).1 hm
  | succ n ih =>
    intro text hlen am prev P hctx hgood
    cases text with
    | nil =>
      cases hex : re.execAt prev [] with
      | none => simp only [replaceAllFrom, hex]
      | some st =>
        obtain ⟨m, hm, e, _⟩ := hstep P prev [] st hctx hex
        exact absurd (List.append_eq_nil.mp e.symm).1 hm
    | cons c cs =>
      have hcs : cs.length ≤ n := by
        simp only [List.length_cons] at hlen; omega
      cases hex : re.execAt prev (c :: cs) with
      | none =>
        rw [replaceAllFrom_nomatch _ _ _ _ _ _ hex]
        rw [findAllFrom_nomatch _ _ _ _ _ hex] at hgood
        have h := ih cs hcs false (some c) (P ++ [c]) (lineCtx_snoc P c) hgood
        simpa only [List.append_assoc, List.singleton_append] using h
      | some st =>
        obtain ⟨m, hm, e, hlast, hF⟩ := hstep P prev (c :: cs) st hctx hex
        cases m with
        | nil => exact absurd rfl hm
        | cons m0 ms =>
          have e' : c :: cs = m0 :: (ms ++ st.rest) := e
          rw [e'] at hex hgood ⊢
          rw [replaceAllFrom_match re repl m0 ms st.rest am prev st hex rfl]
          rw [findAllFrom_match_eq re m0 ms st.rest am prev st hex rfl] at hgood
          have hrest : st.rest.length ≤ n := by
            have := congrArg List.length e'
            simp only [List.length_cons, List.length_append] at this hlen
            omega
          have h1 := hF (hgood _ (List.mem_cons_self _ _)) st.rest
          have h2 := ih st.rest hrest true (lastOr (some m0) ms)
            (P ++ repl (m0 :: ms) st.caps)
            ⟨fun h => absurd h (lastOr_some_ne_none _ _), fun h => absurd h hlast⟩
            (fun m hm => hgood m (List.mem_cons_of_mem _ hm))
          have e1 : m0 :: (ms ++ st.rest) = (m0 :: ms) ++ st.rest := rfl
          rw [e1, h1]
          simpa only [List.append_assoc] using h2

/-! ## Texts that hold a marker, texts that begin with a prefix -/

/-- A text that begins with `w` has every character of `w`. -/
theorem hasPrefix_false_of_not_mem (t w : Str) (x : Char) (hx : x ∈ w) (ht : x ∉ t) :
    hasPrefix t w = false := by
  induction w generalizing t with
  | nil => simp at hx
  | cons w0 ws ih =>
    cases t with
    | nil => rfl
    | cons t0 ts =>
      by_cases e : t0 = w0
      · subst e
        have hx2 : x ∈ ws := by
          rcases List.mem_cons.mp hx with h | h
          · exact absurd (h ▸ List.mem_cons_self _ _) ht
          · exact h
        have := ih ts hx2 (fun h => ht (List.mem_cons_of_mem _ h))
        simp [hasPrefix, this]
      · simp [hasPrefix, e]

theorem strContains_false_of_not_mem (t w : Str) (x : Char) (hx : x ∈ w) (ht : x ∉ t) :
    strContains t w = false := by
  induction t with
  | nil =>
    cases w with
    | nil => simp at hx
    | cons w0 ws => rfl
  | cons t0 ts ih =>
    have e : strContains (t0 :: ts) w = (hasPrefix (t0 :: ts) w || strContains ts w) := rfl
    rw [e, hasPrefix_false_of_not_mem _ w x hx ht, ih (fun h => ht (List.mem_cons_of_mem _ h))]
    rfl

/-- A character that `w` does not have ends the comparison with `w`. -/
theorem hasPrefix_sep (a t w : Str) (u : Char) (hu : u ∉ w) :
    hasPrefix (a ++ u :: t) w = hasPrefix a w := by
  induction a generalizing w with
  | nil =>
    cases w with
    | nil => rfl
    | cons w0 ws =>
      have : u ≠ w0 := fun e => hu (e ▸ List.mem_cons_self _ _)
      simp [hasPrefix, this]
  | cons x xs ih =>
    cases w with
    | nil => rfl
    | cons w0 ws =>
      have := ih ws (fun h => hu (List.mem_cons_of_mem _ h))
      rw [List.cons_append]
      simp only [hasPrefix, this]

/-- A character that the marker `m` does not have separates what is before it from what
is behind it. -/
theorem strContains_sep (a t m : Str) (u : Char) (hu : u ∉ m) (hm : m ≠ []) :
    strContains (a ++ u :: t) m = (strContains a m || strContains t m) := by
  induction a with
  | nil =>
    cases m with
    | nil => exact absurd rfl hm
    | cons m0 ms =>
      have : u ≠ m0 := fun e => hu (e ▸ List.mem_cons_self _ _)
      simp [strContains, hasPrefix, this]
  | cons x xs ih =>
    have e1 : strContains (x :: (xs ++ u :: t)) m
        = (hasPrefix (x :: (xs ++ u :: t)) m || strContains (xs ++ u :: t) m) := rfl
    have e2 : strContains (x :: xs) m = (hasPrefix (x :: xs) m || strContains xs m) := rfl
    have e3 := hasPrefix_sep (x :: xs) t m u hu
    rw [List.cons_append] at e3 ⊢
    rw [e1, e2, e3, ih, Bool.or_assoc]

theorem strContains_cons_sep (t m : Str) (u : Char) (hu : u ∉ m) (hm : m ≠ []) :
    strContains (u :: t) m = strContains t m := by
  have h := strContains_sep [] t m u hu hm
  cases m with
  | nil => exact absurd rfl hm
  | cons m0 ms => simpa [strContains, hasPrefix] using h

/-- An optional backtick before a text has no part in a marker without backtick. -/
theorem strContains_tick (g t m : Str) (hg : g = [] ∨ g = "\x60".data) (hm : '\x60' ∉ m)
    (hne : m ≠ []) : strContains (g ++ t) m = strContains t m := by
  rcases hg with hg | hg <;> subst hg
  · rfl
  · exact strContains_cons_sep t m _ hm hne

/-- A run of characters without a character `x` of the marker, followed by a character
that the marker does not have, holds no start of the marker. -/
theorem hasPrefix_run_sep (a t m : Str) (x z : Char) (hx : x ∈ m) (ha : x ∉ a)
    (hz : z ∉ m) : hasPrefix (a ++ z :: t) m = false := by
  rw [hasPrefix_sep a t m z hz]
  exact hasPrefix_false_of_not_mem a m x hx ha

theorem strContains_run_sep (a t m : Str) (x z : Char) (hx : x ∈ m) (ha : x ∉ a)
    (hz : z ∉ m) : strContains (a ++ z :: t) m = strContains t m := by
  have hne : m ≠ [] := fun e => by rw [e] at hx; simp at hx
  rw [strContains_sep a t m z hz hne, strContains_false_of_not_mem a m x hx ha]
  rfl

/-! ## The two templates, expanded against the groups of a match -/

/-- A variable with a two digit name in braces is replaced by the text of that group. -/
theorem expandFrom_braced2 (uni : Char → Bool) (caps : List (Nat × Str)) (d1 d2 : Char)
    (n : Nat) (t : Str) (hd1 : isNameRune uni d1 = true) (hd2 : isNameRune uni d2 = true)
    (hn : nameNum [d1, d2] = some n) :
    expandFrom uni caps 0 ('$' :: '{' :: d1 :: d2 :: '}' :: t)
      = groupText caps (some n) ++ expandFrom uni caps 0 t := by
  have hb : isNameRune uni '}' = false := by simp [isNameRune]
  have hx : extract uni ('{' :: d1 :: d2 :: '}' :: t) = some ([d1, d2], some n, t) := by
    simp [extract, List.takeWhile, List.dropWhile, hd1, hd2, hb, hn]
  have hlen : ('{' :: d1 :: d2 :: '}' :: t).length - t.length = 4 := by
    simp only [List.length_cons]; omega
  have hh : ('{' :: d1 :: d2 :: '}' :: t).head? ≠ some '$' := by simp
  simp only [expandFrom, if_true, hx, hlen, hh, if_false]

/-- The expansion of the template of the ATTACH branch against the groups of a match with
a TO clause: group 10, the backtick behind the database of the clause, is not in it. -/
theorem expand_attach_template (uni : Char → Bool) (m g1 kind a b c g3 g5 g7 g8 a2 g10 g11 : Str)
    (hc : ∀ x ∈ c, x ≠ '$') :
    expandFrom uni
        ((0, m) :: [(11, g11), (10, g10), (9, a2), (8, g8), (7, g7), (6, b), (5, g5), (4, a),
          (3, g3), (2, kind), (1, g1)]) 0
        ("${1} ${2} ${3}".data ++ c ++ "${5}.${6}${7}${8}".data ++ c ++ "${11}".data)
      = g1 ++ (' ' :: (kind ++ (' ' :: (g3 ++ (c ++ (g5 ++ ('.' :: (b ++ (g7 ++ (g8 ++
          (c ++ g11))))))))))) := by
  have e : "${1} ${2} ${3}".data ++ c ++ "${5}.${6}${7}${8}".data ++ c ++ "${11}".data
      = '$' :: '{' :: '1' :: '}' :: ([' '] ++ ('$' :: '{' :: '2' :: '}' :: ([' '] ++
          ('$' :: '{' :: '3' :: '}' :: (c ++ ('$' :: '{' :: '5' :: '}' :: (['.'] ++
            ('$' :: '{' :: '6' :: '}' :: ('$' :: '{' :: '7' :: '}' ::
              ('$' :: '{' :: '8' :: '}' :: (c ++
                ('$' :: '{' :: '1' :: '1' :: '}' :: [])))))))))))) := by
    simp only [List.append_assoc]
    rfl
  rw [e]
  rw [expandFrom_braced uni _ '1' 1 _ (isNameRune_digit uni _ (by decide)) (by decide)]
  rw [expandFrom_append_plain uni _ [' '] _ (by decide)]
  rw [expandFrom_braced uni _ '2' 2 _ (isNameRune_digit uni _ (by decide)) (by decide)]
  rw [expandFrom_append_plain uni _ [' '] _ (by decide)]
  rw [expandFrom_braced uni _ '3' 3 _ (isNameRune_digit uni _ (by decide)) (by decide)]
  rw [expandFrom_append_plain uni _ c _ hc]
  rw [expandFrom_braced uni _ '5' 5 _ (isNameRune_digit uni _ (by decide)) (by decide)]
  rw [expandFrom_append_plain uni _ ['.'] _ (by decide)]
  rw [expandFrom_braced uni _ '6' 6 _ (isNameRune_digit uni _ (by decide)) (by decide)]
  rw [expandFrom_braced uni _ '7' 7 _ (isNameRune_digit uni _ (by decide)) (by decide)]
  rw [expandFrom_braced uni _ '8' 8 _ (isNameRune_digit uni _ (by decide)) (by decide)]
  rw [expandFrom_append_plain uni _ c _ hc]
  rw [expandFrom_braced2 uni _ '1' '1' 11 _ (isNameRune_digit uni _ (by decide))
    (isNameRune_digit uni _ (by decide)) (by decide)]
  simp [groupText, List.lookup, expandFrom]

/-! ## The words `CREATE <kind>` and the names of a match, for the ranker -/

/-- The statement prefixes of the ranker are decided by the words `<verb> <kind>` of a
match: what follows them has no part. -/
theorem hasPrefix_verb_kind (verb kind x y p : Str)
    (hv : verb = "CREATE".data ∨ verb = "ATTACH".data) (hk : kind ∈ objectKinds)
    (hp : p ∈ orderPrefixes) :
    hasPrefix (verb ++ (' ' :: (kind ++ (' ' :: x)))) p
      = hasPrefix (verb ++ (' ' :: (kind ++ (' ' :: y)))) p := by
  simp only [objectKinds, orderPrefixes, List.mem_cons, List.mem_singleton, List.not_mem_nil,
    or_false] at hk hp
  rcases hv with hv | hv <;> subst hv <;>
    rcases hk with hk | hk | hk | hk | hk <;> subst hk <;>
    rcases hp with hp | hp | hp | hp | hp | hp | hp | hp <;> subst hp <;> rfl

/-- No marker of the ranker begins within the words `<verb> <kind>` of a match. -/
theorem strContains_verb_kind (verb kind t m : Str)
    (hv : verb = "CREATE".data ∨ verb = "ATTACH".data) (hk : kind ∈ objectKinds)
    (hm : m ∈ orderMarkers) :
    strContains (verb ++ (' ' :: (kind ++ (' ' :: t)))) m = strContains t m := by
  simp only [objectKinds, orderMarkers, List.mem_cons, List.mem_singleton, List.not_mem_nil,
    or_false] at hk hm
  rcases hv with hv | hv <;> subst hv <;>
    rcases hk with hk | hk | hk | hk | hk <;> subst hk <;>
    rcases hm with hm | hm | hm | hm | hm <;> subst hm <;> rfl

/-- The characters that no marker of the ranker has, and the blank or the dot that each
has. -/
theorem orderMarkers_chars (m : Str) (hm : m ∈ orderMarkers) :
    m ≠ [] ∧ '\x60' ∉ m ∧ 'C' ∉ m ∧ 'A' ∉ m ∧ 'U' ∉ m
      ∧ ((' ' ∈ m ∧ '.' ∉ m ∧ ∃ w rest, m = w ++ ' ' :: '=' :: rest ∧ ' ' ∉ w)
        ∨ (' ' ∉ m ∧ ∃ ms, m = '.' :: ms ∧ '.' ∈ ms)) := by
  simp only [orderMarkers, List.mem_cons, List.mem_singleton, List.not_mem_nil, or_false] at hm
  rcases hm with hm | hm | hm | hm | hm <;> subst hm
  · exact ⟨by decide, by decide, by decide, by decide, by decide,
      Or.inl ⟨by decide, by decide, "ENGINE".data, " Distributed".data, rfl, by decide⟩⟩
  · exact ⟨by decide, by decide, by decide, by decide, by decide,
      Or.inl ⟨by decide, by decide, "ENGINE".data, " Kafka".data, rfl, by decide⟩⟩
  · exact ⟨by decide, by decide, by decide, by decide, by decide,
      Or.inl ⟨by decide, by decide, "ENGINE".data, " RabbitMQ".data, rfl, by decide⟩⟩
  · exact ⟨by decide, by decide, by decide, by decide, by decide,
      Or.inr ⟨by decide, _, rfl, by decide⟩⟩
  · exact ⟨by decide, by decide, by decide, by decide, by decide,
      Or.inr ⟨by decide, _, rfl, by decide⟩⟩

/-- A name without blank and dot, followed by a dot or by a backtick and a dot, holds no
start of a marker of the ranker. -/
theorem strContains_name (a g r m : Str) (ha : ∀ x ∈ a, x ≠ ' ' ∧ x ≠ '.')
    (hg : g = [] ∨ g = "\x60".data) (hm : m ∈ orderMarkers) :
    strContains (a ++ (g ++ '.' :: r)) m = strContains (g ++ '.' :: r) m := by
  obtain ⟨hne, htick, _, _, _, hfam⟩ := orderMarkers_chars m hm
  rcases hfam with ⟨hb, hd, _⟩ | ⟨_, ms, e, _⟩
  · have hna : ' ' ∉ a := fun h => (ha _ h).1 rfl
    rcases hg with hg | hg <;> subst hg
    · rw [List.nil_append, strContains_run_sep a r m ' ' '.' hb hna hd,
        strContains_cons_sep r m '.' hd hne]
    · have e1 : "\x60".data ++ '.' :: r = '\x60' :: '.' :: r := rfl
      rw [e1, strContains_run_sep a _ m ' ' '\x60' hb hna htick,
        strContains_cons_sep _ m '\x60' htick hne]
  · subst e
    exact strContains_skip_ne a _ '.' ms (fun y hy => (ha y hy).2)

/-- A run without blank, followed by a blank and another character than `=`, does not
begin with a text `w = ...` whose word `w` has no blank. -/
theorem hasPrefix_blank_other (x w body rest : Str) (t0 : Char) (ht : t0 ≠ '=')
    (hx : ' ' ∉ x) (hw : ' ' ∉ w) :
    hasPrefix (x ++ ' ' :: t0 :: body) (w ++ ' ' :: '=' :: rest) = false := by
  induction x generalizing w with
  | nil =>
    cases w with
    | nil => simp [hasPrefix, ht]
    | cons w0 ws =>
      have : ' ' ≠ w0 := fun e => hw (e ▸ List.mem_cons_self _ _)
      simp [hasPrefix, this]
  | cons y ys ih =>
    cases w with
    | nil =>
      have : y ≠ ' ' := fun e => hx (e ▸ List.mem_cons_self _ _)
      simp [hasPrefix, this]
    | cons w0 ws =>
      have := ih ws (fun h => hx (List.mem_cons_of_mem _ h))
        (fun h => hw (List.mem_cons_of_mem _ h))
      simp [hasPrefix, this]

theorem strContains_blank_other (x w body rest : Str) (t0 : Char) (ht : t0 ≠ '=')
    (hx : ' ' ∉ x) (hw : ' ' ∉ w) :
    strContains (x ++ ' ' :: t0 :: body) (w ++ ' ' :: '=' :: rest)
      = strContains (' ' :: t0 :: body) (w ++ ' ' :: '=' :: rest) := by
  induction x with
  | nil => rfl
  | cons y ys ih =>
    have e : strContains (y :: (ys ++ ' ' :: t0 :: body)) (w ++ ' ' :: '=' :: rest)
        = (hasPrefix (y :: (ys ++ ' ' :: t0 :: body)) (w ++ ' ' :: '=' :: rest)
            || strContains (ys ++ ' ' :: t0 :: body) (w ++ ' ' :: '=' :: rest)) := rfl
    have h1 := hasPrefix_blank_other (y :: ys) w body rest t0 ht hx hw
    rw [List.cons_append] at h1 ⊢
    rw [e, h1, ih (fun h => hx (List.mem_cons_of_mem _ h))]
    rfl

/-- The name of the object and the word ` TO ` behind it hold no start of a marker of the
ranker. -/
theorem strContains_name_to (b y m : Str) (hb : ∀ x ∈ b, x ≠ ' ' ∧ x ≠ '.')
    (hm : m ∈ orderMarkers) :
    strContains (b ++ (" TO ".data ++ y)) m = strContains y m := by
  have hto : strContains (" TO ".data ++ y) m = strContains y m := by
    simp only [orderMarkers, List.mem_cons, List.mem_singleton, List.not_mem_nil, or_false]
      at hm
    rcases hm with hm | hm | hm | hm | hm <;> subst hm <;> rfl
  obtain ⟨_, _, _, _, _, hfam⟩ := orderMarkers_chars m hm
  rcases hfam with ⟨_, _, w, rest, e, hw⟩ | ⟨_, ms, e, _⟩
  · have hnb : ' ' ∉ b := fun h => (hb _ h).1 rfl
    have e1 : " TO ".data ++ y = ' ' :: 'T' :: ("O ".data ++ y) := rfl
    rw [← hto]
    rw [e1, e]
    exact strContains_blank_other b w _ rest 'T' (by decide) hnb hw
  · rw [← hto]
    subst e
    exact strContains_skip_ne b _ '.' ms (fun y hy => (hb y hy).2)

/-- In a match of `queryRE` without TO clause the text ` TO ` does not occur; in a match
with the clause it does. -/
theorem strContains_infix (a s b : Str) : strContains (a ++ (s ++ b)) s = true := by
  induction a with
  | nil =>
    rw [List.nil_append]
    cases h : s ++ b with
    | nil =>
      have := List.append_eq_nil.mp h
      rw [this.1]; rfl
    | cons c cs =>
      have e : strContains (c :: cs) s = (hasPrefix (c :: cs) s || strContains cs s) := rfl
      rw [e, ← h, hasPrefix_append_self]
      rfl
  | cons x xs ih =>
    have e : strContains (x :: (xs ++ (s ++ b))) s
        = (hasPrefix (x :: (xs ++ (s ++ b))) s || strContains (xs ++ (s ++ b)) s) := rfl
    rw [List.cons_append, e, ih, Bool.or_true]

theorem strContains_to_plain (verb kind g3 a g5 b : Str)
    (hv : verb = "CREATE".data ∨ verb = "ATTACH".data) (hk : kind ∈ objectKinds)
    (hg3 : g3 = [] ∨ g3 = "\x60".data) (ha : ∀ x ∈ a, identClass x = true)
    (hg5 : g5 = [] ∨ g5 = "\x60".data) (hb : ∀ x ∈ b, identClass x = true) :
    strContains (verb ++ (' ' :: (kind ++ (' ' :: (g3 ++ (a ++ (g5 ++ ('.' :: b))))))))
      " TO ".data = false := by
  have hrest : ' ' ∉ g3 ++ (a ++ (g5 ++ ('.' :: b))) := by
    intro h
    simp only [List.mem_append, List.mem_cons] at h
    rcases h with h | h | h | h | h
    · rcases hg3 with e | e <;> subst e <;> simp at h
    · exact (identClass_ne _ (ha _ h)).2.2.1 rfl
    · rcases hg5 with e | e <;> subst e <;> simp at h
    · exact absurd h (by decide)
    · exact (identClass_ne _ (hb _ h)).2.2.1 rfl
  have hhead : strContains (verb ++ (' ' :: (kind ++ (' ' :: (g3 ++ (a ++ (g5 ++ ('.' :: b))))))))
      " TO ".data = strContains (' ' :: (g3 ++ (a ++ (g5 ++ ('.' :: b))))) " TO ".data := by
    simp only [objectKinds, List.mem_cons, List.mem_singleton, List.not_mem_nil, or_false] at hk
    rcases hv with hv | hv <;> subst hv <;>
      rcases hk with hk | hk | hk | hk | hk <;> subst hk <;> rfl
  rw [hhead]
  have e : strContains (' ' :: (g3 ++ (a ++ (g5 ++ ('.' :: b))))) " TO ".data
      = (hasPrefix (g3 ++ (a ++ (g5 ++ ('.' :: b)))) "TO ".data
          || strContains (g3 ++ (a ++ (g5 ++ ('.' :: b)))) " TO ".data) := by
    simp [strContains, hasPrefix]
  rw [e, hasPrefix_false_of_not_mem _ _ ' ' (by decide) hrest,
    strContains_false_of_not_mem _ _ ' ' (by decide) hrest]
  rfl

/-! ## One match replaced, seen by the ranker -/

/-- The prefix tests of the ranker do not see what follows the words `<verb> <kind>` of
a match, at the start of the text or of a later line. -/
theorem prefix_local (verb kind y y' p P : Str) (prev : Option Char)
    (hv : verb = "CREATE".data ∨ verb = "ATTACH".data) (hk : kind ∈ objectKinds)
    (hp : p ∈ orderPrefixes) (hctx : LineCtx P prev)
    (hprev : prev = none ∨ prev = some '\n') :
    hasPrefix (P ++ (verb ++ (' ' :: (kind ++ (' ' :: y))))) p
      = hasPrefix (P ++ (verb ++ (' ' :: (kind ++ (' ' :: y'))))) p := by
  rcases hprev with h | h
  · rw [hctx.1 h, List.nil_append, List.nil_append]
    exact hasPrefix_verb_kind verb kind y y' p hv hk hp
  · obtain ⟨P', e⟩ := hctx.2 h
    have hn : '\n' ∉ p := by
      simp only [orderPrefixes, List.mem_cons, List.mem_singleton, List.not_mem_nil, or_false]
        at hp
      rcases hp with hp | hp | hp | hp | hp | hp | hp | hp <;> subst hp <;> decide
    rw [e, List.append_assoc, List.append_assoc, List.singleton_append,
      List.singleton_append, hasPrefix_sep P' _ p '\n' hn, hasPrefix_sep P' _ p '\n' hn]

/-- A marker of the ranker in a text that holds a match lies before the match, or behind
the database of the match. -/
theorem marker_local (verb kind g3 a g5 z m P : Str)
    (hv : verb = "CREATE".data ∨ verb = "ATTACH".data) (hk : kind ∈ objectKinds)
    (hg3 : g3 = [] ∨ g3 = "\x60".data) (ha : ∀ x ∈ a, x ≠ ' ' ∧ x ≠ '.')
    (hg5 : g5 = [] ∨ g5 = "\x60".data) (hm : m ∈ orderMarkers) :
    strContains (P ++ (verb ++ (' ' :: (kind ++ (' ' :: (g3 ++ (a ++ (g5 ++ ('.' :: z))))))))) m
      = (strContains P m || strContains (g5 ++ ('.' :: z)) m) := by
  obtain ⟨hne, htick, hC, hA, _, _⟩ := orderMarkers_chars m hm
  have hin : strContains (verb ++ (' ' :: (kind ++ (' ' :: (g3 ++ (a ++ (g5 ++ ('.' :: z))))))))
      m = strContains (g5 ++ ('.' :: z)) m := by
    rw [strContains_verb_kind verb kind _ m hv hk hm, strContains_tick g3 _ m hg3 htick hne,
      strContains_name a g5 z m ha hg5 hm]
  rw [← hin]
  rcases hv with hv | hv <;> subst hv
  · have e : "CREATE".data ++ (' ' :: (kind ++ (' ' :: (g3 ++ (a ++ (g5 ++ ('.' :: z)))))))
        = 'C' :: ("REATE".data ++ (' ' :: (kind ++ (' ' :: (g3 ++ (a ++ (g5 ++ ('.' :: z)))))))) :=
      rfl
    rw [e, strContains_sep P _ m 'C' hC hne, strContains_cons_sep _ m 'C' hC hne]
  · have e : "ATTACH".data ++ (' ' :: (kind ++ (' ' :: (g3 ++ (a ++ (g5 ++ ('.' :: z)))))))
        = 'A' :: ("TTACH".data ++ (' ' :: (kind ++ (' ' :: (g3 ++ (a ++ (g5 ++ ('.' :: z)))))))) :=
      rfl
    rw [e, strContains_sep P _ m 'A' hA hne, strContains_cons_sep _ m 'A' hA hne]

/-- A marker of the ranker behind the database of a match with a TO clause lies behind
the name of the clause. -/
theorem marker_to (g5 b y m : Str) (hg5 : g5 = [] ∨ g5 = "\x60".data)
    (hb : ∀ x ∈ b, x ≠ ' ' ∧ x ≠ '.') (hm : m ∈ orderMarkers) :
    strContains (g5 ++ ('.' :: (b ++ (" TO ".data ++ y)))) m = strContains y m := by
  obtain ⟨hne, htick, _, _, _, hfam⟩ := orderMarkers_chars m hm
  rw [strContains_tick g5 _ m hg5 htick hne]
  rcases hfam with ⟨_, hd, _⟩ | ⟨hblank, ms, e, hdot⟩
  · rw [strContains_cons_sep _ m '.' hd hne]
    exact strContains_name_to b y m hb hm
  · have e1 : strContains ('.' :: (b ++ (" TO ".data ++ y))) m
        = (hasPrefix ('.' :: (b ++ (" TO ".data ++ y))) m
            || strContains (b ++ (" TO ".data ++ y)) m) := rfl
    rw [e1, strContains_name_to b y m hb hm]
    subst e
    have e2 : hasPrefix ('.' :: (b ++ (" TO ".data ++ y))) ('.' :: ms)
        = hasPrefix (b ++ (' ' :: ("TO ".data ++ y))) ms := by
      simp [hasPrefix]
    have hnb : '.' ∉ b := fun h => (hb _ h).2 rfl
    have hbl : ' ' ∉ ms := fun h => hblank (List.mem_cons_of_mem _ h)
    rw [e2, hasPrefix_run_sep b _ ms '.' ' ' hdot hnb hbl]
    rfl

theorem strContains_to_clause (verb kind g3 a g5 b y : Str) :
    strContains (verb ++ (' ' :: (kind ++ (' ' :: (g3 ++ (a ++ (g5 ++ ('.' :: (b ++
      (" TO ".data ++ y)))))))))) " TO ".data = true := by
  have e : verb ++ (' ' :: (kind ++ (' ' :: (g3 ++ (a ++ (g5 ++ ('.' :: (b ++
      (" TO ".data ++ y)))))))))
      = (verb ++ (' ' :: (kind ++ (' ' :: (g3 ++ (a ++ (g5 ++ ('.' :: b))))))))
        ++ (" TO ".data ++ y) := by
    simp only [List.append_assoc, List.cons_append]
  rw [e]
  exact strContains_infix _ _ _

theorem ident_no_blank_dot (a : Str) (ha : ∀ x ∈ a, identClass x = true) :
    ∀ x ∈ a, x ≠ ' ' ∧ x ≠ '.' :=
  fun x hx => ⟨(identClass_ne x (ha x hx)).2.2.1, (identClass_ne x (ha x hx)).2.1⟩

theorem ident_no_newline (a : Str) (ha : ∀ x ∈ a, identClass x = true) :
    ∀ x ∈ a, x ≠ '\n' :=
  fun x hx => (identClass_ne x (ha x hx)).2.2.2

/-- The step of the replacement of `queryRE` with the template of the CREATE branch, for
an observation `F` that does not see the database of a match without TO clause. -/
theorem queryRE_step_create (uni : Char → Bool) (c : Str) (hc : ∀ x ∈ c, x ≠ '$')
    (F : Str → Bool)
    (hF : ∀ (verb kind g3 a g5 b P X : Str) (prev : Option Char),
      (verb = "CREATE".data ∨ verb = "ATTACH".data) → kind ∈ objectKinds →
      (g3 = [] ∨ g3 = "\x60".data) → (∀ x ∈ a, identClass x = true) →
      (g5 = [] ∨ g5 = "\x60".data) → (∀ x ∈ b, identClass x = true) →
      LineCtx P prev → (prev = none ∨ prev = some '\n') →
      F (P ++ (verb ++ (' ' :: (kind ++ (' ' :: (g3 ++ (a ++ (g5 ++ ('.' :: (b ++ X))))))))))
        = F (P ++ (verb ++ (' ' :: (kind ++ (' ' :: (g3 ++ (c ++ (g5 ++ ('.' :: (b ++ X)))))))))))
    (P : Str) (prev : Option Char) (text : Str) (st : MState)
    (hctx : LineCtx P prev) (hex : queryRE.execAt prev text = some st) :
    ∃ m : Str, m ≠ [] ∧ text = m ++ st.rest ∧ lastOr none m ≠ some '\n'
      ∧ (strContains m " TO ".data = false → ∀ X : Str,
          F (P ++ (m ++ X))
            = F (P ++ (expandFrom uni ((0, m) :: st.caps) 0
                ("${1} ${2} ${3}".data ++ c ++ "${5}.${6}".data) ++ X))) := by
  obtain ⟨hprev, verb, kind, g3, a, g5, b, hv, hk, hg3, ha, hg5, hb, hshape⟩ :=
    queryRE_shape prev text st hex
  have hvne : ∀ t : Str, verb ++ t ≠ [] := by
    intro t h
    rcases hv with hv | hv <;> subst hv <;> exact List.noConfusion h
  rcases hshape with ⟨etext, ecaps⟩ | ⟨g8, a2, g10, hg8, ha2, hg10, etext, ecaps⟩
  · refine ⟨_, hvne _, etext, ?_, ?_⟩
    · simp only [lastOr_append, lastOr]
      exact (lastOr_not_line_start (some '.') b (ident_no_newline b hb)
        ⟨by simp, by simp⟩).2
    · intro _ X
      rw [ecaps, expand_create_template uni _ _ _ _ _ _ _ _ hc]
      have h := hF verb kind g3 a g5 b P X prev hv hk hg3 ha hg5 hb hctx hprev
      simpa only [List.append_assoc, List.cons_append] using h
  · refine ⟨_, hvne _, etext, ?_, ?_⟩
    · simp [lastOr_append, lastOr]
    · intro hgood
      exfalso
      rw [strContains_to_clause] at hgood
      exact Bool.noConfusion hgood

/-- The step of the replacement of `queryRE` with the template of the ATTACH branch, for
an observation `F` that sees neither the database of a match with a TO clause nor the
database of the clause. -/
theorem queryRE_step_attach (uni : Char → Bool) (c : Str) (hc : ∀ x ∈ c, x ≠ '$')
    (F : Str → Bool)
    (hF : ∀ (verb kind g3 a g5 b g8 a2 g10 P X : Str) (prev : Option Char),
      (verb = "CREATE".data ∨ verb = "ATTACH".data) → kind ∈ objectKinds →
      (g3 = [] ∨ g3 = "\x60".data) → (∀ x ∈ a, identClass x = true) →
      (g5 = [] ∨ g5 = "\x60".data) → (∀ x ∈ b, identClass x = true) →
      (g8 = [] ∨ g8 = "\x60".data) → (∀ x ∈ a2, identClass x = true) →
      (g10 = [] ∨ g10 = "\x60".data) →
      LineCtx P prev → (prev = none ∨ prev = some '\n') →
      F (P ++ (verb ++ (' ' :: (kind ++ (' ' :: (g3 ++ (a ++ (g5 ++ ('.' :: (b ++
            (" TO ".data ++ (g8 ++ (a2 ++ (g10 ++ ('.' :: X)))))))))))))))
        = F (P ++ (verb ++ (' ' :: (kind ++ (' ' :: (g3 ++ (c ++ (g5 ++ ('.' :: (b ++
            (" TO ".data ++ (g8 ++ (c ++ ('.' :: X)))))))))))))))
    (P : Str) (prev : Option Char) (text : Str) (st : MState)
    (hctx : LineCtx P prev) (hex : queryRE.execAt prev text = some st) :
    ∃ m : Str, m ≠ [] ∧ text = m ++ st.rest ∧ lastOr none m ≠ some '\n'
      ∧ (strContains m " TO ".data = true → ∀ X : Str,
          F (P ++ (m ++ X))
            = F (P ++ (expandFrom uni ((0, m) :: st.caps) 0
                ("${1} ${2} ${3}".data ++ c ++ "${5}.${6}${7}${8}".data ++ c
                  ++ "${11}".data) ++ X))) := by
  obtain ⟨hprev, verb, kind, g3, a, g5, b, hv, hk, hg3, ha, hg5, hb, hshape⟩ :=
    queryRE_shape prev text st hex
  have hvne : ∀ t : Str, verb ++ t ≠ [] := by
    intro t h
    rcases hv with hv | hv <;> subst hv <;> exact List.noConfusion h
  rcases hshape with ⟨etext, ecaps⟩ | ⟨g8, a2, g10, hg8, ha2, hg10, etext, ecaps⟩
  · refine ⟨_, hvne _, etext, ?_, ?_⟩
    · simp only [lastOr_append, lastOr]
      exact (lastOr_not_line_start (some '.') b (ident_no_newline b hb)
        ⟨by simp, by simp⟩).2
    · intro hgood
      exfalso
      rw [strContains_to_plain verb kind g3 a g5 b hv hk hg3 ha hg5 hb] at hgood
      exact Bool.noConfusion hgood
  · refine ⟨_, hvne _, etext, ?_, ?_⟩
    · simp [lastOr_append, lastOr]
    · intro _ X
      rw [ecaps, expand_attach_template uni _ _ _ _ _ _ _ _ _ _ _ _ _ hc]
      have h := hF verb kind g3 a g5 b g8 a2 g10 P X prev hv hk hg3 ha hg5 hb hg8 ha2 hg10
        hctx hprev
      simpa only [List.append_assoc, List.cons_append, List.nil_append] using h

theorem orderMarkers_head (m : Str) (hm : m ∈ orderMarkers) :
    ∃ m0 ms, m = m0 :: ms ∧ (m0 = 'E' ∨ m0 = '.') := by
  simp only [orderMarkers, List.mem_cons, List.mem_singleton, List.not_mem_nil, or_false] at hm
  rcases hm with hm | hm | hm | hm | hm <;> subst hm
  · exact ⟨'E', _, rfl, Or.inl rfl⟩
  · exact ⟨'E', _, rfl, Or.inl rfl⟩
  · exact ⟨'E', _, rfl, Or.inl rfl⟩
  · exact ⟨'.', _, rfl, Or.inr rfl⟩
  · exact ⟨'.', _, rfl, Or.inr rfl⟩

theorem uuidClass_not_marker_head (x : Char) (h : uuidClass x = true) : x ≠ 'E' ∧ x ≠ '.' := by
  constructor
  · intro e; subst e; revert h; decide
  · intro e; subst e; revert h; decide

/-- A UUID literal, of the pattern or of a fresh identifier, has no character that begins
a marker of the ranker. -/
theorem uuidLiteral_chars (w : Str) (hw : ∀ x ∈ w, uuidClass x = true) :
    ∀ y ∈ "UID '".data ++ (w ++ "'".data), y ≠ 'E' ∧ y ≠ '.' := by
  intro y hy
  simp only [List.mem_append] at hy
  rcases hy with hy | hy | hy
  · revert y; decide
  · exact uuidClass_not_marker_head y (hw y hy)
  · revert y; decide

/-- A UUID literal in a text: the prefix tests of the ranker end before it, and a marker of
the ranker lies before it or behind it. -/
theorem uuidLiteral_local (w P X : Str) (hw : ∀ x ∈ w, uuidClass x = true) :
    (∀ p ∈ orderPrefixes,
        hasPrefix (P ++ ("UUID '".data ++ (w ++ "'".data) ++ X)) p = hasPrefix P p)
    ∧ (∀ m ∈ orderMarkers,
        strContains (P ++ ("UUID '".data ++ (w ++ "'".data) ++ X)) m
          = (strContains P m || strContains X m)) := by
  have e : "UUID '".data ++ (w ++ "'".data) ++ X
      = 'U' :: (("UID '".data ++ (w ++ "'".data)) ++ X) := by
    simp only [List.append_assoc]
    rfl
  rw [e]
  constructor
  · intro p hp
    have hU : 'U' ∉ p := by
      simp only [orderPrefixes, List.mem_cons, List.mem_singleton, List.not_mem_nil, or_false]
        at hp
      rcases hp with hp | hp | hp | hp | hp | hp | hp | hp <;> subst hp <;> decide
    exact hasPrefix_sep P _ p 'U' hU
  · intro m hm
    obtain ⟨hne, _, _, _, hU, _⟩ := orderMarkers_chars m hm
    obtain ⟨m0, ms, e0, h0⟩ := orderMarkers_head m hm
    rw [strContains_sep P _ m 'U' hU hne]
    subst e0
    rw [strContains_skip_ne _ X m0 ms (fun y hy => by
      have := uuidLiteral_chars w hw y hy
      rcases h0 with h0 | h0 <;> subst h0
      · exact this.1
      · exact this.2)]

/-- The step of the replacement of `uuidRE` by the literal of a fresh identifier, for the
observations of the ranker. -/
theorem uuidRE_step (repl : Str → List (Nat × Str) → Str) (u : Str)
    (hrepl : ∀ m caps, repl m caps = "UUID '".data ++ u ++ "'".data)
    (hu : ∀ x ∈ u, uuidClass x = true) (F : Str → Bool)
    (hF : (∃ p ∈ orderPrefixes, F = fun t => hasPrefix t p)
      ∨ (∃ m ∈ orderMarkers, F = fun t => strContains t m))
    (P : Str) (prev : Option Char) (text : Str) (st : MState)
    (_hctx : LineCtx P prev) (hex : uuidRE.execAt prev text = some st) :
    ∃ m : Str, m ≠ [] ∧ text = m ++ st.rest ∧ lastOr none m ≠ some '\n'
      ∧ (True → ∀ X : Str, F (P ++ (m ++ X)) = F (P ++ (repl m st.caps ++ X))) := by
  obtain ⟨c, w, hc, hw, etext⟩ := uuidRE_shape prev text st hex
  have hcw : ∀ x ∈ c :: w, uuidClass x = true := by
    intro x hx
    rcases List.mem_cons.mp hx with hx | hx
    · rw [hx]; exact hc
    · exact hw x hx
  refine ⟨_, ?_, etext, ?_, ?_⟩
  · intro h
    exact List.noConfusion (List.append_eq_nil.mp h).1
  · simp [lastOr_append, lastOr]
  · intro _ X
    rw [hrepl]
    have e1 : "UUID '".data ++ (c :: (w ++ "'".data)) = "UUID '".data ++ ((c :: w) ++ "'".data) :=
      rfl
    have e2 : "UUID '".data ++ u ++ "'".data = "UUID '".data ++ (u ++ "'".data) := by
      simp only [List.append_assoc]
    rw [e1, e2]
    have h1 := uuidLiteral_local (c :: w) P X hcw
    have h2 := uuidLiteral_local u P X hu
    rcases hF with ⟨p, hp, rfl⟩ | ⟨m, hm, rfl⟩
    · simp only
      rw [h1.1 p hp, h2.1 p hp]
    · simp only
      rw [h1.2 m hm, h2.2 m hm]

/-- The observations of the ranker are the same before and after the regeneration of the
UUID literals of a statement. -/
theorem regenerateUUID_observe (uni : Char → Bool) (u q : Str)
    (hu : ∀ x ∈ u, uuidClass x = true) (F : Str → Bool)
    (hF : (∃ p ∈ orderPrefixes, F = fun t => hasPrefix t p)
      ∨ (∃ m ∈ orderMarkers, F = fun t => strContains t m)) :
    F (regenerateUUID uni u q) = F q := by
  have hplain : ∀ x ∈ "UUID '".data ++ u ++ "'".data, x ≠ '$' := by
    intro x hx
    simp only [List.mem_append] at hx
    rcases hx with (hx | hx) | hx
    · revert x; decide
    · exact uuidClass_not_dollar x (hu x hx)
    · revert x; decide
  have hrepl : ∀ (m : Str) (caps : List (Nat × Str)),
      expandFrom uni ((0, m) :: caps) 0 ("UUID '".data ++ u ++ "'".data)
        = "UUID '".data ++ u ++ "'".data := by
    intro m caps
    have h := expandFrom_append_plain uni ((0, m) :: caps) ("UUID '".data ++ u ++ "'".data) []
      hplain
    simpa [expandFrom] using h
  unfold regenerateUUID
  split
  · have h := replaceAllFrom_observe uuidRE
      (fun m caps => expandFrom uni ((0, m) :: caps) 0 ("UUID '".data ++ u ++ "'".data))
      F (fun _ => True)
      (fun P prev text st hctx hex => uuidRE_step _ u hrepl hu F hF P prev text st hctx hex)
      q.length q (Nat.le_refl _) false none []
      ⟨fun _ => rfl, fun h => Option.noConfusion h⟩ (fun _ _ => trivial)
    simp only [List.nil_append] at h
    exact h.symm
  · rfl

/-- The priority of a statement is decided by the prefix tests and the markers of the
ranker. -/
theorem getOrderByEngine_congr (q q' : Str) (d : Bool)
    (hp : ∀ p ∈ orderPrefixes, hasPrefix q' p = hasPrefix q p)
    (hm : ∀ m ∈ orderMarkers, strContains q' m = strContains q m) :
    getOrderByEngine q' d = getOrderByEngine q d := by
  unfold getOrderByEngine
  rw [hm "ENGINE = Distributed".data (by simp [orderMarkers]),
    hm "ENGINE = Kafka".data (by simp [orderMarkers]),
    hm "ENGINE = RabbitMQ".data (by simp [orderMarkers]),
    hm ".inner_id.".data (by simp [orderMarkers]),
    hm ".inner.".data (by simp [orderMarkers]),
    hp "CREATE DICTIONARY".data (by simp [orderPrefixes]),
    hp "CREATE VIEW".data (by simp [orderPrefixes]),
    hp "CREATE LIVE VIEW".data (by simp [orderPrefixes]),
    hp "CREATE WINDOW VIEW".data (by simp [orderPrefixes]),
    hp "ATTACH WINDOW VIEW".data (by simp [orderPrefixes]),
    hp "CREATE MATERIALIZED VIEW".data (by simp [orderPrefixes]),
    hp "ATTACH MATERIALIZED VIEW".data (by simp [orderPrefixes]),
    hp "CREATE TABLE".data (by simp [orderPrefixes])]

/-! ## The ordering class of a rewritten statement -/

/-- The observations of the ranker are the same before and after the replacement of
`queryRE` with the template of the CREATE branch, when no match extends over a TO clause
and the target has no blank, dot or `$`. -/
theorem replace_create_observe (uni : Char → Bool) (c q : Str)
    (hc : ∀ x ∈ c, x ≠ ' ' ∧ x ≠ '.' ∧ x ≠ '$')
    (hgood : ∀ m ∈ queryRE.FindAllString q, strContains m " TO ".data = false)
    (F : Str → Bool)
    (hF : (∃ p ∈ orderPrefixes, F = fun t => hasPrefix t p)
      ∨ (∃ m ∈ orderMarkers, F = fun t => strContains t m)) :
    F (queryRE.ReplaceAllString uni q ("${1} ${2} ${3}".data ++ c ++ "${5}.${6}".data))
      = F q := by
  have hloc : ∀ (verb kind g3 a g5 b P X : Str) (prev : Option Char),
      (verb = "CREATE".data ∨ verb = "ATTACH".data) → kind ∈ objectKinds →
      (g3 = [] ∨ g3 = "\x60".data) → (∀ x ∈ a, identClass x = true) →
      (g5 = [] ∨ g5 = "\x60".data) → (∀ x ∈ b, identClass x = true) →
      LineCtx P prev → (prev = none ∨ prev = some '\n') →
      F (P ++ (verb ++ (' ' :: (kind ++ (' ' :: (g3 ++ (a ++ (g5 ++ ('.' :: (b ++ X))))))))))
        = F (P ++ (verb ++ (' ' :: (kind ++ (' ' :: (g3 ++ (c ++ (g5 ++ ('.' :: (b ++ X))))))))))
      := by
    intro verb kind g3 a g5 b P X prev hv hk hg3 ha hg5 hb hctx hprev
    rcases hF with ⟨p, hp, rfl⟩ | ⟨m, hm, rfl⟩
    · exact prefix_local verb kind _ _ p P prev hv hk hp hctx hprev
    · simp only
      rw [marker_local verb kind g3 a g5 _ m P hv hk hg3 (ident_no_blank_dot a ha) hg5 hm,
        marker_local verb kind g3 c g5 _ m P hv hk hg3 (fun x hx => ⟨(hc x hx).1, (hc x hx).2.1⟩)
          hg5 hm]
  have h := replaceAllFrom_observe queryRE
    (fun m caps => expandFrom uni ((0, m) :: caps) 0
      ("${1} ${2} ${3}".data ++ c ++ "${5}.${6}".data))
    F (fun m => strContains m " TO ".data = false)
    (fun P prev text st hctx hex =>
      queryRE_step_create uni c (fun x hx => (hc x hx).2.2) F hloc P prev text st hctx hex)
    q.length q (Nat.le_refl _) false none []
    ⟨fun _ => rfl, fun h => Option.noConfusion h⟩ hgood
  simp only [List.nil_append] at h
  exact h.symm

/-- The observations of the ranker are the same before and after the replacement of
`queryRE` with the template of the ATTACH branch, when every match extends over a TO
clause and the target has no blank, dot or `$`. -/
theorem replace_attach_observe (uni : Char → Bool) (c q : Str)
    (hc : ∀ x ∈ c, x ≠ ' ' ∧ x ≠ '.' ∧ x ≠ '$')
    (hgood : ∀ m ∈ queryRE.FindAllString q, strContains m " TO ".data = true)
    (F : Str → Bool)
    (hF : (∃ p ∈ orderPrefixes, F = fun t => hasPrefix t p)
      ∨ (∃ m ∈ orderMarkers, F = fun t => strContains t m)) :
    F (queryRE.ReplaceAllString uni q
        ("${1} ${2} ${3}".data ++ c ++ "${5}.${6}${7}${8}".data ++ c ++ "${11}".data))
      = F q := by
  have hc' : ∀ x ∈ c, x ≠ ' ' ∧ x ≠ '.' := fun x hx => ⟨(hc x hx).1, (hc x hx).2.1⟩
  have hloc : ∀ (verb kind g3 a g5 b g8 a2 g10 P X : Str) (prev : Option Char),
      (verb = "CREATE".data ∨ verb = "ATTACH".data) → kind ∈ objectKinds →
      (g3 = [] ∨ g3 = "\x60".data) → (∀ x ∈ a, identClass x = true) →
      (g5 = [] ∨ g5 = "\x60".data) → (∀ x ∈ b, identClass x = true) →
      (g8 = [] ∨ g8 = "\x60".data) → (∀ x ∈ a2, identClass x = true) →
      (g10 = [] ∨ g10 = "\x60".data) →
      LineCtx P prev → (prev = none ∨ prev = some '\n') →
      F (P ++ (verb ++ (' ' :: (kind ++ (' ' :: (g3 ++ (a ++ (g5 ++ ('.' :: (b ++
            (" TO ".data ++ (g8 ++ (a2 ++ (g10 ++ ('.' :: X)))))))))))))))
        = F (P ++ (verb ++ (' ' :: (kind ++ (' ' :: (g3 ++ (c ++ (g5 ++ ('.' :: (b ++
            (" TO ".data ++ (g8 ++ (c ++ ('.' :: X)))))))))))))) := by
    intro verb kind g3 a g5 b g8 a2 g10 P X prev hv hk hg3 ha hg5 hb hg8 ha2 hg10 hctx hprev
    rcases hF with ⟨p, hp, rfl⟩ | ⟨m, hm, rfl⟩
    · exact prefix_local verb kind _ _ p P prev hv hk hp hctx hprev
    · obtain ⟨hne, htick, _, _, _, _⟩ := orderMarkers_chars m hm
      have hb' := ident_no_blank_dot b hb
      have h1 : strContains (g8 ++ (a2 ++ (g10 ++ ('.' :: X)))) m = strContains ('.' :: X) m := by
        rw [strContains_tick g8 _ m hg8 htick hne,
          strContains_name a2 g10 X m (ident_no_blank_dot a2 ha2) hg10 hm,
          strContains_tick g10 _ m hg10 htick hne]
      have h2 : strContains (g8 ++ (c ++ ('.' :: X))) m = strContains ('.' :: X) m := by
        rw [strContains_tick g8 _ m hg8 htick hne]
        exact strContains_name c [] X m hc' (Or.inl rfl) hm
      simp only
      rw [marker_local verb kind g3 a g5 _ m P hv hk hg3 (ident_no_blank_dot a ha) hg5 hm,
        marker_local verb kind g3 c g5 _ m P hv hk hg3 hc' hg5 hm,
        marker_to g5 b _ m hg5 hb' hm, marker_to g5 b _ m hg5 hb' hm, h1, h2]
  have h := replaceAllFrom_observe queryRE
    (fun m caps => expandFrom uni ((0, m) :: caps) 0
      ("${1} ${2} ${3}".data ++ c ++ "${5}.${6}${7}${8}".data ++ c ++ "${11}".data))
    F (fun m => strContains m " TO ".data = true)
    (fun P prev text st hctx hex =>
      queryRE_step_attach uni c (fun x hx => (hc x hx).2.2) F hloc P prev text st hctx hex)
    q.length q (Nat.le_refl _) false none []
    ⟨fun _ => rfl, fun h => Option.noConfusion h⟩ hgood
  simp only [List.nil_append] at h
  exact h.symm

/-- The priority of the statement of a record that the remap does not reject is kept,
when the target of the record has no blank, dot or `$`, the fresh identifier is written
in the characters of a UUID, and the matches of its statement suit the template. -/
theorem rewrittenRecord_priority (uni : Char → Bool) (u : Str) (dbMapRule : Str → Option Str)
    (t : TableMetadata) (d : Bool) (hu : ∀ x ∈ u, uuidClass x = true)
    (hc : ∀ x ∈ (dbMapRule t.Database).getD [], x ≠ ' ' ∧ x ≠ '.' ∧ x ≠ '$')
    (hfit : (dbMapRule t.Database).isSome = true → templateFits t.Query = true) :
    getOrderByEngine (rewrittenRecord uni u dbMapRule t).Query d
      = getOrderByEngine t.Query d := by
  unfold rewrittenRecord
  cases hr : dbMapRule t.Database with
  | none => rfl
  | some c =>
    rw [hr] at hc hfit
    simp only [Option.getD_some] at hc
    have hfit' : templateFits t.Query = true := hfit rfl
    unfold templateFits at hfit'
    simp only
    by_cases hcre : (createRE.FindAllString t.Query).length > 0
    · rw [if_pos hcre] at hfit' ⊢
      rw [rewriteRecord_Query]
      have hgood : ∀ m ∈ queryRE.FindAllString t.Query, strContains m " TO ".data = false := by
        intro m hm
        have := List.all_eq_true.mp hfit' m hm
        simpa using this
      refine getOrderByEngine_congr _ _ d (fun p hp => ?_) (fun m hm => ?_)
      · exact (regenerateUUID_observe uni u _ hu (fun t => hasPrefix t p)
          (Or.inl ⟨p, hp, rfl⟩)).trans
          (replace_create_observe uni c t.Query hc hgood (fun t => hasPrefix t p)
            (Or.inl ⟨p, hp, rfl⟩))
      · exact (regenerateUUID_observe uni u _ hu (fun t => strContains t m)
          (Or.inr ⟨m, hm, rfl⟩)).trans
          (replace_create_observe uni c t.Query hc hgood (fun t => strContains t m)
            (Or.inr ⟨m, hm, rfl⟩))
    · rw [if_neg hcre] at hfit' ⊢
      by_cases hatt : (attachRE.FindAllString t.Query).length > 0
      · rw [if_pos hatt, rewriteRecord_Query]
        have hgood : ∀ m ∈ queryRE.FindAllString t.Query, strContains m " TO ".data = true :=
          fun m hm => List.all_eq_true.mp hfit' m hm
        refine getOrderByEngine_congr _ _ d (fun p hp => ?_) (fun m hm => ?_)
        · exact (regenerateUUID_observe uni u _ hu (fun t => hasPrefix t p)
            (Or.inl ⟨p, hp, rfl⟩)).trans
            (replace_attach_observe uni c t.Query hc hgood (fun t => hasPrefix t p)
              (Or.inl ⟨p, hp, rfl⟩))
        · exact (regenerateUUID_observe uni u _ hu (fun t => strContains t m)
            (Or.inr ⟨m, hm, rfl⟩)).trans
            (replace_attach_observe uni c t.Query hc hgood (fun t => strContains t m)
              (Or.inr ⟨m, hm, rfl⟩))
      · rw [if_neg hatt]

/-- On a catalog none of whose records is rejected, the remap keeps the priority at every
index. -/
theorem remapFrom_keeps_priorities (uni : Char → Bool) (newUUID : Nat → Str)
    (dbMapRule : Str → Option Str) (d : Bool) (i : Nat) (tables : ListOfTables)
    (hu : ∀ j, ∀ x ∈ newUUID j, uuidClass x = true)
    (hc : ∀ t ∈ tables, ∀ x ∈ (dbMapRule t.Database).getD [], x ≠ ' ' ∧ x ≠ '.' ∧ x ≠ '$')
    (hfit : ∀ t ∈ tables, (dbMapRule t.Database).isSome = true → templateFits t.Query = true)
    (hok : ∀ t ∈ tables, unrewritable dbMapRule t = false) :
    (remapFrom uni newUUID dbMapRule i tables).tables.map (fun t => getOrderByEngine t.Query d)
      = tables.map (fun t => getOrderByEngine t.Query d) := by
  induction tables generalizing i with
  | nil => rfl
  | cons t rest ih =>
    rw [remapFrom_cons_ok uni newUUID dbMapRule i t rest (hok t (List.mem_cons_self _ _))]
    simp only [RemapResult.cons, List.map_cons]
    rw [ih (i + 1) (fun x hx => hc x (List.mem_cons_of_mem _ hx))
        (fun x hx => hfit x (List.mem_cons_of_mem _ hx))
        (fun x hx => hok x (List.mem_cons_of_mem _ hx)),
      rewrittenRecord_priority uni (newUUID i) dbMapRule t d (hu i)
        (hc t (List.mem_cons_self _ _)) (hfit t (List.mem_cons_self _ _))]

/-- C16 (amended): the remap keeps the ordering class of every statement on which it does
what it is written to do. Let the target of every mapped record have no blank, no dot and
no `$`; let the fresh identifiers be written in the characters of a UUID, as
`uuid.NewUUID().String()` writes them; and let the matches of `queryRE` in the statement
of every mapped record suit the template chosen for it (`templateFits`: with the template
of the CREATE branch no match extends over a TO clause, with the template of the ATTACH
branch every match does).
Then for every catalog, rule and direction for which the remap succeeds, the priority
`getOrderByEngine` of the statement at every index is what it was before the remap, and a
catalog sorted by priority before the remap is sorted by priority after it. The statements
are arbitrary otherwise: several lines, backticks, UUID literals, views with their SELECT,
any engine clause. -/
theorem remap_keeps_priority (uni : Char → Bool) (newUUID : Nat → Str)
    (dbMapRule : Str → Option Str) (tables : ListOfTables) (d : Bool)
    (htarget : ∀ t ∈ tables, ∀ x ∈ (dbMapRule t.Database).getD [],
      x ≠ ' ' ∧ x ≠ '.' ∧ x ≠ '$')
    (huuid : ∀ i, ∀ x ∈ newUUID i, uuidClass x = true)
    (hfits : ∀ t ∈ tables, (dbMapRule t.Database).isSome = true →
      templateFits t.Query = true)
    (hok : (changeTableQueryToAdjustDatabaseMapping uni newUUID tables dbMapRule).err = none) :
    (changeTableQueryToAdjustDatabaseMapping uni newUUID tables dbMapRule).tables.map
          (fun t => getOrderByEngine t.Query d)
        = tables.map (fun t => getOrderByEngine t.Query d)
    ∧ (IsSortedBy (fun x y =>
          decide (getOrderByEngine x.Query d < getOrderByEngine y.Query d)) tables →
        IsSortedBy (fun x y =>
          decide (getOrderByEngine x.Query d < getOrderByEngine y.Query d))
          (changeTableQueryToAdjustDatabaseMapping uni newUUID tables dbMapRule).tables) := by
  unfold changeTableQueryToAdjustDatabaseMapping at hok ⊢
  have hall : ∀ t ∈ tables, unrewritable dbMapRule t = false := by
    intro t ht
    cases h : unrewritable dbMapRule t with
    | false => rfl
    | true =>
      exact absurd hok ((remapFrom_err_iff uni newUUID dbMapRule 0 tables).mpr ⟨t, ht, h⟩)
  have e := remapFrom_keeps_priorities uni newUUID dbMapRule d 0 tables huuid htarget hfits hall
  refine ⟨e, fun hs => ?_⟩
  rw [isSortedBy_priority_iff] at hs ⊢
  rw [e]
  exact hs

/-- C16 (witness): the catalog `exRemapCatalog` remapped from `a` to `c`: an inner table
with a backticked name and a UUID literal, a view with its SELECT, an attached
materialized view with a TO clause, a distributed table, a record without statement and
a dictionary of another database keep the priorities 1, 2, 2, 4, 0 and 3. -/
theorem remap_keeps_priority_witness :
    (changeTableQueryToAdjustDatabaseMapping noUnicode exUUID exRemapCatalog
        (rule1 "a".data "c".data)).err = none
    ∧ (changeTableQueryToAdjustDatabaseMapping noUnicode exUUID exRemapCatalog
        (rule1 "a".data "c".data)).tables.map (fun t => String.mk t.Query)
      = ["CREATE TABLE c.\x60.inner.mv\x60 UUID '11111111-2222-3333-4444-555555555555' (x UInt64)",
          "CREATE VIEW c.v AS SELECT x FROM a.t",
          "ATTACH MATERIALIZED VIEW c.mv TO c.dst AS SELECT 1",
          "CREATE TABLE c.d (x UInt64) ENGINE = Distributed('c', 'a', 't')",
          "",
          "CREATE DICTIONARY z.d (k UInt64)"]
    ∧ (changeTableQueryToAdjustDatabaseMapping noUnicode exUUID exRemapCatalog
        (rule1 "a".data "c".data)).tables.map (fun t => getOrderByEngine t.Query false)
      = [1, 2, 2, 4, 0, 3] := by
  have h := remap_keeps_priority noUnicode exUUID (rule1 "a".data "c".data) exRemapCatalog false
    (by decide)
    (fun _ => (by decide :
      ∀ x ∈ "11111111-2222-3333-4444-555555555555".data, uuidClass x = true))
    (by decide) (by decide)
  exact ⟨by decide, by decide, h.1.trans (by decide)⟩

end Backup
